import Mathlib

/-!
# RDS decoder (libv4l2rds.c): embedding and verified properties

The decoder of `src/lib/libv4l2rds/libv4l2rds.c` is embedded as pure state-passing
functions.  Machine integers are natural numbers, truncated with an explicit `%`
where the C code stores into a narrower type.  Fixed-size C arrays are total maps
from the index to the element; `memset`, `memcpy` and `memcmp` act on a bounded
index range.  A function that returns `updated_fields` and mutates the private
state returns the pair of both.
-/

namespace Rds

/-! ## Constants of the absent headers -/

/-- Modelled from the spec: the header libv4l2rds.h is not among the sources; the
spec lists PI among the bits of `valid_fields` / `updated_fields`.  Bit of the
program identification. -/
def V4L2_RDS_PI : Nat := 0x01
/-- Modelled from the spec: bit of the program type (header libv4l2rds.h absent). -/
def V4L2_RDS_PTY : Nat := 0x02
/-- Modelled from the spec: bit of the traffic-program flag (header libv4l2rds.h absent). -/
def V4L2_RDS_TP : Nat := 0x04
/-- Modelled from the spec: bit of the program service name (header libv4l2rds.h absent). -/
def V4L2_RDS_PS : Nat := 0x08
/-- Modelled from the spec: bit of the traffic-announcement flag (header libv4l2rds.h absent). -/
def V4L2_RDS_TA : Nat := 0x10
/-- Modelled from the spec: bit of the decoder information (header libv4l2rds.h absent). -/
def V4L2_RDS_DI : Nat := 0x20
/-- Modelled from the spec: bit of the music/speech flag (header libv4l2rds.h absent). -/
def V4L2_RDS_MS : Nat := 0x40
/-- Modelled from the spec: bit of the program type name (header libv4l2rds.h absent). -/
def V4L2_RDS_PTYN : Nat := 0x80
/-- Modelled from the spec: bit of the radio text (header libv4l2rds.h absent). -/
def V4L2_RDS_RT : Nat := 0x100
/-- Modelled from the spec: bit of the clock time (header libv4l2rds.h absent). -/
def V4L2_RDS_TIME : Nat := 0x200
/-- Modelled from the spec: bit of the alternative frequencies (header libv4l2rds.h absent). -/
def V4L2_RDS_AF : Nat := 0x800
/-- Modelled from the spec: bit of the extended country code (header libv4l2rds.h absent). -/
def V4L2_RDS_ECC : Nat := 0x1000
/-- Modelled from the spec: bit of the language code (header libv4l2rds.h absent). -/
def V4L2_RDS_LC : Nat := 0x2000
/-- Modelled from the spec: the ODA flag; it is a flag of `decode_information`, and
`rds_decode_group3` also puts it into `updated_fields` (header libv4l2rds.h absent). -/
def V4L2_RDS_ODA : Nat := 0x02

/-- Modelled from the spec: DI flag "stereo" (header libv4l2rds.h absent). -/
def V4L2_RDS_FLAG_STEREO : Nat := 0x01
/-- Modelled from the spec: DI flag "artificial head" (header libv4l2rds.h absent). -/
def V4L2_RDS_FLAG_ARTIFICIAL_HEAD : Nat := 0x02
/-- Modelled from the spec: DI flag "compressed" (header libv4l2rds.h absent). -/
def V4L2_RDS_FLAG_COMPRESSED : Nat := 0x04
/-- Modelled from the spec: DI flag "static PTY" (header libv4l2rds.h absent). -/
def V4L2_RDS_FLAG_STATIC_PTY : Nat := 0x08

/-- Modelled from the spec: capacity of the AF list, "MAX_AF_CNT ≥ 25 (recommended 25)"
(header libv4l2rds.h absent). -/
def MAX_AF_CNT : Nat := 25
/-- Modelled from the spec: capacity of the ODA list, "≥ 16 suffices"
(header libv4l2rds.h absent). -/
def MAX_ODA_CNT : Nat := 18

/-- Modelled from the spec: "the low 3 bits of `block` are the block identifier"
(linux/videodev2.h absent). -/
def V4L2_RDS_BLOCK_MSK : Nat := 0x7
/-- Modelled from the spec: flag bit "corrected by FEC" of `block` (linux/videodev2.h absent). -/
def V4L2_RDS_BLOCK_CORRECTED : Nat := 0x40
/-- Modelled from the spec: flag bit "uncorrectable error" of `block` (linux/videodev2.h absent). -/
def V4L2_RDS_BLOCK_ERROR : Nat := 0x80

/-- The character constant 'A' as its code. -/
def CHAR_A : Nat := 65
/-- The character constant 'B' as its code. -/
def CHAR_B : Nat := 66

/-! ## Data model -/

/-- One raw block: `struct v4l2_rds_data` (three bytes). -/
structure v4l2_rds_data where
  lsb : Nat
  msb : Nat
  block : Nat
deriving DecidableEq, Repr

/-- The last assembled group: `struct v4l2_rds_group`. -/
structure v4l2_rds_group where
  pi : Nat
  group_version : Nat
  group_id : Nat
  data_b_lsb : Nat
  data_c_msb : Nat
  data_c_lsb : Nat
  data_d_msb : Nat
  data_d_lsb : Nat
deriving DecidableEq, Repr

/-- The counters: `struct v4l2_rds_statistics` (all `uint32_t`). -/
structure v4l2_rds_statistics where
  block_cnt : Nat
  group_cnt : Nat
  block_error_cnt : Nat
  group_error_cnt : Nat
  block_corrected_cnt : Nat
  group_type_cnt : Nat → Nat

/-- One open data announcement: `struct v4l2_rds_oda`. -/
structure v4l2_rds_oda where
  group_id : Nat
  group_version : Nat
  aid : Nat
deriving DecidableEq, Repr

/-- The ODA list: `struct v4l2_rds_oda_set`. -/
structure v4l2_rds_oda_set where
  size : Nat
  oda : Nat → v4l2_rds_oda

/-- The AF list: `struct v4l2_rds_af_set`. -/
structure v4l2_rds_af_set where
  size : Nat
  announced_af : Nat
  af : Nat → Nat

/-- The broken-down time handed to `mktime`: the fields of `struct tm` the code sets. -/
structure tm where
  tm_sec : Int
  tm_min : Int
  tm_hour : Int
  tm_mday : Int
  tm_mon : Int
  tm_year : Int
  tm_gmtoff : Int
deriving DecidableEq, Repr

/-- A `time_t`: the zero of a cleared handle, or the result of the C library call
`mktime` on a broken-down time (the call is kept symbolic). -/
inductive time_t where
  | zero : time_t
  | mktime (t : tm) : time_t
deriving DecidableEq, Repr

/-- The public snapshot: `struct v4l2_rds` (the fields the decoder uses). -/
structure v4l2_rds where
  is_rbds : Bool
  decode_information : Nat
  valid_fields : Nat
  pi : Nat
  ps : Nat → Nat
  pty : Nat
  ptyn : Nat → Nat
  ptyn_ab_flag : Bool
  rt_length : Nat
  rt : Nat → Nat
  rt_ab_flag : Bool
  ta : Bool
  tp : Bool
  ms : Bool
  di : Nat
  ecc : Nat
  lc : Nat
  time : time_t
  rds_statistics : v4l2_rds_statistics
  rds_oda : v4l2_rds_oda_set
  rds_af : v4l2_rds_af_set

/-- The private decoder state: `struct rds_private_state`. -/
structure rds_private_state where
  handle : v4l2_rds
  decode_state : Nat
  new_pi : Nat
  new_ps : Nat → Nat
  new_ps_valid : Nat → Nat
  new_pty : Nat
  new_ptyn : Nat → Nat → Nat
  new_ptyn_valid : Nat → Bool
  new_rt : Nat → Nat
  next_rt_segment : Nat
  new_di : Nat
  next_di_segment : Nat
  new_ecc : Nat
  new_lc : Nat
  new_mjd : Nat
  utc_hour : Nat
  utc_minute : Nat
  utc_offset : Nat
  rds_group : v4l2_rds_group
  rds_data_raw : Nat → v4l2_rds_data

/-- State `RDS_EMPTY` of `enum rds_state`. -/
def RDS_EMPTY : Nat := 0
/-- State `RDS_A_RECEIVED` of `enum rds_state`. -/
def RDS_A_RECEIVED : Nat := 1
/-- State `RDS_B_RECEIVED` of `enum rds_state`. -/
def RDS_B_RECEIVED : Nat := 2
/-- State `RDS_C_RECEIVED` of `enum rds_state`. -/
def RDS_C_RECEIVED : Nat := 3

/-! ## Array and integer helpers -/

/-- Array store `a[i] = v`. -/
def arr_set {α : Type} (a : Nat → α) (i : Nat) (v : α) : Nat → α :=
  fun j => if j = i then v else a j

/-- The call `memset(a, v, n)` on an array of bytes. -/
def arr_fill {α : Type} (a : Nat → α) (n : Nat) (v : α) : Nat → α :=
  fun j => if j < n then v else a j

/-- The call `memcpy(dst, src, n)` on arrays of bytes. -/
def arr_copy {α : Type} (dst src : Nat → α) (n : Nat) : Nat → α :=
  fun j => if j < n then src j else dst j

/-- The test `memcmp(a, b, n) != 0`: some of the first `n` entries differ. -/
def arr_differ (a b : Nat → Nat) (n : Nat) : Bool :=
  (List.range n).any (fun j => a j != b j)

/-- Increment of a `uint32_t` counter. -/
def inc32 (x : Nat) : Nat := (x + 1) % 2 ^ 32

/-- A C integer used as a truth value. -/
def to_bool (x : Nat) : Bool := x != 0

/-- The all-zero block. -/
def zero_data : v4l2_rds_data := ⟨0, 0, 0⟩

/-- The all-zero group, as left by `memset(&priv_state->rds_group, 0, ...)`. -/
def zero_group : v4l2_rds_group := ⟨0, 0, 0, 0, 0, 0, 0, 0⟩

/-- The function `set_bit` on `uint8_t`. -/
def set_bit (input bitmask : Nat) (bitvalue : Bool) : Nat :=
  if bitvalue then (input ||| bitmask) % 256 else (input &&& (0xFF ^^^ bitmask)) % 256

/-! ## Decoding of the four blocks -/

/-- Block A: the PI code, accepted when received twice in a row. -/
def rds_decode_a (priv_state : rds_private_state) (rds_data : v4l2_rds_data) :
    Nat × rds_private_state :=
  let pi := ((rds_data.msb <<< 8) ||| rds_data.lsb) % 2 ^ 16
  let st := { priv_state with rds_group := { priv_state.rds_group with pi := pi } }
  if pi ≠ st.handle.pi ∧ pi = st.new_pi then
    (0 ||| V4L2_RDS_PI,
      { st with handle := { st.handle with
          pi := pi, valid_fields := st.handle.valid_fields ||| V4L2_RDS_PI } })
  else if pi ≠ st.handle.pi ∧ pi ≠ st.new_pi then
    (0, { st with new_pi := pi })
  else
    (0, st)

/-- The expression `(bool)rds_data->msb & 0x04` of `rds_decode_b`: the cast binds
tighter than `&`, so the operand of `&` is the truth value (0 or 1) of `msb`. -/
def traffic_prog_of (msb : Nat) : Bool :=
  to_bool ((if msb ≠ 0 then 1 else 0) &&& 0x04)

/-- The PTY code of a block B, computed in `uint8_t`. -/
def pty_of (rds_data : v4l2_rds_data) : Nat :=
  (((rds_data.msb <<< 3) ||| (rds_data.lsb >>> 5)) % 256) &&& 0x1f

/-- Block B: group type and version, TP, PTY and five group-dependent bits. -/
def rds_decode_b (priv_state : rds_private_state) (rds_data : v4l2_rds_data) :
    Nat × rds_private_state :=
  let grp := priv_state.rds_group
  let grp := { grp with group_id := (rds_data.msb >>> 4) % 256 }
  let grp := { grp with
    group_version := if rds_data.msb &&& 0x08 ≠ 0 then CHAR_B else CHAR_A }
  let traffic_prog := traffic_prog_of rds_data.msb
  let updated_fields := 0
  let handle := priv_state.handle
  let (handle, updated_fields) :=
    if handle.tp ≠ traffic_prog then
      ({ handle with tp := traffic_prog }, updated_fields ||| V4L2_RDS_TP)
    else (handle, updated_fields)
  let handle := { handle with valid_fields := handle.valid_fields ||| V4L2_RDS_TP }
  let grp := { grp with data_b_lsb := rds_data.lsb &&& 0x1f }
  let pty := pty_of rds_data
  let st := { priv_state with handle := handle, rds_group := grp }
  if st.handle.pty = pty then
    (updated_fields, { st with new_pty := pty })
  else if st.new_pty = pty then
    (updated_fields ||| V4L2_RDS_PTY,
      { st with handle := { st.handle with
          pty := st.new_pty, valid_fields := st.handle.valid_fields ||| V4L2_RDS_PTY } })
  else
    (updated_fields, { st with new_pty := pty })

/-- Block C: the raw bytes are kept for the group decoder. -/
def rds_decode_c (priv_state : rds_private_state) (rds_data : v4l2_rds_data) :
    rds_private_state :=
  { priv_state with rds_group := { priv_state.rds_group with
      data_c_msb := rds_data.msb, data_c_lsb := rds_data.lsb } }

/-- Block D: the raw bytes are kept for the group decoder. -/
def rds_decode_d (priv_state : rds_private_state) (rds_data : v4l2_rds_data) :
    rds_private_state :=
  { priv_state with rds_group := { priv_state.rds_group with
      data_d_msb := rds_data.msb, data_d_lsb := rds_data.lsb } }

/-! ## Group decoders -/

/-- Adds an ODA to the list.  In the source the `return false` inside the loop is not
guarded by the `if` (the loop body has no braces around it), so a non-empty list is
left after the first iteration. -/
def rds_add_oda (priv_state : rds_private_state) (oda : v4l2_rds_oda) :
    Bool × rds_private_state :=
  let handle := priv_state.handle
  if 0 < handle.rds_oda.size then
    if (handle.rds_oda.oda 0).group_id = oda.group_id then
      (false, { priv_state with handle := { handle with rds_oda := { handle.rds_oda with
          oda := arr_set handle.rds_oda.oda 0
            { handle.rds_oda.oda 0 with aid := oda.aid } } } })
    else
      (false, priv_state)
  else if handle.rds_oda.size ≥ MAX_ODA_CNT then
    (false, priv_state)
  else
    (true, { priv_state with handle := { handle with rds_oda :=
        { size := (handle.rds_oda.size + 1) % 256,
          oda := arr_set handle.rds_oda.oda handle.rds_oda.size oda } } })

/-- Adds an alternative frequency to the list if it is not there yet.  The local
`freq` is 0 when the test `freq <= 15` of the LF/MF case is made. -/
def rds_add_af_to_list (af_set : v4l2_rds_af_set) (af : Nat) (is_vhf : Bool) :
    Bool × v4l2_rds_af_set :=
  let freq := 0
  if af = 0 then (false, af_set)
  else
    let freq :=
      if is_vhf then (87500000 + af * 100000) % 2 ^ 32
      else if freq ≤ 15 then (152000 + af * 9000) % 2 ^ 32
      else (531000 + af * 9000) % 2 ^ 32
    if af_set.size ≥ MAX_AF_CNT ∨ af_set.size ≥ af_set.announced_af then (false, af_set)
    else if (List.range af_set.size).any (fun i => af_set.af i == freq) then (false, af_set)
    else
      (true, { af_set with
        af := arr_set af_set.af af_set.size freq, size := (af_set.size + 1) % 256 })

/-- The list part of `rds_add_af`: the two bytes of block C are a frequency, a
count announcement, the LF/MF escape 250 or a filler. -/
def rds_add_af_set (af_set : v4l2_rds_af_set) (c_msb c_lsb : Nat) :
    Bool × v4l2_rds_af_set :=
  let updated_af := false
  let (updated_af, af_set, c_lsb) :=
    if c_msb = 250 then
      let r := rds_add_af_to_list af_set c_lsb false
      ((if r.1 then true else updated_af), r.2, 0)
    else (updated_af, af_set, c_lsb)
  let af_set :=
    if c_msb ≥ 224 ∧ c_msb ≤ 249 then { af_set with announced_af := (c_msb - 224) % 256 }
    else af_set
  let (updated_af, af_set) :=
    if c_msb < 205 then
      let r := rds_add_af_to_list af_set c_msb true
      ((if r.1 then true else updated_af), r.2)
    else (updated_af, af_set)
  let (updated_af, af_set) :=
    if c_lsb < 205 then
      let r := rds_add_af_to_list af_set c_lsb true
      ((if r.1 then true else updated_af), r.2)
    else (updated_af, af_set)
  (updated_af, af_set)

/-- Extracts the AF information of a group 0A from block C; the AF bit becomes
valid when all announced frequencies are there. -/
def rds_add_af (priv_state : rds_private_state) : Bool × rds_private_state :=
  let handle := priv_state.handle
  let r := rds_add_af_set handle.rds_af priv_state.rds_group.data_c_msb
    priv_state.rds_group.data_c_lsb
  let af_set := r.2
  let handle := { handle with rds_af := af_set }
  let handle :=
    if af_set.size ≥ af_set.announced_af ∧ af_set.announced_af ≠ 0 then
      { handle with valid_fields := handle.valid_fields ||| V4L2_RDS_AF }
    else handle
  (r.1, { priv_state with handle := handle })

/-- Adds one character of the PS name to the pending name; the result tells whether
all eight pending positions are validated. -/
def rds_add_ps (priv_state : rds_private_state) (pos ps_char : Nat) :
    Bool × rds_private_state :=
  let st :=
    if ps_char = priv_state.new_ps pos then
      { priv_state with new_ps_valid := arr_set priv_state.new_ps_valid pos 1 }
    else
      { priv_state with
        new_ps := arr_set priv_state.new_ps pos ps_char,
        new_ps_valid := arr_fill priv_state.new_ps_valid 8 0 }
  ((List.range 8).all (fun i => st.new_ps_valid i == 1), st)

/-- First part of `rds_decode_group0`: the TA flag (bit 4 of block B) and the
music/speech flag (bit 3) are stored at once. -/
def rds_decode_ta_ms (priv_state : rds_private_state) : Nat × rds_private_state :=
  let grp := priv_state.rds_group
  let updated_fields := 0
  let handle := priv_state.handle
  let tmp := to_bool (grp.data_b_lsb &&& 0x10)
  let (handle, updated_fields) :=
    if handle.ta ≠ tmp then ({ handle with ta := tmp }, updated_fields ||| V4L2_RDS_TA)
    else (handle, updated_fields)
  let handle := { handle with valid_fields := handle.valid_fields ||| V4L2_RDS_TA }
  let tmp := to_bool (grp.data_b_lsb &&& 0x08)
  let (handle, updated_fields) :=
    if handle.ms ≠ tmp then ({ handle with ms := tmp }, updated_fields ||| V4L2_RDS_MS)
    else (handle, updated_fields)
  let handle := { handle with valid_fields := handle.valid_fields ||| V4L2_RDS_MS }
  (updated_fields, { priv_state with handle := handle })

/-- Second part of `rds_decode_group0`: the two characters of block D go to the
positions `segment * 2` and `segment * 2 + 1` of the pending PS name, which is
promoted when all eight positions are validated. -/
def rds_decode_ps (acc : Nat × rds_private_state) : Nat × rds_private_state :=
  let updated_fields := acc.1
  let grp := acc.2.rds_group
  let segment := grp.data_b_lsb &&& 0x03
  let st := (rds_add_ps acc.2 (segment * 2) grp.data_d_msb).2
  let r := rds_add_ps st (segment * 2 + 1) grp.data_d_lsb
  let new_ps := r.1
  let st := r.2
  if new_ps then
    let (handle, updated_fields) :=
      if arr_differ st.new_ps st.handle.ps 8 then
        ({ st.handle with ps := arr_copy st.handle.ps st.new_ps 8 },
          updated_fields ||| V4L2_RDS_PS)
      else (st.handle, updated_fields)
    (updated_fields,
      { st with handle := { handle with valid_fields := handle.valid_fields ||| V4L2_RDS_PS } })
  else (updated_fields, st)

/-- Third part of `rds_decode_group0`: one DI bit (bit 2 of block B) per segment,
accepted only when the segments arrive in order. -/
def rds_decode_di (acc : Nat × rds_private_state) : Nat × rds_private_state :=
  let updated_fields := acc.1
  let priv_state := acc.2
  let segment := priv_state.rds_group.data_b_lsb &&& 0x03
  let bit2 := to_bool (priv_state.rds_group.data_b_lsb &&& 0x04)
  if segment = 0 ∨ segment = priv_state.next_di_segment then
    if segment = 0 then
      (updated_fields, { priv_state with
        new_di := set_bit priv_state.new_di V4L2_RDS_FLAG_STEREO bit2,
        next_di_segment := 1 })
    else if segment = 1 then
      (updated_fields, { priv_state with
        new_di := set_bit priv_state.new_di V4L2_RDS_FLAG_ARTIFICIAL_HEAD bit2,
        next_di_segment := 2 })
    else if segment = 2 then
      (updated_fields, { priv_state with
        new_di := set_bit priv_state.new_di V4L2_RDS_FLAG_COMPRESSED bit2,
        next_di_segment := 3 })
    else if segment = 3 then
      let st := { priv_state with
        new_di := set_bit priv_state.new_di V4L2_RDS_FLAG_STATIC_PTY bit2 }
      let (handle, updated_fields) :=
        if st.handle.di ≠ st.new_di then
          ({ st.handle with di := st.new_di }, updated_fields ||| V4L2_RDS_DI)
        else (st.handle, updated_fields)
      let handle := { handle with valid_fields := handle.valid_fields ||| V4L2_RDS_DI }
      (updated_fields, { st with handle := handle, next_di_segment := 0 })
    else
      (updated_fields, priv_state)
  else
    (updated_fields, { priv_state with next_di_segment := 0, new_di := 0 })

/-- Last part of `rds_decode_group0`: a version A group carries AFs in block C. -/
def rds_decode_af (acc : Nat × rds_private_state) : Nat × rds_private_state :=
  let updated_fields := acc.1
  if acc.2.rds_group.group_version = CHAR_A then
    let r := rds_add_af acc.2
    if r.1 then (updated_fields ||| V4L2_RDS_AF, r.2) else (updated_fields, r.2)
  else
    (updated_fields, acc.2)

/-- Group 0: basic tuning and switching; the four parts of the source function in
their order (TA and MS, PS name, DI, AF). -/
def rds_decode_group0 (priv_state : rds_private_state) : Nat × rds_private_state :=
  rds_decode_af (rds_decode_di (rds_decode_ps (rds_decode_ta_ms priv_state)))

/-- Group 1: slow labelling codes (ECC and language code, version A only). -/
def rds_decode_group1 (priv_state : rds_private_state) : Nat × rds_private_state :=
  let handle := priv_state.handle
  let grp := priv_state.rds_group
  let updated_fields := 0
  if grp.group_version ≠ CHAR_A then (0, priv_state)
  else
    let variant_code := (grp.data_c_msb >>> 4) &&& 0x07
    if variant_code = 0 then
      if grp.data_c_lsb = priv_state.new_ecc then
        let handle := { handle with valid_fields := handle.valid_fields ||| V4L2_RDS_ECC }
        let updated_fields :=
          if handle.ecc ≠ grp.data_c_lsb then updated_fields ||| V4L2_RDS_ECC
          else updated_fields
        (updated_fields, { priv_state with handle := { handle with ecc := grp.data_c_lsb } })
      else
        (updated_fields, { priv_state with new_ecc := grp.data_c_lsb })
    else if variant_code = 0x03 then
      if grp.data_c_lsb = priv_state.new_lc then
        (updated_fields ||| V4L2_RDS_LC,
          { priv_state with handle := { handle with
              valid_fields := handle.valid_fields ||| V4L2_RDS_LC, lc := grp.data_c_lsb } })
      else
        (updated_fields, { priv_state with new_lc := grp.data_c_lsb })
    else
      (updated_fields, priv_state)

/-- One iteration `i` of the carriage-return loop that ends `rds_decode_group2`. -/
def rds_rt_cr_step (acc : Nat × rds_private_state) (i : Nat) : Nat × rds_private_state :=
  let updated_fields := acc.1
  let st := acc.2
  if st.new_rt i = 0x0d then
    let st := { st with new_rt := arr_set st.new_rt i 0 }
    let handle := { st.handle with
      rt_length := i, valid_fields := st.handle.valid_fields ||| V4L2_RDS_RT }
    let (handle, updated_fields) :=
      if arr_differ handle.rt st.new_rt handle.rt_length then
        ({ handle with rt := arr_copy handle.rt st.new_rt handle.rt_length },
          updated_fields ||| V4L2_RDS_RT)
      else (handle, updated_fields)
    (updated_fields, { st with handle := handle, next_rt_segment := 0 })
  else
    (updated_fields, st)

/-- First part of `rds_decode_group2`: a change of the A/B text flag (bit 4 of
block B) announces a new text; the accepted text is cleared. -/
def rds_decode_rt_flag (priv_state : rds_private_state) : Nat × rds_private_state :=
  let updated_fields := 0
  let rt_ab_flag_n := to_bool (priv_state.rds_group.data_b_lsb &&& 0x10)
  if rt_ab_flag_n ≠ priv_state.handle.rt_ab_flag then
    (updated_fields ||| V4L2_RDS_RT,
      { priv_state with
        handle := { priv_state.handle with
          rt_ab_flag := rt_ab_flag_n,
          rt := arr_fill priv_state.handle.rt 64 0,
          valid_fields := priv_state.handle.valid_fields &&& (0xFFFFFFFF ^^^ V4L2_RDS_RT) },
        next_rt_segment := 0 })
  else (updated_fields, priv_state)

/-- Second part of `rds_decode_group2`: the characters of an in-order segment are
stored, four per group in version A and two in version B; segment 15 completes
the text. -/
def rds_decode_rt_segment (acc : Nat × rds_private_state) : Nat × rds_private_state :=
  let updated_fields := acc.1
  let st := acc.2
  let grp := st.rds_group
  let segment := grp.data_b_lsb &&& 0x0f
  if grp.group_version = CHAR_A then
    if segment = 0 ∨ segment = st.next_rt_segment then
      let new_rt := arr_set st.new_rt (segment * 4) grp.data_c_msb
      let new_rt := arr_set new_rt (segment * 4 + 1) grp.data_c_lsb
      let new_rt := arr_set new_rt (segment * 4 + 2) grp.data_d_msb
      let new_rt := arr_set new_rt (segment * 4 + 3) grp.data_d_lsb
      let st := { st with new_rt := new_rt, next_rt_segment := (segment + 1) % 256 }
      if segment = 0x0f then
        let handle := { st.handle with
          rt_length := 64, valid_fields := st.handle.valid_fields ||| V4L2_RDS_RT }
        let (handle, updated_fields) :=
          if arr_differ handle.rt st.new_rt 64 then
            ({ handle with rt := arr_copy handle.rt st.new_rt 64 },
              updated_fields ||| V4L2_RDS_RT)
          else (handle, updated_fields)
        (updated_fields, { st with handle := handle, next_rt_segment := 0 })
      else (updated_fields, st)
    else (updated_fields, st)
  else
    if segment = 0 ∨ segment = st.next_rt_segment then
      let new_rt := arr_set st.new_rt (segment * 2) grp.data_d_msb
      let new_rt := arr_set new_rt (segment * 2 + 1) grp.data_d_lsb
      let st := { st with new_rt := new_rt, next_rt_segment := (segment + 1) % 256 }
      if segment = 0x0f then
        let handle := { st.handle with
          rt_length := 32, valid_fields := st.handle.valid_fields ||| V4L2_RDS_RT }
        let updated_fields := updated_fields ||| V4L2_RDS_RT
        let (handle, updated_fields) :=
          if arr_differ handle.rt st.new_rt 32 then
            ({ handle with rt := arr_copy handle.rt st.new_rt 32 },
              updated_fields ||| V4L2_RDS_RT)
          else (handle, updated_fields)
        (updated_fields, { st with handle := handle, next_rt_segment := 0 })
      else (updated_fields, st)
    else (updated_fields, st)

/-- Group 2: radio text; the three parts of the source function in their order
(A/B flag, segment, carriage-return loop over the 64 pending characters). -/
def rds_decode_group2 (priv_state : rds_private_state) : Nat × rds_private_state :=
  (List.range 64).foldl rds_rt_cr_step (rds_decode_rt_segment (rds_decode_rt_flag priv_state))

/-- Group 3: open data announcements (version A only). -/
def rds_decode_group3 (priv_state : rds_private_state) : Nat × rds_private_state :=
  let grp := priv_state.rds_group
  let updated_fields := 0
  if grp.group_version ≠ CHAR_A then (0, priv_state)
  else
    let new_oda : v4l2_rds_oda :=
      { group_version := if grp.data_b_lsb &&& 0x01 ≠ 0 then CHAR_B else CHAR_A,
        group_id := (grp.data_b_lsb &&& 0x1e) >>> 1,
        aid := ((grp.data_d_msb <<< 8) ||| grp.data_d_lsb) % 2 ^ 16 }
    let r := rds_add_oda priv_state new_oda
    if r.1 then
      (updated_fields ||| V4L2_RDS_ODA,
        { r.2 with handle := { r.2.handle with
            decode_information := r.2.handle.decode_information ||| V4L2_RDS_ODA } })
    else (updated_fields, r.2)

/-- The conversion `(int)x` of a real `x = n / d` with `d > 0`: truncation towards zero. -/
def c_trunc (n d : Int) : Int := Int.tdiv n d

/-- The conversion of a `uint32_t` value to `int`. -/
def c_int_of_u32 (v : Int) : Int :=
  let w := v % 2 ^ 32
  if w ≥ 2 ^ 31 then w - 2 ^ 32 else w

/-- Decodes the pending date and time into the broken-down time given to `mktime`.
The Annex G divisions, which the source computes in `double`, are taken over the
exact rationals: `x / 365.25` is `100 x / 36525`, `x / 30.6001` is `10000 x / 306001`. -/
def rds_decode_mjd (priv_state : rds_private_state) : time_t :=
  let offset : Int := ((priv_state.utc_offset &&& 0x1f : Nat) : Int)
  let local_mjd : Int := (priv_state.new_mjd : Int)
  let local_hour : Int := (priv_state.utc_hour : Int)
  let local_minute : Int := (priv_state.utc_minute : Int)
  let (local_hour, local_minute) :=
    if priv_state.utc_offset &&& 0x20 ≠ 0 then
      ((local_hour - offset * 2) % 256, (local_minute - (offset % 2) * 30) % 256)
    else
      ((local_hour + offset * 2) % 256, (local_minute + (offset % 2) * 30) % 256)
  let y := c_trunc ((local_mjd * 10 - 150782) * 10) 36525
  let yd := c_trunc (y * 36525) 100
  let m := c_trunc ((local_mjd * 10 - 149561 - yd * 10) * 1000) 306001
  let md := c_trunc (m * 306001) 10000
  let d := c_int_of_u32 (local_mjd - 14956 - yd - md)
  let k : Int := if m = 14 ∨ m = 15 then 1 else 0
  let y := y + k
  let m := m - 1 - k * 12
  time_t.mktime
    { tm_sec := 0,
      tm_min := local_minute,
      tm_hour := local_hour,
      tm_mday := d,
      tm_mon := m,
      tm_year := y,
      tm_gmtoff :=
        if priv_state.utc_offset &&& 0x20 ≠ 0 then ((-2) * offset * 3600) % 2 ^ 32
        else (2 * offset * 3600) % 2 ^ 32 }

/-- Group 4: clock time and date (version A only).  The `printf` of the source
only writes to the standard output and is left out. -/
def rds_decode_group4 (priv_state : rds_private_state) : Nat × rds_private_state :=
  let grp := priv_state.rds_group
  let updated_fields := 0
  if grp.group_version ≠ CHAR_A then (0, priv_state)
  else
    let mjd := (((grp.data_b_lsb &&& 0x03) <<< 15) ||| (grp.data_c_msb <<< 7) |||
      (grp.data_c_lsb >>> 1)) % 2 ^ 32
    if priv_state.new_mjd ≠ mjd then
      (0, { priv_state with new_mjd := mjd })
    else
      let st := { priv_state with
        utc_hour := (((grp.data_c_lsb &&& 0x01) <<< 4) ||| (grp.data_d_msb >>> 4)) % 256 }
      let st := { st with
        utc_minute := (((grp.data_d_msb &&& 0x0f) <<< 2) ||| (grp.data_d_lsb >>> 6)) % 256 }
      let st := { st with utc_offset := grp.data_d_lsb &&& 0x3f }
      (updated_fields ||| V4L2_RDS_TIME,
        { st with handle := { st.handle with
            time := rds_decode_mjd st,
            valid_fields := st.handle.valid_fields ||| V4L2_RDS_TIME } })

/-- The test `memcmp(ptyn_tmp, new_ptyn[segment_code], 4) == 0`. -/
def ptyn_same (ptyn_tmp : Nat → Nat) (half : Nat → Nat) : Bool :=
  !(arr_differ ptyn_tmp half 4)

/-- First part of `rds_decode_group10`: a change of the A/B flag (bit 4 of block B)
announces a new name; the accepted and the pending name are cleared. -/
def rds_decode_ptyn_flag (priv_state : rds_private_state) : Nat × rds_private_state :=
  let updated_fields := 0
  let ptyn_ab_flag_n := to_bool (priv_state.rds_group.data_b_lsb &&& 0x10)
  if ptyn_ab_flag_n ≠ priv_state.handle.ptyn_ab_flag then
    (updated_fields ||| V4L2_RDS_PTYN,
      { priv_state with
        handle := { priv_state.handle with
          ptyn_ab_flag := ptyn_ab_flag_n,
          ptyn := arr_fill priv_state.handle.ptyn 8 0,
          valid_fields :=
            priv_state.handle.valid_fields &&& (0xFFFFFFFF ^^^ V4L2_RDS_PTYN) },
        new_ptyn := fun h i => if h * 4 + i < 8 then 0 else priv_state.new_ptyn h i,
        new_ptyn_valid := arr_fill priv_state.new_ptyn_valid 2 false })
  else (updated_fields, priv_state)

/-- Second part of `rds_decode_group10`: the four characters of the group validate
the pending half `segment_code` when they equal it, and replace it otherwise. -/
def rds_decode_ptyn_half (acc : Nat × rds_private_state) : Nat × rds_private_state :=
  let st := acc.2
  let grp := st.rds_group
  let segment_code := grp.data_b_lsb &&& 0x01
  let ptyn_tmp : Nat → Nat := fun i =>
    if i = 0 then grp.data_c_msb else if i = 1 then grp.data_c_lsb
    else if i = 2 then grp.data_d_msb else grp.data_d_lsb
  if ptyn_same ptyn_tmp (st.new_ptyn segment_code) then
    (acc.1, { st with new_ptyn_valid := arr_set st.new_ptyn_valid segment_code true })
  else
    (acc.1, { st with
      new_ptyn := arr_set st.new_ptyn segment_code
        (arr_copy (st.new_ptyn segment_code) ptyn_tmp 4),
      new_ptyn_valid := arr_set st.new_ptyn_valid segment_code false })

/-- Last part of `rds_decode_group10`: with both halves validated the pending name
is accepted. -/
def rds_decode_ptyn_accept (acc : Nat × rds_private_state) : Nat × rds_private_state :=
  let updated_fields := acc.1
  let st := acc.2
  if st.new_ptyn_valid 0 ∧ st.new_ptyn_valid 1 then
    (updated_fields ||| V4L2_RDS_PTYN,
      { st with handle := { st.handle with
          ptyn := fun j =>
            if j < 4 then st.new_ptyn 0 j
            else if j < 8 then st.new_ptyn 1 (j - 4) else st.handle.ptyn j,
          valid_fields := st.handle.valid_fields ||| V4L2_RDS_PTYN } })
  else (updated_fields, st)

/-- Group 10: program type name (version A only); the three parts of the source
function in their order. -/
def rds_decode_group10 (priv_state : rds_private_state) : Nat × rds_private_state :=
  if priv_state.rds_group.group_version ≠ CHAR_A then (0, priv_state)
  else rds_decode_ptyn_accept (rds_decode_ptyn_half (rds_decode_ptyn_flag priv_state))

/-- The table `decode_group` and its use in `rds_decode_group`: the group type is
counted, and decoded when a decoder is registered for it. -/
def rds_decode_group (priv_state : rds_private_state) : Nat × rds_private_state :=
  let group_id := priv_state.rds_group.group_id
  let rds_stats := priv_state.handle.rds_statistics
  let cnt := arr_set rds_stats.group_type_cnt group_id
    (inc32 (rds_stats.group_type_cnt group_id))
  let handle := { priv_state.handle with
    rds_statistics := { rds_stats with group_type_cnt := cnt } }
  let st := { priv_state with handle := handle }
  if group_id = 0 then rds_decode_group0 st
  else if group_id = 1 then rds_decode_group1 st
  else if group_id = 2 then rds_decode_group2 st
  else if group_id = 3 then rds_decode_group3 st
  else if group_id = 4 then rds_decode_group4 st
  else if group_id = 10 then rds_decode_group10 st
  else (0, st)

/-! ## Life cycle and block ingestion -/

/-- The all-zero counters. -/
def zero_statistics : v4l2_rds_statistics :=
  { block_cnt := 0, group_cnt := 0, block_error_cnt := 0, group_error_cnt := 0,
    block_corrected_cnt := 0, group_type_cnt := fun _ => 0 }

/-- The all-zero public snapshot. -/
def zero_handle : v4l2_rds :=
  { is_rbds := false, decode_information := 0, valid_fields := 0, pi := 0,
    ps := fun _ => 0, pty := 0, ptyn := fun _ => 0, ptyn_ab_flag := false,
    rt_length := 0, rt := fun _ => 0, rt_ab_flag := false, ta := false, tp := false,
    ms := false, di := 0, ecc := 0, lc := 0, time := time_t.zero,
    rds_statistics := zero_statistics,
    rds_oda := { size := 0, oda := fun _ => ⟨0, 0, 0⟩ },
    rds_af := { size := 0, announced_af := 0, af := fun _ => 0 } }

/-- The all-zero private state, as `calloc` and `memset(priv_state, 0, ...)` leave it. -/
def zero_state : rds_private_state :=
  { handle := zero_handle, decode_state := 0, new_pi := 0, new_ps := fun _ => 0,
    new_ps_valid := fun _ => 0, new_pty := 0, new_ptyn := fun _ _ => 0,
    new_ptyn_valid := fun _ => false, new_rt := fun _ => 0, next_rt_segment := 0,
    new_di := 0, next_di_segment := 0, new_ecc := 0, new_lc := 0, new_mjd := 0,
    utc_hour := 0, utc_minute := 0, utc_offset := 0, rds_group := zero_group,
    rds_data_raw := fun _ => zero_data }

/-- Creates a decoder: a zeroed state with the `is_rbds` flag. -/
def v4l2_rds_create (is_rbds : Bool) : rds_private_state :=
  { zero_state with handle := { zero_state.handle with is_rbds := is_rbds } }

/-- Resets a decoder: everything is zeroed except `is_rbds` and, unless
`reset_statistics` is set, the counters. -/
def v4l2_rds_reset (priv_state : rds_private_state) (reset_statistics : Bool) :
    rds_private_state :=
  let is_rbds := priv_state.handle.is_rbds
  let rds_statistics := priv_state.handle.rds_statistics
  let st := zero_state
  let st := { st with handle := { st.handle with is_rbds := is_rbds } }
  if !reset_statistics then
    { st with handle := { st.handle with rds_statistics := rds_statistics } }
  else st

/-- The call `memset(rds_data_raw, 0, sizeof(rds_data_raw))` of `v4l2_rds_add`:
`rds_data_raw` is a pointer there, so eight bytes are cleared (LP64): the blocks 0
and 1 and the `lsb` and `msb` of block 2. -/
def raw_clear (raw : Nat → v4l2_rds_data) : Nat → v4l2_rds_data :=
  fun j =>
    if j < 2 then zero_data
    else if j = 2 then { raw 2 with lsb := 0, msb := 0 }
    else raw j

/-- The branch "unexpected block" of the state machine: the group error is counted
and the assembler goes to `next`. -/
def group_error (st : rds_private_state) (next : Nat) : rds_private_state :=
  { st with
    handle := { st.handle with rds_statistics := { st.handle.rds_statistics with
      group_error_cnt := inc32 st.handle.rds_statistics.group_error_cnt } },
    decode_state := next }

/-- The block id after the error check of `v4l2_rds_add`: the low three bits of
`block`, or -1 for a block flagged uncorrectable. -/
def block_id_of (rds_data : v4l2_rds_data) : Int :=
  if rds_data.block &&& V4L2_RDS_BLOCK_ERROR ≠ 0 then -1
  else ((rds_data.block &&& V4L2_RDS_BLOCK_MSK : Nat) : Int)

/-- The block counters of `v4l2_rds_add`, updated before the state machine runs. -/
def count_block (rds_stats : v4l2_rds_statistics) (rds_data : v4l2_rds_data) :
    v4l2_rds_statistics :=
  let rds_stats := { rds_stats with block_cnt := inc32 rds_stats.block_cnt }
  if rds_data.block &&& V4L2_RDS_BLOCK_ERROR ≠ 0 then
    { rds_stats with block_error_cnt := inc32 rds_stats.block_error_cnt }
  else if rds_data.block &&& V4L2_RDS_BLOCK_CORRECTED ≠ 0 then
    { rds_stats with block_corrected_cnt := inc32 rds_stats.block_corrected_cnt }
  else rds_stats

/-- The decoding of a complete group, run by `v4l2_rds_add` when block D arrives:
the group is cleared, the blocks A to D are decoded from the raw buffer and the
group decoder runs; the updated fields are united. -/
def decode_complete (st : rds_private_state) : Nat × rds_private_state :=
  let rds_data_raw := st.rds_data_raw
  let updated_fields := 0
  let st := { st with rds_group := zero_group }
  let ra := rds_decode_a st (rds_data_raw 0)
  let rb := rds_decode_b ra.2 (rds_data_raw 1)
  let st := rds_decode_d (rds_decode_c rb.2 (rds_data_raw 2)) (rds_data_raw 3)
  let rg := rds_decode_group st
  (updated_fields ||| ra.1 ||| rb.1 ||| rg.1, rg.2)

/-- Ingests one block: the block counters, the four-state assembler and, on a
complete group, the decoding.  Returns `updated_fields` and the new state. -/
def v4l2_rds_add (priv_state : rds_private_state) (rds_data : v4l2_rds_data) :
    Nat × rds_private_state :=
  let block_id := block_id_of rds_data
  let st := { priv_state with handle := { priv_state.handle with
    rds_statistics := count_block priv_state.handle.rds_statistics rds_data } }
  if st.decode_state = RDS_EMPTY then
    if block_id = 0 then
      (0, { st with
        decode_state := RDS_A_RECEIVED,
        rds_data_raw := arr_set (raw_clear st.rds_data_raw) 0 rds_data })
    else
      (0, group_error st st.decode_state)
  else if st.decode_state = RDS_A_RECEIVED then
    if block_id = 1 then
      (0, { st with
        decode_state := RDS_B_RECEIVED,
        rds_data_raw := arr_set st.rds_data_raw 1 rds_data })
    else
      (0, group_error st RDS_EMPTY)
  else if st.decode_state = RDS_B_RECEIVED then
    if block_id = 2 ∨ block_id = 4 then
      (0, { st with
        decode_state := RDS_C_RECEIVED,
        rds_data_raw := arr_set st.rds_data_raw 2 rds_data })
    else
      (0, group_error st RDS_EMPTY)
  else if st.decode_state = RDS_C_RECEIVED then
    if block_id = 3 then
      let st := { st with
        decode_state := RDS_EMPTY,
        rds_data_raw := arr_set st.rds_data_raw 3 rds_data,
        handle := { st.handle with rds_statistics := { st.handle.rds_statistics with
          group_cnt := inc32 st.handle.rds_statistics.group_cnt } } }
      decode_complete st
    else
      (0, group_error st RDS_EMPTY)
  else
    (0, group_error st RDS_EMPTY)

/-- The accessor `v4l2_rds_get_group`: the last assembled group. -/
def v4l2_rds_get_group (priv_state : rds_private_state) : v4l2_rds_group :=
  priv_state.rds_group

/-- Ingests a list of blocks in order; the state after the last one. -/
def add_blocks (st : rds_private_state) (blocks : List v4l2_rds_data) : rds_private_state :=
  blocks.foldl (fun s b => (v4l2_rds_add s b).2) st

/-! ## Notions used to state the properties -/

/-- A bit of a bitset (`valid_fields`, `updated_fields`) is set: the C test
`fields & mask`. -/
def bit_set (fields mask : Nat) : Prop := fields &&& mask ≠ 0

instance bit_set_decidable (fields mask : Nat) : Decidable (bit_set fields mask) := by
  unfold bit_set
  infer_instance

/-- The fields of a block are bytes. -/
def is_bytes (rds_data : v4l2_rds_data) : Prop :=
  rds_data.lsb < 256 ∧ rds_data.msb < 256 ∧ rds_data.block < 256

instance is_bytes_decidable (rds_data : v4l2_rds_data) : Decidable (is_bytes rds_data) := by
  unfold is_bytes
  infer_instance

/-- A block without the uncorrectable-error flag whose block id (low three bits) is `id`. -/
def has_id (rds_data : v4l2_rds_data) (id : Nat) : Prop :=
  rds_data.block &&& V4L2_RDS_BLOCK_ERROR = 0 ∧ rds_data.block &&& V4L2_RDS_BLOCK_MSK = id

instance has_id_decidable (rds_data : v4l2_rds_data) (id : Nat) :
    Decidable (has_id rds_data id) := by
  unfold has_id
  infer_instance

/-- The block id the assembler expects in a state: A, B, C or C', D. -/
def expected_id (decode_state : Nat) (id : Nat) : Prop :=
  (decode_state = RDS_EMPTY ∧ id = 0) ∨ (decode_state = RDS_A_RECEIVED ∧ id = 1) ∨
  (decode_state = RDS_B_RECEIVED ∧ (id = 2 ∨ id = 4)) ∨ (decode_state = RDS_C_RECEIVED ∧ id = 3)

instance expected_id_decidable (decode_state id : Nat) :
    Decidable (expected_id decode_state id) := by
  unfold expected_id
  infer_instance

/-- Four blocks as they are sent for one group. -/
structure raw_group where
  a : v4l2_rds_data
  b : v4l2_rds_data
  c : v4l2_rds_data
  d : v4l2_rds_data
deriving DecidableEq, Repr

/-- The four blocks form a complete group: error-free, with the ids A, B, C or C', D. -/
def is_group (g : raw_group) : Prop :=
  has_id g.a 0 ∧ has_id g.b 1 ∧ (has_id g.c 2 ∨ has_id g.c 4) ∧ has_id g.d 3

instance is_group_decidable (g : raw_group) : Decidable (is_group g) := by
  unfold is_group
  infer_instance

/-- The PI code a block A carries. -/
def pi_of (rds_data : v4l2_rds_data) : Nat :=
  ((rds_data.msb <<< 8) ||| rds_data.lsb) % 2 ^ 16

/-- The group type code a block B carries. -/
def group_id_of (rds_data : v4l2_rds_data) : Nat := (rds_data.msb >>> 4) % 256

/-- The PS segment address a block B carries in a group 0. -/
def segment_of (rds_data : v4l2_rds_data) : Nat := (rds_data.lsb &&& 0x1f) &&& 0x03

/-- Ingests the four blocks of a group in order: the `updated_fields` of the last
ingest, and the state after it. -/
def add_group (st : rds_private_state) (g : raw_group) : Nat × rds_private_state :=
  v4l2_rds_add (add_blocks st [g.a, g.b, g.c]) g.d

/-- Ingests a list of groups, block by block. -/
def add_groups (st : rds_private_state) (gs : List raw_group) : rds_private_state :=
  gs.foldl (fun s g => (add_group s g).2) st

/-- A call of the decoder's interface that changes its state. -/
inductive rds_call where
  | add (rds_data : v4l2_rds_data) : rds_call
  | reset (reset_statistics : Bool) : rds_call
deriving DecidableEq, Repr

/-- The state after one call. -/
def run_call (st : rds_private_state) : rds_call → rds_private_state
  | rds_call.add rds_data => (v4l2_rds_add st rds_data).2
  | rds_call.reset reset_statistics => v4l2_rds_reset st reset_statistics

/-- The state a freshly created decoder reaches by a sequence of calls. -/
def run_calls (is_rbds : Bool) (calls : List rds_call) : rds_private_state :=
  calls.foldl run_call (v4l2_rds_create is_rbds)

/-- The assembler of the specification (its section 4.1), kept apart from the
decoder: the blocks of the group under assembly and the last group completed since
create or reset.  A block with the expected id extends the pending group, the
fourth one completes it; any other block drops the pending blocks. -/
def spec_assemble (acc : List v4l2_rds_data × Option raw_group) :
    rds_call → List v4l2_rds_data × Option raw_group
  | rds_call.reset _ => ([], none)
  | rds_call.add rds_data =>
    match acc.1 with
    | [] => if has_id rds_data 0 then ([rds_data], acc.2) else ([], acc.2)
    | [a] => if has_id rds_data 1 then ([a, rds_data], acc.2) else ([], acc.2)
    | [a, b] =>
      if has_id rds_data 2 ∨ has_id rds_data 4 then ([a, b, rds_data], acc.2) else ([], acc.2)
    | [a, b, c] => if has_id rds_data 3 then ([], some ⟨a, b, c, rds_data⟩) else ([], acc.2)
    | _ => ([], acc.2)

/-- The last group completed since create or reset, by the specification's assembler. -/
def last_group (calls : List rds_call) : Option raw_group :=
  (calls.foldl spec_assemble ([], none)).2

/-- The fields of the private state that no group decoder writes. -/
def core (s : rds_private_state) :=
  (s.rds_group, s.decode_state, s.rds_data_raw, s.new_pi, s.new_pty, s.handle.pi,
    s.handle.pty, s.handle.tp, s.handle.is_rbds, s.handle.rds_statistics.block_cnt,
    s.handle.rds_statistics.group_cnt, s.handle.rds_statistics.block_error_cnt,
    s.handle.rds_statistics.group_error_cnt, s.handle.rds_statistics.block_corrected_cnt)

/-- The pending and the accepted PS name. -/
def ps_core (s : rds_private_state) := (s.new_ps, s.new_ps_valid, s.handle.ps)

/-- The state in which `v4l2_rds_add` starts to decode a group whose blocks were
ingested from the state `s` with an empty assembler: the four blocks are counted
and stored in the raw buffer, the group is counted, the assembler is empty again. -/
def group_ready (s : rds_private_state) (g : raw_group) : rds_private_state :=
  let rds_stats := count_block (count_block (count_block (count_block
    s.handle.rds_statistics g.a) g.b) g.c) g.d
  { s with
    decode_state := RDS_EMPTY,
    rds_data_raw := arr_set (arr_set (arr_set (arr_set (raw_clear s.rds_data_raw) 0 g.a) 1 g.b)
      2 g.c) 3 g.d,
    handle := { s.handle with rds_statistics :=
      { rds_stats with group_cnt := inc32 rds_stats.group_cnt } } }

/-- The state of `decode_complete` after the four block decoders and before the
group decoder. -/
def decode_abcd (st : rds_private_state) : rds_private_state :=
  rds_decode_d (rds_decode_c
    (rds_decode_b (rds_decode_a { st with rds_group := zero_group } (st.rds_data_raw 0)).2
      (st.rds_data_raw 1)).2
    (st.rds_data_raw 2)) (st.rds_data_raw 3)

/-- The first group of the test data (`PrepareTestData`): PI 0x1234, group 2A,
segment 0, text "oN w". -/
def test_group_0 : raw_group :=
  ⟨⟨0x34, 0x12, 0⟩, ⟨0x00, 0x20, 1⟩, ⟨0x4E, 0x6F, 2⟩, ⟨0x77, 0x20, 3⟩⟩

/-- The bits of `valid_fields` that the group decoders write. -/
def group_bits : Nat :=
  V4L2_RDS_TA ||| V4L2_RDS_MS ||| V4L2_RDS_PS ||| V4L2_RDS_DI ||| V4L2_RDS_AF |||
  V4L2_RDS_ECC ||| V4L2_RDS_LC ||| V4L2_RDS_RT ||| V4L2_RDS_TIME ||| V4L2_RDS_PTYN

/-- The decoder agrees with the assembler of the specification: the assembler
state is the number of pending blocks, the raw buffer holds them, and the pending
PTY is the PTY of the last completed group (or still zero, like the accepted PTY,
when no group was completed since create or reset). -/
def assembler_inv (s : rds_private_state) (acc : List v4l2_rds_data × Option raw_group) : Prop :=
  s.decode_state ≤ 3 ∧ acc.1 = (List.range s.decode_state).map s.rds_data_raw ∧
  (match acc.2 with
    | none => s.new_pty = 0 ∧ s.handle.pty = 0
    | some g => s.new_pty = pty_of g.b)

/-- The validity flags after `rds_add_ps` has put the character `ch` at `pos`: a
character equal to the pending one validates the position, any other character
clears all eight flags. -/
def ps_valid_next (n v : Nat → Nat) (pos ch : Nat) : Nat → Nat :=
  if ch = n pos then arr_set v pos 1 else arr_fill v 8 0

/-- All eight positions of the pending PS name are validated: the loop that ends
`rds_add_ps`. -/
def all_valid (v : Nat → Nat) : Bool := (List.range 8).all (fun i => v i == 1)

/-- The pending PS name and its validity flags after a group 0 with the given
segment and the characters `x`, `y` of block D. -/
def ps_next (n v : Nat → Nat) (segment x y : Nat) : (Nat → Nat) × (Nat → Nat) :=
  (arr_set (arr_set n (segment * 2) x) (segment * 2 + 1) y,
    ps_valid_next (arr_set n (segment * 2) x) (ps_valid_next n v (segment * 2) x)
      (segment * 2 + 1) y)

/-- What holds after `k` of the eight groups that send the PS name `c` twice:
during the first pass the pending name agrees with `c` on the positions sent,
during the second pass the positions sent again are validated, and after the last
group the name is accepted. -/
def ps_twice_inv (c : Nat → Nat) (k : Nat) (t : rds_private_state) : Prop :=
  t.decode_state = RDS_EMPTY ∧
  (k ≤ 4 → ∀ i, i < 2 * k → t.new_ps i = c i) ∧
  (4 ≤ k → (∀ i, i < 8 → t.new_ps i = c i) ∧ ∀ i, i < 2 * (k - 4) → t.new_ps_valid i = 1) ∧
  (k = 8 → (∀ i, i < 8 → t.handle.ps i = c i) ∧ bit_set t.handle.valid_fields V4L2_RDS_PS)

/-- The four blocks of a group in the order they are sent. -/
def group_blocks (g : raw_group) : List v4l2_rds_data := [g.a, g.b, g.c, g.d]

/-- One ingest that also records the returned `updated_fields`. -/
def add_trace_step (acc : List Nat × rds_private_state) (b : v4l2_rds_data) :
    List Nat × rds_private_state :=
  (acc.1 ++ [(v4l2_rds_add acc.2 b).1], (v4l2_rds_add acc.2 b).2)

/-- Ingests a list of blocks and records the `updated_fields` of every ingest. -/
def add_trace (acc : List Nat × rds_private_state) (blocks : List v4l2_rds_data) :
    List Nat × rds_private_state :=
  blocks.foldl add_trace_step acc

/-- What holds on a fresh decoder after the first `k` of four groups that send the
PS name `c` once: the pending name holds the characters sent and is zero elsewhere;
the flag of a position sent stands exactly when its character and all later ones
sent so far are zero; the accepted name is still zero, and no ingest reported PS. -/
def ps_once_inv (c : Nat → Nat) (k : Nat) (acc : List Nat × rds_private_state) : Prop :=
  acc.2.decode_state = RDS_EMPTY ∧
  (∀ i, i < 2 * k → acc.2.new_ps i = c i) ∧
  (∀ i, 2 * k ≤ i → acc.2.new_ps i = 0) ∧
  (∀ i, i < 2 * k → (∀ j, i ≤ j → j < 2 * k → c j = 0) → acc.2.new_ps_valid i = 1) ∧
  (∀ i, i < 2 * k → (∃ j, i ≤ j ∧ j < 2 * k ∧ c j ≠ 0) → acc.2.new_ps_valid i = 0) ∧
  (∀ i, 2 * k ≤ i → acc.2.new_ps_valid i = 0) ∧
  (∀ i, acc.2.handle.ps i = 0) ∧
  (k < 4 → acc.2.handle.valid_fields &&& V4L2_RDS_PS = 0) ∧
  (k = 4 → (bit_set acc.2.handle.valid_fields V4L2_RDS_PS ↔ ∀ j, j < 8 → c j = 0)) ∧
  (∀ u, u ∈ acc.1 → u &&& V4L2_RDS_PS = 0)

/-- A group 5A (no decoder is registered for it) that carries the PI code `pi`. -/
def pi_group (pi : Nat) : raw_group :=
  ⟨⟨pi % 256, pi / 256, 0⟩, ⟨0x00, 0x50, 1⟩, ⟨0, 0, 2⟩, ⟨0, 0, 3⟩⟩

/-- A group 0A whose block B has the TP bit (bit 2 of `msb`) set. -/
def tp_group : raw_group :=
  ⟨⟨0x34, 0x12, 0⟩, ⟨0x00, 0x04, 1⟩, ⟨0, 0, 2⟩, ⟨0, 0, 3⟩⟩

/-- A group 0A with PTY 5 (bits 5 to 9 of block B). -/
def pty_group : raw_group :=
  ⟨⟨0x34, 0x12, 0⟩, ⟨0xA0, 0x00, 1⟩, ⟨0, 0, 2⟩, ⟨0, 0, 3⟩⟩

/-- The calls that ingest `pty_group` completely and then its blocks A, B, C again. -/
def pty_calls : List rds_call :=
  [rds_call.add pty_group.a, rds_call.add pty_group.b, rds_call.add pty_group.c,
    rds_call.add pty_group.d, rds_call.add pty_group.a, rds_call.add pty_group.b,
    rds_call.add pty_group.c]

/-- The PS name "NOWPLAY!" of the specification's scenario. -/
def nowplay (i : Nat) : Nat :=
  if i = 0 then 78 else if i = 1 then 79 else if i = 2 then 87 else if i = 3 then 80
  else if i = 4 then 76 else if i = 5 then 65 else if i = 6 then 89 else if i = 7 then 33
  else 0

/-- The `k`-th of the groups 0A that send "NOWPLAY!": segment `k % 4`. -/
def nowplay_group (k : Nat) : raw_group :=
  ⟨⟨0x34, 0x12, 0⟩, ⟨k % 4, 0x00, 1⟩, ⟨0, 0, 2⟩,
    ⟨nowplay (2 * (k % 4) + 1), nowplay (2 * (k % 4)), 3⟩⟩

/-- The `k`-th of four groups 0A that send a PS name of eight NUL characters. -/
def nul_ps_group (k : Nat) : raw_group :=
  ⟨⟨0x34, 0x12, 0⟩, ⟨k % 4, 0x00, 1⟩, ⟨0, 0, 2⟩, ⟨0, 0, 3⟩⟩

/-- The radio text: the pending buffer, the next expected segment, and the accepted
text with its length and A/B flag. -/
def rt_part (s : rds_private_state) :=
  (s.new_rt, s.next_rt_segment, s.handle.rt, s.handle.rt_length, s.handle.rt_ab_flag)

/-- The decoder information: the pending flags, the next expected segment and the
accepted flags. -/
def di_part (s : rds_private_state) := (s.new_di, s.next_di_segment, s.handle.di)

/-- The open data announcements and the flags of `decode_information`. -/
def oda_part (s : rds_private_state) := (s.handle.rds_oda, s.handle.decode_information)

/-- The state `rds_decode_group` hands to the decoder of the group type: the group
type is counted. -/
def count_type (priv_state : rds_private_state) : rds_private_state :=
  { priv_state with handle := { priv_state.handle with
      rds_statistics := { priv_state.handle.rds_statistics with
        group_type_cnt :=
          arr_set priv_state.handle.rds_statistics.group_type_cnt
            priv_state.rds_group.group_id
            (inc32 (priv_state.handle.rds_statistics.group_type_cnt
              priv_state.rds_group.group_id)) } } }

/-- The state on which the decoder of the group type runs when the group `g` is
ingested from the state `s` with an empty assembler. -/
def group_input (s : rds_private_state) (g : raw_group) : rds_private_state :=
  count_type (decode_abcd (group_ready s g))

/-- The pending radio text holds no carriage return. -/
def rt_clean (s : rds_private_state) : Prop := ∀ i, i < 64 → s.new_rt i ≠ 0x0d

/-- The AF list is within its capacity, the announced count is at most 25, and
the entries of the list are pairwise distinct. -/
def af_ok (a : v4l2_rds_af_set) : Prop :=
  a.size ≤ MAX_AF_CNT ∧ a.announced_af ≤ 25 ∧
  ∀ i j, i < a.size → j < a.size → i ≠ j → a.af i ≠ a.af j

/-- What holds in every state a decoder reaches from create by ingests and resets. -/
def reach_inv (s : rds_private_state) : Prop :=
  rt_clean s ∧ s.new_di < 16 ∧ s.handle.rds_oda.size ≤ 1 ∧ af_ok s.handle.rds_af

/-- The radio text segment address a block B carries in a group 2. -/
def rt_segment_of (rds_data : v4l2_rds_data) : Nat := (rds_data.lsb &&& 0x1f) &&& 0x0f

/-- The A/B text flag a block B carries in a group 2. -/
def rt_flag_of (rds_data : v4l2_rds_data) : Bool := to_bool ((rds_data.lsb &&& 0x1f) &&& 0x10)

/-- The block B announces a group of version A. -/
def is_version_a (rds_data : v4l2_rds_data) : Prop := rds_data.msb &&& 0x08 = 0

instance is_version_a_decidable (rds_data : v4l2_rds_data) :
    Decidable (is_version_a rds_data) := by
  unfold is_version_a
  infer_instance

/-- The radio text, the decoder information, the open data announcements and the
AF list: what the decoders of the groups 1, 4 and 10 and the PS part leave alone. -/
def aux4 (s : rds_private_state) := (rt_part s, di_part s, oda_part s, s.handle.rds_af)

/-- The AF list `x` has the size of the list `a`, or it is longer and within the
count announced for it. -/
def af_grown (a x : v4l2_rds_af_set) : Prop :=
  x.size = a.size ∨ (a.size < x.size ∧ x.size ≤ x.announced_af)

/-- The pending radio text after the four characters of a group 2A are stored at the
positions of the segment. -/
def rt_store (new_rt : Nat → Nat) (segment c_msb c_lsb d_msb d_lsb : Nat) : Nat → Nat :=
  arr_set (arr_set (arr_set (arr_set new_rt (segment * 4) c_msb) (segment * 4 + 1) c_lsb)
    (segment * 4 + 2) d_msb) (segment * 4 + 3) d_lsb

/-- The four text characters of a group 2A in the order they are stored: the two
bytes of block C, then the two bytes of block D. -/
def rt_bytes (g : raw_group) (j : Nat) : Nat :=
  if j = 0 then g.c.msb else if j = 1 then g.c.lsb else if j = 2 then g.d.msb else g.d.lsb

/-- The seven groups of the test data (`PrepareTestData`): PI 0x1234, groups 2A with
the segments 0 to 6; the text bytes of the seventh are 0x00, 0x0D, 0x00, 0x00. -/
def test_data : List raw_group :=
  [test_group_0,
    ⟨⟨0x34, 0x12, 0⟩, ⟨0x01, 0x20, 1⟩, ⟨0x50, 0x6C, 2⟩, ⟨0x61, 0x79, 3⟩⟩,
    ⟨⟨0x34, 0x12, 0⟩, ⟨0x02, 0x20, 1⟩, ⟨0x69, 0x6E, 2⟩, ⟨0x67, 0x3A, 3⟩⟩,
    ⟨⟨0x34, 0x12, 0⟩, ⟨0x03, 0x20, 1⟩, ⟨0x20, 0x48, 2⟩, ⟨0x65, 0x6C, 3⟩⟩,
    ⟨⟨0x34, 0x12, 0⟩, ⟨0x04, 0x20, 1⟩, ⟨0x6C, 0x6F, 2⟩, ⟨0x20, 0x57, 3⟩⟩,
    ⟨⟨0x34, 0x12, 0⟩, ⟨0x05, 0x20, 1⟩, ⟨0x6F, 0x72, 2⟩, ⟨0x6C, 0x64, 3⟩⟩,
    ⟨⟨0x34, 0x12, 0⟩, ⟨0x06, 0x20, 1⟩, ⟨0x0D, 0x00, 2⟩, ⟨0x00, 0x00, 3⟩⟩]

/-- The calls that ingest the four blocks of each group of a list, in order. -/
def group_calls (gs : List raw_group) : List rds_call :=
  gs.flatMap (fun g => (group_blocks g).map rds_call.add)

/-- The seventh group of the test data, which carries the carriage return. -/
def test_group_6 : raw_group :=
  ⟨⟨0x34, 0x12, 0⟩, ⟨0x06, 0x20, 1⟩, ⟨0x0D, 0x00, 2⟩, ⟨0x00, 0x00, 3⟩⟩

/-- What holds after the first `k` of the sixteen groups 2A that send the text `txt`
under the A/B flag `fl`: the assembler is empty, the pending text holds no carriage
return and agrees with `txt` on the positions sent, the next segment is expected, and
after the last group the text is accepted. -/
def rt_text_inv (txt : Nat → Nat) (fl : Bool) (k : Nat) (t : rds_private_state) : Prop :=
  t.decode_state = RDS_EMPTY ∧ rt_clean t ∧
  (1 ≤ k → t.handle.rt_ab_flag = fl) ∧
  (1 ≤ k → k < 16 → t.next_rt_segment = k) ∧
  (∀ i, i < 4 * k → t.new_rt i = txt i) ∧
  (k = 16 → t.handle.rt_length = 64 ∧ bit_set t.handle.valid_fields V4L2_RDS_RT ∧
    ∀ i, i < 64 → t.handle.rt i = txt i)

/-- A sample text of 64 characters without a carriage return: "ABC...Z" repeated. -/
def sample_text (i : Nat) : Nat := 0x41 + i % 26

/-- The `k`-th of sixteen groups 2A that send `sample_text` under the A/B flag 0:
segment `k % 16`, four characters in the blocks C and D. -/
def sample_rt_group (k : Nat) : raw_group :=
  ⟨⟨0x34, 0x12, 0⟩, ⟨k % 16, 0x20, 1⟩, ⟨sample_text (4 * k + 1), sample_text (4 * k), 2⟩,
    ⟨sample_text (4 * k + 3), sample_text (4 * k + 2), 3⟩⟩

/-- A group 2A, segment 0, A/B flag 0, with the text bytes 'A', 'B', 'C', 0x0D. -/
def cr_group_3 : raw_group :=
  ⟨⟨0x34, 0x12, 0⟩, ⟨0x00, 0x20, 1⟩, ⟨0x42, 0x41, 2⟩, ⟨0x0D, 0x43, 3⟩⟩

/-- A group 2A, segment 0, A/B flag 0, with the text bytes 'A', 0x0D, 'C', 'D'. -/
def cr_group_1 : raw_group :=
  ⟨⟨0x34, 0x12, 0⟩, ⟨0x00, 0x20, 1⟩, ⟨0x0D, 0x41, 2⟩, ⟨0x44, 0x43, 3⟩⟩

/-- A group 2A, segment 0, A/B flag 1, with the text bytes 'A', 'B', 'C', 0x0D. -/
def flag_cr_group : raw_group :=
  ⟨⟨0x34, 0x12, 0⟩, ⟨0x10, 0x20, 1⟩, ⟨0x42, 0x41, 2⟩, ⟨0x0D, 0x43, 3⟩⟩

/-- A group 2A, segment 0, A/B flag 1, with the text bytes 'A', 'B', 'C', 'D'. -/
def flag_group : raw_group :=
  ⟨⟨0x34, 0x12, 0⟩, ⟨0x10, 0x20, 1⟩, ⟨0x42, 0x41, 2⟩, ⟨0x44, 0x43, 3⟩⟩

/-- The third group of the test data: group 2A, segment 2. -/
def test_group_2 : raw_group :=
  ⟨⟨0x34, 0x12, 0⟩, ⟨0x02, 0x20, 1⟩, ⟨0x69, 0x6E, 2⟩, ⟨0x67, 0x3A, 3⟩⟩

/-- The DI bit (bit 2 of `lsb`) a block B carries in a group 0. -/
def di_bit_of (rds_data : v4l2_rds_data) : Bool := to_bool ((rds_data.lsb &&& 0x1f) &&& 0x04)

/-- The DI flags made of four bits: stereo, artificial head, compressed, static PTY. -/
def di_of_bits (b0 b1 b2 b3 : Bool) : Nat :=
  (if b0 then V4L2_RDS_FLAG_STEREO else 0) ||| (if b1 then V4L2_RDS_FLAG_ARTIFICIAL_HEAD else 0) |||
  (if b2 then V4L2_RDS_FLAG_COMPRESSED else 0) ||| (if b3 then V4L2_RDS_FLAG_STATIC_PTY else 0)

/-- The `k`-th of four groups 0A that send the DI bits 1, 0, 1, 1 (stereo, compressed,
static PTY): segment `k % 4`, the DI bit in bit 2 of block B. -/
def sample_di_group (k : Nat) : raw_group :=
  ⟨⟨0x34, 0x12, 0⟩, ⟨(if k % 4 = 1 then 0 else 4) + k % 4, 0x00, 1⟩, ⟨0xCD, 0xCD, 2⟩,
    ⟨0x20, 0x20, 3⟩⟩

/-- The DI bits that `sample_di_group` sends. -/
def sample_di_bit (k : Nat) : Bool := if k % 4 = 1 then false else true

/-- The record a group 3A announces: the group type and version in block B, the
application identification in block D. -/
def oda_of (g : raw_group) : v4l2_rds_oda :=
  { group_version := if (g.b.lsb &&& 0x1f) &&& 0x01 ≠ 0 then CHAR_B else CHAR_A,
    group_id := ((g.b.lsb &&& 0x1f) &&& 0x1e) >>> 1,
    aid := ((g.d.msb <<< 8) ||| g.d.lsb) % 2 ^ 16 }

/-- What the decoding of the blocks A and B of the group `g` reports when the group is
ingested from the state `s` with an empty assembler: the part of `updated_fields`
that does not come from the group decoder (PI, TP, PTY). -/
def blocks_updated (s : rds_private_state) (g : raw_group) : Nat :=
  (rds_decode_a { group_ready s g with rds_group := zero_group } g.a).1 |||
  (rds_decode_b (rds_decode_a { group_ready s g with rds_group := zero_group } g.a).2 g.b).1

/-- A group 3A that announces the group type `id` (version A) with the application
identification `aid`. -/
def oda_group (id aid : Nat) : raw_group :=
  ⟨⟨0x34, 0x12, 0⟩, ⟨(id * 2) % 32, 0x30, 1⟩, ⟨0, 0, 2⟩, ⟨aid % 256, (aid / 256) % 256, 3⟩⟩

/-- A group 0A, segment 0, whose block C carries the AF codes `c_msb` and `c_lsb`. -/
def af_group (c_msb c_lsb : Nat) : raw_group :=
  ⟨⟨0x34, 0x12, 0⟩, ⟨0x00, 0x00, 1⟩, ⟨c_lsb, c_msb, 2⟩, ⟨0x20, 0x20, 3⟩⟩

/-- A block with both the uncorrectable-error flag and the corrected flag set. -/
def both_flags_block : v4l2_rds_data := ⟨0, 0, 0xC0⟩

/-- The pending date and time and the accepted time. -/
def clock_part (s : rds_private_state) :=
  (s.new_mjd, s.utc_hour, s.utc_minute, s.utc_offset, s.handle.time)

/-- The Modified Julian Day a group 4A carries: two bits in block B, block C without
its lowest bit. -/
def mjd_of (g : raw_group) : Nat :=
  ((((g.b.lsb &&& 0x1f) &&& 0x03) <<< 15) ||| (g.c.msb <<< 7) ||| (g.c.lsb >>> 1)) % 2 ^ 32

/-- The group 4A of the specification's scenario: MJD 58849, 12:30 UTC, offset 0x02. -/
def clock_group : raw_group :=
  ⟨⟨0x34, 0x12, 0⟩, ⟨0x01, 0x40, 1⟩, ⟨0xC2, 0xCB, 2⟩, ⟨0x82, 0xC7, 3⟩⟩

/-- A group 4A that carries the MJD 0, 0:00 UTC and the offset 0. -/
def zero_clock_group : raw_group :=
  ⟨⟨0x34, 0x12, 0⟩, ⟨0x00, 0x40, 1⟩, ⟨0, 0, 2⟩, ⟨0, 0, 3⟩⟩

/-- The pending and the accepted extended country code and language code. -/
def label_part (s : rds_private_state) := (s.new_ecc, s.new_lc, s.handle.ecc, s.handle.lc)

/-- The variant code a block C carries in a group 1A: the bits 12 to 14. -/
def variant_of (rds_data : v4l2_rds_data) : Nat := (rds_data.msb >>> 4) &&& 0x07

/-- A group 1A with the variant code 0, which carries the extended country code `v`. -/
def ecc_group (v : Nat) : raw_group :=
  ⟨⟨0x34, 0x12, 0⟩, ⟨0x00, 0x10, 1⟩, ⟨v, 0x00, 2⟩, ⟨0, 0, 3⟩⟩

/-- A group 1A with the variant code 3, which carries the language code `v`. -/
def lc_group (v : Nat) : raw_group :=
  ⟨⟨0x34, 0x12, 0⟩, ⟨0x00, 0x10, 1⟩, ⟨v, 0x30, 2⟩, ⟨0, 0, 3⟩⟩

/-- The pending and the accepted program type name. -/
def ptyn_part (s : rds_private_state) :=
  (s.new_ptyn, s.new_ptyn_valid, s.handle.ptyn, s.handle.ptyn_ab_flag)

/-- The half of the program type name a block B addresses in a group 10: bit 0. -/
def ptyn_half_of (rds_data : v4l2_rds_data) : Nat := (rds_data.lsb &&& 0x1f) &&& 0x01

/-- The array `ptyn_tmp` of `rds_decode_group10`: the four characters of the group. -/
def ptyn_tmp_of (grp : v4l2_rds_group) (i : Nat) : Nat :=
  if i = 0 then grp.data_c_msb else if i = 1 then grp.data_c_lsb
  else if i = 2 then grp.data_d_msb else grp.data_d_lsb

/-- A group 10A that sends the half `half` of the name "Football" with the A/B
flag clear. -/
def ptyn_group (half : Nat) : raw_group :=
  if half % 2 = 0 then ⟨⟨0x34, 0x12, 0⟩, ⟨0x00, 0xA0, 1⟩, ⟨0x6F, 0x46, 2⟩, ⟨0x74, 0x6F, 3⟩⟩
  else ⟨⟨0x34, 0x12, 0⟩, ⟨0x01, 0xA0, 1⟩, ⟨0x61, 0x62, 2⟩, ⟨0x6C, 0x6C, 3⟩⟩

/-- The name "Football". -/
def sample_ptyn (j : Nat) : Nat :=
  if j = 0 then 0x46 else if j = 1 then 0x6F else if j = 2 then 0x6F else if j = 3 then 0x74
  else if j = 4 then 0x62 else if j = 5 then 0x61 else if j = 6 then 0x6C else 0x6C

/-- The sum of the sixteen counters `group_type_cnt`. -/
def type_cnt_sum (rds_stats : v4l2_rds_statistics) : Nat :=
  ((List.range 16).map rds_stats.group_type_cnt).sum

/-- Every block of the raw buffer holds bytes. -/
def raw_bytes (s : rds_private_state) : Prop := ∀ j, is_bytes (s.rds_data_raw j)

/-- The block a call ingests holds bytes, as every `struct v4l2_rds_data` does. -/
def call_bytes : rds_call → Prop
  | rds_call.add rds_data => is_bytes rds_data
  | rds_call.reset _ => True

instance call_bytes_decidable (c : rds_call) : Decidable (call_bytes c) := by
  cases c with
  | add rds_data => exact (inferInstance : Decidable (is_bytes rds_data))
  | reset f => exact (inferInstance : Decidable True)

/-- What the group counters satisfy after `n` calls: the raw buffer holds bytes, the
sum of the sixteen type counters is the group counter modulo 2^32, and the two are
equal and at most `n` as long as `n` is below 2^32. -/
def cnt_inv (s : rds_private_state) (n : Nat) : Prop :=
  raw_bytes s ∧
  type_cnt_sum s.handle.rds_statistics % 2 ^ 32 = s.handle.rds_statistics.group_cnt ∧
  (n < 2 ^ 32 →
    type_cnt_sum s.handle.rds_statistics = s.handle.rds_statistics.group_cnt ∧
    s.handle.rds_statistics.group_cnt ≤ n)

/-- A group 5A, for which no decoder is registered. -/
def plain_group : raw_group :=
  ⟨⟨0x34, 0x12, 0⟩, ⟨0x00, 0x50, 1⟩, ⟨0x11, 0x22, 2⟩, ⟨0x33, 0x44, 3⟩⟩

/-- The calls that ingest a group 2A and a group 5A, reset the decoder without its
counters and ingest a group 2A again. -/
def sample_calls : List rds_call :=
  group_calls [test_group_0, plain_group] ++ [rds_call.reset false] ++
    group_calls [test_group_0]

/-- The public fields that `updated_fields` reports. -/
inductive pub_field where
  | pi | pty | ps | ptyn | rt | tp | ta | ms | di | ecc | lc | time | af
deriving DecidableEq, Repr

/-- The bit of `updated_fields` that stands for a public field. -/
def field_mask : pub_field → Nat
  | pub_field.pi => V4L2_RDS_PI
  | pub_field.pty => V4L2_RDS_PTY
  | pub_field.ps => V4L2_RDS_PS
  | pub_field.ptyn => V4L2_RDS_PTYN
  | pub_field.rt => V4L2_RDS_RT
  | pub_field.tp => V4L2_RDS_TP
  | pub_field.ta => V4L2_RDS_TA
  | pub_field.ms => V4L2_RDS_MS
  | pub_field.di => V4L2_RDS_DI
  | pub_field.ecc => V4L2_RDS_ECC
  | pub_field.lc => V4L2_RDS_LC
  | pub_field.time => V4L2_RDS_TIME
  | pub_field.af => V4L2_RDS_AF

/-- The public field has the same value in the snapshots `h` and `h'`; for the AF list
the value is the number of stored frequencies and the frequencies. -/
def field_same : pub_field → v4l2_rds → v4l2_rds → Prop
  | pub_field.pi, h, h' => h'.pi = h.pi
  | pub_field.pty, h, h' => h'.pty = h.pty
  | pub_field.ps, h, h' => h'.ps = h.ps
  | pub_field.ptyn, h, h' => h'.ptyn = h.ptyn
  | pub_field.rt, h, h' => h'.rt = h.rt
  | pub_field.tp, h, h' => h'.tp = h.tp
  | pub_field.ta, h, h' => h'.ta = h.ta
  | pub_field.ms, h, h' => h'.ms = h.ms
  | pub_field.di, h, h' => h'.di = h.di
  | pub_field.ecc, h, h' => h'.ecc = h.ecc
  | pub_field.lc, h, h' => h'.lc = h.lc
  | pub_field.time, h, h' => h'.time = h.time
  | pub_field.af, h, h' => h'.rds_af.size = h.rds_af.size ∧ h'.rds_af.af = h.rds_af.af

/-- The bitset `u` names every public field whose value differs between the states
`s` and `s'`. -/
def reports (u : Nat) (s s' : rds_private_state) : Prop :=
  ∀ f, ¬ field_same f s.handle s'.handle → bit_set u (field_mask f)

/-- The values of the public fields of a snapshot. -/
def pub_part (h : v4l2_rds) :=
  (h.pi, h.pty, h.ps, h.ptyn, h.rt, h.tp, h.ta, h.ms, h.di, h.ecc, h.lc, h.time,
    h.rds_af.size, h.rds_af.af)

/-- The cells of an array beyond its first `n`. -/
def outside {α : Type} (n : Nat) (a : Nat → α) : Nat → α := fun i => a (n + i)

/-- The cells beyond the bounds of the arrays the decoder indexes: `new_ps[8]`,
`new_ps_valid[8]`, `ps`, `new_rt[64]`, `rt`, the halves of `new_ptyn[2][4]`,
`new_ptyn_valid[2]`, `ptyn`, `group_type_cnt[16]`, the AF list, the ODA list and
`rds_data_raw[4]`. -/
def out_part (s : rds_private_state) :=
  (outside 8 s.new_ps, outside 8 s.new_ps_valid, outside 8 s.handle.ps,
    outside 64 s.new_rt, outside 64 s.handle.rt,
    outside 2 s.new_ptyn, outside 2 s.new_ptyn_valid, outside 8 s.handle.ptyn,
    outside 16 s.handle.rds_statistics.group_type_cnt,
    outside MAX_AF_CNT s.handle.rds_af.af, outside MAX_ODA_CNT s.handle.rds_oda.oda,
    outside 4 s.rds_data_raw)

/-- The bits that `updated_fields` is made of. -/
def field_bits : Nat :=
  V4L2_RDS_PI ||| V4L2_RDS_PTY ||| V4L2_RDS_TP ||| V4L2_RDS_PS ||| V4L2_RDS_TA |||
  V4L2_RDS_DI ||| V4L2_RDS_MS ||| V4L2_RDS_PTYN ||| V4L2_RDS_RT ||| V4L2_RDS_TIME |||
  V4L2_RDS_AF ||| V4L2_RDS_ECC ||| V4L2_RDS_LC ||| V4L2_RDS_ODA

/-- What the indices of the group type need in every reachable state: the raw buffer
holds bytes and the group type of the last group is below 16. -/
def bounds_inv (s : rds_private_state) : Prop :=
  raw_bytes s ∧ s.rds_group.group_id < 16

/-- A block with the reserved block id 7 and both flag bits. -/
def reserved_block : v4l2_rds_data := ⟨0xFF, 0xFF, 0xC7⟩

/-- The table `e_lut` of `v4l2_rds_get_country_str`: the European countries, one row
per low nibble of the ECC (0 to 4) and one column per country code (0 to 15); `none`
is the entry `NULL`. -/
def e_lut : List (List (Option String)) :=
  [[none, some "DE", some "DZ", some "AD", some "IL", some "IT", some "BE", some "RU",
      some "PS", some "AL", some "AT", some "HU", some "MT", some "DE", none, some "EG"],
    [none, some "GR", some "CY", some "SM", some "CH", some "JO", some "FI", some "LU",
      some "BG", some "DK", some "GI", some "IQ", some "GB", some "LY", some "RO", some "FR"],
    [none, some "MA", some "CZ", some "PL", some "VA", some "SK", some "SY", some "TN",
      none, some "LI", some "IS", some "MC", some "LT", some "RS", some "ES", some "NO"],
    [none, some "ME", some "IE", some "TR", some "MK", none, none, none,
      some "NL", some "LV", some "LB", some "AZ", some "HR", some "KZ", some "SE", some "BY"],
    [none, some "MD", some "EE", some "KG", none, none, some "UA", some "-",
      some "PT", some "SI", some "AM", none, some "GE", none, none, some "BA"]]

/-- The access `lut[i][j]` to a table of strings, for indices within the table. -/
def lut_cell (lut : List (List (Option String))) (i j : Nat) : Option String :=
  (lut.getD i []).getD j none

/-- The accessor `v4l2_rds_get_country_str`: the country of the ECC and of the high
nibble of the PI code; `none` is the return value `NULL`.  The three locals are
`uint8_t`. -/
def v4l2_rds_get_country_str (handle : v4l2_rds) : Option String :=
  let ecc_h := (handle.ecc >>> 4) % 256
  let ecc_l := (handle.ecc &&& 0x0f) % 256
  let country_code := (handle.pi >>> 12) % 256
  if ecc_h = 0x0e ∧ ecc_l ≤ 0x04 then lut_cell e_lut ecc_l country_code
  else some "Unknown"

/-- The table `language_lut` of `rds_language_lut`; `none` is the entry `NULL`. -/
def language_lut : List (Option String) :=
  [some "Unknown", some "Albanian", some "Breton", some "Catalan",
    some "Croatian", some "Welsh", some "Czech", some "Danish",
    some "German", some "English", some "Spanish", some "Esperanto",
    some "Estonian", some "Basque", some "Faroese", some "French",
    some "Frisian", some "Irish", some "Gaelic", some "Galician",
    some "Icelandic", some "Italian", some "Lappish", some "Latin",
    some "Latvian", some "Luxembourgian", some "Lithuanian", some "Hungarian",
    some "Maltese", some "Dutch", some "Norwegian", some "Occitan",
    some "Polish", some "Portuguese", some "Romanian", some "Ramansh",
    some "Serbian", some "Slovak", some "Slovene", some "Finnish",
    some "Swedish", some "Turkish", some "Flemish", some "Walloon",
    none, none, none, none, none, none, none, none,
    none, none, none, none, none, none, none, none,
    none, none, none, none, none, none, none, none,
    none, some "Zulu", some "Vietnamese", some "Uzbek",
    some "Urdu", some "Ukrainian", some "Thai", some "Telugu",
    some "Tatar", some "Tamil", some "Tadzhik", some "Swahili",
    some "Sranan Tongo", some "Somali", some "Sinhalese", some "Shona",
    some "Serbo-Croat", some "Ruthenian", some "Russian", some "Quechua",
    some "Pushtu", some "Punjabi", some "Persian", some "Papamiento",
    some "Oriya", some "Nepali", some "Ndebele", some "Marathi",
    some "Moldavian", some "Malaysian", some "Malagasay", some "Macedonian",
    some "Laotian", some "Korean", some "Khmer", some "Kazahkh",
    some "Kannada", some "Japanese", some "Indonesian", some "Hindi",
    some "Hebrew", some "Hausa", some "Gurani", some "Gujurati",
    some "Greek", some "Georgian", some "Fulani", some "Dani",
    some "Churash", some "Chinese", some "Burmese", some "Bulgarian",
    some "Bengali", some "Belorussian", some "Bambora", some "Azerbaijani",
    some "Assamese", some "Armenian", some "Arabic", some "Amharic"]

/-- The function `rds_language_lut`: values above 127 and the undefined entries of
the table are filtered to "Unknown". -/
def rds_language_lut (lc : Nat) : Option String :=
  let max_lc := 127
  let language := if lc > max_lc then some "Unknown" else language_lut.getD lc none
  if language.isNone then some "Unknown" else language

/-- The accessor `v4l2_rds_get_language_str`. -/
def v4l2_rds_get_language_str (handle : v4l2_rds) : Option String :=
  rds_language_lut handle.lc

/-- A snapshot with the given `ecc`, `pi` and `lc`, all other fields zero. -/
def sample_handle (ecc pi lc : Nat) : v4l2_rds :=
  { zero_handle with ecc := ecc, pi := pi, lc := lc }

/-- What the block accounting satisfies after `n` calls: the assembler state is one of
the four states of `enum rds_state`, and as long as `n` is below 2^32 the blocks of
the completed groups, the group errors and the blocks under assembly are counted in
`block_cnt`, which is at most `n`. -/
def acct_inv (s : rds_private_state) (n : Nat) : Prop :=
  s.decode_state ≤ 3 ∧
  (n < 2 ^ 32 →
    4 * s.handle.rds_statistics.group_cnt + s.handle.rds_statistics.group_error_cnt +
      s.decode_state ≤ s.handle.rds_statistics.block_cnt ∧
    s.handle.rds_statistics.block_cnt ≤ n)

/-- A group 10A that sends four characters 0x00 for the half `half` of the name, with
the A/B flag clear. -/
def zero_ptyn_group (half : Nat) : raw_group :=
  ⟨⟨0x34, 0x12, 0⟩, ⟨half % 2, 0xA0, 1⟩, ⟨0, 0, 2⟩, ⟨0, 0, 3⟩⟩

/-! ## Bit sets -/

theorem and_or_r (a b m : Nat) : (a ||| b) &&& m = (a &&& m) ||| (b &&& m) := by
  apply Nat.eq_of_testBit_eq
  intro i
  simp only [Nat.testBit_and, Nat.testBit_or]
  cases a.testBit i <;> cases b.testBit i <;> cases m.testBit i <;> rfl

theorem or_eq_zero (a b : Nat) : a ||| b = 0 ↔ a = 0 ∧ b = 0 := by
  constructor
  · intro h
    have key : ∀ i, (a.testBit i || b.testBit i) = false := by
      intro i
      rw [← Nat.testBit_or, h, Nat.zero_testBit]
    constructor
    · apply Nat.eq_of_testBit_eq
      intro i
      have := key i
      rw [Nat.zero_testBit]
      cases h1 : a.testBit i <;> simp_all
    · apply Nat.eq_of_testBit_eq
      intro i
      have := key i
      rw [Nat.zero_testBit]
      cases h1 : b.testBit i <;> simp_all
  · rintro ⟨rfl, rfl⟩
    rfl

theorem bit_set_or (a b m : Nat) : bit_set (a ||| b) m ↔ bit_set a m ∨ bit_set b m := by
  unfold bit_set
  rw [and_or_r, Ne, or_eq_zero]
  tauto

theorem bit_set_or_self (v m : Nat) (hm : m ≠ 0) : bit_set (v ||| m) m := by
  rw [bit_set_or]
  right
  unfold bit_set
  rwa [Nat.and_self]

theorem and_or_disj (v c m : Nat) (h : c &&& m = 0) : (v ||| c) &&& m = v &&& m := by
  rw [and_or_r, h, Nat.or_zero]

theorem and_clear (v c m : Nat) (hm : m &&& 0xFFFFFFFF = m) (h : c &&& m = 0) :
    (v &&& (0xFFFFFFFF ^^^ c)) &&& m = v &&& m := by
  rw [Nat.and_assoc, Nat.and_xor_distrib_right, h, Nat.and_comm 0xFFFFFFFF m, hm]
  simp

/-! ## Frame: what the group decoders leave alone -/

theorem core_ta_ms (s : rds_private_state) : core (rds_decode_ta_ms s).2 = core s := by
  unfold rds_decode_ta_ms
  simp only []
  split_ifs <;> rfl

theorem core_add_ps (s : rds_private_state) (p c : Nat) :
    core (rds_add_ps s p c).2 = core s := by
  unfold rds_add_ps
  simp only []
  split_ifs <;> rfl

theorem core_ps (acc : Nat × rds_private_state) : core (rds_decode_ps acc).2 = core acc.2 := by
  have h := (core_add_ps (rds_add_ps acc.2 ((acc.2.rds_group.data_b_lsb &&& 3) * 2)
    acc.2.rds_group.data_d_msb).2 ((acc.2.rds_group.data_b_lsb &&& 3) * 2 + 1)
    acc.2.rds_group.data_d_lsb).trans (core_add_ps acc.2 _ _)
  unfold rds_decode_ps
  simp only []
  split_ifs <;> exact h

theorem core_di (acc : Nat × rds_private_state) : core (rds_decode_di acc).2 = core acc.2 := by
  unfold rds_decode_di
  simp only []
  split_ifs <;> rfl

theorem core_add_af (s : rds_private_state) : core (rds_add_af s).2 = core s := by
  unfold rds_add_af
  simp only []
  split_ifs <;> rfl

theorem core_af (acc : Nat × rds_private_state) : core (rds_decode_af acc).2 = core acc.2 := by
  unfold rds_decode_af
  simp only []
  split_ifs <;> simp only [core_add_af]

theorem core_group0 (s : rds_private_state) : core (rds_decode_group0 s).2 = core s := by
  unfold rds_decode_group0
  rw [core_af, core_di, core_ps, core_ta_ms]

theorem core_group1 (s : rds_private_state) : core (rds_decode_group1 s).2 = core s := by
  unfold rds_decode_group1
  simp only []
  split_ifs <;> rfl

theorem core_rt_flag (s : rds_private_state) : core (rds_decode_rt_flag s).2 = core s := by
  unfold rds_decode_rt_flag
  simp only []
  split_ifs <;> rfl

theorem core_rt_segment (acc : Nat × rds_private_state) :
    core (rds_decode_rt_segment acc).2 = core acc.2 := by
  unfold rds_decode_rt_segment
  simp only []
  split_ifs <;> rfl

theorem core_cr_step (acc : Nat × rds_private_state) (i : Nat) :
    core (rds_rt_cr_step acc i).2 = core acc.2 := by
  unfold rds_rt_cr_step
  simp only []
  split_ifs <;> rfl

theorem core_cr_loop (l : List Nat) (acc : Nat × rds_private_state) :
    core (l.foldl rds_rt_cr_step acc).2 = core acc.2 := by
  induction l generalizing acc with
  | nil => rfl
  | cons i l ih => rw [List.foldl_cons, ih, core_cr_step]

theorem core_group2 (s : rds_private_state) : core (rds_decode_group2 s).2 = core s := by
  unfold rds_decode_group2
  rw [core_cr_loop, core_rt_segment, core_rt_flag]

theorem core_group3 (s : rds_private_state) : core (rds_decode_group3 s).2 = core s := by
  unfold rds_decode_group3 rds_add_oda
  simp only []
  split_ifs <;> rfl

theorem core_group4 (s : rds_private_state) : core (rds_decode_group4 s).2 = core s := by
  unfold rds_decode_group4
  simp only []
  split_ifs <;> rfl

theorem core_ptyn_flag (s : rds_private_state) :
    core (rds_decode_ptyn_flag s).2 = core s := by
  unfold rds_decode_ptyn_flag
  simp only []
  split_ifs <;> rfl

theorem core_ptyn_half (acc : Nat × rds_private_state) :
    core (rds_decode_ptyn_half acc).2 = core acc.2 := by
  unfold rds_decode_ptyn_half
  simp only []
  split_ifs <;> rfl

theorem core_ptyn_accept (acc : Nat × rds_private_state) :
    core (rds_decode_ptyn_accept acc).2 = core acc.2 := by
  unfold rds_decode_ptyn_accept
  simp only []
  split_ifs <;> rfl

theorem core_group10 (s : rds_private_state) : core (rds_decode_group10 s).2 = core s := by
  unfold rds_decode_group10
  split_ifs
  · rfl
  · rw [core_ptyn_accept, core_ptyn_half, core_ptyn_flag]

theorem core_decode_group (s : rds_private_state) : core (rds_decode_group s).2 = core s := by
  unfold rds_decode_group
  simp only []
  split_ifs
  · rw [core_group0]; rfl
  · rw [core_group1]; rfl
  · rw [core_group2]; rfl
  · rw [core_group3]; rfl
  · rw [core_group4]; rfl
  · rw [core_group10]; rfl
  · rfl

/-! ## Frame: the bits of `valid_fields` a decoder leaves alone -/

theorem and_or_split (a b m : Nat) (h : (a ||| b) &&& m = 0) : a &&& m = 0 ∧ b &&& m = 0 := by
  rw [and_or_r, or_eq_zero] at h
  exact h

theorem valid_ta_ms (s : rds_private_state) (m : Nat)
    (h1 : V4L2_RDS_TA &&& m = 0) (h2 : V4L2_RDS_MS &&& m = 0) :
    (rds_decode_ta_ms s).2.handle.valid_fields &&& m = s.handle.valid_fields &&& m := by
  unfold rds_decode_ta_ms
  simp only []
  split_ifs <;> simp only [and_or_disj _ _ _ h1, and_or_disj _ _ _ h2]

theorem add_ps_handle (s : rds_private_state) (p c : Nat) :
    (rds_add_ps s p c).2.handle = s.handle := by
  unfold rds_add_ps
  simp only []
  split_ifs <;> rfl

theorem valid_ps (acc : Nat × rds_private_state) (m : Nat) (h1 : V4L2_RDS_PS &&& m = 0) :
    (rds_decode_ps acc).2.handle.valid_fields &&& m = acc.2.handle.valid_fields &&& m := by
  unfold rds_decode_ps
  simp only []
  split_ifs <;> simp only [and_or_disj _ _ _ h1, add_ps_handle]

theorem valid_di (acc : Nat × rds_private_state) (m : Nat) (h1 : V4L2_RDS_DI &&& m = 0) :
    (rds_decode_di acc).2.handle.valid_fields &&& m = acc.2.handle.valid_fields &&& m := by
  unfold rds_decode_di
  simp only []
  split_ifs <;> simp only [and_or_disj _ _ _ h1]

theorem valid_add_af (s : rds_private_state) (m : Nat) (h1 : V4L2_RDS_AF &&& m = 0) :
    (rds_add_af s).2.handle.valid_fields &&& m = s.handle.valid_fields &&& m := by
  unfold rds_add_af
  simp only []
  split_ifs <;> simp only [and_or_disj _ _ _ h1]

theorem valid_af (acc : Nat × rds_private_state) (m : Nat) (h1 : V4L2_RDS_AF &&& m = 0) :
    (rds_decode_af acc).2.handle.valid_fields &&& m = acc.2.handle.valid_fields &&& m := by
  unfold rds_decode_af
  simp only []
  split_ifs <;> simp only [valid_add_af _ _ h1]

theorem valid_group1 (s : rds_private_state) (m : Nat)
    (h1 : V4L2_RDS_ECC &&& m = 0) (h2 : V4L2_RDS_LC &&& m = 0) :
    (rds_decode_group1 s).2.handle.valid_fields &&& m = s.handle.valid_fields &&& m := by
  unfold rds_decode_group1
  simp only []
  split_ifs <;> simp only [and_or_disj _ _ _ h1, and_or_disj _ _ _ h2]

theorem valid_rt_flag (s : rds_private_state) (m : Nat) (hm : m &&& 0xFFFFFFFF = m)
    (h1 : V4L2_RDS_RT &&& m = 0) :
    (rds_decode_rt_flag s).2.handle.valid_fields &&& m = s.handle.valid_fields &&& m := by
  unfold rds_decode_rt_flag
  simp only []
  split_ifs <;> simp only [and_clear _ _ _ hm h1]

theorem valid_rt_segment (acc : Nat × rds_private_state) (m : Nat)
    (h1 : V4L2_RDS_RT &&& m = 0) :
    (rds_decode_rt_segment acc).2.handle.valid_fields &&& m =
      acc.2.handle.valid_fields &&& m := by
  unfold rds_decode_rt_segment
  simp only []
  split_ifs <;> simp only [and_or_disj _ _ _ h1]

theorem valid_cr_step (acc : Nat × rds_private_state) (i m : Nat)
    (h1 : V4L2_RDS_RT &&& m = 0) :
    (rds_rt_cr_step acc i).2.handle.valid_fields &&& m = acc.2.handle.valid_fields &&& m := by
  unfold rds_rt_cr_step
  simp only []
  split_ifs <;> simp only [and_or_disj _ _ _ h1]

theorem valid_cr_loop (l : List Nat) (acc : Nat × rds_private_state) (m : Nat)
    (h1 : V4L2_RDS_RT &&& m = 0) :
    (l.foldl rds_rt_cr_step acc).2.handle.valid_fields &&& m =
      acc.2.handle.valid_fields &&& m := by
  induction l generalizing acc with
  | nil => rfl
  | cons i l ih => rw [List.foldl_cons, ih, valid_cr_step _ _ _ h1]

theorem valid_group3 (s : rds_private_state) :
    (rds_decode_group3 s).2.handle.valid_fields = s.handle.valid_fields := by
  unfold rds_decode_group3 rds_add_oda
  simp only []
  split_ifs <;> rfl

theorem valid_group4 (s : rds_private_state) (m : Nat) (h1 : V4L2_RDS_TIME &&& m = 0) :
    (rds_decode_group4 s).2.handle.valid_fields &&& m = s.handle.valid_fields &&& m := by
  unfold rds_decode_group4
  simp only []
  split_ifs <;> simp only [and_or_disj _ _ _ h1]

theorem valid_ptyn_flag (s : rds_private_state) (m : Nat) (hm : m &&& 0xFFFFFFFF = m)
    (h1 : V4L2_RDS_PTYN &&& m = 0) :
    (rds_decode_ptyn_flag s).2.handle.valid_fields &&& m = s.handle.valid_fields &&& m := by
  unfold rds_decode_ptyn_flag
  simp only []
  split_ifs <;> simp only [and_clear _ _ _ hm h1]

theorem valid_ptyn_half (acc : Nat × rds_private_state) :
    (rds_decode_ptyn_half acc).2.handle.valid_fields = acc.2.handle.valid_fields := by
  unfold rds_decode_ptyn_half
  simp only []
  split_ifs <;> rfl

theorem valid_ptyn_accept (acc : Nat × rds_private_state) (m : Nat)
    (h1 : V4L2_RDS_PTYN &&& m = 0) :
    (rds_decode_ptyn_accept acc).2.handle.valid_fields &&& m =
      acc.2.handle.valid_fields &&& m := by
  unfold rds_decode_ptyn_accept
  simp only []
  split_ifs <;> simp only [and_or_disj _ _ _ h1]

/-! ## The assembler -/

theorem block_id_of_has_id (b : v4l2_rds_data) (id : Nat) (h : has_id b id) :
    block_id_of b = (id : Int) := by
  unfold block_id_of
  rw [if_neg (by simpa using h.1), h.2]

theorem has_id_of_block_id (b : v4l2_rds_data) (id : Nat) (h : block_id_of b = (id : Int)) :
    has_id b id := by
  unfold block_id_of at h
  unfold has_id
  split_ifs at h with he
  exact ⟨by simpa using he, by exact_mod_cast h⟩

theorem count_block_frame (st : v4l2_rds_statistics) (b : v4l2_rds_data) :
    (count_block st b).group_cnt = st.group_cnt ∧
    (count_block st b).group_error_cnt = st.group_error_cnt ∧
    (count_block st b).group_type_cnt = st.group_type_cnt := by
  unfold count_block
  simp only []
  split_ifs <;> exact ⟨rfl, rfl, rfl⟩

/-- Any ingest that does not complete a group returns 0 and changes nothing but the
counters, the assembler state and the raw buffer. -/
theorem add_incomplete (s : rds_private_state) (b : v4l2_rds_data)
    (h : ¬ (s.decode_state = RDS_C_RECEIVED ∧ has_id b 3)) :
    (v4l2_rds_add s b).1 = 0 ∧
    { (v4l2_rds_add s b).2 with
      decode_state := s.decode_state,
      rds_data_raw := s.rds_data_raw,
      handle := { (v4l2_rds_add s b).2.handle with
        rds_statistics := s.handle.rds_statistics } } = s := by
  unfold v4l2_rds_add
  simp only []
  split_ifs with h0 h1 h2 h3 h4 h5 h6 h7
  all_goals first
    | exact ⟨rfl, rfl⟩
    | exact absurd ⟨h6, has_id_of_block_id b 3 h7⟩ h

theorem add_a (s : rds_private_state) (a : v4l2_rds_data)
    (h0 : s.decode_state = RDS_EMPTY) (ha : has_id a 0) :
    v4l2_rds_add s a = (0, { s with
      decode_state := RDS_A_RECEIVED,
      rds_data_raw := arr_set (raw_clear s.rds_data_raw) 0 a,
      handle := { s.handle with
        rds_statistics := count_block s.handle.rds_statistics a } }) := by
  have ea := block_id_of_has_id _ _ ha
  unfold v4l2_rds_add
  simp [h0, ea]

theorem add_b (t : rds_private_state) (b : v4l2_rds_data)
    (ht : t.decode_state = RDS_A_RECEIVED) (hb : has_id b 1) :
    v4l2_rds_add t b = (0, { t with
      decode_state := RDS_B_RECEIVED,
      rds_data_raw := arr_set t.rds_data_raw 1 b,
      handle := { t.handle with
        rds_statistics := count_block t.handle.rds_statistics b } }) := by
  have eb := block_id_of_has_id _ _ hb
  unfold v4l2_rds_add
  simp [ht, eb, RDS_A_RECEIVED, RDS_EMPTY]

theorem add_c (t : rds_private_state) (c : v4l2_rds_data)
    (ht : t.decode_state = RDS_B_RECEIVED) (hc : has_id c 2 ∨ has_id c 4) :
    v4l2_rds_add t c = (0, { t with
      decode_state := RDS_C_RECEIVED,
      rds_data_raw := arr_set t.rds_data_raw 2 c,
      handle := { t.handle with
        rds_statistics := count_block t.handle.rds_statistics c } }) := by
  have ec : block_id_of c = 2 ∨ block_id_of c = 4 := by
    rcases hc with hc | hc
    · left; exact block_id_of_has_id _ _ hc
    · right; exact block_id_of_has_id _ _ hc
  unfold v4l2_rds_add
  simp [ht, ec, RDS_A_RECEIVED, RDS_B_RECEIVED, RDS_EMPTY]

theorem add_d (t : rds_private_state) (d : v4l2_rds_data)
    (ht : t.decode_state = RDS_C_RECEIVED) (hd : has_id d 3) :
    v4l2_rds_add t d = decode_complete { t with
      decode_state := RDS_EMPTY,
      rds_data_raw := arr_set t.rds_data_raw 3 d,
      handle := { t.handle with rds_statistics :=
        { count_block t.handle.rds_statistics d with
          group_cnt := inc32 (count_block t.handle.rds_statistics d).group_cnt } } } := by
  have ed := block_id_of_has_id _ _ hd
  unfold v4l2_rds_add
  simp [ht, ed, RDS_A_RECEIVED, RDS_B_RECEIVED, RDS_C_RECEIVED, RDS_EMPTY]

/-- Four blocks A, B, C, D ingested from an empty assembler run the group decoding
once, on the state `group_ready`. -/
theorem add_group_eq (s : rds_private_state) (g : raw_group)
    (h0 : s.decode_state = RDS_EMPTY) (hg : is_group g) :
    add_group s g = decode_complete (group_ready s g) := by
  obtain ⟨ha, hb, hc, hd⟩ := hg
  unfold add_group add_blocks
  simp only [List.foldl_cons, List.foldl_nil]
  rw [add_a s g.a h0 ha, add_b _ g.b rfl hb, add_c _ g.c rfl hc, add_d _ g.d rfl hd]
  rfl

/-- A block that is flagged uncorrectable or has an unexpected id is counted as a
group error and empties the assembler. -/
theorem add_mismatch (s : rds_private_state) (b : v4l2_rds_data)
    (hb : b.block &&& V4L2_RDS_BLOCK_ERROR ≠ 0 ∨
      ¬ expected_id s.decode_state (b.block &&& V4L2_RDS_BLOCK_MSK)) :
    v4l2_rds_add s b = (0, group_error
      { s with handle := { s.handle with
          rds_statistics := count_block s.handle.rds_statistics b } } RDS_EMPTY) := by
  have hid : ¬ expected_id s.decode_state (block_id_of b).toNat ∨ block_id_of b = -1 := by
    unfold block_id_of
    by_cases he : b.block &&& V4L2_RDS_BLOCK_ERROR ≠ 0
    · right; rw [if_pos he]
    · left
      rw [if_neg he]
      rcases hb with hb | hb
      · exact absurd hb he
      · simpa using hb
  have hnn : block_id_of b = -1 ∨ block_id_of b = ((block_id_of b).toNat : Int) := by
    unfold block_id_of
    split_ifs
    · left; rfl
    · right; simp
  unfold v4l2_rds_add
  simp only []
  unfold expected_id at hid
  split_ifs with h0 h1 h2 h3 h4 h5 h6 h7
  · exfalso
    rcases hid with hid | hid
    · apply hid; left; exact ⟨h0, by omega⟩
    · omega
  · unfold group_error; simp only [h0]
  · exfalso
    rcases hid with hid | hid
    · apply hid; right; left; exact ⟨h2, by omega⟩
    · omega
  · rfl
  · exfalso
    rcases hid with hid | hid
    · apply hid; right; right; left; exact ⟨h4, by omega⟩
    · omega
  · rfl
  · exfalso
    rcases hid with hid | hid
    · apply hid; right; right; right; exact ⟨h6, by omega⟩
    · omega
  · rfl
  · rfl

/-! ## Decoding of a complete group -/

theorem core_fields (s s' : rds_private_state) (h : core s' = core s) :
    s'.rds_group = s.rds_group ∧ s'.decode_state = s.decode_state ∧
    s'.rds_data_raw = s.rds_data_raw ∧ s'.new_pi = s.new_pi ∧ s'.new_pty = s.new_pty ∧
    s'.handle.pi = s.handle.pi ∧ s'.handle.pty = s.handle.pty ∧ s'.handle.tp = s.handle.tp ∧
    s'.handle.is_rbds = s.handle.is_rbds ∧
    s'.handle.rds_statistics.block_cnt = s.handle.rds_statistics.block_cnt ∧
    s'.handle.rds_statistics.group_cnt = s.handle.rds_statistics.group_cnt ∧
    s'.handle.rds_statistics.block_error_cnt = s.handle.rds_statistics.block_error_cnt ∧
    s'.handle.rds_statistics.group_error_cnt = s.handle.rds_statistics.group_error_cnt ∧
    s'.handle.rds_statistics.block_corrected_cnt =
      s.handle.rds_statistics.block_corrected_cnt := by
  simpa only [core, Prod.mk.injEq] using h

theorem decode_complete_state (t : rds_private_state) :
    (decode_complete t).2 = (rds_decode_group (decode_abcd t)).2 := rfl

theorem decode_complete_core (t : rds_private_state) :
    core (decode_complete t).2 = core (decode_abcd t) := by
  rw [decode_complete_state, core_decode_group]

theorem abcd_group (t : rds_private_state) :
    (decode_abcd t).rds_group =
      { pi := pi_of (t.rds_data_raw 0),
        group_version := if (t.rds_data_raw 1).msb &&& 0x08 ≠ 0 then CHAR_B else CHAR_A,
        group_id := group_id_of (t.rds_data_raw 1),
        data_b_lsb := (t.rds_data_raw 1).lsb &&& 0x1f,
        data_c_msb := (t.rds_data_raw 2).msb,
        data_c_lsb := (t.rds_data_raw 2).lsb,
        data_d_msb := (t.rds_data_raw 3).msb,
        data_d_lsb := (t.rds_data_raw 3).lsb } := by
  unfold decode_abcd rds_decode_d rds_decode_c rds_decode_b rds_decode_a
  simp only []
  split_ifs <;> rfl

theorem abcd_frame (t : rds_private_state) :
    (decode_abcd t).decode_state = t.decode_state ∧
    (decode_abcd t).rds_data_raw = t.rds_data_raw ∧
    (decode_abcd t).handle.rds_statistics = t.handle.rds_statistics ∧
    ps_core (decode_abcd t) = ps_core t := by
  unfold decode_abcd rds_decode_d rds_decode_c rds_decode_b rds_decode_a
  simp only []
  split_ifs <;> exact ⟨rfl, rfl, rfl, rfl⟩

theorem pi_of_bytes (a : v4l2_rds_data) (h : is_bytes a) :
    pi_of a = (a.msb <<< 8) ||| a.lsb := by
  unfold pi_of
  apply Nat.mod_eq_of_lt
  have h1 : a.msb <<< 8 < 2 ^ 16 := by
    rw [Nat.shiftLeft_eq]
    have := h.2.1
    omega
  have h2 : a.lsb < 2 ^ 16 := by
    have := h.1
    omega
  exact Nat.or_lt_two_pow h1 h2

theorem group_id_of_bytes (b : v4l2_rds_data) (h : is_bytes b) :
    group_id_of b = b.msb >>> 4 := by
  unfold group_id_of
  apply Nat.mod_eq_of_lt
  rw [Nat.shiftRight_eq_div_pow]
  have := h.2.1
  omega

theorem group_error_fields (t : rds_private_state) (n : Nat) :
    (group_error t n).decode_state = n ∧
    (group_error t n).handle.rds_statistics.group_error_cnt =
      inc32 t.handle.rds_statistics.group_error_cnt ∧
    (group_error t n).handle.rds_statistics.group_cnt = t.handle.rds_statistics.group_cnt :=
  ⟨rfl, rfl, rfl⟩

theorem add_mismatch_fields (s : rds_private_state) (b : v4l2_rds_data)
    (hb : b.block &&& V4L2_RDS_BLOCK_ERROR ≠ 0 ∨
      ¬ expected_id s.decode_state (b.block &&& V4L2_RDS_BLOCK_MSK)) :
    (v4l2_rds_add s b).1 = 0 ∧
    (v4l2_rds_add s b).2.decode_state = RDS_EMPTY ∧
    (v4l2_rds_add s b).2.handle.rds_statistics.group_error_cnt =
      (s.handle.rds_statistics.group_error_cnt + 1) % 2 ^ 32 ∧
    (v4l2_rds_add s b).2.handle.rds_statistics.group_cnt =
      s.handle.rds_statistics.group_cnt := by
  rw [add_mismatch s b hb]
  refine ⟨rfl, rfl, ?_, ?_⟩
  · show inc32 (count_block _ b).group_error_cnt = _
    rw [(count_block_frame _ b).2.1]
    rfl
  · show (count_block _ b).group_cnt = _
    rw [(count_block_frame _ b).1]

/-! ## PI and PTY of a complete group -/

theorem valid_group0 (s : rds_private_state) (m : Nat)
    (h1 : V4L2_RDS_TA &&& m = 0) (h2 : V4L2_RDS_MS &&& m = 0) (h3 : V4L2_RDS_PS &&& m = 0)
    (h4 : V4L2_RDS_DI &&& m = 0) (h5 : V4L2_RDS_AF &&& m = 0) :
    (rds_decode_group0 s).2.handle.valid_fields &&& m = s.handle.valid_fields &&& m := by
  unfold rds_decode_group0
  rw [valid_af _ _ h5, valid_di _ _ h4, valid_ps _ _ h3, valid_ta_ms _ _ h1 h2]

theorem valid_group2 (s : rds_private_state) (m : Nat) (hm : m &&& 0xFFFFFFFF = m)
    (h1 : V4L2_RDS_RT &&& m = 0) :
    (rds_decode_group2 s).2.handle.valid_fields &&& m = s.handle.valid_fields &&& m := by
  unfold rds_decode_group2
  rw [valid_cr_loop _ _ _ h1, valid_rt_segment _ _ h1, valid_rt_flag _ _ hm h1]

theorem valid_group10 (s : rds_private_state) (m : Nat) (hm : m &&& 0xFFFFFFFF = m)
    (h1 : V4L2_RDS_PTYN &&& m = 0) :
    (rds_decode_group10 s).2.handle.valid_fields &&& m = s.handle.valid_fields &&& m := by
  unfold rds_decode_group10
  split_ifs
  · rfl
  · rw [valid_ptyn_accept _ _ h1, valid_ptyn_half, valid_ptyn_flag _ _ hm h1]

theorem valid_decode_group (s : rds_private_state) (m : Nat) (hm : m &&& 0xFFFFFFFF = m)
    (h : group_bits &&& m = 0) :
    (rds_decode_group s).2.handle.valid_fields &&& m = s.handle.valid_fields &&& m := by
  unfold group_bits at h
  obtain ⟨h, hPTYN⟩ := and_or_split _ _ _ h
  obtain ⟨h, hTIME⟩ := and_or_split _ _ _ h
  obtain ⟨h, hRT⟩ := and_or_split _ _ _ h
  obtain ⟨h, hLC⟩ := and_or_split _ _ _ h
  obtain ⟨h, hECC⟩ := and_or_split _ _ _ h
  obtain ⟨h, hAF⟩ := and_or_split _ _ _ h
  obtain ⟨h, hDI⟩ := and_or_split _ _ _ h
  obtain ⟨h, hPS⟩ := and_or_split _ _ _ h
  obtain ⟨hTA, hMS⟩ := and_or_split _ _ _ h
  unfold rds_decode_group
  simp only []
  split_ifs
  · rw [valid_group0 _ _ hTA hMS hPS hDI hAF]
  · rw [valid_group1 _ _ hECC hLC]
  · rw [valid_group2 _ _ hm hRT]
  · rw [valid_group3]
  · rw [valid_group4 _ _ hTIME]
  · rw [valid_group10 _ _ hm hPTYN]
  · rfl

theorem decode_a_fields (t : rds_private_state) (a : v4l2_rds_data) :
    (rds_decode_a t a).2.handle.pi =
      (if pi_of a ≠ t.handle.pi ∧ pi_of a = t.new_pi then pi_of a else t.handle.pi) ∧
    (rds_decode_a t a).2.new_pi =
      (if pi_of a ≠ t.handle.pi ∧ pi_of a ≠ t.new_pi then pi_of a else t.new_pi) ∧
    (rds_decode_a t a).1 =
      (if pi_of a ≠ t.handle.pi ∧ pi_of a = t.new_pi then V4L2_RDS_PI else 0) ∧
    (rds_decode_a t a).2.handle.valid_fields =
      (if pi_of a ≠ t.handle.pi ∧ pi_of a = t.new_pi then t.handle.valid_fields ||| V4L2_RDS_PI
        else t.handle.valid_fields) ∧
    (rds_decode_a t a).2.handle.pty = t.handle.pty ∧
    (rds_decode_a t a).2.new_pty = t.new_pty := by
  unfold rds_decode_a pi_of
  simp only []
  split_ifs with h1 h2 h3 <;> refine ⟨?_, ?_, ?_, ?_, rfl, rfl⟩ <;>
    first | rfl | (exact h1.2.symm)

theorem decode_b_fields (t : rds_private_state) (b : v4l2_rds_data) :
    (rds_decode_b t b).2.handle.pi = t.handle.pi ∧
    (rds_decode_b t b).2.new_pi = t.new_pi ∧
    (rds_decode_b t b).2.new_pty = pty_of b ∧
    (rds_decode_b t b).2.handle.pty =
      (if t.handle.pty ≠ pty_of b ∧ t.new_pty = pty_of b then pty_of b else t.handle.pty) ∧
    (t.handle.pty ≠ pty_of b ∧ t.new_pty = pty_of b →
      bit_set (rds_decode_b t b).1 V4L2_RDS_PTY ∧
      bit_set (rds_decode_b t b).2.handle.valid_fields V4L2_RDS_PTY) ∧
    (∀ m, V4L2_RDS_TP &&& m = 0 → V4L2_RDS_PTY &&& m = 0 →
      (rds_decode_b t b).2.handle.valid_fields &&& m = t.handle.valid_fields &&& m) := by
  have hne : V4L2_RDS_PTY ≠ 0 := by decide
  unfold rds_decode_b
  simp only []
  split_ifs <;> dsimp only at * <;> refine ⟨rfl, rfl, ?_, ?_, ?_, ?_⟩ <;>
    first
    | rfl
    | assumption
    | (intro m hm1 hm2; simp only [and_or_disj _ _ _ hm1, and_or_disj _ _ _ hm2])
    | (intro _; exact ⟨bit_set_or_self _ _ hne, bit_set_or_self _ _ hne⟩)
    | (intro h; tauto)
    | (simp_all)


theorem decode_complete_updated (t : rds_private_state) :
    (decode_complete t).1 =
      0 ||| (rds_decode_a { t with rds_group := zero_group } (t.rds_data_raw 0)).1 |||
        (rds_decode_b (rds_decode_a { t with rds_group := zero_group } (t.rds_data_raw 0)).2
          (t.rds_data_raw 1)).1 ||| (rds_decode_group (decode_abcd t)).1 := rfl

theorem decode_complete_pi (t : rds_private_state) :
    (decode_complete t).2.handle.pi =
      (if pi_of (t.rds_data_raw 0) ≠ t.handle.pi ∧ pi_of (t.rds_data_raw 0) = t.new_pi
        then pi_of (t.rds_data_raw 0) else t.handle.pi) ∧
    (decode_complete t).2.new_pi =
      (if pi_of (t.rds_data_raw 0) ≠ t.handle.pi ∧ pi_of (t.rds_data_raw 0) ≠ t.new_pi
        then pi_of (t.rds_data_raw 0) else t.new_pi) ∧
    (pi_of (t.rds_data_raw 0) ≠ t.handle.pi ∧ pi_of (t.rds_data_raw 0) = t.new_pi →
      bit_set (decode_complete t).1 V4L2_RDS_PI) ∧
    (bit_set (decode_complete t).2.handle.valid_fields V4L2_RDS_PI ↔
      bit_set t.handle.valid_fields V4L2_RDS_PI ∨
      (pi_of (t.rds_data_raw 0) ≠ t.handle.pi ∧ pi_of (t.rds_data_raw 0) = t.new_pi)) := by
  obtain ⟨-, -, -, hnpi, -, hpi, -⟩ := core_fields _ _ (decode_complete_core t)
  obtain ⟨a1, a2, a3, a4, -, -⟩ :=
    decode_a_fields { t with rds_group := zero_group } (t.rds_data_raw 0)
  obtain ⟨b1, b2, -, -, -, b6⟩ :=
    decode_b_fields (rds_decode_a { t with rds_group := zero_group } (t.rds_data_raw 0)).2
      (t.rds_data_raw 1)
  have e1 : (decode_abcd t).handle.pi = _ := b1
  have e2 : (decode_abcd t).new_pi = _ := b2
  have e3 : (decode_abcd t).handle.valid_fields &&& V4L2_RDS_PI = _ :=
    b6 V4L2_RDS_PI (by decide) (by decide)
  have e4 := valid_decode_group (decode_abcd t) V4L2_RDS_PI (by decide) (by decide)
  refine ⟨?_, ?_, ?_, ?_⟩
  · rw [hpi, e1, a1]
  · rw [hnpi, e2, a2]
  · intro h
    rw [decode_complete_updated, bit_set_or, bit_set_or, bit_set_or, a3, if_pos h]
    left; left; right
    decide
  · unfold bit_set
    rw [decode_complete_state, e4, e3, a4]
    split_ifs with h
    · rw [and_or_r]
      have : V4L2_RDS_PI &&& V4L2_RDS_PI ≠ 0 := by decide
      constructor
      · intro _; right; exact h
      · intro _ hc
        exact this ((or_eq_zero _ _).mp hc).2
    · constructor
      · intro h'; left; exact h'
      · rintro (h' | h')
        · exact h'
        · exact absurd h' h

theorem decode_complete_pty (t : rds_private_state) :
    (decode_complete t).2.new_pty = pty_of (t.rds_data_raw 1) ∧
    (decode_complete t).2.handle.pty =
      (if t.handle.pty ≠ pty_of (t.rds_data_raw 1) ∧ t.new_pty = pty_of (t.rds_data_raw 1)
        then pty_of (t.rds_data_raw 1) else t.handle.pty) ∧
    (t.handle.pty ≠ pty_of (t.rds_data_raw 1) ∧ t.new_pty = pty_of (t.rds_data_raw 1) →
      bit_set (decode_complete t).1 V4L2_RDS_PTY ∧
      bit_set (decode_complete t).2.handle.valid_fields V4L2_RDS_PTY) := by
  obtain ⟨-, -, -, -, hnpty, -, hpty, -⟩ := core_fields _ _ (decode_complete_core t)
  obtain ⟨-, -, -, -, a5, a6⟩ :=
    decode_a_fields { t with rds_group := zero_group } (t.rds_data_raw 0)
  obtain ⟨-, -, b3, b4, b5, -⟩ :=
    decode_b_fields (rds_decode_a { t with rds_group := zero_group } (t.rds_data_raw 0)).2
      (t.rds_data_raw 1)
  rw [a5, a6] at b4
  rw [a5, a6] at b5
  have e1 : (decode_abcd t).new_pty = _ := b3
  have e2 : (decode_abcd t).handle.pty = _ := b4
  have e4 := valid_decode_group (decode_abcd t) V4L2_RDS_PTY (by decide) (by decide)
  refine ⟨?_, ?_, ?_⟩
  · rw [hnpty, e1]
  · rw [hpty, e2]
  · intro h
    obtain ⟨u, v⟩ := b5 h
    constructor
    · rw [decode_complete_updated, bit_set_or, bit_set_or]
      left; right; exact u
    · unfold bit_set
      rw [decode_complete_state, e4]
      exact v

/-! ## The decoder follows the assembler of the specification -/

theorem inv_create (r : Bool) : assembler_inv (v4l2_rds_create r) ([], none) :=
  ⟨Nat.zero_le 3, rfl, rfl, rfl⟩

theorem inv_reset (s : rds_private_state) (f : Bool) :
    assembler_inv (v4l2_rds_reset s f) ([], none) := by
  unfold v4l2_rds_reset
  cases f <;> exact ⟨Nat.zero_le 3, rfl, rfl, rfl⟩

theorem mismatch_of_not_has_id (s : rds_private_state) (b : v4l2_rds_data) (k : Nat)
    (hk : ∀ j, expected_id s.decode_state j → j = k) (h : ¬ has_id b k) :
    b.block &&& V4L2_RDS_BLOCK_ERROR ≠ 0 ∨
      ¬ expected_id s.decode_state (b.block &&& V4L2_RDS_BLOCK_MSK) := by
  by_cases he : b.block &&& V4L2_RDS_BLOCK_ERROR = 0
  · right
    intro hx
    exact h ⟨he, hk _ hx⟩
  · left; exact he

theorem add_pending_frame (s : rds_private_state) (b : v4l2_rds_data)
    (h : ¬ (s.decode_state = RDS_C_RECEIVED ∧ has_id b 3)) :
    (v4l2_rds_add s b).2.new_pty = s.new_pty ∧
    (v4l2_rds_add s b).2.handle.pty = s.handle.pty := by
  have := (add_incomplete s b h).2
  have e1 := congrArg rds_private_state.new_pty this
  have e2 := congrArg (fun x => x.handle.pty) this
  exact ⟨e1, e2⟩

theorem inv_add (s : rds_private_state) (acc : List v4l2_rds_data × Option raw_group)
    (b : v4l2_rds_data) (h : assembler_inv s acc) :
    assembler_inv (v4l2_rds_add s b).2 (spec_assemble acc (rds_call.add b)) := by
  obtain ⟨pend, last⟩ := acc
  obtain ⟨hds, hp, hl⟩ := h
  simp only at hp hl
  have hcase : s.decode_state = 0 ∨ s.decode_state = 1 ∨ s.decode_state = 2 ∨
      s.decode_state = 3 := by omega
  rcases hcase with h0 | h1 | h2 | h3
  · rw [h0] at hp
    simp only [List.range_zero, List.map_nil] at hp
    subst hp
    have hf := add_pending_frame s b (by rw [h0]; intro hx; exact absurd hx.1 (by decide))
    simp only [spec_assemble]
    by_cases hb : has_id b 0
    · rw [if_pos hb, add_a s b h0 hb]
      refine ⟨(by decide : (1 : Nat) ≤ 3), rfl, ?_⟩
      exact hl
    · rw [if_neg hb]
      have hm := mismatch_of_not_has_id s b 0 (by
        intro j hj; unfold expected_id at hj; rw [h0] at hj
        simp [RDS_EMPTY, RDS_A_RECEIVED, RDS_B_RECEIVED, RDS_C_RECEIVED] at hj; exact hj) hb
      rw [add_mismatch s b hm]
      exact ⟨Nat.zero_le 3, rfl, hl⟩
  · rw [h1] at hp
    simp only [List.range_succ, List.range_zero, List.map_append, List.map_nil, List.nil_append,
      List.map_cons] at hp
    subst hp
    simp only [spec_assemble]
    by_cases hb : has_id b 1
    · rw [if_pos hb, add_b s b h1 hb]
      refine ⟨(by decide : (2 : Nat) ≤ 3), ?_, hl⟩
      show [s.rds_data_raw 0, b] = [arr_set s.rds_data_raw 1 b 0, arr_set s.rds_data_raw 1 b 1]
      rfl
    · rw [if_neg hb]
      have hm := mismatch_of_not_has_id s b 1 (by
        intro j hj; unfold expected_id at hj; rw [h1] at hj
        simp [RDS_EMPTY, RDS_A_RECEIVED, RDS_B_RECEIVED, RDS_C_RECEIVED] at hj; exact hj) hb
      rw [add_mismatch s b hm]
      exact ⟨Nat.zero_le 3, rfl, hl⟩
  · rw [h2] at hp
    simp only [List.range_succ, List.range_zero, List.map_append, List.map_nil, List.nil_append,
      List.map_cons, List.cons_append] at hp
    subst hp
    simp only [spec_assemble]
    by_cases hb : has_id b 2 ∨ has_id b 4
    · rw [if_pos hb, add_c s b h2 hb]
      refine ⟨(by decide : (3 : Nat) ≤ 3), ?_, hl⟩
      rfl
    · rw [if_neg hb]
      have hm : b.block &&& V4L2_RDS_BLOCK_ERROR ≠ 0 ∨
          ¬ expected_id s.decode_state (b.block &&& V4L2_RDS_BLOCK_MSK) := by
        by_cases he : b.block &&& V4L2_RDS_BLOCK_ERROR = 0
        · right
          intro hx
          unfold expected_id at hx
          rw [h2] at hx
          simp [RDS_EMPTY, RDS_A_RECEIVED, RDS_B_RECEIVED, RDS_C_RECEIVED] at hx
          rcases hx with hx | hx
          · exact hb (Or.inl ⟨he, hx⟩)
          · exact hb (Or.inr ⟨he, hx⟩)
        · left; exact he
      rw [add_mismatch s b hm]
      exact ⟨Nat.zero_le 3, rfl, hl⟩
  · rw [h3] at hp
    simp only [List.range_succ, List.range_zero, List.map_append, List.map_nil, List.nil_append,
      List.map_cons, List.cons_append] at hp
    subst hp
    simp only [spec_assemble]
    by_cases hb : has_id b 3
    · rw [if_pos hb, add_d s b h3 hb]
      obtain ⟨-, hds', -, -, hnpty, -⟩ := core_fields _ _ (decode_complete_core
        { s with
          decode_state := RDS_EMPTY,
          rds_data_raw := arr_set s.rds_data_raw 3 b,
          handle := { s.handle with rds_statistics :=
            { count_block s.handle.rds_statistics b with
              group_cnt := inc32 (count_block s.handle.rds_statistics b).group_cnt } } })
      obtain ⟨fds, -, -, -⟩ := abcd_frame
        { s with
          decode_state := RDS_EMPTY,
          rds_data_raw := arr_set s.rds_data_raw 3 b,
          handle := { s.handle with rds_statistics :=
            { count_block s.handle.rds_statistics b with
              group_cnt := inc32 (count_block s.handle.rds_statistics b).group_cnt } } }
      have hq := (decode_complete_pty
        { s with
          decode_state := RDS_EMPTY,
          rds_data_raw := arr_set s.rds_data_raw 3 b,
          handle := { s.handle with rds_statistics :=
            { count_block s.handle.rds_statistics b with
              group_cnt := inc32 (count_block s.handle.rds_statistics b).group_cnt } } }).1
      have hz : (decode_complete
        { s with
          decode_state := RDS_EMPTY,
          rds_data_raw := arr_set s.rds_data_raw 3 b,
          handle := { s.handle with rds_statistics :=
            { count_block s.handle.rds_statistics b with
              group_cnt := inc32 (count_block s.handle.rds_statistics b).group_cnt } } }).2.decode_state
          = 0 := by
        rw [hds', fds]; rfl
      refine ⟨by rw [hz]; exact Nat.zero_le 3, ?_, ?_⟩
      · rw [hz]; rfl
      · exact hq
    · rw [if_neg hb]
      have hm := mismatch_of_not_has_id s b 3 (by
        intro j hj; unfold expected_id at hj; rw [h3] at hj
        simp [RDS_EMPTY, RDS_A_RECEIVED, RDS_B_RECEIVED, RDS_C_RECEIVED] at hj; exact hj) hb
      rw [add_mismatch s b hm]
      exact ⟨Nat.zero_le 3, rfl, hl⟩

theorem inv_step (s : rds_private_state) (acc : List v4l2_rds_data × Option raw_group)
    (c : rds_call) (h : assembler_inv s acc) :
    assembler_inv (run_call s c) (spec_assemble acc c) := by
  cases c with
  | add b => exact inv_add s acc b h
  | reset f => exact inv_reset s f

theorem inv_run (cs : List rds_call) (s : rds_private_state)
    (acc : List v4l2_rds_data × Option raw_group) (h : assembler_inv s acc) :
    assembler_inv (cs.foldl run_call s) (cs.foldl spec_assemble acc) := by
  induction cs generalizing s acc with
  | nil => exact h
  | cons c cs ih => exact ih _ _ (inv_step s acc c h)

/-! ## The program service name -/


theorem arr_set_self {α : Type} (a : Nat → α) (i : Nat) (v : α) (h : v = a i) :
    arr_set a i v = a := by
  funext j
  unfold arr_set
  split_ifs with hj
  · rw [h, hj]
  · rfl

theorem add_ps_fields (s : rds_private_state) (pos ch : Nat) :
    (rds_add_ps s pos ch).2.new_ps = arr_set s.new_ps pos ch ∧
    (rds_add_ps s pos ch).2.new_ps_valid = ps_valid_next s.new_ps s.new_ps_valid pos ch ∧
    (rds_add_ps s pos ch).1 = all_valid (ps_valid_next s.new_ps s.new_ps_valid pos ch) ∧
    (rds_add_ps s pos ch).2.handle = s.handle ∧
    (rds_add_ps s pos ch).2.rds_group = s.rds_group := by
  unfold rds_add_ps ps_valid_next all_valid
  simp only []
  split_ifs with h
  · exact ⟨(arr_set_self _ _ _ h).symm, rfl, rfl, rfl, rfl⟩
  · exact ⟨rfl, rfl, rfl, rfl, rfl⟩

theorem all_valid_iff (v : Nat → Nat) : all_valid v = true ↔ ∀ i, i < 8 → v i = 1 := by
  unfold all_valid
  simp [List.all_eq_true]

theorem arr_differ_false (a b : Nat → Nat) (n : Nat) (h : arr_differ a b n = false) :
    ∀ i, i < n → a i = b i := by
  unfold arr_differ at h
  intro i hi
  by_contra hc
  have : (List.range n).any (fun j => a j != b j) = true := by
    rw [List.any_eq_true]
    exact ⟨i, List.mem_range.mpr hi, by simpa using hc⟩
  rw [this] at h
  exact Bool.noConfusion h

theorem arr_differ_of_eq (a b : Nat → Nat) (n : Nat) (h : ∀ i, i < n → a i = b i) :
    arr_differ a b n = false := by
  unfold arr_differ
  rw [Bool.eq_false_iff]
  intro hc
  rw [List.any_eq_true] at hc
  obtain ⟨i, hi, hne⟩ := hc
  have := h i (List.mem_range.mp hi)
  simp [this] at hne

theorem arr_differ_true (a b : Nat → Nat) (n : Nat) (h : arr_differ a b n = true) :
    ∃ i, i < n ∧ a i ≠ b i := by
  unfold arr_differ at h
  rw [List.any_eq_true] at h
  obtain ⟨i, hi, hne⟩ := h
  exact ⟨i, List.mem_range.mp hi, by simpa using hne⟩

/-- The effect of the PS part of the group-0 decoder. -/
theorem decode_ps_fields (acc : Nat × rds_private_state) :
    (rds_decode_ps acc).2.new_ps =
      arr_set (arr_set acc.2.new_ps ((acc.2.rds_group.data_b_lsb &&& 0x03) * 2)
        acc.2.rds_group.data_d_msb) ((acc.2.rds_group.data_b_lsb &&& 0x03) * 2 + 1)
        acc.2.rds_group.data_d_lsb ∧
    (rds_decode_ps acc).2.new_ps_valid =
      ps_valid_next
        (arr_set acc.2.new_ps ((acc.2.rds_group.data_b_lsb &&& 0x03) * 2)
          acc.2.rds_group.data_d_msb)
        (ps_valid_next acc.2.new_ps acc.2.new_ps_valid
          ((acc.2.rds_group.data_b_lsb &&& 0x03) * 2) acc.2.rds_group.data_d_msb)
        ((acc.2.rds_group.data_b_lsb &&& 0x03) * 2 + 1) acc.2.rds_group.data_d_lsb ∧
    (all_valid (rds_decode_ps acc).2.new_ps_valid = true →
      (∀ i, i < 8 → (rds_decode_ps acc).2.handle.ps i = (rds_decode_ps acc).2.new_ps i) ∧
      bit_set (rds_decode_ps acc).2.handle.valid_fields V4L2_RDS_PS ∧
      ((∀ i, i < 8 → (rds_decode_ps acc).2.new_ps i = acc.2.handle.ps i) →
        (rds_decode_ps acc).1 = acc.1 ∧ (rds_decode_ps acc).2.handle.ps = acc.2.handle.ps)) ∧
    (all_valid (rds_decode_ps acc).2.new_ps_valid = false →
      (rds_decode_ps acc).2.handle = acc.2.handle ∧ (rds_decode_ps acc).1 = acc.1) := by
  obtain ⟨f1, f2, f3, f4, f5⟩ := add_ps_fields acc.2
    ((acc.2.rds_group.data_b_lsb &&& 0x03) * 2) acc.2.rds_group.data_d_msb
  obtain ⟨g1, g2, g3, g4, g5⟩ := add_ps_fields
    (rds_add_ps acc.2 ((acc.2.rds_group.data_b_lsb &&& 0x03) * 2) acc.2.rds_group.data_d_msb).2
    ((acc.2.rds_group.data_b_lsb &&& 0x03) * 2 + 1) acc.2.rds_group.data_d_lsb
  rw [f1] at g1
  rw [f1, f2] at g2 g3
  rw [f4] at g4
  have hne : V4L2_RDS_PS ≠ 0 := by decide
  unfold rds_decode_ps
  simp only []
  split_ifs with h1 h2
  · refine ⟨g1, g2, ?_, ?_⟩
    · intro _
      refine ⟨?_, bit_set_or_self _ _ hne, ?_⟩
      · intro i hi
        show arr_copy _ _ 8 i = _
        unfold arr_copy
        rw [if_pos hi]
      · intro hall
        exfalso
        obtain ⟨i, hi, hne⟩ := arr_differ_true _ _ 8 h2
        apply hne
        rw [g4]
        exact hall i hi
    · intro hv
      exfalso
      have e : (rds_add_ps (rds_add_ps acc.2 ((acc.2.rds_group.data_b_lsb &&& 0x03) * 2)
        acc.2.rds_group.data_d_msb).2 ((acc.2.rds_group.data_b_lsb &&& 0x03) * 2 + 1)
        acc.2.rds_group.data_d_lsb).1 = false := by
        rw [g3]; rw [g2] at hv; exact hv
      rw [e] at h1
      exact Bool.noConfusion h1
  · refine ⟨g1, g2, ?_, ?_⟩
    · intro _
      refine ⟨?_, bit_set_or_self _ _ hne, ?_⟩
      · intro i hi
        have := arr_differ_false _ _ 8 (by simpa using h2) i hi
        exact this.symm
      · intro _
        exact ⟨rfl, by rw [g4]⟩
    · intro hv
      exfalso
      have e : (rds_add_ps (rds_add_ps acc.2 ((acc.2.rds_group.data_b_lsb &&& 0x03) * 2)
        acc.2.rds_group.data_d_msb).2 ((acc.2.rds_group.data_b_lsb &&& 0x03) * 2 + 1)
        acc.2.rds_group.data_d_lsb).1 = false := by
        rw [g3]; rw [g2] at hv; exact hv
      rw [e] at h1
      exact Bool.noConfusion h1
  · refine ⟨g1, g2, ?_, ?_⟩
    · intro hv
      exfalso
      rw [g2, ← g3] at hv
      exact h1 hv
    · intro _
      exact ⟨g4, rfl⟩


theorem upd_ta_ms (s : rds_private_state) (m : Nat)
    (h1 : V4L2_RDS_TA &&& m = 0) (h2 : V4L2_RDS_MS &&& m = 0) :
    (rds_decode_ta_ms s).1 &&& m = 0 := by
  unfold rds_decode_ta_ms
  simp only []
  split_ifs <;> simp only [and_or_disj _ _ _ h1, and_or_disj _ _ _ h2, Nat.zero_and]

theorem upd_di (acc : Nat × rds_private_state) (m : Nat) (h1 : V4L2_RDS_DI &&& m = 0) :
    (rds_decode_di acc).1 &&& m = acc.1 &&& m := by
  unfold rds_decode_di
  simp only []
  split_ifs <;> simp only [and_or_disj _ _ _ h1]

theorem upd_af (acc : Nat × rds_private_state) (m : Nat) (h1 : V4L2_RDS_AF &&& m = 0) :
    (rds_decode_af acc).1 &&& m = acc.1 &&& m := by
  unfold rds_decode_af
  simp only []
  split_ifs <;> simp only [and_or_disj _ _ _ h1]

theorem upd_decode_a (t : rds_private_state) (a : v4l2_rds_data) (m : Nat)
    (h1 : V4L2_RDS_PI &&& m = 0) : (rds_decode_a t a).1 &&& m = 0 := by
  rw [(decode_a_fields t a).2.2.1]
  split_ifs
  · exact h1
  · exact Nat.zero_and m

theorem upd_decode_b (t : rds_private_state) (b : v4l2_rds_data) (m : Nat)
    (h1 : V4L2_RDS_TP &&& m = 0) (h2 : V4L2_RDS_PTY &&& m = 0) :
    (rds_decode_b t b).1 &&& m = 0 := by
  unfold rds_decode_b
  simp only []
  split_ifs <;> simp only [and_or_disj _ _ _ h1, and_or_disj _ _ _ h2, Nat.zero_and]

theorem ps_core_ta_ms (s : rds_private_state) : ps_core (rds_decode_ta_ms s).2 = ps_core s := by
  unfold rds_decode_ta_ms
  simp only []
  split_ifs <;> rfl

theorem ps_core_di (acc : Nat × rds_private_state) :
    ps_core (rds_decode_di acc).2 = ps_core acc.2 := by
  unfold rds_decode_di
  simp only []
  split_ifs <;> rfl

theorem ps_core_add_af (s : rds_private_state) : ps_core (rds_add_af s).2 = ps_core s := by
  unfold rds_add_af
  simp only []
  split_ifs <;> rfl

theorem ps_core_af (acc : Nat × rds_private_state) :
    ps_core (rds_decode_af acc).2 = ps_core acc.2 := by
  unfold rds_decode_af
  simp only []
  split_ifs <;> simp only [ps_core_add_af]

theorem ps_core_fields (s s' : rds_private_state) (h : ps_core s' = ps_core s) :
    s'.new_ps = s.new_ps ∧ s'.new_ps_valid = s.new_ps_valid ∧ s'.handle.ps = s.handle.ps := by
  simpa only [ps_core, Prod.mk.injEq] using h

/-- The PS name after the group-0 decoder, in terms of the state before it. -/
theorem group0_ps (s : rds_private_state) :
    (rds_decode_group0 s).2.new_ps =
      (ps_next s.new_ps s.new_ps_valid (s.rds_group.data_b_lsb &&& 0x03)
        s.rds_group.data_d_msb s.rds_group.data_d_lsb).1 ∧
    (rds_decode_group0 s).2.new_ps_valid =
      (ps_next s.new_ps s.new_ps_valid (s.rds_group.data_b_lsb &&& 0x03)
        s.rds_group.data_d_msb s.rds_group.data_d_lsb).2 ∧
    (all_valid (rds_decode_group0 s).2.new_ps_valid = true →
      (∀ i, i < 8 → (rds_decode_group0 s).2.handle.ps i = (rds_decode_group0 s).2.new_ps i) ∧
      bit_set (rds_decode_group0 s).2.handle.valid_fields V4L2_RDS_PS ∧
      ((∀ i, i < 8 → (rds_decode_group0 s).2.new_ps i = s.handle.ps i) →
        (rds_decode_group0 s).1 &&& V4L2_RDS_PS = 0 ∧
        (rds_decode_group0 s).2.handle.ps = s.handle.ps)) ∧
    (all_valid (rds_decode_group0 s).2.new_ps_valid = false →
      (rds_decode_group0 s).2.handle.ps = s.handle.ps ∧
      (rds_decode_group0 s).2.handle.valid_fields &&& V4L2_RDS_PS =
        s.handle.valid_fields &&& V4L2_RDS_PS ∧
      (rds_decode_group0 s).1 &&& V4L2_RDS_PS = 0) := by
  have hA := ps_core_fields _ _ (ps_core_ta_ms s)
  have hAg := (core_fields _ _ (core_ta_ms s)).1
  have hAv := valid_ta_ms s V4L2_RDS_PS (by decide) (by decide)
  have hAu := upd_ta_ms s V4L2_RDS_PS (by decide) (by decide)
  obtain ⟨p1, p2, p3, p4⟩ := decode_ps_fields (rds_decode_ta_ms s)
  rw [hA.1, hAg] at p1
  rw [hA.1, hA.2.1, hAg] at p2
  have hD := ps_core_fields _ _ (ps_core_di (rds_decode_ps (rds_decode_ta_ms s)))
  have hDv := valid_di (rds_decode_ps (rds_decode_ta_ms s)) V4L2_RDS_PS (by decide)
  have hDu := upd_di (rds_decode_ps (rds_decode_ta_ms s)) V4L2_RDS_PS (by decide)
  have hF := ps_core_fields _ _
    (ps_core_af (rds_decode_di (rds_decode_ps (rds_decode_ta_ms s))))
  have hFv := valid_af (rds_decode_di (rds_decode_ps (rds_decode_ta_ms s))) V4L2_RDS_PS
    (by decide)
  have hFu := upd_af (rds_decode_di (rds_decode_ps (rds_decode_ta_ms s))) V4L2_RDS_PS
    (by decide)
  have e1 : (rds_decode_group0 s).2.new_ps = (rds_decode_ps (rds_decode_ta_ms s)).2.new_ps := by
    unfold rds_decode_group0; rw [hF.1, hD.1]
  have e2 : (rds_decode_group0 s).2.new_ps_valid =
      (rds_decode_ps (rds_decode_ta_ms s)).2.new_ps_valid := by
    unfold rds_decode_group0; rw [hF.2.1, hD.2.1]
  have e3 : (rds_decode_group0 s).2.handle.ps = (rds_decode_ps (rds_decode_ta_ms s)).2.handle.ps := by
    unfold rds_decode_group0; rw [hF.2.2, hD.2.2]
  have e4 : (rds_decode_group0 s).2.handle.valid_fields &&& V4L2_RDS_PS =
      (rds_decode_ps (rds_decode_ta_ms s)).2.handle.valid_fields &&& V4L2_RDS_PS := by
    unfold rds_decode_group0; rw [hFv, hDv]
  have e5 : (rds_decode_group0 s).1 &&& V4L2_RDS_PS =
      (rds_decode_ps (rds_decode_ta_ms s)).1 &&& V4L2_RDS_PS := by
    unfold rds_decode_group0; rw [hFu, hDu]
  rw [e1, e2, e3, e4, e5]
  refine ⟨p1, p2, ?_, ?_⟩
  · intro hv
    obtain ⟨q1, q2, q3⟩ := p3 hv
    refine ⟨q1, ?_, ?_⟩
    · unfold bit_set; rw [e4]; exact q2
    · intro hall
      rw [hA.2.2] at q3
      obtain ⟨q4, q5⟩ := q3 hall
      exact ⟨by rw [q4]; exact hAu, q5⟩
  · intro hv
    obtain ⟨q1, q2⟩ := p4 hv
    refine ⟨?_, ?_, ?_⟩
    · rw [q1]; exact hA.2.2
    · rw [q1]; exact hAv
    · rw [q2]; exact hAu


theorem decode_group_zero (X : rds_private_state) (h : X.rds_group.group_id = 0) :
    ∃ X' : rds_private_state, rds_decode_group X = rds_decode_group0 X' ∧
      ps_core X' = ps_core X ∧ X'.rds_group = X.rds_group ∧
      X'.handle.valid_fields = X.handle.valid_fields := by
  refine ⟨{ X with handle := { X.handle with rds_statistics :=
      { X.handle.rds_statistics with
        group_type_cnt :=
          arr_set X.handle.rds_statistics.group_type_cnt X.rds_group.group_id
            (inc32 (X.handle.rds_statistics.group_type_cnt X.rds_group.group_id)) } } },
    ?_, rfl, rfl, rfl⟩
  unfold rds_decode_group
  simp only []
  rw [if_pos h]

theorem abcd_valid (t : rds_private_state) (m : Nat) (h1 : V4L2_RDS_PI &&& m = 0)
    (h2 : V4L2_RDS_TP &&& m = 0) (h3 : V4L2_RDS_PTY &&& m = 0) :
    (decode_abcd t).handle.valid_fields &&& m = t.handle.valid_fields &&& m := by
  have hb := (decode_b_fields
    (rds_decode_a { t with rds_group := zero_group } (t.rds_data_raw 0)).2
    (t.rds_data_raw 1)).2.2.2.2.2 m h2 h3
  have ha := (decode_a_fields { t with rds_group := zero_group } (t.rds_data_raw 0)).2.2.2.1
  have e : (decode_abcd t).handle.valid_fields &&& m = _ := hb
  rw [e, ha]
  split_ifs
  · exact and_or_disj _ _ _ h1
  · rfl

theorem add_group_ps (s : rds_private_state) (g : raw_group)
    (h0 : s.decode_state = RDS_EMPTY) (hg : is_group g) (hid : group_id_of g.b = 0) :
    (add_group s g).2.new_ps =
      (ps_next s.new_ps s.new_ps_valid (segment_of g.b) g.d.msb g.d.lsb).1 ∧
    (add_group s g).2.new_ps_valid =
      (ps_next s.new_ps s.new_ps_valid (segment_of g.b) g.d.msb g.d.lsb).2 ∧
    (add_group s g).2.decode_state = RDS_EMPTY ∧
    (all_valid (add_group s g).2.new_ps_valid = true →
      (∀ i, i < 8 → (add_group s g).2.handle.ps i = (add_group s g).2.new_ps i) ∧
      bit_set (add_group s g).2.handle.valid_fields V4L2_RDS_PS ∧
      ((∀ i, i < 8 → (add_group s g).2.new_ps i = s.handle.ps i) →
        (add_group s g).1 &&& V4L2_RDS_PS = 0 ∧
        (add_group s g).2.handle.ps = s.handle.ps)) ∧
    (all_valid (add_group s g).2.new_ps_valid = false →
      (add_group s g).2.handle.ps = s.handle.ps ∧
      (add_group s g).2.handle.valid_fields &&& V4L2_RDS_PS =
        s.handle.valid_fields &&& V4L2_RDS_PS ∧
      (add_group s g).1 &&& V4L2_RDS_PS = 0) := by
  rw [add_group_eq s g h0 hg]
  have hgrp := abcd_group (group_ready s g)
  obtain ⟨fds, -, -, fps⟩ := abcd_frame (group_ready s g)
  have fps' := ps_core_fields _ _ fps
  have hval := abcd_valid (group_ready s g) V4L2_RDS_PS (by decide) (by decide) (by decide)
  have hds := (core_fields _ _ (decode_complete_core (group_ready s g))).2.1
  obtain ⟨X', hX, hXps, hXg, hXv⟩ := decode_group_zero (decode_abcd (group_ready s g))
    (by rw [hgrp]; exact hid)
  have hXps' := ps_core_fields _ _ hXps
  obtain ⟨q1, q2, q3, q4⟩ := group0_ps X'
  have hua := upd_decode_a { group_ready s g with rds_group := zero_group }
    ((group_ready s g).rds_data_raw 0) V4L2_RDS_PS (by decide)
  have hub := upd_decode_b
    (rds_decode_a { group_ready s g with rds_group := zero_group }
      ((group_ready s g).rds_data_raw 0)).2
    ((group_ready s g).rds_data_raw 1) V4L2_RDS_PS (by decide) (by decide)
  have hupd : (decode_complete (group_ready s g)).1 &&& V4L2_RDS_PS =
      (rds_decode_group0 X').1 &&& V4L2_RDS_PS := by
    rw [decode_complete_updated, and_or_r, and_or_r, and_or_r, hua, hub, hX]
    simp only [Nat.zero_and, Nat.zero_or, Nat.or_zero]
  have hst : (decode_complete (group_ready s g)).2 = (rds_decode_group0 X').2 := by
    rw [decode_complete_state, hX]
  rw [hst, hupd]
  rw [hXps'.1, hXps'.2.1, hXg, hgrp, fps'.1, fps'.2.1] at q1 q2
  rw [hXps'.2.2, fps'.2.2] at q3 q4
  rw [hXv, hval] at q4
  refine ⟨q1, q2, ?_, q3, q4⟩
  rw [← hst, hds, fds]
  rfl


/-! ## The PS name sent twice, and sent once -/


theorem ps_next_new (n v : Nat → Nat) (k x y i : Nat) :
    (ps_next n v k x y).1 i = if i = k * 2 + 1 then y else if i = k * 2 then x else n i := rfl

theorem ps_next_valid_match (n v : Nat → Nat) (k x y : Nat) (hx : x = n (k * 2))
    (hy : y = n (k * 2 + 1)) :
    (ps_next n v k x y).2 = arr_set (arr_set v (k * 2) 1) (k * 2 + 1) 1 := by
  unfold ps_next ps_valid_next
  simp only []
  have h1 : (arr_set n (k * 2) x) (k * 2 + 1) = n (k * 2 + 1) := by
    unfold arr_set
    rw [if_neg (by omega)]
  rw [if_pos hx, h1, if_pos hy]

theorem ps_twice_step (c : Nat → Nat) (k : Nat) (t : rds_private_state) (g : raw_group)
    (hk : k < 8) (hg : is_group g) (hid : group_id_of g.b = 0)
    (hseg : segment_of g.b = k % 4) (hx : g.d.msb = c (2 * (k % 4)))
    (hy : g.d.lsb = c (2 * (k % 4) + 1)) (hinv : ps_twice_inv c k t) :
    ps_twice_inv c (k + 1) (add_group t g).2 := by
  obtain ⟨h0, i1, i2, -⟩ := hinv
  obtain ⟨e1, e2, e3, e4, -⟩ := add_group_ps t g h0 hg hid
  rw [hseg, hx, hy] at e1 e2
  have new_eq : ∀ i, (add_group t g).2.new_ps i =
      if i = k % 4 * 2 + 1 then c (2 * (k % 4) + 1) else
        if i = k % 4 * 2 then c (2 * (k % 4)) else t.new_ps i := by
    intro i; rw [e1, ps_next_new]
  by_cases hk4 : k < 4
  · have hmod : k % 4 = k := Nat.mod_eq_of_lt hk4
    rw [hmod] at new_eq
    refine ⟨e3, ?_, ?_, ?_⟩
    · intro _ i hi
      rw [new_eq]
      split_ifs with a1 a2
      · rw [a1]; congr 1; omega
      · rw [a2]; congr 1; omega
      · exact i1 (by omega) i (by omega)
    · intro h4
      have hk3 : k = 3 := by omega
      subst hk3
      refine ⟨?_, ?_⟩
      · intro i hi
        rw [new_eq]
        split_ifs with a1 a2
        · rw [a1]
        · rw [a2]
        · exact i1 (by omega) i (by omega)
      · intro i hi
        omega
    · intro h8; omega
  · have hk4' : 4 ≤ k := by omega
    obtain ⟨j1, j2⟩ := i2 hk4'
    have hmod : k % 4 = k - 4 := by omega
    rw [hmod] at new_eq e2
    have hnew : ∀ i, i < 8 → (add_group t g).2.new_ps i = c i := by
      intro i hi
      rw [new_eq]
      split_ifs with a1 a2
      · rw [a1]; congr 1; omega
      · rw [a2]; congr 1; omega
      · exact j1 i hi
    have hval : (add_group t g).2.new_ps_valid =
        arr_set (arr_set t.new_ps_valid ((k - 4) * 2) 1) ((k - 4) * 2 + 1) 1 := by
      rw [e2]
      apply ps_next_valid_match
      · rw [j1 _ (by omega)]; congr 1; omega
      · rw [j1 _ (by omega)]; congr 1; omega
    have hv : ∀ i, i < 2 * (k + 1 - 4) → (add_group t g).2.new_ps_valid i = 1 := by
      intro i hi
      rw [hval]
      unfold arr_set
      split_ifs with a1 a2
      · rfl
      · rfl
      · exact j2 i (by omega)
    refine ⟨e3, ?_, ?_, ?_⟩
    · intro h; omega
    · intro _; exact ⟨hnew, hv⟩
    · intro h8
      have hall : all_valid (add_group t g).2.new_ps_valid = true := by
        rw [all_valid_iff]
        intro i hi
        exact hv i (by omega)
      obtain ⟨q1, q2, -⟩ := e4 hall
      refine ⟨?_, q2⟩
      intro i hi
      rw [q1 i hi, hnew i hi]

theorem ps_twice_run (c : Nat → Nat) (g : Nat → raw_group) (s : rds_private_state)
    (h0 : s.decode_state = RDS_EMPTY)
    (hg : ∀ k, k < 8 → is_group (g k) ∧ group_id_of (g k).b = 0 ∧
      segment_of (g k).b = k % 4 ∧ (g k).d.msb = c (2 * (k % 4)) ∧
      (g k).d.lsb = c (2 * (k % 4) + 1)) (m : Nat) (hm : m ≤ 8) :
    ps_twice_inv c m (add_groups s ((List.range m).map g)) := by
  induction m with
  | zero =>
    refine ⟨h0, ?_, ?_, ?_⟩
    · intro _ i hi; omega
    · intro h; omega
    · intro h; omega
  | succ m ih =>
    have := ih (by omega)
    obtain ⟨g1, g2, g3, g4, g5⟩ := hg m (by omega)
    unfold add_groups at this ⊢
    rw [List.range_succ, List.map_append, List.foldl_append]
    exact ps_twice_step c m _ (g m) (by omega) g1 g2 g3 g4 g5 this



theorem add_trace_group (acc : List Nat × rds_private_state) (g : raw_group)
    (h0 : acc.2.decode_state = RDS_EMPTY) (hg : is_group g) :
    add_trace acc (group_blocks g) =
      (acc.1 ++ [0, 0, 0, (add_group acc.2 g).1], (add_group acc.2 g).2) := by
  obtain ⟨ha, hb, hc, hd⟩ := hg
  unfold add_trace group_blocks add_group add_blocks
  simp only [List.foldl_cons, List.foldl_nil, add_trace_step]
  rw [add_a acc.2 g.a h0 ha, add_b _ g.b rfl hb, add_c _ g.c rfl hc]
  simp only [List.append_assoc, List.singleton_append, List.cons_append, List.nil_append]

theorem ps_valid_next_apply (n v : Nat → Nat) (pos ch i : Nat) :
    ps_valid_next n v pos ch i =
      if ch = n pos then (if i = pos then 1 else v i) else (if i < 8 then 0 else v i) := by
  unfold ps_valid_next
  split_ifs <;> simp [arr_set, arr_fill, *]


theorem ps_once_step (c : Nat → Nat) (k : Nat) (acc : List Nat × rds_private_state)
    (g : raw_group) (hk : k < 4) (hg : is_group g) (hid : group_id_of g.b = 0)
    (hseg : segment_of g.b = k) (hx : g.d.msb = c (2 * k)) (hy : g.d.lsb = c (2 * k + 1))
    (hinv : ps_once_inv c k acc) :
    ps_once_inv c (k + 1) (add_trace acc (group_blocks g)) := by
  obtain ⟨h0, i2, i3, i4, i5, i6, i7, i8, -, i10⟩ := hinv
  rw [add_trace_group acc g h0 hg]
  obtain ⟨e1, e2, e3, e4, e5⟩ := add_group_ps acc.2 g h0 hg hid
  rw [hseg, hx, hy] at e1 e2
  have new_eq : ∀ i, (add_group acc.2 g).2.new_ps i =
      if i = k * 2 + 1 then c (2 * k + 1) else
        if i = k * 2 then c (2 * k) else acc.2.new_ps i := by
    intro i; rw [e1, ps_next_new]
  have n0 : acc.2.new_ps (k * 2) = 0 := i3 _ (by omega)
  have n1 : acc.2.new_ps (k * 2 + 1) = 0 := i3 _ (by omega)
  have val_eq : ∀ i, (add_group acc.2 g).2.new_ps_valid i =
      if c (2 * k + 1) = 0 then
        (if i = k * 2 + 1 then 1 else
          if c (2 * k) = 0 then (if i = k * 2 then 1 else acc.2.new_ps_valid i)
          else (if i < 8 then 0 else acc.2.new_ps_valid i))
      else (if i < 8 then 0 else
          if c (2 * k) = 0 then (if i = k * 2 then 1 else acc.2.new_ps_valid i)
          else (if i < 8 then 0 else acc.2.new_ps_valid i)) := by
    intro i
    rw [e2]
    unfold ps_next
    simp only []
    rw [ps_valid_next_apply, ps_valid_next_apply]
    have h1 : (arr_set acc.2.new_ps (k * 2) (c (2 * k))) (k * 2 + 1) = 0 := by
      unfold arr_set
      rw [if_neg (by omega)]
      exact n1
    rw [h1, n0]
  have hnew2 : ∀ i, i < 2 * (k + 1) → (add_group acc.2 g).2.new_ps i = c i := by
    intro i hi
    rw [new_eq]
    split_ifs with a1 a2
    · rw [a1]; congr 1; omega
    · rw [a2]; congr 1; omega
    · exact i2 i (by omega)
  have hnew3 : ∀ i, 2 * (k + 1) ≤ i → (add_group acc.2 g).2.new_ps i = 0 := by
    intro i hi
    rw [new_eq, if_neg (by omega), if_neg (by omega)]
    exact i3 i (by omega)
  have hv4 : ∀ i, i < 2 * (k + 1) → (∀ j, i ≤ j → j < 2 * (k + 1) → c j = 0) →
      (add_group acc.2 g).2.new_ps_valid i = 1 := by
    intro i hi hc
    rw [val_eq, if_pos (hc (2 * k + 1) (by omega) (by omega))]
    by_cases a1 : i = k * 2 + 1
    · rw [if_pos a1]
    · rw [if_neg a1, if_pos (hc (2 * k) (by omega) (by omega))]
      by_cases a2 : i = k * 2
      · rw [if_pos a2]
      · rw [if_neg a2]
        exact i4 i (by omega) (fun j hj1 hj2 => hc j hj1 (by omega))
  have hv5 : ∀ i, i < 2 * (k + 1) → (∃ j, i ≤ j ∧ j < 2 * (k + 1) ∧ c j ≠ 0) →
      (add_group acc.2 g).2.new_ps_valid i = 0 := by
    intro i hi hc
    obtain ⟨j, hj1, hj2, hj3⟩ := hc
    rw [val_eq]
    by_cases hy0 : c (2 * k + 1) = 0
    · rw [if_pos hy0]
      have hj4 : j ≠ 2 * k + 1 := fun h => hj3 (h ▸ hy0)
      rw [if_neg (by omega)]
      by_cases hx0 : c (2 * k) = 0
      · rw [if_pos hx0]
        have hj5 : j ≠ 2 * k := fun h => hj3 (h ▸ hx0)
        rw [if_neg (by omega)]
        exact i5 i (by omega) ⟨j, hj1, by omega, hj3⟩
      · rw [if_neg hx0, if_pos (by omega)]
    · rw [if_neg hy0, if_pos (by omega)]
  have hv6 : ∀ i, 2 * (k + 1) ≤ i → (add_group acc.2 g).2.new_ps_valid i = 0 := by
    intro i hi
    have := i6 i (by omega)
    rw [val_eq]
    split_ifs <;> first | rfl | exact this | omega
  have hmem : ∀ u, u ∈ acc.1 ++ [0, 0, 0, (add_group acc.2 g).1] →
      (add_group acc.2 g).1 &&& V4L2_RDS_PS = 0 → u &&& V4L2_RDS_PS = 0 := by
    intro u hu hlast
    rw [List.mem_append] at hu
    rcases hu with hu | hu
    · exact i10 u hu
    · simp only [List.mem_cons, List.mem_singleton, List.not_mem_nil, or_false] at hu
      rcases hu with hu | hu | hu | hu
      · rw [hu]; rfl
      · rw [hu]; rfl
      · rw [hu]; rfl
      · rw [hu]; exact hlast
  by_cases hall : all_valid (add_group acc.2 g).2.new_ps_valid = true
  · have hall' := (all_valid_iff _).mp hall
    have hk3 : k = 3 := by
      by_contra hne
      have := hv6 7 (by omega)
      rw [hall' 7 (by omega)] at this
      exact absurd this (by decide)
    have hc0 : ∀ j, j < 8 → c j = 0 := by
      intro j hj
      by_contra hne
      have := hv5 0 (by omega) ⟨j, Nat.zero_le j, by omega, hne⟩
      rw [hall' 0 (by omega)] at this
      exact absurd this (by decide)
    obtain ⟨q1, q2, q3⟩ := e4 hall
    obtain ⟨q4, q5⟩ := q3 (fun i hi => by
      rw [hnew2 i (by omega), hc0 i hi, i7 i])
    refine ⟨e3, hnew2, hnew3, hv4, hv5, hv6, ?_, ?_, ?_, ?_⟩
    · intro i; rw [q5]; exact i7 i
    · intro h; omega
    · intro _; exact ⟨fun _ => hc0, fun _ => q2⟩
    · intro u hu; exact hmem u hu q4
  · have hall' : all_valid (add_group acc.2 g).2.new_ps_valid = false := by
      simpa using hall
    obtain ⟨q1, q2, q3⟩ := e5 hall'
    refine ⟨e3, hnew2, hnew3, hv4, hv5, hv6, ?_, ?_, ?_, ?_⟩
    · intro i; rw [q1]; exact i7 i
    · intro _; rw [q2]; exact i8 hk
    · intro hk4
      constructor
      · intro hb
        exfalso
        unfold bit_set at hb
        rw [q2] at hb
        exact hb (i8 hk)
      · intro hc0
        exfalso
        apply hall
        rw [all_valid_iff]
        intro i hi
        exact hv4 i (by omega) (fun j _ hj => hc0 j (by omega))
    · intro u hu; exact hmem u hu q3

theorem ps_once_init (c : Nat → Nat) (r : Bool) :
    ps_once_inv c 0 ([], v4l2_rds_create r) := by
  refine ⟨rfl, ?_, ?_, ?_, ?_, ?_, ?_, ?_, ?_, ?_⟩
  · intro i hi; omega
  · intro i _; rfl
  · intro i hi; omega
  · intro i hi; omega
  · intro i _; rfl
  · intro i; rfl
  · intro _; exact Nat.zero_and _
  · intro h; omega
  · intro u hu; exact absurd hu (List.not_mem_nil u)


theorem add_group_pi (s : rds_private_state) (g : raw_group)
    (h0 : s.decode_state = RDS_EMPTY) (hg : is_group g) :
    (add_group s g).2.handle.pi =
      (if pi_of g.a ≠ s.handle.pi ∧ pi_of g.a = s.new_pi then pi_of g.a else s.handle.pi) ∧
    (add_group s g).2.new_pi =
      (if pi_of g.a ≠ s.handle.pi ∧ pi_of g.a ≠ s.new_pi then pi_of g.a else s.new_pi) ∧
    (pi_of g.a ≠ s.handle.pi ∧ pi_of g.a = s.new_pi → bit_set (add_group s g).1 V4L2_RDS_PI) ∧
    (bit_set (add_group s g).2.handle.valid_fields V4L2_RDS_PI ↔
      bit_set s.handle.valid_fields V4L2_RDS_PI ∨
      (pi_of g.a ≠ s.handle.pi ∧ pi_of g.a = s.new_pi)) ∧
    (add_group s g).2.decode_state = RDS_EMPTY := by
  rw [add_group_eq s g h0 hg]
  obtain ⟨p1, p2, p3, p4⟩ := decode_complete_pi (group_ready s g)
  have hds := (core_fields _ _ (decode_complete_core (group_ready s g))).2.1
  obtain ⟨fds, -, -, -⟩ := abcd_frame (group_ready s g)
  refine ⟨p1, p2, p3, p4, ?_⟩
  rw [hds, fds]
  rfl

/-! ## Properties of the block frame assembler (claims C1 to C4) -/

/-- Claim C1: four error-free blocks with the ids 0, 1, (2 or 4), 3, ingested in this
order from a state whose assembler is EMPTY, increase `group_cnt` by exactly one
(as a `uint32_t`), leave `group_error_cnt` unchanged and end in state EMPTY; the
group read by `v4l2_rds_get_group` afterwards has `pi = (a.msb << 8) | a.lsb`,
`group_id = b.msb >> 4`, version 'B' iff bit 3 of `b.msb` is set,
`data_b_lsb = b.lsb & 0x1F` and the raw bytes of the blocks C and D. -/
theorem complete_group_assembled (s : rds_private_state) (g : raw_group)
    (h0 : s.decode_state = RDS_EMPTY) (hg : is_group g)
    (ha : is_bytes g.a) (hb : is_bytes g.b) :
    (add_group s g).2.handle.rds_statistics.group_cnt =
      (s.handle.rds_statistics.group_cnt + 1) % 2 ^ 32 ∧
    (add_group s g).2.handle.rds_statistics.group_error_cnt =
      s.handle.rds_statistics.group_error_cnt ∧
    (add_group s g).2.decode_state = RDS_EMPTY ∧
    v4l2_rds_get_group (add_group s g).2 =
      { pi := (g.a.msb <<< 8) ||| g.a.lsb,
        group_id := g.b.msb >>> 4,
        group_version := if g.b.msb &&& 0x08 ≠ 0 then CHAR_B else CHAR_A,
        data_b_lsb := g.b.lsb &&& 0x1F,
        data_c_msb := g.c.msb,
        data_c_lsb := g.c.lsb,
        data_d_msb := g.d.msb,
        data_d_lsb := g.d.lsb } := by
  rw [add_group_eq s g h0 hg]
  obtain ⟨hgrp, hds, -, -, -, -, -, -, -, -, hgc, -, hge, -⟩ :=
    core_fields _ _ (decode_complete_core (group_ready s g))
  obtain ⟨fds, fraw, fst, -⟩ := abcd_frame (group_ready s g)
  have c1 := count_block_frame s.handle.rds_statistics g.a
  have c2 := count_block_frame (count_block s.handle.rds_statistics g.a) g.b
  have c3 := count_block_frame (count_block (count_block s.handle.rds_statistics g.a) g.b) g.c
  have c4 := count_block_frame
    (count_block (count_block (count_block s.handle.rds_statistics g.a) g.b) g.c) g.d
  refine ⟨?_, ?_, ?_, ?_⟩
  · rw [hgc, fst]
    show inc32 _ = _
    rw [c4.1, c3.1, c2.1, c1.1]
    rfl
  · rw [hge, fst]
    show (count_block _ g.d).group_error_cnt = _
    rw [c4.2.1, c3.2.1, c2.2.1, c1.2.1]
  · rw [hds, fds]
    rfl
  · unfold v4l2_rds_get_group
    rw [hgrp, abcd_group]
    have r0 : (group_ready s g).rds_data_raw 0 = g.a := rfl
    have r1 : (group_ready s g).rds_data_raw 1 = g.b := rfl
    have r2 : (group_ready s g).rds_data_raw 2 = g.c := rfl
    have r3 : (group_ready s g).rds_data_raw 3 = g.d := rfl
    rw [r0, r1, r2, r3, pi_of_bytes _ ha, group_id_of_bytes _ hb]

/-- Witness of claim C1: the first group of the test data on a fresh decoder gives
`group_cnt = 1`, no group error, and the group with PI 0x1234 and group id 2. -/
theorem complete_group_assembled_witness :
    ((v4l2_rds_create false).decode_state = RDS_EMPTY ∧ is_group test_group_0 ∧
      is_bytes test_group_0.a ∧ is_bytes test_group_0.b) ∧
    (add_group (v4l2_rds_create false) test_group_0).2.handle.rds_statistics.group_cnt = 1 ∧
    (add_group (v4l2_rds_create false) test_group_0).2.handle.rds_statistics.group_error_cnt
      = 0 ∧
    (add_group (v4l2_rds_create false) test_group_0).2.decode_state = RDS_EMPTY ∧
    v4l2_rds_get_group (add_group (v4l2_rds_create false) test_group_0).2 =
      { pi := 0x1234, group_id := 2, group_version := CHAR_A, data_b_lsb := 0,
        data_c_msb := 0x6F, data_c_lsb := 0x4E, data_d_msb := 0x20, data_d_lsb := 0x77 } :=
  ⟨by decide,
    complete_group_assembled (v4l2_rds_create false) test_group_0 rfl (by decide) (by decide)
      (by decide)⟩

/-- Claim C2: unless the assembler is in C_RECEIVED and the block has id 3 without
the uncorrectable-error flag (the block completes a group), `v4l2_rds_add` returns
0, and the state it leaves differs from the one before only in `rds_statistics`,
in the assembler state and in the raw block buffer: every other public field,
every pending value and the last assembled group are unchanged. -/
theorem incomplete_ingest_decodes_nothing (s : rds_private_state) (b : v4l2_rds_data)
    (h : ¬ (s.decode_state = RDS_C_RECEIVED ∧ has_id b 3)) :
    (v4l2_rds_add s b).1 = 0 ∧
    { (v4l2_rds_add s b).2 with
      decode_state := s.decode_state,
      rds_data_raw := s.rds_data_raw,
      handle := { (v4l2_rds_add s b).2.handle with
        rds_statistics := s.handle.rds_statistics } } = s :=
  add_incomplete s b h

/-- Witness of claim C2: a block A on a fresh decoder. -/
theorem incomplete_ingest_decodes_nothing_witness :
    ¬ ((v4l2_rds_create false).decode_state = RDS_C_RECEIVED ∧ has_id test_group_0.a 3) ∧
    (v4l2_rds_add (v4l2_rds_create false) test_group_0.a).1 = 0 :=
  ⟨by decide,
    (incomplete_ingest_decodes_nothing (v4l2_rds_create false) test_group_0.a (by decide)).1⟩

/-- Claim C3: in every assembler state (EMPTY, A_RECEIVED, B_RECEIVED, C_RECEIVED,
and any other value of `decode_state` as well), a block that is flagged
uncorrectable, whatever its id bits are, or whose id is not the one expected in
that state leaves the assembler EMPTY, increases `group_error_cnt` by exactly one
(as a `uint32_t`), leaves `group_cnt` unchanged and returns 0. -/
theorem mismatch_resets_assembler (s : rds_private_state) (b : v4l2_rds_data)
    (hb : b.block &&& V4L2_RDS_BLOCK_ERROR ≠ 0 ∨
      ¬ expected_id s.decode_state (b.block &&& V4L2_RDS_BLOCK_MSK)) :
    (v4l2_rds_add s b).2.decode_state = RDS_EMPTY ∧
    (v4l2_rds_add s b).2.handle.rds_statistics.group_error_cnt =
      (s.handle.rds_statistics.group_error_cnt + 1) % 2 ^ 32 ∧
    (v4l2_rds_add s b).2.handle.rds_statistics.group_cnt =
      s.handle.rds_statistics.group_cnt ∧
    (v4l2_rds_add s b).1 = 0 :=
  ⟨(add_mismatch_fields s b hb).2.1, (add_mismatch_fields s b hb).2.2.1,
    (add_mismatch_fields s b hb).2.2.2, (add_mismatch_fields s b hb).1⟩

/-- Witness of claim C3: after a block A, a block with id 1 that is flagged
uncorrectable (block byte 0x81) is counted as a group error. -/
theorem mismatch_resets_assembler_witness :
    ((0x81 : Nat) &&& V4L2_RDS_BLOCK_ERROR ≠ 0 ∨
      ¬ expected_id (v4l2_rds_add (v4l2_rds_create false) test_group_0.a).2.decode_state
        (0x81 &&& V4L2_RDS_BLOCK_MSK)) ∧
    (v4l2_rds_add (v4l2_rds_add (v4l2_rds_create false) test_group_0.a).2
      ⟨0x00, 0x20, 0x81⟩).2.decode_state = RDS_EMPTY ∧
    (v4l2_rds_add (v4l2_rds_add (v4l2_rds_create false) test_group_0.a).2
      ⟨0x00, 0x20, 0x81⟩).2.handle.rds_statistics.group_error_cnt = 1 :=
  ⟨by decide,
    (mismatch_resets_assembler (v4l2_rds_add (v4l2_rds_create false) test_group_0.a).2
      ⟨0x00, 0x20, 0x81⟩ (by decide)).1,
    (mismatch_resets_assembler (v4l2_rds_add (v4l2_rds_create false) test_group_0.a).2
      ⟨0x00, 0x20, 0x81⟩ (by decide)).2.1⟩

/-- Counterexample to claim C4: on a fresh decoder the blocks A, A, B, C, D (all
bytes zero) do not end with `group_cnt = 1` and `group_error_cnt = 1`. -/
theorem sequencing_barrier_counterexample :
    ¬ ((add_blocks (v4l2_rds_create false)
        [⟨0, 0, 0⟩, ⟨0, 0, 0⟩, ⟨0, 0, 1⟩, ⟨0, 0, 2⟩,
          ⟨0, 0, 3⟩]).handle.rds_statistics.group_cnt = 1 ∧
      (add_blocks (v4l2_rds_create false)
        [⟨0, 0, 0⟩, ⟨0, 0, 0⟩, ⟨0, 0, 1⟩, ⟨0, 0, 2⟩,
          ⟨0, 0, 3⟩]).handle.rds_statistics.group_error_cnt = 1) := by
  decide

/-- Claim C4, amended: on a freshly created decoder and for every five error-free
blocks with the ids 0, 0, 1, 2, 3 ingested in this order, the first A starts the
assembly, the second A counts one group error and empties the assembler without
restarting the assembly, and the following B, C, D are each counted as a group
error; no ingest returns an update, and afterwards `group_cnt = 0`,
`group_error_cnt = 4` and the assembler is EMPTY. -/
theorem sequencing_barrier (r : Bool) (a1 a2 b c d : v4l2_rds_data)
    (h1 : has_id a1 0) (h2 : has_id a2 0) (hb : has_id b 1) (hc : has_id c 2)
    (hd : has_id d 3) :
    let r1 := v4l2_rds_add (v4l2_rds_create r) a1
    let r2 := v4l2_rds_add r1.2 a2
    let r3 := v4l2_rds_add r2.2 b
    let r4 := v4l2_rds_add r3.2 c
    let r5 := v4l2_rds_add r4.2 d
    r1.2.decode_state = RDS_A_RECEIVED ∧
    r2.2.decode_state = RDS_EMPTY ∧
    r2.2.handle.rds_statistics.group_error_cnt = 1 ∧
    r1.1 = 0 ∧ r2.1 = 0 ∧ r3.1 = 0 ∧ r4.1 = 0 ∧ r5.1 = 0 ∧
    r5.2.handle.rds_statistics.group_cnt = 0 ∧
    r5.2.handle.rds_statistics.group_error_cnt = 4 ∧
    r5.2.decode_state = RDS_EMPTY := by
  intro r1 r2 r3 r4 r5
  have e1 : r1 = _ := add_a (v4l2_rds_create r) a1 rfl h1
  have g1 : r1.2.handle.rds_statistics.group_error_cnt = 0 ∧
      r1.2.handle.rds_statistics.group_cnt = 0 ∧ r1.2.decode_state = RDS_A_RECEIVED ∧
      r1.1 = 0 := by
    rw [e1]
    refine ⟨?_, ?_, rfl, rfl⟩
    · show (count_block _ a1).group_error_cnt = 0
      rw [(count_block_frame _ a1).2.1]; rfl
    · show (count_block _ a1).group_cnt = 0
      rw [(count_block_frame _ a1).1]; rfl
  have m2 := add_mismatch_fields r1.2 a2 (Or.inr (by
    rw [g1.2.2.1, h2.2]; unfold expected_id; decide))
  have m3 := add_mismatch_fields r2.2 b (Or.inr (by
    rw [m2.2.1, hb.2]; unfold expected_id; decide))
  have m4 := add_mismatch_fields r3.2 c (Or.inr (by
    rw [m3.2.1, hc.2]; unfold expected_id; decide))
  have m5 := add_mismatch_fields r4.2 d (Or.inr (by
    rw [m4.2.1, hd.2]; unfold expected_id; decide))
  have ge2 : r2.2.handle.rds_statistics.group_error_cnt = 1 := by
    rw [m2.2.2.1, g1.1]; rfl
  have ge3 : r3.2.handle.rds_statistics.group_error_cnt = 2 := by
    rw [m3.2.2.1, ge2]; rfl
  have ge4 : r4.2.handle.rds_statistics.group_error_cnt = 3 := by
    rw [m4.2.2.1, ge3]; rfl
  have ge5 : r5.2.handle.rds_statistics.group_error_cnt = 4 := by
    rw [m5.2.2.1, ge4]; rfl
  have gc5 : r5.2.handle.rds_statistics.group_cnt = 0 := by
    rw [m5.2.2.2, m4.2.2.2, m3.2.2.2, m2.2.2.2, g1.2.1]
  exact ⟨g1.2.2.1, m2.2.1, ge2, g1.2.2.2, m2.1, m3.1, m4.1, m5.1, gc5, ge5, m5.2.1⟩

/-- Witness of claim C4 as amended: the block A of the test data twice, then its
blocks B, C, D, on a fresh decoder: four group errors. -/
theorem sequencing_barrier_witness :
    (has_id test_group_0.a 0 ∧ has_id test_group_0.b 1 ∧ has_id test_group_0.c 2 ∧
      has_id test_group_0.d 3) ∧
    (v4l2_rds_add (v4l2_rds_add (v4l2_rds_add (v4l2_rds_add (v4l2_rds_add
      (v4l2_rds_create false) test_group_0.a).2 test_group_0.a).2 test_group_0.b).2
      test_group_0.c).2 test_group_0.d).2.handle.rds_statistics.group_error_cnt = 4 :=
  ⟨by decide,
    (sequencing_barrier false test_group_0.a test_group_0.a test_group_0.b test_group_0.c
      test_group_0.d (by decide) (by decide) (by decide) (by decide)
      (by decide)).2.2.2.2.2.2.2.2.2.1⟩

/-! ## Properties of the group dispatcher and of the PS name (claims C5 to C10) -/

/-- Claim C5: for every state (reachable or not; the assembler is EMPTY, where a
complete group starts) and every PI value different from the accepted `pi`: after
two consecutive complete groups that both carry this PI in block A, `snapshot.pi`
is this PI, the PI bit of `valid_fields` is set, and the PI bit was in the
`updated_fields` of one of the two completing ingests: of the second one when
the PI was not already the pending `new_pi`. -/
theorem pi_confirmed_by_second_group (s : rds_private_state) (g1 g2 : raw_group)
    (h0 : s.decode_state = RDS_EMPTY) (hg1 : is_group g1) (hg2 : is_group g2)
    (hp : pi_of g2.a = pi_of g1.a) (hne : pi_of g1.a ≠ s.handle.pi) :
    (add_group (add_group s g1).2 g2).2.handle.pi = pi_of g1.a ∧
    bit_set (add_group (add_group s g1).2 g2).2.handle.valid_fields V4L2_RDS_PI ∧
    (bit_set (add_group s g1).1 V4L2_RDS_PI ∨
      bit_set (add_group (add_group s g1).2 g2).1 V4L2_RDS_PI) ∧
    (s.new_pi ≠ pi_of g1.a → bit_set (add_group (add_group s g1).2 g2).1 V4L2_RDS_PI) := by
  obtain ⟨a1, a2, a3, a4, a5⟩ := add_group_pi s g1 h0 hg1
  obtain ⟨b1, b2, b3, b4, -⟩ := add_group_pi (add_group s g1).2 g2 a5 hg2
  rw [hp] at b1 b3 b4
  by_cases hn : pi_of g1.a = s.new_pi
  · have acc : pi_of g1.a ≠ s.handle.pi ∧ pi_of g1.a = s.new_pi := ⟨hne, hn⟩
    rw [if_pos acc] at a1
    have nacc : ¬ (pi_of g1.a ≠ (add_group s g1).2.handle.pi ∧
        pi_of g1.a = (add_group s g1).2.new_pi) := by
      rw [a1]; intro h; exact h.1 rfl
    rw [if_neg nacc, a1] at b1
    refine ⟨b1, ?_, Or.inl (a3 acc), ?_⟩
    · rw [b4]; left; rw [a4]; right; exact acc
    · intro h; exact absurd hn.symm h
  · have nacc : ¬ (pi_of g1.a ≠ s.handle.pi ∧ pi_of g1.a = s.new_pi) := fun h => hn h.2
    rw [if_neg nacc] at a1
    rw [if_pos ⟨hne, hn⟩] at a2
    have acc2 : pi_of g1.a ≠ (add_group s g1).2.handle.pi ∧
        pi_of g1.a = (add_group s g1).2.new_pi := by
      rw [a1, a2]; exact ⟨hne, rfl⟩
    rw [if_pos acc2] at b1
    refine ⟨b1, ?_, Or.inr (b3 acc2), fun _ => b3 acc2⟩
    rw [b4]; right; exact acc2

/-- Witness of claim C5: the first group of the test data (PI 0x1234) twice on a
fresh decoder. -/
theorem pi_confirmed_by_second_group_witness :
    ((v4l2_rds_create false).decode_state = RDS_EMPTY ∧ is_group test_group_0 ∧
      pi_of test_group_0.a = pi_of test_group_0.a ∧
      pi_of test_group_0.a ≠ (v4l2_rds_create false).handle.pi) ∧
    (add_group (add_group (v4l2_rds_create false) test_group_0).2 test_group_0).2.handle.pi =
      pi_of test_group_0.a ∧
    bit_set (add_group (add_group (v4l2_rds_create false) test_group_0).2
      test_group_0).2.handle.valid_fields V4L2_RDS_PI :=
  ⟨⟨rfl, by decide, rfl, by decide⟩,
    (pi_confirmed_by_second_group (v4l2_rds_create false) test_group_0 test_group_0 rfl
      (by decide) (by decide) rfl (by decide)).1,
    (pi_confirmed_by_second_group (v4l2_rds_create false) test_group_0 test_group_0 rfl
      (by decide) (by decide) rfl (by decide)).2.1⟩

/-- Claim C6, evaluated at its failing input: two groups with PI 0x1111 make 0x1111
the accepted PI; the pending PI is then not 0x2222.  Three further groups with the
PI codes 0x2222, 0x1111, 0x2222 promote 0x2222, although its two receptions were
not consecutive: the reception of the accepted PI in between leaves `new_pi`
untouched. -/
theorem pi_window_not_reset_by_accepted :
    (add_groups (v4l2_rds_create false) [pi_group 0x1111, pi_group 0x1111]).handle.pi
      = 0x1111 ∧
    (add_groups (v4l2_rds_create false) [pi_group 0x1111, pi_group 0x1111]).new_pi
      ≠ 0x2222 ∧
    (add_groups (v4l2_rds_create false) [pi_group 0x1111, pi_group 0x1111,
      pi_group 0x2222, pi_group 0x1111]).handle.pi = 0x1111 ∧
    (add_groups (v4l2_rds_create false) [pi_group 0x1111, pi_group 0x1111,
      pi_group 0x2222, pi_group 0x1111, pi_group 0x2222]).handle.pi = 0x2222 := by
  decide

/-- Claim C7: let the calls `cs` on a fresh decoder leave the blocks A, B, C of a
group pending in the assembler of the specification, and let a block D complete
it.  With `pty` the bits 5 to 9 of block B (computed in 8 bits), `snapshot.pty`
changes during the completing ingest if and only if `pty` differs from the accepted
`snapshot.pty` and equals the PTY carried by the last group completed since create
or reset; when it changes, it changes to `pty`, and the PTY bit is in
`updated_fields` and in `valid_fields`. -/
theorem pty_promoted_iff_repeated (r : Bool) (cs : List rds_call) (a b c d : v4l2_rds_data)
    (hp : (cs.foldl spec_assemble ([], none)).1 = [a, b, c]) (hd : has_id d 3) :
    ((v4l2_rds_add (run_calls r cs) d).2.handle.pty ≠ (run_calls r cs).handle.pty ↔
      (pty_of b ≠ (run_calls r cs).handle.pty ∧
        (last_group cs).map (fun g => pty_of g.b) = some (pty_of b))) ∧
    ((v4l2_rds_add (run_calls r cs) d).2.handle.pty ≠ (run_calls r cs).handle.pty →
      (v4l2_rds_add (run_calls r cs) d).2.handle.pty = pty_of b ∧
      bit_set (v4l2_rds_add (run_calls r cs) d).1 V4L2_RDS_PTY ∧
      bit_set (v4l2_rds_add (run_calls r cs) d).2.handle.valid_fields V4L2_RDS_PTY) := by
  have inv := inv_run cs (v4l2_rds_create r) ([], none) (inv_create r)
  obtain ⟨hds, hpend, hlast⟩ := inv
  rw [hp] at hpend
  have hlen := congrArg List.length hpend
  simp only [List.length_cons, List.length_nil, List.length_map, List.length_range] at hlen
  have h3 : (run_calls r cs).decode_state = RDS_C_RECEIVED := by
    unfold run_calls; exact hlen.symm
  have hraw : (run_calls r cs).rds_data_raw 1 = b := by
    have h3' : (List.foldl run_call (v4l2_rds_create r) cs).decode_state = 3 := hlen.symm
    rw [h3'] at hpend
    simp only [List.range_succ, List.range_zero, List.map_append, List.map_nil,
      List.nil_append, List.map_cons, List.cons_append, List.cons.injEq, and_true] at hpend
    exact hpend.2.1.symm
  rw [add_d _ d h3 hd]
  obtain ⟨q1, q2, q3⟩ := decode_complete_pty
    { run_calls r cs with
      decode_state := RDS_EMPTY,
      rds_data_raw := arr_set (run_calls r cs).rds_data_raw 3 d,
      handle := { (run_calls r cs).handle with rds_statistics :=
        { count_block (run_calls r cs).handle.rds_statistics d with
          group_cnt := inc32 (count_block (run_calls r cs).handle.rds_statistics d).group_cnt } } }
  have eraw : (arr_set (run_calls r cs).rds_data_raw 3 d) 1 = b := hraw
  simp only [eraw] at q1 q2 q3
  have hlast' : match last_group cs with
      | none => (run_calls r cs).new_pty = 0 ∧ (run_calls r cs).handle.pty = 0
      | some g => (run_calls r cs).new_pty = pty_of g.b := hlast
  have key : ((run_calls r cs).handle.pty ≠ pty_of b ∧ (run_calls r cs).new_pty = pty_of b) ↔
      (pty_of b ≠ (run_calls r cs).handle.pty ∧
        (last_group cs).map (fun g => pty_of g.b) = some (pty_of b)) := by
    cases hl : last_group cs with
    | none =>
      rw [hl] at hlast'
      constructor
      · intro h
        exact absurd (by rw [hlast'.2, ← h.2, hlast'.1]) h.1
      · intro h
        exact absurd h.2 (by simp)
    | some g =>
      rw [hl] at hlast'
      have hs : Option.map (fun g => pty_of g.b) (some g) = some (pty_of b) ↔
          pty_of g.b = pty_of b := by
        simp only [Option.map_some', Option.some.injEq]
      rw [hs, hlast']
      constructor
      · intro h; exact ⟨fun e => h.1 e.symm, h.2⟩
      · intro h; exact ⟨fun e => h.1 e.symm, h.2⟩
  constructor
  · rw [q2, ← key]
    constructor
    · intro h
      by_contra hc
      rw [if_neg hc] at h
      exact h rfl
    · intro h
      rw [if_pos h]
      exact fun e => h.1 e.symm
  · intro h
    rw [q2] at h
    have hacc : (run_calls r cs).handle.pty ≠ pty_of b ∧
        (run_calls r cs).new_pty = pty_of b := by
      by_contra hc
      rw [if_neg hc] at h
      exact h rfl
    refine ⟨?_, (q3 hacc).1, (q3 hacc).2⟩
    rw [q2, if_pos hacc]

/-- Witness of claim C7: a group with PTY 5 on a fresh decoder, then a second one:
its block D promotes PTY 5. -/
theorem pty_promoted_iff_repeated_witness :
    ((pty_calls.foldl spec_assemble ([], none)).1 = [pty_group.a, pty_group.b, pty_group.c] ∧
      has_id pty_group.d 3) ∧
    (v4l2_rds_add (run_calls false pty_calls) pty_group.d).2.handle.pty = pty_of pty_group.b :=
  ⟨by decide,
    ((pty_promoted_iff_repeated false pty_calls pty_group.a pty_group.b pty_group.c
        pty_group.d (by decide) (by decide)).2
      ((pty_promoted_iff_repeated false pty_calls pty_group.a pty_group.b pty_group.c
        pty_group.d (by decide) (by decide)).1.mpr ⟨by decide, by decide⟩)).1⟩

/-- Claim C8, evaluated at its failing input: the expression
`(bool)rds_data->msb & 0x04` is false for every `msb`; a group whose block B has
bit 2 of `msb` set leaves `snapshot.tp` false on a fresh decoder and puts no TP bit
into `updated_fields`. -/
theorem traffic_program_never_decoded :
    (∀ msb : Nat, traffic_prog_of msb = false) ∧
    tp_group.b.msb &&& 0x04 ≠ 0 ∧
    (add_group (v4l2_rds_create false) tp_group).2.handle.tp = false ∧
    ¬ bit_set (add_group (v4l2_rds_create false) tp_group).1 V4L2_RDS_TP := by
  refine ⟨?_, by decide, by decide, by decide⟩
  intro msb
  unfold traffic_prog_of to_bool
  by_cases h : msb = 0
  · simp [h]
  · simp [h]

/-- Claim C9: for every state (reachable or not; the assembler is EMPTY) and every
8 bytes c0..c7: after eight consecutive group-0 groups with the segments
0, 1, 2, 3, 0, 1, 2, 3, where the group with segment s carries `data_d_msb = c[2s]`
and `data_d_lsb = c[2s+1]`, `snapshot.ps` is c0..c7 and the PS bit of
`valid_fields` is set. -/
theorem ps_name_sent_twice (s : rds_private_state) (c : Nat → Nat) (g : Nat → raw_group)
    (h0 : s.decode_state = RDS_EMPTY)
    (hg : ∀ k, k < 8 → is_group (g k) ∧ group_id_of (g k).b = 0 ∧
      segment_of (g k).b = k % 4 ∧ (g k).d.msb = c (2 * (k % 4)) ∧
      (g k).d.lsb = c (2 * (k % 4) + 1)) :
    (∀ i, i < 8 → (add_groups s ((List.range 8).map g)).handle.ps i = c i) ∧
    bit_set (add_groups s ((List.range 8).map g)).handle.valid_fields V4L2_RDS_PS :=
  (ps_twice_run c g s h0 hg 8 (Nat.le_refl 8)).2.2.2 rfl

/-- Witness of claim C9: "NO", "WP", "LA", "Y!" sent twice to a fresh decoder gives
"NOWPLAY!". -/
theorem ps_name_sent_twice_witness :
    ((v4l2_rds_create false).decode_state = RDS_EMPTY ∧
      ∀ k, k < 8 → is_group (nowplay_group k) ∧ group_id_of (nowplay_group k).b = 0 ∧
        segment_of (nowplay_group k).b = k % 4 ∧
        (nowplay_group k).d.msb = nowplay (2 * (k % 4)) ∧
        (nowplay_group k).d.lsb = nowplay (2 * (k % 4) + 1)) ∧
    (∀ i, i < 8 →
      (add_groups (v4l2_rds_create false) ((List.range 8).map nowplay_group)).handle.ps i =
        nowplay i) ∧
    bit_set (add_groups (v4l2_rds_create false)
      ((List.range 8).map nowplay_group)).handle.valid_fields V4L2_RDS_PS :=
  ⟨⟨rfl, by decide⟩,
    ps_name_sent_twice (v4l2_rds_create false) nowplay nowplay_group rfl (by decide)⟩

/-- Counterexample to claim C10: on a fresh decoder, four group-0 groups with the
segments 0, 1, 2, 3 that carry eight NUL characters leave all eight
`new_ps_valid` flags standing and set the PS bit of `valid_fields`, although every
position was received once only. -/
theorem ps_single_pass_counterexample :
    ¬ ((∀ i, i < 8 → (add_trace ([], v4l2_rds_create false)
        (group_blocks (nul_ps_group 0) ++ group_blocks (nul_ps_group 1) ++
          group_blocks (nul_ps_group 2) ++ group_blocks (nul_ps_group 3))).2.new_ps_valid i
          = 0) ∧
      ¬ bit_set (add_trace ([], v4l2_rds_create false)
        (group_blocks (nul_ps_group 0) ++ group_blocks (nul_ps_group 1) ++
          group_blocks (nul_ps_group 2) ++ group_blocks (nul_ps_group 3))).2.handle.valid_fields
        V4L2_RDS_PS) := by
  decide

/-- Claim C10, amended: on a freshly created decoder, after only four group-0
groups with the segments 0, 1, 2, 3 that carry the characters c0..c7, the
`new_ps_valid` flag of position i stands exactly when the character at i and all
later ones are 0x00, the content of the zeroed pending buffer (so no flag stands
when c7 is not 0x00); the PS bit of `valid_fields` is set exactly when all eight
characters are 0x00; and PS is in the `updated_fields` of none of the sixteen
ingests. -/
theorem ps_single_pass (r : Bool) (c : Nat → Nat) (g : Nat → raw_group)
    (hg : ∀ k, k < 4 → is_group (g k) ∧ group_id_of (g k).b = 0 ∧
      segment_of (g k).b = k ∧ (g k).d.msb = c (2 * k) ∧ (g k).d.lsb = c (2 * k + 1)) :
    (∀ i, i < 8 →
      ((add_trace ([], v4l2_rds_create r) (group_blocks (g 0) ++ group_blocks (g 1) ++
        group_blocks (g 2) ++ group_blocks (g 3))).2.new_ps_valid i ≠ 0 ↔
        ∀ j, i ≤ j → j < 8 → c j = 0)) ∧
    (bit_set (add_trace ([], v4l2_rds_create r) (group_blocks (g 0) ++ group_blocks (g 1) ++
        group_blocks (g 2) ++ group_blocks (g 3))).2.handle.valid_fields V4L2_RDS_PS ↔
      ∀ j, j < 8 → c j = 0) ∧
    (∀ u, u ∈ (add_trace ([], v4l2_rds_create r) (group_blocks (g 0) ++ group_blocks (g 1) ++
        group_blocks (g 2) ++ group_blocks (g 3))).1 → ¬ bit_set u V4L2_RDS_PS) := by
  obtain ⟨a1, a2, a3, a4, a5⟩ := hg 0 (by omega)
  obtain ⟨b1, b2, b3, b4, b5⟩ := hg 1 (by omega)
  obtain ⟨c1, c2, c3, c4, c5⟩ := hg 2 (by omega)
  obtain ⟨d1, d2, d3, d4, d5⟩ := hg 3 (by omega)
  have j1 := ps_once_step c 0 _ (g 0) (by omega) a1 a2 a3 a4 a5 (ps_once_init c r)
  have j2 := ps_once_step c 1 _ (g 1) (by omega) b1 b2 b3 b4 b5 j1
  have j3 := ps_once_step c 2 _ (g 2) (by omega) c1 c2 c3 c4 c5 j2
  have j4 := ps_once_step c 3 _ (g 3) (by omega) d1 d2 d3 d4 d5 j3
  have e : add_trace ([], v4l2_rds_create r) (group_blocks (g 0) ++ group_blocks (g 1) ++
        group_blocks (g 2) ++ group_blocks (g 3)) =
      add_trace (add_trace (add_trace (add_trace ([], v4l2_rds_create r) (group_blocks (g 0)))
        (group_blocks (g 1))) (group_blocks (g 2))) (group_blocks (g 3)) := by
    unfold add_trace
    rw [List.foldl_append, List.foldl_append, List.foldl_append]
  rw [e]
  obtain ⟨-, -, -, k4, k5, -, -, -, k9, k10⟩ := j4
  refine ⟨?_, k9 rfl, ?_⟩
  · intro i hi
    constructor
    · intro hne j hj1 hj2
      by_contra hcj
      exact hne (k5 i (by omega) ⟨j, hj1, by omega, hcj⟩)
    · intro hc
      rw [k4 i (by omega) (fun j hj1 hj2 => hc j hj1 (by omega))]
      decide
  · intro u hu hb
    exact hb (k10 u hu)

/-- Witness of claim C10 as amended: "NO", "WP", "LA", "Y!" sent once to a fresh
decoder: the PS bit is set exactly when all characters are zero (they are not). -/
theorem ps_single_pass_witness :
    (∀ k, k < 4 → is_group (nowplay_group k) ∧ group_id_of (nowplay_group k).b = 0 ∧
      segment_of (nowplay_group k).b = k ∧ (nowplay_group k).d.msb = nowplay (2 * k) ∧
      (nowplay_group k).d.lsb = nowplay (2 * k + 1)) ∧
    (bit_set (add_trace ([], v4l2_rds_create false) (group_blocks (nowplay_group 0) ++
        group_blocks (nowplay_group 1) ++ group_blocks (nowplay_group 2) ++
        group_blocks (nowplay_group 3))).2.handle.valid_fields V4L2_RDS_PS ↔
      ∀ j, j < 8 → nowplay j = 0) :=
  ⟨by decide, (ps_single_pass false nowplay nowplay_group (by decide)).2.1⟩

/-! ## Frame: radio text, decoder information, open data and AF list -/

theorem decode_group_eq (X : rds_private_state) :
    rds_decode_group X =
      if X.rds_group.group_id = 0 then rds_decode_group0 (count_type X)
      else if X.rds_group.group_id = 1 then rds_decode_group1 (count_type X)
      else if X.rds_group.group_id = 2 then rds_decode_group2 (count_type X)
      else if X.rds_group.group_id = 3 then rds_decode_group3 (count_type X)
      else if X.rds_group.group_id = 4 then rds_decode_group4 (count_type X)
      else if X.rds_group.group_id = 10 then rds_decode_group10 (count_type X)
      else (0, count_type X) := rfl

theorem aux4_fields (s s' : rds_private_state) (h : aux4 s' = aux4 s) :
    rt_part s' = rt_part s ∧ di_part s' = di_part s ∧ oda_part s' = oda_part s ∧
    s'.handle.rds_af = s.handle.rds_af := by
  simpa only [aux4, Prod.mk.injEq] using h

theorem aux4_mk (s s' : rds_private_state) (h1 : rt_part s' = rt_part s)
    (h2 : di_part s' = di_part s) (h3 : oda_part s' = oda_part s)
    (h4 : s'.handle.rds_af = s.handle.rds_af) : aux4 s' = aux4 s := by
  unfold aux4
  rw [h1, h2, h3, h4]

theorem rt_part_fields (s s' : rds_private_state) (h : rt_part s' = rt_part s) :
    s'.new_rt = s.new_rt ∧ s'.next_rt_segment = s.next_rt_segment ∧
    s'.handle.rt = s.handle.rt ∧ s'.handle.rt_length = s.handle.rt_length ∧
    s'.handle.rt_ab_flag = s.handle.rt_ab_flag := by
  simpa only [rt_part, Prod.mk.injEq] using h

theorem di_part_fields (s s' : rds_private_state) (h : di_part s' = di_part s) :
    s'.new_di = s.new_di ∧ s'.next_di_segment = s.next_di_segment ∧
    s'.handle.di = s.handle.di := by
  simpa only [di_part, Prod.mk.injEq] using h

theorem oda_part_fields (s s' : rds_private_state) (h : oda_part s' = oda_part s) :
    s'.handle.rds_oda = s.handle.rds_oda ∧
    s'.handle.decode_information = s.handle.decode_information := by
  simpa only [oda_part, Prod.mk.injEq] using h

theorem aux4_ta_ms (s : rds_private_state) : aux4 (rds_decode_ta_ms s).2 = aux4 s := by
  unfold rds_decode_ta_ms
  simp only []
  split_ifs <;> rfl

theorem aux4_add_ps (s : rds_private_state) (p c : Nat) :
    aux4 (rds_add_ps s p c).2 = aux4 s := by
  unfold rds_add_ps
  simp only []
  split_ifs <;> rfl

theorem aux4_ps (acc : Nat × rds_private_state) : aux4 (rds_decode_ps acc).2 = aux4 acc.2 := by
  have h := (aux4_add_ps (rds_add_ps acc.2 ((acc.2.rds_group.data_b_lsb &&& 3) * 2)
    acc.2.rds_group.data_d_msb).2 ((acc.2.rds_group.data_b_lsb &&& 3) * 2 + 1)
    acc.2.rds_group.data_d_lsb).trans (aux4_add_ps acc.2 _ _)
  unfold rds_decode_ps
  simp only []
  split_ifs <;> exact h

theorem frame_di (acc : Nat × rds_private_state) :
    rt_part (rds_decode_di acc).2 = rt_part acc.2 ∧
    oda_part (rds_decode_di acc).2 = oda_part acc.2 ∧
    (rds_decode_di acc).2.handle.rds_af = acc.2.handle.rds_af ∧
    ps_core (rds_decode_di acc).2 = ps_core acc.2 := by
  unfold rds_decode_di
  simp only []
  split_ifs <;> exact ⟨rfl, rfl, rfl, rfl⟩

theorem frame_add_af (s : rds_private_state) :
    rt_part (rds_add_af s).2 = rt_part s ∧ di_part (rds_add_af s).2 = di_part s ∧
    oda_part (rds_add_af s).2 = oda_part s := by
  unfold rds_add_af
  simp only []
  split_ifs <;> exact ⟨rfl, rfl, rfl⟩

theorem frame_af (acc : Nat × rds_private_state) :
    rt_part (rds_decode_af acc).2 = rt_part acc.2 ∧
    di_part (rds_decode_af acc).2 = di_part acc.2 ∧
    oda_part (rds_decode_af acc).2 = oda_part acc.2 := by
  unfold rds_decode_af
  simp only []
  split_ifs <;> first | exact frame_add_af acc.2 | exact ⟨rfl, rfl, rfl⟩

theorem aux4_group1 (s : rds_private_state) : aux4 (rds_decode_group1 s).2 = aux4 s := by
  unfold rds_decode_group1
  simp only []
  split_ifs <;> rfl

theorem frame_rt_flag (s : rds_private_state) :
    di_part (rds_decode_rt_flag s).2 = di_part s ∧
    oda_part (rds_decode_rt_flag s).2 = oda_part s ∧
    (rds_decode_rt_flag s).2.handle.rds_af = s.handle.rds_af ∧
    (rds_decode_rt_flag s).2.rds_group = s.rds_group := by
  unfold rds_decode_rt_flag
  simp only []
  split_ifs <;> exact ⟨rfl, rfl, rfl, rfl⟩

theorem frame_rt_segment (acc : Nat × rds_private_state) :
    di_part (rds_decode_rt_segment acc).2 = di_part acc.2 ∧
    oda_part (rds_decode_rt_segment acc).2 = oda_part acc.2 ∧
    (rds_decode_rt_segment acc).2.handle.rds_af = acc.2.handle.rds_af := by
  unfold rds_decode_rt_segment
  simp only []
  split_ifs <;> exact ⟨rfl, rfl, rfl⟩

theorem frame_cr_step (acc : Nat × rds_private_state) (i : Nat) :
    di_part (rds_rt_cr_step acc i).2 = di_part acc.2 ∧
    oda_part (rds_rt_cr_step acc i).2 = oda_part acc.2 ∧
    (rds_rt_cr_step acc i).2.handle.rds_af = acc.2.handle.rds_af := by
  unfold rds_rt_cr_step
  simp only []
  split_ifs <;> exact ⟨rfl, rfl, rfl⟩

theorem frame_cr_loop (l : List Nat) (acc : Nat × rds_private_state) :
    di_part (l.foldl rds_rt_cr_step acc).2 = di_part acc.2 ∧
    oda_part (l.foldl rds_rt_cr_step acc).2 = oda_part acc.2 ∧
    (l.foldl rds_rt_cr_step acc).2.handle.rds_af = acc.2.handle.rds_af := by
  induction l generalizing acc with
  | nil => exact ⟨rfl, rfl, rfl⟩
  | cons i l ih =>
    rw [List.foldl_cons]
    obtain ⟨a1, a2, a3⟩ := ih (rds_rt_cr_step acc i)
    obtain ⟨b1, b2, b3⟩ := frame_cr_step acc i
    exact ⟨a1.trans b1, a2.trans b2, a3.trans b3⟩

theorem frame_group2 (s : rds_private_state) :
    di_part (rds_decode_group2 s).2 = di_part s ∧
    oda_part (rds_decode_group2 s).2 = oda_part s ∧
    (rds_decode_group2 s).2.handle.rds_af = s.handle.rds_af := by
  unfold rds_decode_group2
  obtain ⟨a1, a2, a3⟩ := frame_cr_loop (List.range 64)
    (rds_decode_rt_segment (rds_decode_rt_flag s))
  obtain ⟨b1, b2, b3⟩ := frame_rt_segment (rds_decode_rt_flag s)
  obtain ⟨c1, c2, c3, -⟩ := frame_rt_flag s
  exact ⟨a1.trans (b1.trans c1), a2.trans (b2.trans c2), a3.trans (b3.trans c3)⟩

theorem frame_group3 (s : rds_private_state) :
    rt_part (rds_decode_group3 s).2 = rt_part s ∧
    di_part (rds_decode_group3 s).2 = di_part s ∧
    (rds_decode_group3 s).2.handle.rds_af = s.handle.rds_af := by
  unfold rds_decode_group3 rds_add_oda
  simp only []
  split_ifs <;> exact ⟨rfl, rfl, rfl⟩

theorem aux4_group4 (s : rds_private_state) : aux4 (rds_decode_group4 s).2 = aux4 s := by
  unfold rds_decode_group4
  simp only []
  split_ifs <;> rfl

theorem aux4_ptyn_flag (s : rds_private_state) :
    aux4 (rds_decode_ptyn_flag s).2 = aux4 s := by
  unfold rds_decode_ptyn_flag
  simp only []
  split_ifs <;> rfl

theorem aux4_ptyn_half (acc : Nat × rds_private_state) :
    aux4 (rds_decode_ptyn_half acc).2 = aux4 acc.2 := by
  unfold rds_decode_ptyn_half
  simp only []
  split_ifs <;> rfl

theorem aux4_ptyn_accept (acc : Nat × rds_private_state) :
    aux4 (rds_decode_ptyn_accept acc).2 = aux4 acc.2 := by
  unfold rds_decode_ptyn_accept
  simp only []
  split_ifs <;> rfl

theorem aux4_group10 (s : rds_private_state) : aux4 (rds_decode_group10 s).2 = aux4 s := by
  unfold rds_decode_group10
  split_ifs
  · rfl
  · rw [aux4_ptyn_accept, aux4_ptyn_half, aux4_ptyn_flag]

theorem aux4_abcd (t : rds_private_state) : aux4 (decode_abcd t) = aux4 t := by
  unfold decode_abcd rds_decode_d rds_decode_c rds_decode_b rds_decode_a
  simp only []
  split_ifs <;> rfl

theorem aux4_group_input (s : rds_private_state) (g : raw_group) :
    aux4 (group_input s g) = aux4 s := by
  have h : aux4 (group_input s g) = aux4 (decode_abcd (group_ready s g)) := rfl
  rw [h, aux4_abcd]
  rfl

/-! ## What holds in every reachable state -/

theorem reach_inv_congr (s s' : rds_private_state) (h : aux4 s' = aux4 s)
    (hi : reach_inv s) : reach_inv s' := by
  obtain ⟨h1, h2, h3, h4⟩ := aux4_fields _ _ h
  obtain ⟨r1, -, -, -, -⟩ := rt_part_fields _ _ h1
  obtain ⟨d1, -, -⟩ := di_part_fields _ _ h2
  obtain ⟨o1, -⟩ := oda_part_fields _ _ h3
  unfold reach_inv rt_clean at hi ⊢
  rw [r1, d1, o1, h4]
  exact hi

theorem set_bit_lt : ∀ d, d < 16 → ∀ b : Bool,
    set_bit d V4L2_RDS_FLAG_STEREO b < 16 ∧ set_bit d V4L2_RDS_FLAG_ARTIFICIAL_HEAD b < 16 ∧
    set_bit d V4L2_RDS_FLAG_COMPRESSED b < 16 ∧ set_bit d V4L2_RDS_FLAG_STATIC_PTY b < 16 := by
  decide

theorem di_new_lt (acc : Nat × rds_private_state) (h : acc.2.new_di < 16) :
    (rds_decode_di acc).2.new_di < 16 := by
  have hs := set_bit_lt acc.2.new_di h
  unfold rds_decode_di
  simp only []
  split_ifs
  · exact (hs _).1
  · exact (hs _).2.1
  · exact (hs _).2.2.1
  · exact (hs _).2.2.2
  · exact (hs _).2.2.2
  · exact h
  · exact (by decide : (0 : Nat) < 16)

/-- The two outcomes of `rds_add_af_to_list`: nothing happens, or the frequency is new
and appended to a list that has room. -/
theorem add_af_to_list_cases (a : v4l2_rds_af_set) (af : Nat) (vhf : Bool) :
    ((rds_add_af_to_list a af vhf).1 = false ∧ (rds_add_af_to_list a af vhf).2 = a) ∨
    ((rds_add_af_to_list a af vhf).1 = true ∧ af ≠ 0 ∧ a.size < MAX_AF_CNT ∧
      a.size < a.announced_af ∧
      (∀ i, i < a.size → a.af i ≠
        (if vhf then (87500000 + af * 100000) % 2 ^ 32 else (152000 + af * 9000) % 2 ^ 32)) ∧
      (rds_add_af_to_list a af vhf).2 =
        { a with
          af := arr_set a.af a.size
            (if vhf then (87500000 + af * 100000) % 2 ^ 32 else (152000 + af * 9000) % 2 ^ 32),
          size := a.size + 1 }) := by
  unfold rds_add_af_to_list
  simp only []
  by_cases h0 : af = 0
  · left; rw [if_pos h0]; exact ⟨rfl, rfl⟩
  · rw [if_neg h0]
    by_cases h1 : a.size ≥ MAX_AF_CNT ∨ a.size ≥ a.announced_af
    · left; rw [if_pos h1]; exact ⟨rfl, rfl⟩
    · rw [if_neg h1]
      have h1' : a.size < MAX_AF_CNT ∧ a.size < a.announced_af := by
        constructor <;> omega
      have hfreq : (if vhf = true then (87500000 + af * 100000) % 2 ^ 32
          else if 0 ≤ 15 then (152000 + af * 9000) % 2 ^ 32
          else (531000 + af * 9000) % 2 ^ 32) =
          (if vhf = true then (87500000 + af * 100000) % 2 ^ 32
            else (152000 + af * 9000) % 2 ^ 32) := by
        split_ifs with h1 h2
        · rfl
        · rfl
        · exact absurd (Nat.zero_le 15) h2
      rw [hfreq]
      by_cases h2 : ((List.range a.size).any (fun i => a.af i ==
          (if vhf = true then (87500000 + af * 100000) % 2 ^ 32
            else (152000 + af * 9000) % 2 ^ 32))) = true
      · left; rw [if_pos h2]; exact ⟨rfl, rfl⟩
      · right
        rw [if_neg h2]
        refine ⟨rfl, h0, h1'.1, h1'.2, ?_, ?_⟩
        · intro i hi he
          apply h2
          rw [List.any_eq_true]
          exact ⟨i, List.mem_range.mpr hi, by simpa using he⟩
        · have hm : (a.size + 1) % 256 = a.size + 1 := by
            apply Nat.mod_eq_of_lt
            have := h1'.1
            unfold MAX_AF_CNT at this
            omega
          rw [hm]

theorem af_ok_add (a : v4l2_rds_af_set) (af : Nat) (vhf : Bool) (h : af_ok a) :
    af_ok (rds_add_af_to_list a af vhf).2 := by
  rcases add_af_to_list_cases a af vhf with ⟨-, e⟩ | ⟨-, -, h1, h2, h3, e⟩
  · rw [e]; exact h
  · rw [e]
    obtain ⟨k1, k2, k3⟩ := h
    refine ⟨?_, k2, ?_⟩
    · show a.size + 1 ≤ MAX_AF_CNT
      omega
    · intro i j hi hj hij
      have hi' : i < a.size + 1 := hi
      have hj' : j < a.size + 1 := hj
      show arr_set a.af a.size _ i ≠ arr_set a.af a.size _ j
      unfold arr_set
      by_cases ei : i = a.size
      · have ej : ¬ j = a.size := by omega
        rw [if_pos ei, if_neg ej]
        exact fun hc => h3 j (by omega) hc.symm
      · rw [if_neg ei]
        by_cases ej : j = a.size
        · rw [if_pos ej]
          exact h3 i (by omega)
        · rw [if_neg ej]
          exact k3 i j (by omega) (by omega) hij

/-! ## A group ingested from an empty assembler -/

theorem group_input_group (s : rds_private_state) (g : raw_group) :
    (group_input s g).rds_group =
      { pi := pi_of g.a,
        group_version := if g.b.msb &&& 0x08 ≠ 0 then CHAR_B else CHAR_A,
        group_id := group_id_of g.b,
        data_b_lsb := g.b.lsb &&& 0x1f,
        data_c_msb := g.c.msb,
        data_c_lsb := g.c.lsb,
        data_d_msb := g.d.msb,
        data_d_lsb := g.d.lsb } :=
  abcd_group (group_ready s g)

theorem group_input_valid (s : rds_private_state) (g : raw_group) (m : Nat)
    (h1 : V4L2_RDS_PI &&& m = 0) (h2 : V4L2_RDS_TP &&& m = 0) (h3 : V4L2_RDS_PTY &&& m = 0) :
    (group_input s g).handle.valid_fields &&& m = s.handle.valid_fields &&& m :=
  abcd_valid (group_ready s g) m h1 h2 h3

theorem decode_group_input (s : rds_private_state) (g : raw_group) :
    rds_decode_group (decode_abcd (group_ready s g)) =
      if group_id_of g.b = 0 then rds_decode_group0 (group_input s g)
      else if group_id_of g.b = 1 then rds_decode_group1 (group_input s g)
      else if group_id_of g.b = 2 then rds_decode_group2 (group_input s g)
      else if group_id_of g.b = 3 then rds_decode_group3 (group_input s g)
      else if group_id_of g.b = 4 then rds_decode_group4 (group_input s g)
      else if group_id_of g.b = 10 then rds_decode_group10 (group_input s g)
      else (0, group_input s g) := by
  have e : (decode_abcd (group_ready s g)).rds_group.group_id = group_id_of g.b := by
    rw [abcd_group]; rfl
  rw [decode_group_eq, e]
  rfl

/-- Four blocks A, B, C, D ingested from an empty assembler: the state is the one the
group decoder leaves, the assembler is empty again, and the bits of `updated_fields`
other than PI, TP and PTY are those of the group decoder. -/
theorem add_group_decode (s : rds_private_state) (g : raw_group)
    (h0 : s.decode_state = RDS_EMPTY) (hg : is_group g) :
    (add_group s g).2 = (rds_decode_group (decode_abcd (group_ready s g))).2 ∧
    (add_group s g).2.decode_state = RDS_EMPTY ∧
    ∀ m, V4L2_RDS_PI &&& m = 0 → V4L2_RDS_TP &&& m = 0 → V4L2_RDS_PTY &&& m = 0 →
      (add_group s g).1 &&& m = (rds_decode_group (decode_abcd (group_ready s g))).1 &&& m := by
  rw [add_group_eq s g h0 hg]
  refine ⟨rfl, ?_, ?_⟩
  · have hds := (core_fields _ _ (decode_complete_core (group_ready s g))).2.1
    rw [hds, (abcd_frame (group_ready s g)).1]
    rfl
  · intro m h1 h2 h3
    have hua := upd_decode_a { group_ready s g with rds_group := zero_group }
      ((group_ready s g).rds_data_raw 0) m h1
    have hub := upd_decode_b
      (rds_decode_a { group_ready s g with rds_group := zero_group }
        ((group_ready s g).rds_data_raw 0)).2
      ((group_ready s g).rds_data_raw 1) m h2 h3
    rw [decode_complete_updated, and_or_r, and_or_r, and_or_r, hua, hub]
    simp only [Nat.zero_and, Nat.zero_or, Nat.or_zero]

/-! ## The carriage-return loop of the radio text -/

theorem cr_step_clean (acc : Nat × rds_private_state) (i : Nat)
    (h : acc.2.new_rt i ≠ 0x0d) : rds_rt_cr_step acc i = acc := by
  unfold rds_rt_cr_step
  simp only []
  rw [if_neg h]

/-- The carriage-return loop changes nothing when the pending text holds no carriage
return at the positions it visits. -/
theorem cr_loop_id (l : List Nat) (acc : Nat × rds_private_state)
    (h : ∀ i, i ∈ l → acc.2.new_rt i ≠ 0x0d) : l.foldl rds_rt_cr_step acc = acc := by
  induction l generalizing acc with
  | nil => rfl
  | cons j l ih =>
    rw [List.foldl_cons, cr_step_clean _ _ (h j (List.mem_cons_self j l))]
    exact ih acc (fun i hi => h i (List.mem_cons_of_mem j hi))

theorem cr_step_new_rt (acc : Nat × rds_private_state) (i k : Nat) :
    (rds_rt_cr_step acc i).2.new_rt k =
      if k = i ∧ acc.2.new_rt i = 0x0d then 0 else acc.2.new_rt k := by
  by_cases h : acc.2.new_rt i = 0x0d
  · have e : (rds_rt_cr_step acc i).2.new_rt = arr_set acc.2.new_rt i 0 := by
      unfold rds_rt_cr_step
      simp only []
      rw [if_pos h]
    rw [e]
    unfold arr_set
    by_cases hk : k = i
    · rw [if_pos hk, if_pos ⟨hk, h⟩]
    · rw [if_neg hk, if_neg (fun hc => hk hc.1)]
  · rw [cr_step_clean _ _ h, if_neg (fun hc => h hc.2)]

/-- One carriage return in the pending text, at the position `i`: the loop does what its
iteration `i` does. -/
theorem cr_loop_single (l : List Nat) (acc : Nat × rds_private_state) (i : Nat)
    (hi : i ∈ l) (hc : acc.2.new_rt i = 0x0d)
    (ho : ∀ j, j ∈ l → j ≠ i → acc.2.new_rt j ≠ 0x0d) :
    l.foldl rds_rt_cr_step acc = rds_rt_cr_step acc i := by
  induction l with
  | nil => exact absurd hi (List.not_mem_nil i)
  | cons j l ih =>
    rw [List.foldl_cons]
    by_cases hj : j = i
    · rw [hj]
      apply cr_loop_id
      intro k _
      rw [cr_step_new_rt]
      by_cases hk : k = i
      · rw [if_pos ⟨hk, hc⟩]; decide
      · rw [if_neg (fun h => hk h.1)]
        by_cases hkl : k ∈ j :: l
        · exact ho k hkl hk
        · rename_i hkin
          exact absurd (List.mem_cons_of_mem j hkin) hkl
    · rw [cr_step_clean _ _ (ho j (List.mem_cons_self j l) hj)]
      rcases List.mem_cons.mp hi with h | h
      · exact absurd h.symm hj
      · exact ih h (fun k hk => ho k (List.mem_cons_of_mem j hk))

/-- After the carriage-return loop the positions it visited hold no carriage return,
and no other position got one. -/
theorem cr_loop_clean (l : List Nat) (acc : Nat × rds_private_state) (i : Nat)
    (h : i ∈ l ∨ acc.2.new_rt i ≠ 0x0d) : (l.foldl rds_rt_cr_step acc).2.new_rt i ≠ 0x0d := by
  induction l generalizing acc with
  | nil =>
    rcases h with h | h
    · exact absurd h (List.not_mem_nil i)
    · exact h
  | cons j l ih =>
    rw [List.foldl_cons]
    apply ih
    by_cases hl : i ∈ l
    · left; exact hl
    · right
      rw [cr_step_new_rt]
      split_ifs with hk
      · decide
      · rcases h with h | h
        · rcases List.mem_cons.mp h with e | e
          · intro hc; exact hk ⟨e, by rw [← e]; exact hc⟩
          · exact absurd e hl
        · exact h

theorem group2_clean (s : rds_private_state) : rt_clean (rds_decode_group2 s).2 := by
  intro i hi
  unfold rds_decode_group2
  exact cr_loop_clean _ _ i (Or.inl (List.mem_range.mpr hi))

/-- What iteration `i` of the carriage-return loop does when it finds a carriage return. -/
theorem cr_step_fire (acc : Nat × rds_private_state) (i : Nat) (hc : acc.2.new_rt i = 0x0d) :
    (rds_rt_cr_step acc i).2.new_rt = arr_set acc.2.new_rt i 0 ∧
    (rds_rt_cr_step acc i).2.handle.rt_length = i ∧
    (rds_rt_cr_step acc i).2.handle.valid_fields = acc.2.handle.valid_fields ||| V4L2_RDS_RT ∧
    (rds_rt_cr_step acc i).2.next_rt_segment = 0 ∧
    (∀ k, k < i → (rds_rt_cr_step acc i).2.handle.rt k = acc.2.new_rt k) ∧
    (∀ k, i ≤ k → (rds_rt_cr_step acc i).2.handle.rt k = acc.2.handle.rt k) := by
  unfold rds_rt_cr_step
  simp only []
  rw [if_pos hc]
  split_ifs with hd
  · refine ⟨rfl, rfl, rfl, rfl, ?_, ?_⟩
    · intro k hk
      show arr_copy acc.2.handle.rt (arr_set acc.2.new_rt i 0) i k = _
      unfold arr_copy arr_set
      rw [if_pos hk, if_neg (by omega)]
    · intro k hk
      show arr_copy acc.2.handle.rt (arr_set acc.2.new_rt i 0) i k = _
      unfold arr_copy
      rw [if_neg (by omega)]
  · refine ⟨rfl, rfl, rfl, rfl, ?_, ?_⟩
    · intro k hk
      have hf : arr_differ acc.2.handle.rt (arr_set acc.2.new_rt i 0) i = false := by
        simpa using hd
      have := arr_differ_false _ _ _ hf k hk
      show acc.2.handle.rt k = _
      rw [this]
      unfold arr_set
      rw [if_neg (by omega)]
    · intro k _
      rfl


/-! ## The AF list and the ODA list in every reachable state -/

theorem af_ok_announce (a : v4l2_rds_af_set) (n : Nat) (hn : n ≤ 25) (h : af_ok a) :
    af_ok { a with announced_af := n } :=
  ⟨h.1, hn, h.2.2⟩

theorem af_grown_refl (a : v4l2_rds_af_set) : af_grown a a := Or.inl rfl

theorem af_grown_add (a x : v4l2_rds_af_set) (af : Nat) (vhf : Bool) (h : af_grown a x) :
    af_grown a (rds_add_af_to_list x af vhf).2 := by
  rcases add_af_to_list_cases x af vhf with ⟨-, e⟩ | ⟨-, -, h1, h2, -, e⟩
  · rw [e]; exact h
  · rw [e]
    right
    show a.size < x.size + 1 ∧ x.size + 1 ≤ x.announced_af
    rcases h with h | h
    · omega
    · omega

/-- The list after `rds_add_af_set` when block C starts with the LF/MF escape 250. -/
theorem add_af_set_lf (a : v4l2_rds_af_set) (c_msb c_lsb : Nat) (h1 : c_msb = 250) :
    (rds_add_af_set a c_msb c_lsb).2 = (rds_add_af_to_list a c_lsb false).2 := by
  have h2 : ¬ c_msb < 205 := by omega
  have h3 : ¬ (c_msb ≥ 224 ∧ c_msb ≤ 249) := by omega
  have h0 : ∀ x : v4l2_rds_af_set, rds_add_af_to_list x 0 true = (false, x) := by
    intro x; rfl
  unfold rds_add_af_set
  simp only []
  rw [if_pos h1]
  simp only [if_neg h2, if_neg h3, h0]
  split_ifs <;> rfl

/-- The list after `rds_add_af_set` when block C starts with a count announcement. -/
theorem add_af_set_count (a : v4l2_rds_af_set) (c_msb c_lsb : Nat)
    (h : c_msb ≥ 224 ∧ c_msb ≤ 249) :
    (rds_add_af_set a c_msb c_lsb).2 =
      if c_lsb < 205 then
        (rds_add_af_to_list { a with announced_af := (c_msb - 224) % 256 } c_lsb true).2
      else { a with announced_af := (c_msb - 224) % 256 } := by
  have h1 : ¬ c_msb = 250 := by omega
  have h2 : ¬ c_msb < 205 := by omega
  unfold rds_add_af_set
  simp only []
  rw [if_neg h1]
  simp only [if_pos h, if_neg h2]
  split_ifs <;> rfl

/-- The list after `rds_add_af_set` when block C starts with neither the escape 250 nor a
count announcement. -/
theorem add_af_set_plain (a : v4l2_rds_af_set) (c_msb c_lsb : Nat)
    (h1 : c_msb ≠ 250) (h : ¬ (c_msb ≥ 224 ∧ c_msb ≤ 249)) :
    (rds_add_af_set a c_msb c_lsb).2 =
      if c_lsb < 205 then
        (rds_add_af_to_list (if c_msb < 205 then (rds_add_af_to_list a c_msb true).2 else a)
          c_lsb true).2
      else (if c_msb < 205 then (rds_add_af_to_list a c_msb true).2 else a) := by
  unfold rds_add_af_set
  simp only []
  rw [if_neg h1]
  simp only [if_neg h]
  split_ifs <;> rfl

theorem add_af_set_ok (a : v4l2_rds_af_set) (c_msb c_lsb : Nat) (h : af_ok a) :
    af_ok (rds_add_af_set a c_msb c_lsb).2 := by
  by_cases h1 : c_msb = 250
  · rw [add_af_set_lf a c_msb c_lsb h1]
    exact af_ok_add _ _ _ h
  · by_cases h2 : c_msb ≥ 224 ∧ c_msb ≤ 249
    · have hn : (c_msb - 224) % 256 ≤ 25 := by omega
      rw [add_af_set_count a c_msb c_lsb h2]
      split_ifs
      · exact af_ok_add _ _ _ (af_ok_announce a _ hn h)
      · exact af_ok_announce a _ hn h
    · rw [add_af_set_plain a c_msb c_lsb h1 h2]
      split_ifs
      · exact af_ok_add _ _ _ (af_ok_add _ _ _ h)
      · exact af_ok_add _ _ _ h
      · exact af_ok_add _ _ _ h
      · exact h

/-- A frequency is added only within the announced count: after `rds_add_af_set` the
list is as long as before, or longer and within the count that is announced then. -/
theorem add_af_set_grown (a : v4l2_rds_af_set) (c_msb c_lsb : Nat) :
    af_grown a (rds_add_af_set a c_msb c_lsb).2 := by
  by_cases h1 : c_msb = 250
  · rw [add_af_set_lf a c_msb c_lsb h1]
    exact af_grown_add _ _ _ _ (af_grown_refl a)
  · by_cases h2 : c_msb ≥ 224 ∧ c_msb ≤ 249
    · rw [add_af_set_count a c_msb c_lsb h2]
      split_ifs
      · exact af_grown_add _ _ _ _ (Or.inl rfl)
      · exact Or.inl rfl
    · rw [add_af_set_plain a c_msb c_lsb h1 h2]
      split_ifs
      · exact af_grown_add _ _ _ _ (af_grown_add _ _ _ _ (af_grown_refl a))
      · exact af_grown_add _ _ _ _ (af_grown_refl a)
      · exact af_grown_add _ _ _ _ (af_grown_refl a)
      · exact af_grown_refl a

theorem add_af_list (s : rds_private_state) :
    (rds_add_af s).2.handle.rds_af =
      (rds_add_af_set s.handle.rds_af s.rds_group.data_c_msb s.rds_group.data_c_lsb).2 := by
  unfold rds_add_af
  simp only []
  split_ifs <;> rfl

theorem decode_af_list (acc : Nat × rds_private_state) :
    (rds_decode_af acc).2.handle.rds_af =
      if acc.2.rds_group.group_version = CHAR_A then
        (rds_add_af_set acc.2.handle.rds_af acc.2.rds_group.data_c_msb
          acc.2.rds_group.data_c_lsb).2
      else acc.2.handle.rds_af := by
  unfold rds_decode_af
  simp only []
  split_ifs <;> first | exact add_af_list acc.2 | rfl

theorem add_oda_size (s : rds_private_state) (oda : v4l2_rds_oda)
    (h : s.handle.rds_oda.size ≤ 1) : (rds_add_oda s oda).2.handle.rds_oda.size ≤ 1 := by
  unfold rds_add_oda
  simp only []
  split_ifs with h1 h2 h3
  · exact h
  · exact h
  · exact h
  · have e : s.handle.rds_oda.size = 0 := by omega
    show (s.handle.rds_oda.size + 1) % 256 ≤ 1
    rw [e]

theorem group3_oda_size (s : rds_private_state) (h : s.handle.rds_oda.size ≤ 1) :
    (rds_decode_group3 s).2.handle.rds_oda.size ≤ 1 := by
  unfold rds_decode_group3
  simp only []
  split_ifs <;> first | exact h | exact add_oda_size s _ h


theorem reach_inv_zero : reach_inv zero_state :=
  ⟨fun _ _ => (by decide : (0 : Nat) ≠ 0x0d), by decide, by decide, by decide, by decide,
    fun _ _ hi _ _ => absurd hi (Nat.not_lt_zero _)⟩

theorem reach_inv_create (r : Bool) : reach_inv (v4l2_rds_create r) :=
  reach_inv_congr _ _ rfl reach_inv_zero

theorem reach_inv_reset (s : rds_private_state) (f : Bool) :
    reach_inv (v4l2_rds_reset s f) := by
  apply reach_inv_congr _ _ _ reach_inv_zero
  unfold v4l2_rds_reset
  simp only []
  split_ifs <;> rfl

theorem reach_inv_group0 (s : rds_private_state) (h : reach_inv s) :
    reach_inv (rds_decode_group0 s).2 := by
  obtain ⟨h1, h2, h3, h4⟩ := h
  have hA := aux4_fields _ _ ((aux4_ps (rds_decode_ta_ms s)).trans (aux4_ta_ms s))
  obtain ⟨a1, a2, a3, a4⟩ := hA
  obtain ⟨d1, d2, d3, -⟩ := frame_di (rds_decode_ps (rds_decode_ta_ms s))
  obtain ⟨f1, f2, f3⟩ := frame_af (rds_decode_di (rds_decode_ps (rds_decode_ta_ms s)))
  have hdi : (rds_decode_di (rds_decode_ps (rds_decode_ta_ms s))).2.new_di < 16 := by
    apply di_new_lt
    rw [(di_part_fields _ _ a2).1]
    exact h2
  have haf := decode_af_list (rds_decode_di (rds_decode_ps (rds_decode_ta_ms s)))
  unfold rds_decode_group0
  refine ⟨?_, ?_, ?_, ?_⟩
  · unfold rt_clean
    rw [(rt_part_fields _ _ (f1.trans (d1.trans a1))).1]
    exact h1
  · rw [(di_part_fields _ _ f2).1]
    exact hdi
  · rw [(oda_part_fields _ _ (f3.trans (d2.trans a3))).1]
    exact h3
  · rw [haf, d3, a4]
    split_ifs
    · exact add_af_set_ok _ _ _ h4
    · exact h4

theorem reach_inv_group2 (s : rds_private_state) (h : reach_inv s) :
    reach_inv (rds_decode_group2 s).2 := by
  obtain ⟨-, h2, h3, h4⟩ := h
  obtain ⟨f1, f2, f3⟩ := frame_group2 s
  refine ⟨group2_clean s, ?_, ?_, ?_⟩
  · rw [(di_part_fields _ _ f1).1]; exact h2
  · rw [(oda_part_fields _ _ f2).1]; exact h3
  · rw [f3]; exact h4

theorem reach_inv_group3 (s : rds_private_state) (h : reach_inv s) :
    reach_inv (rds_decode_group3 s).2 := by
  obtain ⟨h1, h2, h3, h4⟩ := h
  obtain ⟨f1, f2, f3⟩ := frame_group3 s
  refine ⟨?_, ?_, group3_oda_size s h3, ?_⟩
  · unfold rt_clean
    rw [(rt_part_fields _ _ f1).1]; exact h1
  · rw [(di_part_fields _ _ f2).1]; exact h2
  · rw [f3]; exact h4

theorem reach_inv_decode_group (s : rds_private_state) (h : reach_inv s) :
    reach_inv (rds_decode_group s).2 := by
  have hc : reach_inv (count_type s) := reach_inv_congr _ _ rfl h
  rw [decode_group_eq]
  split_ifs
  · exact reach_inv_group0 _ hc
  · exact reach_inv_congr _ _ (aux4_group1 _) hc
  · exact reach_inv_group2 _ hc
  · exact reach_inv_group3 _ hc
  · exact reach_inv_congr _ _ (aux4_group4 _) hc
  · exact reach_inv_congr _ _ (aux4_group10 _) hc
  · exact hc

theorem reach_inv_complete (t : rds_private_state) (h : reach_inv t) :
    reach_inv (decode_complete t).2 := by
  rw [decode_complete_state]
  exact reach_inv_decode_group _ (reach_inv_congr _ _ (aux4_abcd t) h)

/-- An ingest that does not complete a group leaves the radio text, the decoder
information, the ODA list and the AF list alone. -/
theorem aux4_add_incomplete (s : rds_private_state) (b : v4l2_rds_data)
    (h : ¬ (s.decode_state = RDS_C_RECEIVED ∧ has_id b 3)) :
    aux4 (v4l2_rds_add s b).2 = aux4 s := by
  have e := (add_incomplete s b h).2
  have e' := congrArg aux4 e
  exact e'

theorem reach_inv_add (s : rds_private_state) (b : v4l2_rds_data) (h : reach_inv s) :
    reach_inv (v4l2_rds_add s b).2 := by
  by_cases hc : s.decode_state = RDS_C_RECEIVED ∧ has_id b 3
  · rw [add_d s b hc.1 hc.2]
    exact reach_inv_complete _ (reach_inv_congr _ _ rfl h)
  · exact reach_inv_congr _ _ (aux4_add_incomplete s b hc) h

theorem reach_inv_call (s : rds_private_state) (c : rds_call) (h : reach_inv s) :
    reach_inv (run_call s c) := by
  cases c with
  | add b => exact reach_inv_add s b h
  | reset f => exact reach_inv_reset s f

theorem reach_inv_calls (cs : List rds_call) (s : rds_private_state) (h : reach_inv s) :
    reach_inv (cs.foldl run_call s) := by
  induction cs generalizing s with
  | nil => exact h
  | cons c cs ih =>
    rw [List.foldl_cons]
    exact ih _ (reach_inv_call s c h)

/-- Every state a decoder reaches from create by ingests and resets: the pending radio
text holds no carriage return, the pending DI flags are four bits, the ODA list has at
most one entry, and the AF list is within bounds with pairwise distinct entries. -/
theorem reach_inv_run (r : Bool) (cs : List rds_call) : reach_inv (run_calls r cs) :=
  reach_inv_calls cs _ (reach_inv_create r)

/-! ## The radio text, part by part -/

theorem rt_store_apply (n : Nat → Nat) (sg c0 c1 c2 c3 k : Nat) :
    rt_store n sg c0 c1 c2 c3 k =
      if k = sg * 4 + 3 then c3 else if k = sg * 4 + 2 then c2
      else if k = sg * 4 + 1 then c1 else if k = sg * 4 then c0 else n k := rfl

theorem rt_store_bytes (n : Nat → Nat) (sg j : Nat) (g : raw_group) (hj : j < 4) :
    rt_store n sg g.c.msb g.c.lsb g.d.msb g.d.lsb (4 * sg + j) = rt_bytes g j := by
  rw [rt_store_apply]
  have h : j = 0 ∨ j = 1 ∨ j = 2 ∨ j = 3 := by omega
  rcases h with h | h | h | h <;> subst h
  · rw [if_neg (by omega), if_neg (by omega), if_neg (by omega), if_pos (by omega)]
    rfl
  · rw [if_neg (by omega), if_neg (by omega), if_pos (by omega)]
    rfl
  · rw [if_neg (by omega), if_pos (by omega)]
    rfl
  · rw [if_pos (by omega)]
    rfl

theorem rt_store_other (n : Nat → Nat) (sg c0 c1 c2 c3 k : Nat)
    (h : k < sg * 4 ∨ sg * 4 + 4 ≤ k) : rt_store n sg c0 c1 c2 c3 k = n k := by
  rw [rt_store_apply, if_neg (by omega), if_neg (by omega), if_neg (by omega), if_neg (by omega)]

/-- The A/B flag part of the radio text decoder. -/
theorem rt_flag_fields (X : rds_private_state) :
    (rds_decode_rt_flag X).2.new_rt = X.new_rt ∧
    (rds_decode_rt_flag X).2.rds_group = X.rds_group ∧
    (rds_decode_rt_flag X).2.handle.rt_ab_flag = to_bool (X.rds_group.data_b_lsb &&& 0x10) ∧
    (rds_decode_rt_flag X).2.handle.rt_length = X.handle.rt_length ∧
    (to_bool (X.rds_group.data_b_lsb &&& 0x10) = X.handle.rt_ab_flag →
      rds_decode_rt_flag X = (0, X)) ∧
    (to_bool (X.rds_group.data_b_lsb &&& 0x10) ≠ X.handle.rt_ab_flag →
      (rds_decode_rt_flag X).1 = 0 ||| V4L2_RDS_RT ∧
      (rds_decode_rt_flag X).2.next_rt_segment = 0 ∧
      (rds_decode_rt_flag X).2.handle.rt = arr_fill X.handle.rt 64 0 ∧
      (rds_decode_rt_flag X).2.handle.valid_fields =
        X.handle.valid_fields &&& (0xFFFFFFFF ^^^ V4L2_RDS_RT)) := by
  unfold rds_decode_rt_flag
  simp only []
  split_ifs with h
  · exact ⟨rfl, rfl, rfl, rfl, fun e => absurd e h, fun _ => ⟨rfl, rfl, rfl, rfl⟩⟩
  · exact ⟨rfl, rfl, (not_not.mp h).symm, rfl, fun _ => rfl, fun e => absurd e h⟩

/-- A segment out of order is not applied. -/
theorem rt_segment_skip (acc : Nat × rds_private_state)
    (h : ¬ (acc.2.rds_group.data_b_lsb &&& 0x0f = 0 ∨
      acc.2.rds_group.data_b_lsb &&& 0x0f = acc.2.next_rt_segment)) :
    rds_decode_rt_segment acc = acc := by
  unfold rds_decode_rt_segment
  simp only []
  rw [if_neg h]
  split_ifs <;> rfl

/-- An in-order segment of a group 2A. -/
theorem rt_segment_a (acc : Nat × rds_private_state)
    (hv : acc.2.rds_group.group_version = CHAR_A)
    (h : acc.2.rds_group.data_b_lsb &&& 0x0f = 0 ∨
      acc.2.rds_group.data_b_lsb &&& 0x0f = acc.2.next_rt_segment) :
    (rds_decode_rt_segment acc).2.new_rt =
      rt_store acc.2.new_rt (acc.2.rds_group.data_b_lsb &&& 0x0f) acc.2.rds_group.data_c_msb
        acc.2.rds_group.data_c_lsb acc.2.rds_group.data_d_msb acc.2.rds_group.data_d_lsb ∧
    (rds_decode_rt_segment acc).2.handle.rt_ab_flag = acc.2.handle.rt_ab_flag ∧
    (acc.2.rds_group.data_b_lsb &&& 0x0f ≠ 0x0f →
      (rds_decode_rt_segment acc).1 = acc.1 ∧
      (rds_decode_rt_segment acc).2.handle = acc.2.handle ∧
      (rds_decode_rt_segment acc).2.next_rt_segment =
        (acc.2.rds_group.data_b_lsb &&& 0x0f) + 1) ∧
    (acc.2.rds_group.data_b_lsb &&& 0x0f = 0x0f →
      (rds_decode_rt_segment acc).2.handle.rt_length = 64 ∧
      (rds_decode_rt_segment acc).2.handle.valid_fields =
        acc.2.handle.valid_fields ||| V4L2_RDS_RT ∧
      (rds_decode_rt_segment acc).2.next_rt_segment = 0 ∧
      ∀ i, i < 64 → (rds_decode_rt_segment acc).2.handle.rt i =
        (rds_decode_rt_segment acc).2.new_rt i) := by
  have hle : acc.2.rds_group.data_b_lsb &&& 0x0f ≤ 0x0f := Nat.and_le_right
  have hm : ((acc.2.rds_group.data_b_lsb &&& 0x0f) + 1) % 256 =
      (acc.2.rds_group.data_b_lsb &&& 0x0f) + 1 := Nat.mod_eq_of_lt (by omega)
  unfold rds_decode_rt_segment
  simp only []
  rw [if_pos hv, if_pos h]
  by_cases h15 : acc.2.rds_group.data_b_lsb &&& 0x0f = 0x0f
  · rw [if_pos h15]
    split_ifs with hd
    · refine ⟨rfl, rfl, fun e => absurd h15 e, fun _ => ⟨rfl, rfl, rfl, ?_⟩⟩
      intro i hi
      show arr_copy _ _ 64 i = _
      unfold arr_copy
      rw [if_pos hi]
    · refine ⟨rfl, rfl, fun e => absurd h15 e, fun _ => ⟨rfl, rfl, rfl, ?_⟩⟩
      intro i hi
      have hf : arr_differ acc.2.handle.rt
          (rt_store acc.2.new_rt (acc.2.rds_group.data_b_lsb &&& 0x0f)
            acc.2.rds_group.data_c_msb acc.2.rds_group.data_c_lsb acc.2.rds_group.data_d_msb
            acc.2.rds_group.data_d_lsb) 64 = false := by
        simpa using hd
      exact arr_differ_false _ _ _ hf i hi
  · rw [if_neg h15]
    exact ⟨rfl, rfl, fun _ => ⟨rfl, rfl, hm⟩, fun e => absurd e h15⟩

/-- An in-order segment of a group 2B other than the last one. -/
theorem rt_segment_b (acc : Nat × rds_private_state)
    (hv : acc.2.rds_group.group_version ≠ CHAR_A)
    (h : acc.2.rds_group.data_b_lsb &&& 0x0f = 0 ∨
      acc.2.rds_group.data_b_lsb &&& 0x0f = acc.2.next_rt_segment)
    (h15 : acc.2.rds_group.data_b_lsb &&& 0x0f ≠ 0x0f) :
    (rds_decode_rt_segment acc).2.new_rt =
      arr_set (arr_set acc.2.new_rt ((acc.2.rds_group.data_b_lsb &&& 0x0f) * 2)
        acc.2.rds_group.data_d_msb) ((acc.2.rds_group.data_b_lsb &&& 0x0f) * 2 + 1)
        acc.2.rds_group.data_d_lsb ∧
    (rds_decode_rt_segment acc).1 = acc.1 ∧
    (rds_decode_rt_segment acc).2.handle = acc.2.handle := by
  unfold rds_decode_rt_segment
  simp only []
  rw [if_neg hv, if_pos h, if_neg h15]
  exact ⟨rfl, rfl, rfl⟩

theorem arr_set_clean (a : Nat → Nat) (p v : Nat) (h : ∀ i, i < 64 → a i ≠ 0x0d)
    (hv : v ≠ 0x0d) : ∀ i, i < 64 → arr_set a p v i ≠ 0x0d := by
  intro i hi
  unfold arr_set
  split_ifs
  · exact hv
  · exact h i hi

/-- Without a carriage return in the pending text the loop that ends
`rds_decode_group2` does nothing. -/
theorem group2_plain (X : rds_private_state)
    (hc : rt_clean (rds_decode_rt_segment (rds_decode_rt_flag X)).2) :
    rds_decode_group2 X = rds_decode_rt_segment (rds_decode_rt_flag X) := by
  unfold rds_decode_group2
  apply cr_loop_id
  intro i hi
  exact hc i (List.mem_range.mp hi)

/-- With one carriage return in the pending text, at the position `i`, the loop that
ends `rds_decode_group2` is its iteration `i`. -/
theorem group2_single (X : rds_private_state) (i : Nat) (hi : i < 64)
    (hc : (rds_decode_rt_segment (rds_decode_rt_flag X)).2.new_rt i = 0x0d)
    (ho : ∀ k, k < 64 → k ≠ i →
      (rds_decode_rt_segment (rds_decode_rt_flag X)).2.new_rt k ≠ 0x0d) :
    rds_decode_group2 X = rds_rt_cr_step (rds_decode_rt_segment (rds_decode_rt_flag X)) i := by
  unfold rds_decode_group2
  exact cr_loop_single _ _ i (List.mem_range.mpr hi) hc
    (fun k hk hne => ho k (List.mem_range.mp hk) hne)

/-- The text bit of `updated_fields` is not taken back by the later parts of the radio
text decoder. -/
theorem upd_rt_segment (acc : Nat × rds_private_state) (h : bit_set acc.1 V4L2_RDS_RT) :
    bit_set (rds_decode_rt_segment acc).1 V4L2_RDS_RT := by
  unfold rds_decode_rt_segment
  simp only []
  split_ifs <;>
    first
    | exact h
    | exact (bit_set_or _ _ _).mpr (Or.inl h)
    | exact (bit_set_or _ _ _).mpr (Or.inl ((bit_set_or _ _ _).mpr (Or.inl h)))

theorem upd_cr_step (acc : Nat × rds_private_state) (i : Nat) (h : bit_set acc.1 V4L2_RDS_RT) :
    bit_set (rds_rt_cr_step acc i).1 V4L2_RDS_RT := by
  unfold rds_rt_cr_step
  simp only []
  split_ifs <;> first | exact h | exact (bit_set_or _ _ _).mpr (Or.inl h)

theorem upd_cr_loop (l : List Nat) (acc : Nat × rds_private_state)
    (h : bit_set acc.1 V4L2_RDS_RT) : bit_set (l.foldl rds_rt_cr_step acc).1 V4L2_RDS_RT := by
  induction l generalizing acc with
  | nil => exact h
  | cons i l ih =>
    rw [List.foldl_cons]
    exact ih _ (upd_cr_step acc i h)

theorem flag_rt_segment (acc : Nat × rds_private_state) :
    (rds_decode_rt_segment acc).2.handle.rt_ab_flag = acc.2.handle.rt_ab_flag := by
  unfold rds_decode_rt_segment
  simp only []
  split_ifs <;> rfl

theorem flag_cr_step (acc : Nat × rds_private_state) (i : Nat) :
    (rds_rt_cr_step acc i).2.handle.rt_ab_flag = acc.2.handle.rt_ab_flag := by
  unfold rds_rt_cr_step
  simp only []
  split_ifs <;> rfl

theorem flag_cr_loop (l : List Nat) (acc : Nat × rds_private_state) :
    (l.foldl rds_rt_cr_step acc).2.handle.rt_ab_flag = acc.2.handle.rt_ab_flag := by
  induction l generalizing acc with
  | nil => rfl
  | cons i l ih =>
    rw [List.foldl_cons, ih, flag_cr_step]


/-! ## The radio text, group by group -/

theorem add_group2 (s : rds_private_state) (g : raw_group)
    (h0 : s.decode_state = RDS_EMPTY) (hg : is_group g) (hid : group_id_of g.b = 2) :
    (add_group s g).2 = (rds_decode_group2 (group_input s g)).2 ∧
    (add_group s g).2.decode_state = RDS_EMPTY ∧
    (add_group s g).1 &&& V4L2_RDS_RT =
      (rds_decode_group2 (group_input s g)).1 &&& V4L2_RDS_RT := by
  obtain ⟨e1, e2, e3⟩ := add_group_decode s g h0 hg
  have hd : rds_decode_group (decode_abcd (group_ready s g)) =
      rds_decode_group2 (group_input s g) := by
    rw [decode_group_input, hid]; rfl
  have e4 := e3 V4L2_RDS_RT (by decide) (by decide) (by decide)
  rw [hd] at e1
  rw [hd] at e4
  exact ⟨e1, e2, e4⟩

/-- The state on which the radio text decoder runs, in terms of the group ingested. -/
theorem group2_input (s : rds_private_state) (g : raw_group) :
    (group_input s g).rds_group.data_b_lsb &&& 0x0f = rt_segment_of g.b ∧
    to_bool ((group_input s g).rds_group.data_b_lsb &&& 0x10) = rt_flag_of g.b ∧
    ((group_input s g).rds_group.group_version = CHAR_A ↔ is_version_a g.b) ∧
    (group_input s g).rds_group.data_c_msb = g.c.msb ∧
    (group_input s g).rds_group.data_c_lsb = g.c.lsb ∧
    (group_input s g).rds_group.data_d_msb = g.d.msb ∧
    (group_input s g).rds_group.data_d_lsb = g.d.lsb ∧
    rt_part (group_input s g) = rt_part s ∧
    (group_input s g).handle.valid_fields &&& V4L2_RDS_RT =
      s.handle.valid_fields &&& V4L2_RDS_RT := by
  have hgrp := group_input_group s g
  refine ⟨?_, ?_, ?_, ?_, ?_, ?_, ?_, (aux4_fields _ _ (aux4_group_input s g)).1,
    group_input_valid s g V4L2_RDS_RT (by decide) (by decide) (by decide)⟩
  · rw [hgrp]; rfl
  · rw [hgrp]; rfl
  · rw [hgrp]
    unfold is_version_a
    show (if g.b.msb &&& 0x08 ≠ 0 then CHAR_B else CHAR_A) = CHAR_A ↔ _
    split_ifs with h
    · constructor
      · intro e; exact absurd e (by decide)
      · intro e; exact absurd e h
    · constructor
      · intro _; exact not_not.mp h
      · intro _; rfl
  · rw [hgrp]
  · rw [hgrp]
  · rw [hgrp]
  · rw [hgrp]

/-- A group 2 with the accepted A/B flag whose segment is out of order changes nothing. -/
theorem group2_skip (X : rds_private_state) (hc : rt_clean X)
    (hf : to_bool (X.rds_group.data_b_lsb &&& 0x10) = X.handle.rt_ab_flag)
    (hs : X.rds_group.data_b_lsb &&& 0x0f ≠ 0)
    (hn : X.rds_group.data_b_lsb &&& 0x0f ≠ X.next_rt_segment) :
    rds_decode_group2 X = (0, X) := by
  have hY := (rt_flag_fields X).2.2.2.2.1 hf
  have hZ : rds_decode_rt_segment (rds_decode_rt_flag X) = (0, X) := by
    rw [hY]
    apply rt_segment_skip
    rintro (h | h)
    · exact hs h
    · exact hn h
  rw [group2_plain X (by rw [hZ]; exact hc), hZ]

theorem rt_skip_group (s : rds_private_state) (g : raw_group)
    (h0 : s.decode_state = RDS_EMPTY) (hg : is_group g) (hid : group_id_of g.b = 2)
    (hc : rt_clean s) (hf : rt_flag_of g.b = s.handle.rt_ab_flag)
    (hs : rt_segment_of g.b ≠ 0) (hn : rt_segment_of g.b ≠ s.next_rt_segment) :
    rt_part (add_group s g).2 = rt_part s ∧
    (add_group s g).2.handle.valid_fields &&& V4L2_RDS_RT =
      s.handle.valid_fields &&& V4L2_RDS_RT ∧
    (add_group s g).1 &&& V4L2_RDS_RT = 0 := by
  obtain ⟨e1, -, e3⟩ := add_group2 s g h0 hg hid
  obtain ⟨i1, i2, -, -, -, -, -, irt, ival⟩ := group2_input s g
  obtain ⟨r1, r2, -, -, r5⟩ := rt_part_fields _ _ irt
  have hX := group2_skip (group_input s g) (by unfold rt_clean; rw [r1]; exact hc)
    (by rw [i2, r5]; exact hf) (by rw [i1]; exact hs) (by rw [i1, r2]; exact hn)
  rw [e1, e3, hX]
  exact ⟨irt, ival, Nat.zero_and _⟩

theorem and_clear_self (v : Nat) : (v &&& (0xFFFFFFFF ^^^ V4L2_RDS_RT)) &&& V4L2_RDS_RT = 0 := by
  rw [Nat.and_assoc]
  have : (0xFFFFFFFF ^^^ V4L2_RDS_RT) &&& V4L2_RDS_RT = 0 := by decide
  rw [this, Nat.and_zero]

/-- A group 2 with another A/B flag than the accepted one. -/
theorem group2_new_flag (X : rds_private_state) (hc : rt_clean X)
    (hf : to_bool (X.rds_group.data_b_lsb &&& 0x10) ≠ X.handle.rt_ab_flag) :
    (rds_decode_group2 X).2.handle.rt_ab_flag = to_bool (X.rds_group.data_b_lsb &&& 0x10) ∧
    bit_set (rds_decode_group2 X).1 V4L2_RDS_RT ∧
    ((X.rds_group.data_b_lsb &&& 0x0f ≠ 0 ∨
      ((X.rds_group.group_version = CHAR_A →
          X.rds_group.data_c_msb ≠ 0x0d ∧ X.rds_group.data_c_lsb ≠ 0x0d) ∧
        X.rds_group.data_d_msb ≠ 0x0d ∧ X.rds_group.data_d_lsb ≠ 0x0d)) →
      (rds_decode_group2 X).2.handle.rt = arr_fill X.handle.rt 64 0 ∧
      (rds_decode_group2 X).2.handle.valid_fields &&& V4L2_RDS_RT = 0) := by
  obtain ⟨y1, y2, y3, -, -, y6⟩ := rt_flag_fields X
  obtain ⟨y7, y8, y9, y10⟩ := y6 hf
  refine ⟨?_, ?_, ?_⟩
  · unfold rds_decode_group2
    rw [flag_cr_loop, flag_rt_segment]
    exact y3
  · unfold rds_decode_group2
    apply upd_cr_loop
    apply upd_rt_segment
    rw [y7]
    exact bit_set_or_self 0 V4L2_RDS_RT (by decide)
  · intro hb
    have hZ : rt_clean (rds_decode_rt_segment (rds_decode_rt_flag X)).2 ∧
        (rds_decode_rt_segment (rds_decode_rt_flag X)).2.handle =
          (rds_decode_rt_flag X).2.handle := by
      by_cases hs : X.rds_group.data_b_lsb &&& 0x0f = 0
      · have hs' : (rds_decode_rt_flag X).2.rds_group.data_b_lsb &&& 0x0f = 0 := by
          rw [y2]; exact hs
        have h15 : (rds_decode_rt_flag X).2.rds_group.data_b_lsb &&& 0x0f ≠ 0x0f := by
          rw [hs']; decide
        have hbytes := hb.resolve_left (not_not.mpr hs)
        by_cases hv : X.rds_group.group_version = CHAR_A
        · obtain ⟨z1, -, z3, -⟩ := rt_segment_a (rds_decode_rt_flag X) (by rw [y2]; exact hv)
            (Or.inl hs')
          refine ⟨?_, (z3 h15).2.1⟩
          unfold rt_clean
          rw [z1, y1, y2]
          unfold rt_store
          exact arr_set_clean _ _ _ (arr_set_clean _ _ _ (arr_set_clean _ _ _
            (arr_set_clean _ _ _ hc (hbytes.1 hv).1) (hbytes.1 hv).2) hbytes.2.1) hbytes.2.2
        · obtain ⟨z1, -, z3⟩ := rt_segment_b (rds_decode_rt_flag X) (by rw [y2]; exact hv)
            (Or.inl hs') h15
          refine ⟨?_, z3⟩
          unfold rt_clean
          rw [z1, y1, y2]
          exact arr_set_clean _ _ _ (arr_set_clean _ _ _ hc hbytes.2.1) hbytes.2.2
      · have hsk : rds_decode_rt_segment (rds_decode_rt_flag X) = rds_decode_rt_flag X := by
          apply rt_segment_skip
          rw [y2, y8]
          rintro (h | h)
          · exact hs h
          · exact hs h
        rw [hsk]
        refine ⟨?_, rfl⟩
        unfold rt_clean
        rw [y1]
        exact hc
    rw [group2_plain X hZ.1, hZ.2, y9, y10]
    exact ⟨rfl, and_clear_self _⟩

/-- An in-order group 2A: the state after the segment part, in terms of the state before
the group. -/
theorem group2_a_segment (X : rds_private_state)
    (hv : X.rds_group.group_version = CHAR_A)
    (hacc : X.rds_group.data_b_lsb &&& 0x0f = 0 ∨
      (to_bool (X.rds_group.data_b_lsb &&& 0x10) = X.handle.rt_ab_flag ∧
        X.rds_group.data_b_lsb &&& 0x0f = X.next_rt_segment)) :
    (rds_decode_rt_segment (rds_decode_rt_flag X)).2.new_rt =
      rt_store X.new_rt (X.rds_group.data_b_lsb &&& 0x0f) X.rds_group.data_c_msb
        X.rds_group.data_c_lsb X.rds_group.data_d_msb X.rds_group.data_d_lsb ∧
    (rds_decode_rt_segment (rds_decode_rt_flag X)).2.handle.rt_ab_flag =
      to_bool (X.rds_group.data_b_lsb &&& 0x10) ∧
    (X.rds_group.data_b_lsb &&& 0x0f ≠ 0x0f →
      (rds_decode_rt_segment (rds_decode_rt_flag X)).2.next_rt_segment =
        (X.rds_group.data_b_lsb &&& 0x0f) + 1 ∧
      ∀ i, i < 64 → (rds_decode_rt_segment (rds_decode_rt_flag X)).2.handle.rt i =
        if to_bool (X.rds_group.data_b_lsb &&& 0x10) = X.handle.rt_ab_flag
          then X.handle.rt i else 0) ∧
    (X.rds_group.data_b_lsb &&& 0x0f = 0x0f →
      (rds_decode_rt_segment (rds_decode_rt_flag X)).2.handle.rt_length = 64 ∧
      bit_set (rds_decode_rt_segment (rds_decode_rt_flag X)).2.handle.valid_fields
        V4L2_RDS_RT ∧
      ∀ i, i < 64 → (rds_decode_rt_segment (rds_decode_rt_flag X)).2.handle.rt i =
        (rds_decode_rt_segment (rds_decode_rt_flag X)).2.new_rt i) := by
  obtain ⟨y1, y2, y3, -, y5, y6⟩ := rt_flag_fields X
  have hacc' : (rds_decode_rt_flag X).2.rds_group.data_b_lsb &&& 0x0f = 0 ∨
      (rds_decode_rt_flag X).2.rds_group.data_b_lsb &&& 0x0f =
        (rds_decode_rt_flag X).2.next_rt_segment := by
    rw [y2]
    rcases hacc with h | ⟨hf, h⟩
    · left; exact h
    · right; rw [y5 hf]; exact h
  obtain ⟨z1, z2, z3, z4⟩ := rt_segment_a (rds_decode_rt_flag X) (by rw [y2]; exact hv) hacc'
  rw [y1, y2] at z1
  rw [y3] at z2
  rw [y2] at z3
  rw [y2] at z4
  refine ⟨z1, z2, ?_, ?_⟩
  · intro h15
    obtain ⟨-, w2, w3⟩ := z3 h15
    refine ⟨w3, ?_⟩
    intro i hi
    rw [w2]
    by_cases hf : to_bool (X.rds_group.data_b_lsb &&& 0x10) = X.handle.rt_ab_flag
    · rw [if_pos hf, y5 hf]
    · rw [if_neg hf, (y6 hf).2.2.1]
      unfold arr_fill
      rw [if_pos hi]
  · intro h15
    obtain ⟨w1, w2, -, w4⟩ := z4 h15
    refine ⟨w1, ?_, w4⟩
    rw [w2]
    exact bit_set_or_self _ _ (by decide)


theorem rt_store_clean (n : Nat → Nat) (sg c0 c1 c2 c3 : Nat)
    (h : ∀ i, i < 64 → n i ≠ 0x0d) (h0 : c0 ≠ 0x0d) (h1 : c1 ≠ 0x0d) (h2 : c2 ≠ 0x0d)
    (h3 : c3 ≠ 0x0d) : ∀ i, i < 64 → rt_store n sg c0 c1 c2 c3 i ≠ 0x0d := by
  unfold rt_store
  exact arr_set_clean _ _ _ (arr_set_clean _ _ _ (arr_set_clean _ _ _
    (arr_set_clean _ _ _ h h0) h1) h2) h3

/-- An in-order group 2A without a carriage return: the carriage-return loop does
nothing. -/
theorem group2_a_text (X : rds_private_state) (hc : rt_clean X)
    (hv : X.rds_group.group_version = CHAR_A)
    (hacc : X.rds_group.data_b_lsb &&& 0x0f = 0 ∨
      (to_bool (X.rds_group.data_b_lsb &&& 0x10) = X.handle.rt_ab_flag ∧
        X.rds_group.data_b_lsb &&& 0x0f = X.next_rt_segment))
    (h0 : X.rds_group.data_c_msb ≠ 0x0d) (h1 : X.rds_group.data_c_lsb ≠ 0x0d)
    (h2 : X.rds_group.data_d_msb ≠ 0x0d) (h3 : X.rds_group.data_d_lsb ≠ 0x0d) :
    rds_decode_group2 X = rds_decode_rt_segment (rds_decode_rt_flag X) := by
  apply group2_plain
  unfold rt_clean
  rw [(group2_a_segment X hv hacc).1]
  exact rt_store_clean _ _ _ _ _ _ hc h0 h1 h2 h3

/-- An in-order group 2A that puts one carriage return into the pending text, at the
position `i`: the text ends there. -/
theorem group2_a_cr (X : rds_private_state) (hc : rt_clean X)
    (hv : X.rds_group.group_version = CHAR_A)
    (hacc : X.rds_group.data_b_lsb &&& 0x0f = 0 ∨
      (to_bool (X.rds_group.data_b_lsb &&& 0x10) = X.handle.rt_ab_flag ∧
        X.rds_group.data_b_lsb &&& 0x0f = X.next_rt_segment))
    (i : Nat) (hi1 : (X.rds_group.data_b_lsb &&& 0x0f) * 4 ≤ i)
    (hi2 : i < (X.rds_group.data_b_lsb &&& 0x0f) * 4 + 4)
    (hcr : rt_store X.new_rt (X.rds_group.data_b_lsb &&& 0x0f) X.rds_group.data_c_msb
      X.rds_group.data_c_lsb X.rds_group.data_d_msb X.rds_group.data_d_lsb i = 0x0d)
    (ho : ∀ k, (X.rds_group.data_b_lsb &&& 0x0f) * 4 ≤ k →
      k < (X.rds_group.data_b_lsb &&& 0x0f) * 4 + 4 → k ≠ i →
      rt_store X.new_rt (X.rds_group.data_b_lsb &&& 0x0f) X.rds_group.data_c_msb
        X.rds_group.data_c_lsb X.rds_group.data_d_msb X.rds_group.data_d_lsb k ≠ 0x0d) :
    (rds_decode_group2 X).2.handle.rt_length = i ∧
    bit_set (rds_decode_group2 X).2.handle.valid_fields V4L2_RDS_RT ∧
    (∀ k, k < i → (rds_decode_group2 X).2.handle.rt k =
      rt_store X.new_rt (X.rds_group.data_b_lsb &&& 0x0f) X.rds_group.data_c_msb
        X.rds_group.data_c_lsb X.rds_group.data_d_msb X.rds_group.data_d_lsb k) ∧
    (rds_decode_group2 X).2.new_rt i = 0 ∧
    (∀ k, k ≠ i → (rds_decode_group2 X).2.new_rt k =
      rt_store X.new_rt (X.rds_group.data_b_lsb &&& 0x0f) X.rds_group.data_c_msb
        X.rds_group.data_c_lsb X.rds_group.data_d_msb X.rds_group.data_d_lsb k) ∧
    (X.rds_group.data_b_lsb &&& 0x0f ≠ 0x0f →
      (rds_decode_group2 X).2.handle.rt i =
        if to_bool (X.rds_group.data_b_lsb &&& 0x10) = X.handle.rt_ab_flag
          then X.handle.rt i else 0) ∧
    (X.rds_group.data_b_lsb &&& 0x0f = 0x0f → (rds_decode_group2 X).2.handle.rt i = 0x0d) := by
  have hle : X.rds_group.data_b_lsb &&& 0x0f ≤ 0x0f := Nat.and_le_right
  have hi : i < 64 := by omega
  obtain ⟨z1, -, z3, z4⟩ := group2_a_segment X hv hacc
  have hZc : (rds_decode_rt_segment (rds_decode_rt_flag X)).2.new_rt i = 0x0d := by
    rw [z1]; exact hcr
  have hZo : ∀ k, k < 64 → k ≠ i →
      (rds_decode_rt_segment (rds_decode_rt_flag X)).2.new_rt k ≠ 0x0d := by
    intro k hk hne
    rw [z1]
    by_cases hr : (X.rds_group.data_b_lsb &&& 0x0f) * 4 ≤ k ∧
        k < (X.rds_group.data_b_lsb &&& 0x0f) * 4 + 4
    · exact ho k hr.1 hr.2 hne
    · rw [rt_store_other _ _ _ _ _ _ _ (by omega)]
      exact hc k hk
  rw [group2_single X i hi hZc hZo]
  obtain ⟨f1, f2, f3, -, f5, f6⟩ :=
    cr_step_fire (rds_decode_rt_segment (rds_decode_rt_flag X)) i hZc
  refine ⟨f2, ?_, ?_, ?_, ?_, ?_, ?_⟩
  · rw [f3]
    exact bit_set_or_self _ _ (by decide)
  · intro k hk
    rw [f5 k hk, z1]
  · rw [f1]
    unfold arr_set
    rw [if_pos rfl]
  · intro k hk
    rw [f1, ← z1]
    unfold arr_set
    rw [if_neg hk]
  · intro h15
    rw [f6 i (Nat.le_refl i)]
    exact (z3 h15).2 i hi
  · intro h15
    rw [f6 i (Nat.le_refl i), (z4 h15).2.2 i hi]
    exact hZc

/-- An in-order group 2A without a carriage return, ingested from an empty assembler. -/
theorem rt_text_group (s : rds_private_state) (g : raw_group)
    (h0 : s.decode_state = RDS_EMPTY) (hg : is_group g) (hid : group_id_of g.b = 2)
    (hva : is_version_a g.b) (hc : rt_clean s)
    (hacc : rt_segment_of g.b = 0 ∨
      (rt_flag_of g.b = s.handle.rt_ab_flag ∧ rt_segment_of g.b = s.next_rt_segment))
    (hb : ∀ j, j < 4 → rt_bytes g j ≠ 0x0d) :
    (add_group s g).2.decode_state = RDS_EMPTY ∧
    rt_clean (add_group s g).2 ∧
    (add_group s g).2.new_rt =
      rt_store s.new_rt (rt_segment_of g.b) g.c.msb g.c.lsb g.d.msb g.d.lsb ∧
    (add_group s g).2.handle.rt_ab_flag = rt_flag_of g.b ∧
    (rt_segment_of g.b ≠ 0x0f → (add_group s g).2.next_rt_segment = rt_segment_of g.b + 1) ∧
    (rt_segment_of g.b = 0x0f →
      (add_group s g).2.handle.rt_length = 64 ∧
      bit_set (add_group s g).2.handle.valid_fields V4L2_RDS_RT ∧
      ∀ i, i < 64 → (add_group s g).2.handle.rt i = (add_group s g).2.new_rt i) := by
  obtain ⟨e1, e2, -⟩ := add_group2 s g h0 hg hid
  obtain ⟨i1, i2, i3, i4, i5, i6, i7, irt, -⟩ := group2_input s g
  obtain ⟨r1, r2, -, -, r5⟩ := rt_part_fields _ _ irt
  have hcX : rt_clean (group_input s g) := by unfold rt_clean; rw [r1]; exact hc
  have hv := i3.mpr hva
  have haccX : (group_input s g).rds_group.data_b_lsb &&& 0x0f = 0 ∨
      (to_bool ((group_input s g).rds_group.data_b_lsb &&& 0x10) =
          (group_input s g).handle.rt_ab_flag ∧
        (group_input s g).rds_group.data_b_lsb &&& 0x0f =
          (group_input s g).next_rt_segment) := by
    rw [i1, i2, r5, r2]; exact hacc
  have hW := group2_a_text (group_input s g) hcX hv haccX
    (by rw [i4]; exact hb 0 (by decide)) (by rw [i5]; exact hb 1 (by decide))
    (by rw [i6]; exact hb 2 (by decide)) (by rw [i7]; exact hb 3 (by decide))
  obtain ⟨z1, z2, z3, z4⟩ := group2_a_segment (group_input s g) hv haccX
  rw [i1, i4, i5, i6, i7, r1] at z1
  rw [i2] at z2
  rw [i1] at z3
  rw [i1] at z4
  have hcl : rt_clean (add_group s g).2 := by
    rw [e1]; exact group2_clean _
  rw [e1, hW]
  rw [e1, hW] at hcl
  exact ⟨by rw [← hW, ← e1]; exact e2, hcl, z1, z2, fun h => (z3 h).1, z4⟩


/-! ## Properties of the radio text (claims C11 to C14) -/

set_option maxRecDepth 100000

theorem add_groups_snoc (s : rds_private_state) (l : List raw_group) (g : raw_group) :
    add_groups s (l ++ [g]) = (add_group (add_groups s l) g).2 := by
  unfold add_groups
  rw [List.foldl_append]
  rfl

theorem rt_text_step (txt : Nat → Nat) (fl : Bool) (g : Nat → raw_group)
    (hg : ∀ k, k < 16 → is_group (g k) ∧ group_id_of (g k).b = 2 ∧ is_version_a (g k).b ∧
      rt_segment_of (g k).b = k ∧ rt_flag_of (g k).b = fl ∧
      ∀ j, j < 4 → rt_bytes (g k) j = txt (4 * k + j))
    (ht : ∀ i, i < 64 → txt i ≠ 0x0d) (k : Nat) (hk : k < 16) (t : rds_private_state)
    (h : rt_text_inv txt fl k t) : rt_text_inv txt fl (k + 1) (add_group t (g k)).2 := by
  obtain ⟨hgk, hid, hva, hsg, hfl, hby⟩ := hg k hk
  obtain ⟨j0, jc, jf, jn, jt, -⟩ := h
  have hacc : rt_segment_of (g k).b = 0 ∨
      (rt_flag_of (g k).b = t.handle.rt_ab_flag ∧ rt_segment_of (g k).b = t.next_rt_segment) := by
    by_cases hk0 : k = 0
    · left; rw [hsg]; exact hk0
    · right
      have h1 : 1 ≤ k := by omega
      exact ⟨hfl.trans (jf h1).symm, hsg.trans (jn h1 hk).symm⟩
  have hb : ∀ j, j < 4 → rt_bytes (g k) j ≠ 0x0d := by
    intro j hj
    rw [hby j hj]
    exact ht _ (by omega)
  obtain ⟨s1, s2, s3, s4, s5, s6⟩ := rt_text_group t (g k) j0 hgk hid hva jc hacc hb
  have htext : ∀ i, i < 4 * (k + 1) → (add_group t (g k)).2.new_rt i = txt i := by
    intro i hi
    rw [s3, hsg]
    by_cases hlt : i < 4 * k
    · rw [rt_store_other _ _ _ _ _ _ _ (by omega)]
      exact jt i hlt
    · have e := rt_store_bytes t.new_rt k (i - 4 * k) (g k) (by omega)
      have e2 : 4 * k + (i - 4 * k) = i := by omega
      rw [e2] at e
      rw [e, hby _ (by omega), e2]
  refine ⟨s1, s2, fun _ => s4.trans hfl, ?_, htext, ?_⟩
  · intro _ hk1
    rw [s5 (by rw [hsg]; omega), hsg]
  · intro h16
    obtain ⟨l1, l2, l3⟩ := s6 (by rw [hsg]; omega)
    refine ⟨l1, l2, fun i hi => ?_⟩
    rw [l3 i hi]
    exact htext i (by omega)

theorem rt_text_run (txt : Nat → Nat) (fl : Bool) (g : Nat → raw_group)
    (s : rds_private_state) (h0 : s.decode_state = RDS_EMPTY) (hc : rt_clean s)
    (hg : ∀ k, k < 16 → is_group (g k) ∧ group_id_of (g k).b = 2 ∧ is_version_a (g k).b ∧
      rt_segment_of (g k).b = k ∧ rt_flag_of (g k).b = fl ∧
      ∀ j, j < 4 → rt_bytes (g k) j = txt (4 * k + j))
    (ht : ∀ i, i < 64 → txt i ≠ 0x0d) :
    ∀ k, k ≤ 16 → rt_text_inv txt fl k (add_groups s ((List.range k).map g)) := by
  intro k
  induction k with
  | zero =>
    intro _
    exact ⟨h0, hc, fun h => absurd h (by decide), fun h => absurd h (by decide),
      fun i hi => absurd hi (Nat.not_lt_zero i), fun h => absurd h (by decide)⟩
  | succ k ih =>
    intro hk
    rw [List.range_succ, List.map_append, List.map_singleton, add_groups_snoc]
    exact rt_text_step txt fl g hg ht k (by omega) _ (ih (by omega))

/-- Claim C11: from every reachable state with an empty assembler, sixteen groups 2A
with the segments 0 to 15 in ascending order and one A/B flag, which carry the 64
bytes of a text without carriage return four by four, leave that text in `rt`,
`rt_length` 64 and the RT bit of `valid_fields` set. -/
theorem rt_sixteen_segments (r : Bool) (cs : List rds_call) (txt : Nat → Nat) (fl : Bool)
    (g : Nat → raw_group) (h0 : (run_calls r cs).decode_state = RDS_EMPTY)
    (hg : ∀ k, k < 16 → is_group (g k) ∧ group_id_of (g k).b = 2 ∧ is_version_a (g k).b ∧
      rt_segment_of (g k).b = k ∧ rt_flag_of (g k).b = fl ∧
      ∀ j, j < 4 → rt_bytes (g k) j = txt (4 * k + j))
    (ht : ∀ i, i < 64 → txt i ≠ 0x0d) :
    (∀ i, i < 64 →
      (add_groups (run_calls r cs) ((List.range 16).map g)).handle.rt i = txt i) ∧
    (add_groups (run_calls r cs) ((List.range 16).map g)).handle.rt_length = 64 ∧
    bit_set (add_groups (run_calls r cs) ((List.range 16).map g)).handle.valid_fields
      V4L2_RDS_RT := by
  obtain ⟨l1, l2, l3⟩ := (rt_text_run txt fl g (run_calls r cs) h0 (reach_inv_run r cs).1 hg ht
    16 (Nat.le_refl 16)).2.2.2.2.2 rfl
  exact ⟨l3, l1, l2⟩

/-- Witness of claim C11: the 64 characters "ABC...Z" repeated, sent to a fresh decoder. -/
theorem rt_sixteen_segments_witness :
    ((run_calls false []).decode_state = RDS_EMPTY ∧
      (∀ k, k < 16 → is_group (sample_rt_group k) ∧ group_id_of (sample_rt_group k).b = 2 ∧
        is_version_a (sample_rt_group k).b ∧ rt_segment_of (sample_rt_group k).b = k ∧
        rt_flag_of (sample_rt_group k).b = false ∧
        ∀ j, j < 4 → rt_bytes (sample_rt_group k) j = sample_text (4 * k + j)) ∧
      ∀ i, i < 64 → sample_text i ≠ 0x0d) ∧
    (∀ i, i < 64 →
      (add_groups (run_calls false []) ((List.range 16).map sample_rt_group)).handle.rt i =
        sample_text i) ∧
    (add_groups (run_calls false []) ((List.range 16).map sample_rt_group)).handle.rt_length
      = 64 ∧
    bit_set (add_groups (run_calls false [])
      ((List.range 16).map sample_rt_group)).handle.valid_fields V4L2_RDS_RT :=
  ⟨⟨rfl, by decide, by decide⟩,
    rt_sixteen_segments false [] sample_text false sample_rt_group rfl (by decide) (by decide)⟩


/-- Claim C12, amended: from every reachable state with an empty assembler, a group 2A
whose segment is applied (segment 0, or the accepted A/B flag and the expected segment)
and whose four text bytes hold one carriage return, at the position `i = 4 * segment + j`:
afterwards `rt_length` is `i`, the RT bit of `valid_fields` is set, `rt` agrees with
the accumulated pending text before `i`, and the pending text holds NUL at `i`.  The
accepted `rt[i]` is not written (the copy takes `i` bytes): for the segments 0 to 14 it
keeps its value, or is 0 after a change of the A/B flag; for segment 15 it is 0x0D. -/
theorem rt_carriage_return_ends_text (r : Bool) (cs : List rds_call) (g : raw_group) (j : Nat)
    (h0 : (run_calls r cs).decode_state = RDS_EMPTY) (hg : is_group g)
    (hid : group_id_of g.b = 2) (hva : is_version_a g.b)
    (hacc : rt_segment_of g.b = 0 ∨
      (rt_flag_of g.b = (run_calls r cs).handle.rt_ab_flag ∧
        rt_segment_of g.b = (run_calls r cs).next_rt_segment))
    (hj : j < 4) (hcr : rt_bytes g j = 0x0d)
    (ho : ∀ j', j' < 4 → j' ≠ j → rt_bytes g j' ≠ 0x0d) :
    (add_group (run_calls r cs) g).2.handle.rt_length = 4 * rt_segment_of g.b + j ∧
    bit_set (add_group (run_calls r cs) g).2.handle.valid_fields V4L2_RDS_RT ∧
    (∀ k, k < 4 * rt_segment_of g.b + j →
      (add_group (run_calls r cs) g).2.handle.rt k =
        rt_store (run_calls r cs).new_rt (rt_segment_of g.b) g.c.msb g.c.lsb g.d.msb g.d.lsb
          k) ∧
    (add_group (run_calls r cs) g).2.new_rt (4 * rt_segment_of g.b + j) = 0 ∧
    (rt_segment_of g.b ≠ 15 →
      (add_group (run_calls r cs) g).2.handle.rt (4 * rt_segment_of g.b + j) =
        if rt_flag_of g.b = (run_calls r cs).handle.rt_ab_flag
          then (run_calls r cs).handle.rt (4 * rt_segment_of g.b + j) else 0) ∧
    (rt_segment_of g.b = 15 →
      (add_group (run_calls r cs) g).2.handle.rt (4 * rt_segment_of g.b + j) = 0x0d) := by
  have hc := (reach_inv_run r cs).1
  obtain ⟨e1, -, -⟩ := add_group2 (run_calls r cs) g h0 hg hid
  obtain ⟨i1, i2, i3, i4, i5, i6, i7, irt, -⟩ := group2_input (run_calls r cs) g
  obtain ⟨r1, r2, r3, -, r5⟩ := rt_part_fields _ _ irt
  have hcX : rt_clean (group_input (run_calls r cs) g) := by
    unfold rt_clean; rw [r1]; exact hc
  have hstore : ∀ k, rt_store (group_input (run_calls r cs) g).new_rt
      ((group_input (run_calls r cs) g).rds_group.data_b_lsb &&& 0x0f)
      (group_input (run_calls r cs) g).rds_group.data_c_msb
      (group_input (run_calls r cs) g).rds_group.data_c_lsb
      (group_input (run_calls r cs) g).rds_group.data_d_msb
      (group_input (run_calls r cs) g).rds_group.data_d_lsb k =
      rt_store (run_calls r cs).new_rt (rt_segment_of g.b) g.c.msb g.c.lsb g.d.msb g.d.lsb
        k := by
    intro k
    rw [i1, i4, i5, i6, i7, r1]
  have hW := group2_a_cr (group_input (run_calls r cs) g) hcX (i3.mpr hva)
    (by rw [i1, i2, r5, r2]; exact hacc) (4 * rt_segment_of g.b + j)
    (by rw [i1]; omega) (by rw [i1]; omega)
    (by rw [hstore, rt_store_bytes _ _ _ _ hj]; exact hcr)
    (by
      intro k hk1 hk2 hne
      rw [i1] at hk1
      rw [i1] at hk2
      rw [hstore]
      have e := rt_store_bytes (run_calls r cs).new_rt (rt_segment_of g.b)
        (k - 4 * rt_segment_of g.b) g (by omega)
      have e2 : 4 * rt_segment_of g.b + (k - 4 * rt_segment_of g.b) = k := by omega
      rw [e2] at e
      rw [e]
      exact ho _ (by omega) (by omega))
  obtain ⟨w1, w2, w3, w4, -, w6, w7⟩ := hW
  rw [e1]
  refine ⟨w1, w2, ?_, w4, ?_, ?_⟩
  · intro k hk
    rw [w3 k hk, hstore]
  · intro h15
    rw [w6 (by rw [i1]; exact h15), i2, r5, r3]
  · intro h15
    exact w7 (by rw [i1]; exact h15)

/-- Witness of claim C12: the first six groups of the test data on a fresh decoder, then
the seventh, whose text bytes 0x00, 0x0D, 0x00, 0x00 put the carriage return at 25. -/
theorem rt_carriage_return_ends_text_witness :
    ((run_calls false (group_calls (test_data.take 6))).decode_state = RDS_EMPTY ∧
      is_group test_group_6 ∧ group_id_of test_group_6.b = 2 ∧ is_version_a test_group_6.b ∧
      (rt_segment_of test_group_6.b = 0 ∨
        (rt_flag_of test_group_6.b =
            (run_calls false (group_calls (test_data.take 6))).handle.rt_ab_flag ∧
          rt_segment_of test_group_6.b =
            (run_calls false (group_calls (test_data.take 6))).next_rt_segment)) ∧
      rt_bytes test_group_6 1 = 0x0d ∧
      ∀ j', j' < 4 → j' ≠ 1 → rt_bytes test_group_6 j' ≠ 0x0d) ∧
    (add_group (run_calls false (group_calls (test_data.take 6)))
      test_group_6).2.handle.rt_length = 4 * rt_segment_of test_group_6.b + 1 ∧
    4 * rt_segment_of test_group_6.b + 1 = 25 ∧
    bit_set (add_group (run_calls false (group_calls (test_data.take 6)))
      test_group_6).2.handle.valid_fields V4L2_RDS_RT :=
  ⟨⟨by decide, by decide, by decide, by decide, by decide, by decide, by decide⟩,
    (rt_carriage_return_ends_text false (group_calls (test_data.take 6)) test_group_6 1
      (by decide) (by decide) (by decide) (by decide) (by decide) (by decide) (by decide)
      (by decide)).1,
    by decide,
    (rt_carriage_return_ends_text false (group_calls (test_data.take 6)) test_group_6 1
      (by decide) (by decide) (by decide) (by decide) (by decide) (by decide) (by decide)
      (by decide)).2.1⟩

/-- Counterexample to claim C12: on a fresh decoder the group `cr_group_3` (segment 0,
"ABC" and a carriage return) is followed by `cr_group_1` (segment 0, 'A', a carriage
return, 'C', 'D'), which is accepted and holds one carriage return, at the position 1;
afterwards `rt_length` is 1 and `rt[1]` is still 'B', not NUL. -/
theorem rt_carriage_return_ends_text_counterexample :
    (run_calls false (group_calls [cr_group_3])).decode_state = RDS_EMPTY ∧
    is_group cr_group_1 ∧ group_id_of cr_group_1.b = 2 ∧ is_version_a cr_group_1.b ∧
    rt_segment_of cr_group_1.b = 0 ∧ rt_bytes cr_group_1 1 = 0x0d ∧
    (∀ j', j' < 4 → j' ≠ 1 → rt_bytes cr_group_1 j' ≠ 0x0d) ∧
    (add_group (run_calls false (group_calls [cr_group_3])) cr_group_1).2.handle.rt_length
      = 1 ∧
    ¬ ((add_group (run_calls false (group_calls [cr_group_3])) cr_group_1).2.handle.rt 1
      = 0) := by
  decide

/-- Claim C13, amended: from every reachable state with an empty assembler, a group 2
(version A or B, any segment) whose A/B flag differs from the accepted one sets
`rt_ab_flag` to the flag of the group and reports RT in `updated_fields`; provided the
segment is not 0, or none of the text bytes applied (blocks C and D in version A, block
D in version B) is a carriage return, `rt` is 64 zero bytes and the RT bit of
`valid_fields` is clear afterwards. -/
theorem rt_flag_change_clears_text (r : Bool) (cs : List rds_call) (g : raw_group)
    (h0 : (run_calls r cs).decode_state = RDS_EMPTY) (hg : is_group g)
    (hid : group_id_of g.b = 2)
    (hf : rt_flag_of g.b ≠ (run_calls r cs).handle.rt_ab_flag) :
    (add_group (run_calls r cs) g).2.handle.rt_ab_flag = rt_flag_of g.b ∧
    bit_set (add_group (run_calls r cs) g).1 V4L2_RDS_RT ∧
    ((rt_segment_of g.b ≠ 0 ∨
      ((is_version_a g.b → g.c.msb ≠ 0x0d ∧ g.c.lsb ≠ 0x0d) ∧
        g.d.msb ≠ 0x0d ∧ g.d.lsb ≠ 0x0d)) →
      (∀ i, i < 64 → (add_group (run_calls r cs) g).2.handle.rt i = 0) ∧
      ¬ bit_set (add_group (run_calls r cs) g).2.handle.valid_fields V4L2_RDS_RT) := by
  have hc := (reach_inv_run r cs).1
  obtain ⟨e1, -, e3⟩ := add_group2 (run_calls r cs) g h0 hg hid
  obtain ⟨i1, i2, i3, i4, i5, i6, i7, irt, -⟩ := group2_input (run_calls r cs) g
  obtain ⟨r1, -, -, -, r5⟩ := rt_part_fields _ _ irt
  have hcX : rt_clean (group_input (run_calls r cs) g) := by
    unfold rt_clean; rw [r1]; exact hc
  obtain ⟨w1, w2, w3⟩ := group2_new_flag (group_input (run_calls r cs) g) hcX
    (by rw [i2, r5]; exact hf)
  rw [i2] at w1
  rw [i1, i3, i4, i5, i6, i7] at w3
  refine ⟨by rw [e1]; exact w1, ?_, ?_⟩
  · unfold bit_set
    rw [e3]
    exact w2
  · intro hb
    obtain ⟨v1, v2⟩ := w3 hb
    rw [e1]
    refine ⟨?_, ?_⟩
    · intro i hi
      rw [v1]
      unfold arr_fill
      rw [if_pos hi]
    · unfold bit_set
      rw [v2]
      exact fun h => h rfl

/-- Witness of claim C13: after the seven groups of the test data, whose text is
accepted under the A/B flag 0, a group 2A with the flag 1 and the text "ABCD" clears
the accepted text. -/
theorem rt_flag_change_clears_text_witness :
    ((run_calls false (group_calls test_data)).decode_state = RDS_EMPTY ∧
      is_group flag_group ∧ group_id_of flag_group.b = 2 ∧
      rt_flag_of flag_group.b ≠ (run_calls false (group_calls test_data)).handle.rt_ab_flag ∧
      bit_set (run_calls false (group_calls test_data)).handle.valid_fields V4L2_RDS_RT) ∧
    (∀ i, i < 64 →
      (add_group (run_calls false (group_calls test_data)) flag_group).2.handle.rt i = 0) ∧
    ¬ bit_set (add_group (run_calls false (group_calls test_data))
      flag_group).2.handle.valid_fields V4L2_RDS_RT :=
  ⟨⟨by decide, by decide, by decide, by decide, by decide⟩,
    (rt_flag_change_clears_text false (group_calls test_data) flag_group (by decide)
      (by decide) (by decide) (by decide)).2.2 (by decide)⟩

/-- Counterexample to claim C13: on a fresh decoder (accepted A/B flag 0) the group 2A
`flag_cr_group` with the flag 1, segment 0 and the text 'A', 'B', 'C', carriage return
leaves the RT bit of `valid_fields` set and "ABC" in `rt`. -/
theorem rt_flag_change_clears_text_counterexample :
    (run_calls false []).decode_state = RDS_EMPTY ∧ is_group flag_cr_group ∧
    group_id_of flag_cr_group.b = 2 ∧
    rt_flag_of flag_cr_group.b ≠ (run_calls false []).handle.rt_ab_flag ∧
    ¬ ((∀ i, i < 64 → (add_group (run_calls false []) flag_cr_group).2.handle.rt i = 0) ∧
      ¬ bit_set (add_group (run_calls false []) flag_cr_group).2.handle.valid_fields
        V4L2_RDS_RT) := by
  decide

/-- Claim C14, amended: from every reachable state with an empty assembler, a group 2
with the accepted A/B flag whose segment is neither 0 nor `next_rt_segment` is not
applied: the pending text, the accepted text, its length and the RT bit of
`valid_fields` are unchanged and RT is not reported.  The accumulator is not reset
either: `next_rt_segment` keeps its value, so the segment awaited before is still
accepted afterwards. -/
theorem rt_out_of_order_segment_ignored (r : Bool) (cs : List rds_call) (g : raw_group)
    (h0 : (run_calls r cs).decode_state = RDS_EMPTY) (hg : is_group g)
    (hid : group_id_of g.b = 2)
    (hf : rt_flag_of g.b = (run_calls r cs).handle.rt_ab_flag)
    (hs : rt_segment_of g.b ≠ 0)
    (hn : rt_segment_of g.b ≠ (run_calls r cs).next_rt_segment) :
    (add_group (run_calls r cs) g).2.new_rt = (run_calls r cs).new_rt ∧
    (add_group (run_calls r cs) g).2.handle.rt = (run_calls r cs).handle.rt ∧
    (add_group (run_calls r cs) g).2.handle.rt_length = (run_calls r cs).handle.rt_length ∧
    (add_group (run_calls r cs) g).2.next_rt_segment = (run_calls r cs).next_rt_segment ∧
    (bit_set (add_group (run_calls r cs) g).2.handle.valid_fields V4L2_RDS_RT ↔
      bit_set (run_calls r cs).handle.valid_fields V4L2_RDS_RT) ∧
    ¬ bit_set (add_group (run_calls r cs) g).1 V4L2_RDS_RT := by
  obtain ⟨k1, k2, k3⟩ := rt_skip_group (run_calls r cs) g h0 hg hid (reach_inv_run r cs).1
    hf hs hn
  obtain ⟨r1, r2, r3, r4, -⟩ := rt_part_fields _ _ k1
  refine ⟨r1, r3, r4, r2, ?_, ?_⟩
  · unfold bit_set
    rw [k2]
  · unfold bit_set
    rw [k3]
    exact fun h => h rfl

/-- Witness of claim C14: after the first group of the test data (segment 0) the
decoder awaits segment 1; the third group of the test data (segment 2) is ignored and
segment 1 is still awaited. -/
theorem rt_out_of_order_segment_ignored_witness :
    ((run_calls false (group_calls [test_group_0])).decode_state = RDS_EMPTY ∧
      is_group test_group_2 ∧ group_id_of test_group_2.b = 2 ∧
      rt_flag_of test_group_2.b =
        (run_calls false (group_calls [test_group_0])).handle.rt_ab_flag ∧
      rt_segment_of test_group_2.b ≠ 0 ∧
      rt_segment_of test_group_2.b ≠
        (run_calls false (group_calls [test_group_0])).next_rt_segment) ∧
    (add_group (run_calls false (group_calls [test_group_0])) test_group_2).2.new_rt =
      (run_calls false (group_calls [test_group_0])).new_rt ∧
    (add_group (run_calls false (group_calls [test_group_0])) test_group_2).2.next_rt_segment
      = (run_calls false (group_calls [test_group_0])).next_rt_segment :=
  ⟨⟨by decide, by decide, by decide, by decide, by decide, by decide⟩,
    (rt_out_of_order_segment_ignored false (group_calls [test_group_0]) test_group_2
      (by decide) (by decide) (by decide) (by decide) (by decide) (by decide)).1,
    (rt_out_of_order_segment_ignored false (group_calls [test_group_0]) test_group_2
      (by decide) (by decide) (by decide) (by decide) (by decide) (by decide)).2.2.2.1⟩

/-- Counterexample to claim C14: after the first group of the test data (segment 0) on
a fresh decoder, the third group of the test data (segment 2, out of order) leaves
`next_rt_segment` at 1; it is not reset to 0. -/
theorem rt_out_of_order_segment_ignored_counterexample :
    (run_calls false (group_calls [test_group_0])).decode_state = RDS_EMPTY ∧
    is_group test_group_2 ∧ group_id_of test_group_2.b = 2 ∧
    rt_flag_of test_group_2.b =
      (run_calls false (group_calls [test_group_0])).handle.rt_ab_flag ∧
    rt_segment_of test_group_2.b ≠ 0 ∧
    rt_segment_of test_group_2.b ≠
      (run_calls false (group_calls [test_group_0])).next_rt_segment ∧
    ¬ ((add_group (run_calls false (group_calls [test_group_0]))
      test_group_2).2.next_rt_segment = 0) := by
  decide

/-! ## The decoder information -/

theorem set_bit_four : ∀ d, d < 16 → ∀ b0 b1 b2 b3 : Bool,
    set_bit (set_bit (set_bit (set_bit d V4L2_RDS_FLAG_STEREO b0)
      V4L2_RDS_FLAG_ARTIFICIAL_HEAD b1) V4L2_RDS_FLAG_COMPRESSED b2)
      V4L2_RDS_FLAG_STATIC_PTY b3 = di_of_bits b0 b1 b2 b3 := by
  decide

theorem upd_ps (acc : Nat × rds_private_state) (m : Nat) (h1 : V4L2_RDS_PS &&& m = 0) :
    (rds_decode_ps acc).1 &&& m = acc.1 &&& m := by
  unfold rds_decode_ps
  simp only []
  split_ifs <;> simp only [and_or_disj _ _ _ h1]

/-- The DI part of the group-0 decoder, segment by segment. -/
theorem decode_di_fields (acc : Nat × rds_private_state) :
    (acc.2.rds_group.data_b_lsb &&& 0x03 = 0 →
      (rds_decode_di acc).2.new_di = set_bit acc.2.new_di V4L2_RDS_FLAG_STEREO
        (to_bool (acc.2.rds_group.data_b_lsb &&& 0x04)) ∧
      (rds_decode_di acc).2.next_di_segment = 1 ∧
      (rds_decode_di acc).2.handle.di = acc.2.handle.di) ∧
    (acc.2.rds_group.data_b_lsb &&& 0x03 = 1 → acc.2.next_di_segment = 1 →
      (rds_decode_di acc).2.new_di = set_bit acc.2.new_di V4L2_RDS_FLAG_ARTIFICIAL_HEAD
        (to_bool (acc.2.rds_group.data_b_lsb &&& 0x04)) ∧
      (rds_decode_di acc).2.next_di_segment = 2 ∧
      (rds_decode_di acc).2.handle.di = acc.2.handle.di) ∧
    (acc.2.rds_group.data_b_lsb &&& 0x03 = 2 → acc.2.next_di_segment = 2 →
      (rds_decode_di acc).2.new_di = set_bit acc.2.new_di V4L2_RDS_FLAG_COMPRESSED
        (to_bool (acc.2.rds_group.data_b_lsb &&& 0x04)) ∧
      (rds_decode_di acc).2.next_di_segment = 3 ∧
      (rds_decode_di acc).2.handle.di = acc.2.handle.di) ∧
    (acc.2.rds_group.data_b_lsb &&& 0x03 = 3 → acc.2.next_di_segment = 3 →
      (rds_decode_di acc).2.handle.di = set_bit acc.2.new_di V4L2_RDS_FLAG_STATIC_PTY
        (to_bool (acc.2.rds_group.data_b_lsb &&& 0x04)) ∧
      (rds_decode_di acc).2.handle.valid_fields = acc.2.handle.valid_fields ||| V4L2_RDS_DI ∧
      (rds_decode_di acc).1 =
        if acc.2.handle.di ≠ set_bit acc.2.new_di V4L2_RDS_FLAG_STATIC_PTY
            (to_bool (acc.2.rds_group.data_b_lsb &&& 0x04))
          then acc.1 ||| V4L2_RDS_DI else acc.1) := by
  unfold rds_decode_di
  simp only []
  refine ⟨?_, ?_, ?_, ?_⟩
  · intro hs
    rw [if_pos (Or.inl hs), if_pos hs]
    exact ⟨rfl, rfl, rfl⟩
  · intro hs hn
    rw [if_pos (Or.inr (hs.trans hn.symm)), if_neg (by rw [hs]; decide), if_pos hs]
    exact ⟨rfl, rfl, rfl⟩
  · intro hs hn
    rw [if_pos (Or.inr (hs.trans hn.symm)), if_neg (by rw [hs]; decide),
      if_neg (by rw [hs]; decide), if_pos hs]
    exact ⟨rfl, rfl, rfl⟩
  · intro hs hn
    rw [if_pos (Or.inr (hs.trans hn.symm)), if_neg (by rw [hs]; decide),
      if_neg (by rw [hs]; decide), if_neg (by rw [hs]; decide), if_pos hs]
    split_ifs with hd
    · exact ⟨rfl, rfl, rfl⟩
    · exact ⟨not_not.mp hd, rfl, rfl⟩

/-- The decoder information after the group-0 decoder, segment by segment, in terms of
the state before it. -/
theorem group0_di (X : rds_private_state) :
    (X.rds_group.data_b_lsb &&& 0x03 = 0 →
      (rds_decode_group0 X).2.new_di = set_bit X.new_di V4L2_RDS_FLAG_STEREO
        (to_bool (X.rds_group.data_b_lsb &&& 0x04)) ∧
      (rds_decode_group0 X).2.next_di_segment = 1 ∧
      (rds_decode_group0 X).2.handle.di = X.handle.di) ∧
    (X.rds_group.data_b_lsb &&& 0x03 = 1 → X.next_di_segment = 1 →
      (rds_decode_group0 X).2.new_di = set_bit X.new_di V4L2_RDS_FLAG_ARTIFICIAL_HEAD
        (to_bool (X.rds_group.data_b_lsb &&& 0x04)) ∧
      (rds_decode_group0 X).2.next_di_segment = 2 ∧
      (rds_decode_group0 X).2.handle.di = X.handle.di) ∧
    (X.rds_group.data_b_lsb &&& 0x03 = 2 → X.next_di_segment = 2 →
      (rds_decode_group0 X).2.new_di = set_bit X.new_di V4L2_RDS_FLAG_COMPRESSED
        (to_bool (X.rds_group.data_b_lsb &&& 0x04)) ∧
      (rds_decode_group0 X).2.next_di_segment = 3 ∧
      (rds_decode_group0 X).2.handle.di = X.handle.di) ∧
    (X.rds_group.data_b_lsb &&& 0x03 = 3 → X.next_di_segment = 3 →
      (rds_decode_group0 X).2.handle.di = set_bit X.new_di V4L2_RDS_FLAG_STATIC_PTY
        (to_bool (X.rds_group.data_b_lsb &&& 0x04)) ∧
      bit_set (rds_decode_group0 X).2.handle.valid_fields V4L2_RDS_DI ∧
      (bit_set (rds_decode_group0 X).1 V4L2_RDS_DI ↔
        X.handle.di ≠ set_bit X.new_di V4L2_RDS_FLAG_STATIC_PTY
          (to_bool (X.rds_group.data_b_lsb &&& 0x04)))) := by
  have hA := aux4_fields _ _ ((aux4_ps (rds_decode_ta_ms X)).trans (aux4_ta_ms X))
  obtain ⟨a1, a2, a3⟩ := di_part_fields _ _ hA.2.1
  have hgrp : (rds_decode_ps (rds_decode_ta_ms X)).2.rds_group = X.rds_group :=
    ((core_fields _ _ (core_ps (rds_decode_ta_ms X))).1).trans
      (core_fields _ _ (core_ta_ms X)).1
  have hupd : (rds_decode_ps (rds_decode_ta_ms X)).1 &&& V4L2_RDS_DI = 0 := by
    rw [upd_ps _ _ (by decide)]
    exact upd_ta_ms X _ (by decide) (by decide)
  obtain ⟨f1, f2, f3⟩ := di_part_fields _ _
    (frame_af (rds_decode_di (rds_decode_ps (rds_decode_ta_ms X)))).2.1
  have fv := valid_af (rds_decode_di (rds_decode_ps (rds_decode_ta_ms X))) V4L2_RDS_DI
    (by decide)
  have fu := upd_af (rds_decode_di (rds_decode_ps (rds_decode_ta_ms X))) V4L2_RDS_DI
    (by decide)
  obtain ⟨d0, d1, d2, d3⟩ := decode_di_fields (rds_decode_ps (rds_decode_ta_ms X))
  rw [hgrp, a1, a3] at d0
  rw [hgrp, a1, a2, a3] at d1
  rw [hgrp, a1, a2, a3] at d2
  rw [hgrp, a1, a2, a3] at d3
  unfold rds_decode_group0
  rw [f1, f2, f3]
  refine ⟨d0, d1, d2, ?_⟩
  intro hs hn
  obtain ⟨p1, p2, p3⟩ := d3 hs hn
  refine ⟨p1, ?_, ?_⟩
  · unfold bit_set
    rw [fv, p2]
    exact bit_set_or_self _ _ (by decide)
  · unfold bit_set
    rw [fu, p3]
    split_ifs with hd
    · rw [and_or_r, hupd, Nat.zero_or]
      exact ⟨fun _ => hd, fun _ => by decide⟩
    · rw [hupd]
      exact ⟨fun h => absurd rfl h, fun h => absurd h hd⟩

theorem add_group0 (s : rds_private_state) (g : raw_group)
    (h0 : s.decode_state = RDS_EMPTY) (hg : is_group g) (hid : group_id_of g.b = 0) :
    (add_group s g).2 = (rds_decode_group0 (group_input s g)).2 ∧
    (add_group s g).2.decode_state = RDS_EMPTY ∧
    ∀ m, V4L2_RDS_PI &&& m = 0 → V4L2_RDS_TP &&& m = 0 → V4L2_RDS_PTY &&& m = 0 →
      (add_group s g).1 &&& m = (rds_decode_group0 (group_input s g)).1 &&& m := by
  obtain ⟨e1, e2, e3⟩ := add_group_decode s g h0 hg
  have hd : rds_decode_group (decode_abcd (group_ready s g)) =
      rds_decode_group0 (group_input s g) := by
    rw [decode_group_input, hid]; rfl
  rw [hd] at e1
  rw [hd] at e3
  exact ⟨e1, e2, e3⟩

/-- A group 0 ingested from an empty assembler: the decoder information, segment by
segment. -/
theorem di_group (s : rds_private_state) (g : raw_group)
    (h0 : s.decode_state = RDS_EMPTY) (hg : is_group g) (hid : group_id_of g.b = 0) :
    (add_group s g).2.decode_state = RDS_EMPTY ∧
    (segment_of g.b = 0 →
      (add_group s g).2.new_di = set_bit s.new_di V4L2_RDS_FLAG_STEREO (di_bit_of g.b) ∧
      (add_group s g).2.next_di_segment = 1 ∧
      (add_group s g).2.handle.di = s.handle.di) ∧
    (segment_of g.b = 1 → s.next_di_segment = 1 →
      (add_group s g).2.new_di =
        set_bit s.new_di V4L2_RDS_FLAG_ARTIFICIAL_HEAD (di_bit_of g.b) ∧
      (add_group s g).2.next_di_segment = 2 ∧
      (add_group s g).2.handle.di = s.handle.di) ∧
    (segment_of g.b = 2 → s.next_di_segment = 2 →
      (add_group s g).2.new_di = set_bit s.new_di V4L2_RDS_FLAG_COMPRESSED (di_bit_of g.b) ∧
      (add_group s g).2.next_di_segment = 3 ∧
      (add_group s g).2.handle.di = s.handle.di) ∧
    (segment_of g.b = 3 → s.next_di_segment = 3 →
      (add_group s g).2.handle.di =
        set_bit s.new_di V4L2_RDS_FLAG_STATIC_PTY (di_bit_of g.b) ∧
      bit_set (add_group s g).2.handle.valid_fields V4L2_RDS_DI ∧
      (bit_set (add_group s g).1 V4L2_RDS_DI ↔
        s.handle.di ≠ set_bit s.new_di V4L2_RDS_FLAG_STATIC_PTY (di_bit_of g.b))) := by
  obtain ⟨e1, e2, e3⟩ := add_group0 s g h0 hg hid
  have hgrp := group_input_group s g
  have hseg : (group_input s g).rds_group.data_b_lsb &&& 0x03 = segment_of g.b := by
    rw [hgrp]; rfl
  have hbit : to_bool ((group_input s g).rds_group.data_b_lsb &&& 0x04) = di_bit_of g.b := by
    rw [hgrp]; rfl
  obtain ⟨a1, a2, a3⟩ := di_part_fields _ _ (aux4_fields _ _ (aux4_group_input s g)).2.1
  obtain ⟨d0, d1, d2, d3⟩ := group0_di (group_input s g)
  rw [hseg, hbit, a1, a3] at d0
  rw [hseg, hbit, a1, a2, a3] at d1
  rw [hseg, hbit, a1, a2, a3] at d2
  rw [hseg, hbit, a1, a2, a3] at d3
  have e4 := e3 V4L2_RDS_DI (by decide) (by decide) (by decide)
  unfold bit_set at d3 ⊢
  rw [e1, e4]
  exact ⟨by rw [← e1]; exact e2, d0, d1, d2, d3⟩

/-! ## Properties of the decoder information (claim C15) -/

/-- Claim C15: from every reachable state with an empty assembler, four groups 0 with the
segments 0, 1, 2, 3 that carry the DI bits b0, b1, b2, b3 leave in `di` exactly the
flags STEREO = b0, ARTIFICIAL_HEAD = b1, COMPRESSED = b2, STATIC_PTY = b3, whatever an
earlier pass left in the pending flags; the DI bit of `valid_fields` is set, and DI is
in the `updated_fields` of the fourth group exactly when `di` changed. -/
theorem di_four_segments (r : Bool) (cs : List rds_call) (g : Nat → raw_group)
    (b : Nat → Bool) (h0 : (run_calls r cs).decode_state = RDS_EMPTY)
    (hg : ∀ k, k < 4 → is_group (g k) ∧ group_id_of (g k).b = 0 ∧
      segment_of (g k).b = k ∧ di_bit_of (g k).b = b k) :
    (add_groups (run_calls r cs) ((List.range 4).map g)).handle.di =
      di_of_bits (b 0) (b 1) (b 2) (b 3) ∧
    bit_set (add_groups (run_calls r cs) ((List.range 4).map g)).handle.valid_fields
      V4L2_RDS_DI ∧
    (bit_set (add_group (add_groups (run_calls r cs) ((List.range 3).map g)) (g 3)).1
        V4L2_RDS_DI ↔
      di_of_bits (b 0) (b 1) (b 2) (b 3) ≠ (run_calls r cs).handle.di) := by
  have hd := (reach_inv_run r cs).2.1
  obtain ⟨g0, i0, s0, b0⟩ := hg 0 (by decide)
  obtain ⟨g1, i1, s1, b1⟩ := hg 1 (by decide)
  obtain ⟨g2, i2, s2, b2⟩ := hg 2 (by decide)
  obtain ⟨g3, i3, s3, b3⟩ := hg 3 (by decide)
  obtain ⟨p0, p1, -, -, -⟩ := di_group (run_calls r cs) (g 0) h0 g0 i0
  obtain ⟨n1, x1, d1⟩ := p1 s0
  obtain ⟨q0, -, q1, -, -⟩ := di_group (add_group (run_calls r cs) (g 0)).2 (g 1) p0 g1 i1
  obtain ⟨n2, x2, d2⟩ := q1 s1 x1
  obtain ⟨u0, -, -, u1, -⟩ := di_group
    (add_group (add_group (run_calls r cs) (g 0)).2 (g 1)).2 (g 2) q0 g2 i2
  obtain ⟨n3, x3, d3⟩ := u1 s2 x2
  obtain ⟨-, -, -, -, v1⟩ := di_group
    (add_group (add_group (add_group (run_calls r cs) (g 0)).2 (g 1)).2 (g 2)).2 (g 3) u0 g3 i3
  obtain ⟨w1, w2, w3⟩ := v1 s3 x3
  rw [n3, n2, n1, b0, b1, b2, b3, set_bit_four _ hd] at w1
  rw [n3, n2, n1, b0, b1, b2, b3, set_bit_four _ hd, d3, d2, d1] at w3
  have e4 : add_groups (run_calls r cs) ((List.range 4).map g) =
      (add_group (add_group (add_group (add_group (run_calls r cs) (g 0)).2 (g 1)).2
        (g 2)).2 (g 3)).2 := rfl
  have e3 : add_groups (run_calls r cs) ((List.range 3).map g) =
      (add_group (add_group (add_group (run_calls r cs) (g 0)).2 (g 1)).2 (g 2)).2 := rfl
  rw [e4, e3]
  exact ⟨w1, w2, w3.trans ⟨fun h => h.symm, fun h => h.symm⟩⟩

/-- Witness of claim C15: the DI bits 1, 0, 1, 1 sent to a fresh decoder give stereo,
compressed and static PTY. -/
theorem di_four_segments_witness :
    ((run_calls false []).decode_state = RDS_EMPTY ∧
      ∀ k, k < 4 → is_group (sample_di_group k) ∧ group_id_of (sample_di_group k).b = 0 ∧
        segment_of (sample_di_group k).b = k ∧
        di_bit_of (sample_di_group k).b = sample_di_bit k) ∧
    (add_groups (run_calls false []) ((List.range 4).map sample_di_group)).handle.di =
      di_of_bits (sample_di_bit 0) (sample_di_bit 1) (sample_di_bit 2) (sample_di_bit 3) ∧
    di_of_bits (sample_di_bit 0) (sample_di_bit 1) (sample_di_bit 2) (sample_di_bit 3) = 13 :=
  ⟨⟨rfl, by decide⟩,
    (di_four_segments false [] sample_di_group sample_di_bit rfl (by decide)).1, by decide⟩


/-! ## The open data announcements -/

/-- The three outcomes of `rds_add_oda`: the record is appended to an empty list; a
non-empty list whose first record has another group type is left alone; the first
record of a non-empty list gets the new application identification.  Only the first
outcome returns true. -/
theorem add_oda_cases (X : rds_private_state) (o : v4l2_rds_oda) :
    (X.handle.rds_oda.size = 0 →
      (rds_add_oda X o).1 = true ∧
      (rds_add_oda X o).2.handle.rds_oda.size = 1 ∧
      (rds_add_oda X o).2.handle.rds_oda.oda 0 = o ∧
      (rds_add_oda X o).2.handle.decode_information = X.handle.decode_information) ∧
    (X.handle.rds_oda.size ≠ 0 → (X.handle.rds_oda.oda 0).group_id ≠ o.group_id →
      rds_add_oda X o = (false, X)) ∧
    (X.handle.rds_oda.size ≠ 0 → (X.handle.rds_oda.oda 0).group_id = o.group_id →
      (rds_add_oda X o).1 = false ∧
      (rds_add_oda X o).2.handle.rds_oda.size = X.handle.rds_oda.size ∧
      (rds_add_oda X o).2.handle.rds_oda.oda 0 = { X.handle.rds_oda.oda 0 with aid := o.aid } ∧
      (∀ k, k ≠ 0 → (rds_add_oda X o).2.handle.rds_oda.oda k = X.handle.rds_oda.oda k) ∧
      (rds_add_oda X o).2.handle.decode_information = X.handle.decode_information) := by
  unfold rds_add_oda
  simp only []
  refine ⟨?_, ?_, ?_⟩
  · intro h
    have hn : ¬ 0 < X.handle.rds_oda.size := by omega
    have hcap : ¬ X.handle.rds_oda.size ≥ MAX_ODA_CNT := by rw [h]; decide
    rw [if_neg hn, if_neg hcap]
    refine ⟨rfl, ?_, ?_, rfl⟩
    · show (X.handle.rds_oda.size + 1) % 256 = 1
      rw [h]
    · show arr_set X.handle.rds_oda.oda X.handle.rds_oda.size o 0 = o
      rw [h]
      rfl
  · intro h hne
    rw [if_pos (Nat.pos_of_ne_zero h), if_neg hne]
  · intro h he
    rw [if_pos (Nat.pos_of_ne_zero h), if_pos he]
    refine ⟨rfl, rfl, rfl, ?_, rfl⟩
    intro k hk
    show arr_set _ 0 _ k = _
    unfold arr_set
    rw [if_neg hk]

theorem group3_eq (X : rds_private_state) (o : v4l2_rds_oda)
    (ho : o =
      { group_version := if X.rds_group.data_b_lsb &&& 0x01 ≠ 0 then CHAR_B else CHAR_A,
        group_id := (X.rds_group.data_b_lsb &&& 0x1e) >>> 1,
        aid := ((X.rds_group.data_d_msb <<< 8) ||| X.rds_group.data_d_lsb) % 2 ^ 16 }) :
    rds_decode_group3 X =
      if X.rds_group.group_version ≠ CHAR_A then (0, X)
      else if (rds_add_oda X o).1 = true then
        (0 ||| V4L2_RDS_ODA,
          { (rds_add_oda X o).2 with handle := { (rds_add_oda X o).2.handle with
              decode_information :=
                (rds_add_oda X o).2.handle.decode_information ||| V4L2_RDS_ODA } })
      else (0, (rds_add_oda X o).2) := by
  subst ho
  rfl

/-- The three outcomes of `rds_decode_group3` on a group 3A; only the insertion into an
empty list is reported. -/
theorem group3_fields (X : rds_private_state) (hv : X.rds_group.group_version = CHAR_A) :
    (X.handle.rds_oda.size = 0 →
      (rds_decode_group3 X).2.handle.rds_oda.size = 1 ∧
      (rds_decode_group3 X).2.handle.rds_oda.oda 0 =
        { group_version := if X.rds_group.data_b_lsb &&& 0x01 ≠ 0 then CHAR_B else CHAR_A,
          group_id := (X.rds_group.data_b_lsb &&& 0x1e) >>> 1,
          aid := ((X.rds_group.data_d_msb <<< 8) ||| X.rds_group.data_d_lsb) % 2 ^ 16 } ∧
      (rds_decode_group3 X).2.handle.decode_information =
        X.handle.decode_information ||| V4L2_RDS_ODA ∧
      (rds_decode_group3 X).1 = 0 ||| V4L2_RDS_ODA) ∧
    (X.handle.rds_oda.size ≠ 0 →
      (X.handle.rds_oda.oda 0).group_id ≠ (X.rds_group.data_b_lsb &&& 0x1e) >>> 1 →
      (rds_decode_group3 X).2.handle.rds_oda = X.handle.rds_oda ∧
      (rds_decode_group3 X).2.handle.decode_information = X.handle.decode_information ∧
      (rds_decode_group3 X).1 = 0) ∧
    (X.handle.rds_oda.size ≠ 0 →
      (X.handle.rds_oda.oda 0).group_id = (X.rds_group.data_b_lsb &&& 0x1e) >>> 1 →
      (rds_decode_group3 X).2.handle.rds_oda.size = X.handle.rds_oda.size ∧
      (rds_decode_group3 X).2.handle.rds_oda.oda 0 =
        { X.handle.rds_oda.oda 0 with
          aid := ((X.rds_group.data_d_msb <<< 8) ||| X.rds_group.data_d_lsb) % 2 ^ 16 } ∧
      (∀ k, k ≠ 0 → (rds_decode_group3 X).2.handle.rds_oda.oda k = X.handle.rds_oda.oda k) ∧
      (rds_decode_group3 X).2.handle.decode_information = X.handle.decode_information ∧
      (rds_decode_group3 X).1 = 0) := by
  obtain ⟨c1, c2, c3⟩ := add_oda_cases X
    { group_version := if X.rds_group.data_b_lsb &&& 0x01 ≠ 0 then CHAR_B else CHAR_A,
      group_id := (X.rds_group.data_b_lsb &&& 0x1e) >>> 1,
      aid := ((X.rds_group.data_d_msb <<< 8) ||| X.rds_group.data_d_lsb) % 2 ^ 16 }
  rw [group3_eq X _ rfl, if_neg (not_not.mpr hv)]
  refine ⟨?_, ?_, ?_⟩
  · intro h
    obtain ⟨a1, a2, a3, a4⟩ := c1 h
    rw [if_pos a1]
    refine ⟨a2, a3, ?_, rfl⟩
    show _ ||| V4L2_RDS_ODA = _
    rw [a4]
  · intro h hne
    have a := c2 h hne
    rw [a]
    exact ⟨rfl, rfl, rfl⟩
  · intro h he
    obtain ⟨a1, a2, a3, a4, a5⟩ := c3 h he
    rw [if_neg (by rw [a1]; decide)]
    exact ⟨a2, a3, a4, a5, rfl⟩

theorem add_group3 (s : rds_private_state) (g : raw_group)
    (h0 : s.decode_state = RDS_EMPTY) (hg : is_group g) (hid : group_id_of g.b = 3) :
    (add_group s g).2 = (rds_decode_group3 (group_input s g)).2 ∧
    (add_group s g).2.decode_state = RDS_EMPTY ∧
    (add_group s g).1 = blocks_updated s g ||| (rds_decode_group3 (group_input s g)).1 := by
  obtain ⟨e1, e2, -⟩ := add_group_decode s g h0 hg
  have hd : rds_decode_group (decode_abcd (group_ready s g)) =
      rds_decode_group3 (group_input s g) := by
    rw [decode_group_input, hid]; rfl
  rw [hd] at e1
  refine ⟨e1, e2, ?_⟩
  rw [add_group_eq s g h0 hg, decode_complete_updated, hd, Nat.zero_or]
  rfl

/-- A group 3A ingested from an empty assembler, in terms of the group. -/
theorem oda_group_fields (s : rds_private_state) (g : raw_group)
    (h0 : s.decode_state = RDS_EMPTY) (hg : is_group g) (hid : group_id_of g.b = 3)
    (hva : is_version_a g.b) :
    (s.handle.rds_oda.size = 0 →
      (add_group s g).2.handle.rds_oda.size = 1 ∧
      (add_group s g).2.handle.rds_oda.oda 0 = oda_of g ∧
      (add_group s g).2.handle.decode_information =
        s.handle.decode_information ||| V4L2_RDS_ODA ∧
      (add_group s g).1 = blocks_updated s g ||| (0 ||| V4L2_RDS_ODA)) ∧
    (s.handle.rds_oda.size ≠ 0 →
      (s.handle.rds_oda.oda 0).group_id ≠ (oda_of g).group_id →
      (add_group s g).2.handle.rds_oda = s.handle.rds_oda ∧
      (add_group s g).2.handle.decode_information = s.handle.decode_information ∧
      (add_group s g).1 = blocks_updated s g) ∧
    (s.handle.rds_oda.size ≠ 0 →
      (s.handle.rds_oda.oda 0).group_id = (oda_of g).group_id →
      (add_group s g).2.handle.rds_oda.size = s.handle.rds_oda.size ∧
      (add_group s g).2.handle.rds_oda.oda 0 =
        { s.handle.rds_oda.oda 0 with aid := (oda_of g).aid } ∧
      (∀ k, k ≠ 0 → (add_group s g).2.handle.rds_oda.oda k = s.handle.rds_oda.oda k) ∧
      (add_group s g).2.handle.decode_information = s.handle.decode_information ∧
      (add_group s g).1 = blocks_updated s g) := by
  obtain ⟨e1, -, e3⟩ := add_group3 s g h0 hg hid
  obtain ⟨-, -, i3, -, -, -, -, -, -⟩ := group2_input s g
  have hgrp := group_input_group s g
  obtain ⟨o1, o2⟩ := oda_part_fields _ _ (aux4_fields _ _ (aux4_group_input s g)).2.2.1
  obtain ⟨f1, f2, f3⟩ := group3_fields (group_input s g) (i3.mpr hva)
  rw [hgrp, o1, o2] at f1
  rw [hgrp, o1, o2] at f2
  rw [hgrp, o1, o2] at f3
  rw [e1, e3]
  refine ⟨?_, ?_, ?_⟩
  · intro h
    obtain ⟨a1, a2, a3, a4⟩ := f1 h
    rw [a4]
    exact ⟨a1, a2, a3, rfl⟩
  · intro h hne
    obtain ⟨a1, a2, a3⟩ := f2 h hne
    rw [a3]
    exact ⟨a1, a2, Nat.or_zero _⟩
  · intro h he
    obtain ⟨a1, a2, a3, a4, a5⟩ := f3 h he
    rw [a5]
    exact ⟨a1, a2, a3, a4, Nat.or_zero _⟩

/-! ## Properties of the open data announcements (claims C16 and C17) -/

/-- Claim C16, as the code behaves: in every reachable state the ODA list has at most
one entry.  A group 3A that announces a group type no record carries is appended, with
the ODA bit in `updated_fields` and in `decode_information`, only when the list is
empty; when the list holds a record nothing is appended, nothing is reported and
`updated_fields` is what the blocks A and B report. -/
theorem oda_appended_to_empty_list_only (r : Bool) (cs : List rds_call) (g : raw_group)
    (h0 : (run_calls r cs).decode_state = RDS_EMPTY) (hg : is_group g)
    (hid : group_id_of g.b = 3) (hva : is_version_a g.b)
    (hnew : ∀ k, k < (run_calls r cs).handle.rds_oda.size →
      ((run_calls r cs).handle.rds_oda.oda k).group_id ≠ (oda_of g).group_id) :
    (run_calls r cs).handle.rds_oda.size ≤ 1 ∧
    ((run_calls r cs).handle.rds_oda.size = 0 →
      (add_group (run_calls r cs) g).2.handle.rds_oda.size = 1 ∧
      (add_group (run_calls r cs) g).2.handle.rds_oda.oda 0 = oda_of g ∧
      bit_set (add_group (run_calls r cs) g).2.handle.decode_information V4L2_RDS_ODA ∧
      bit_set (add_group (run_calls r cs) g).1 V4L2_RDS_ODA) ∧
    ((run_calls r cs).handle.rds_oda.size ≠ 0 →
      (add_group (run_calls r cs) g).2.handle.rds_oda = (run_calls r cs).handle.rds_oda ∧
      (add_group (run_calls r cs) g).2.handle.decode_information =
        (run_calls r cs).handle.decode_information ∧
      (add_group (run_calls r cs) g).1 = blocks_updated (run_calls r cs) g) := by
  have hsz := (reach_inv_run r cs).2.2.1
  obtain ⟨f1, f2, -⟩ := oda_group_fields (run_calls r cs) g h0 hg hid hva
  refine ⟨hsz, ?_, ?_⟩
  · intro h
    obtain ⟨a1, a2, a3, a4⟩ := f1 h
    refine ⟨a1, a2, ?_, ?_⟩
    · rw [a3]
      exact bit_set_or_self _ _ (by decide)
    · rw [a4, bit_set_or]
      right
      exact bit_set_or_self _ _ (by decide)
  · intro h
    exact f2 h (hnew 0 (Nat.pos_of_ne_zero h))

/-- Witness of claim C16: after the announcement of the group type 5 on a fresh
decoder, the announcement of the group type 6 is dropped. -/
theorem oda_appended_to_empty_list_only_witness :
    ((run_calls false (group_calls [oda_group 5 0x1234])).decode_state = RDS_EMPTY ∧
      is_group (oda_group 6 0x5678) ∧ group_id_of (oda_group 6 0x5678).b = 3 ∧
      is_version_a (oda_group 6 0x5678).b ∧
      (oda_of (oda_group 6 0x5678)).group_id = 6 ∧
      (run_calls false (group_calls [oda_group 5 0x1234])).handle.rds_oda.size = 1 ∧
      ∀ k, k < (run_calls false (group_calls [oda_group 5 0x1234])).handle.rds_oda.size →
        ((run_calls false (group_calls [oda_group 5 0x1234])).handle.rds_oda.oda k).group_id ≠
          (oda_of (oda_group 6 0x5678)).group_id) ∧
    (add_group (run_calls false (group_calls [oda_group 5 0x1234]))
      (oda_group 6 0x5678)).2.handle.rds_oda =
      (run_calls false (group_calls [oda_group 5 0x1234])).handle.rds_oda :=
  ⟨⟨by decide, by decide, by decide, by decide, by decide, by decide, by decide⟩,
    ((oda_appended_to_empty_list_only false (group_calls [oda_group 5 0x1234])
      (oda_group 6 0x5678) (by decide) (by decide) (by decide) (by decide)
      (by decide)).2.2 (by decide)).1⟩

/-- Claim C17, amended: from every reachable state with an empty assembler in which an
ODA record with the announced group type exists, a group 3A sets the application
identification of that record and changes neither the rest of the record, nor the size
of the list, nor `decode_information`; the update is not reported: `updated_fields` is
what the blocks A and B report, the group decoder adds no ODA bit. -/
theorem oda_aid_update_not_reported (r : Bool) (cs : List rds_call) (g : raw_group) (k : Nat)
    (h0 : (run_calls r cs).decode_state = RDS_EMPTY) (hg : is_group g)
    (hid : group_id_of g.b = 3) (hva : is_version_a g.b)
    (hk : k < (run_calls r cs).handle.rds_oda.size)
    (hex : ((run_calls r cs).handle.rds_oda.oda k).group_id = (oda_of g).group_id) :
    (add_group (run_calls r cs) g).2.handle.rds_oda.oda k =
      { (run_calls r cs).handle.rds_oda.oda k with aid := (oda_of g).aid } ∧
    (add_group (run_calls r cs) g).2.handle.rds_oda.size =
      (run_calls r cs).handle.rds_oda.size ∧
    (add_group (run_calls r cs) g).2.handle.decode_information =
      (run_calls r cs).handle.decode_information ∧
    (add_group (run_calls r cs) g).1 = blocks_updated (run_calls r cs) g := by
  have hsz := (reach_inv_run r cs).2.2.1
  have hk0 : k = 0 := by omega
  subst hk0
  obtain ⟨-, -, f3⟩ := oda_group_fields (run_calls r cs) g h0 hg hid hva
  obtain ⟨a1, a2, -, a4, a5⟩ := f3 (by omega) hex
  exact ⟨a2, a1, a4, a5⟩

/-- Witness of claim C17: after the announcement of the group type 5 with the
application identification 0x1234 on a fresh decoder, the announcement of the group
type 5 with 0x5678 changes the record. -/
theorem oda_aid_update_not_reported_witness :
    ((run_calls false (group_calls [oda_group 5 0x1234])).decode_state = RDS_EMPTY ∧
      is_group (oda_group 5 0x5678) ∧ group_id_of (oda_group 5 0x5678).b = 3 ∧
      is_version_a (oda_group 5 0x5678).b ∧
      0 < (run_calls false (group_calls [oda_group 5 0x1234])).handle.rds_oda.size ∧
      ((run_calls false (group_calls [oda_group 5 0x1234])).handle.rds_oda.oda 0).group_id =
        (oda_of (oda_group 5 0x5678)).group_id ∧
      ((run_calls false (group_calls [oda_group 5 0x1234])).handle.rds_oda.oda 0).aid =
        0x1234 ∧ (oda_of (oda_group 5 0x5678)).aid = 0x5678) ∧
    (add_group (run_calls false (group_calls [oda_group 5 0x1234]))
      (oda_group 5 0x5678)).2.handle.rds_oda.oda 0 =
      { (run_calls false (group_calls [oda_group 5 0x1234])).handle.rds_oda.oda 0 with
        aid := (oda_of (oda_group 5 0x5678)).aid } :=
  ⟨⟨by decide, by decide, by decide, by decide, by decide, by decide, by decide, by decide⟩,
    (oda_aid_update_not_reported false (group_calls [oda_group 5 0x1234])
      (oda_group 5 0x5678) 0 (by decide) (by decide) (by decide) (by decide) (by decide)
      (by decide)).1⟩

/-- Counterexample to claim C17: on a fresh decoder the group type 5 is announced with
the application identification 0x1234 and then with 0x5678; the record is updated, and
the ODA bit is not in the `updated_fields` of the second group. -/
theorem oda_aid_update_not_reported_counterexample :
    (run_calls false (group_calls [oda_group 5 0x1234])).decode_state = RDS_EMPTY ∧
    is_group (oda_group 5 0x5678) ∧ group_id_of (oda_group 5 0x5678).b = 3 ∧
    is_version_a (oda_group 5 0x5678).b ∧
    0 < (run_calls false (group_calls [oda_group 5 0x1234])).handle.rds_oda.size ∧
    ((run_calls false (group_calls [oda_group 5 0x1234])).handle.rds_oda.oda 0).group_id =
      (oda_of (oda_group 5 0x5678)).group_id ∧
    ((run_calls false (group_calls [oda_group 5 0x1234])).handle.rds_oda.oda 0).aid ≠
      (oda_of (oda_group 5 0x5678)).aid ∧
    ((add_group (run_calls false (group_calls [oda_group 5 0x1234]))
      (oda_group 5 0x5678)).2.handle.rds_oda.oda 0).aid = 0x5678 ∧
    ¬ bit_set (add_group (run_calls false (group_calls [oda_group 5 0x1234]))
      (oda_group 5 0x5678)).1 V4L2_RDS_ODA := by
  decide


/-! ## The AF list, ingest by ingest -/

theorem af_grown_group0 (X : rds_private_state) :
    af_grown X.handle.rds_af (rds_decode_group0 X).2.handle.rds_af := by
  have hA := aux4_fields _ _ ((aux4_ps (rds_decode_ta_ms X)).trans (aux4_ta_ms X))
  obtain ⟨-, -, d3, -⟩ := frame_di (rds_decode_ps (rds_decode_ta_ms X))
  have haf := decode_af_list (rds_decode_di (rds_decode_ps (rds_decode_ta_ms X)))
  unfold rds_decode_group0
  rw [haf, d3, hA.2.2.2]
  split_ifs
  · exact add_af_set_grown _ _ _
  · exact af_grown_refl _

theorem af_grown_congr (s s' : rds_private_state) (h : aux4 s' = aux4 s) :
    af_grown s.handle.rds_af s'.handle.rds_af := by
  rw [(aux4_fields _ _ h).2.2.2]
  exact af_grown_refl _

theorem af_grown_decode_group (X : rds_private_state) :
    af_grown X.handle.rds_af (rds_decode_group X).2.handle.rds_af := by
  have hc : (count_type X).handle.rds_af = X.handle.rds_af := rfl
  rw [decode_group_eq]
  split_ifs
  · rw [← hc]; exact af_grown_group0 _
  · rw [← hc]; exact af_grown_congr _ _ (aux4_group1 _)
  · rw [← hc, (frame_group2 (count_type X)).2.2]; exact af_grown_refl _
  · rw [← hc, (frame_group3 (count_type X)).2.2]; exact af_grown_refl _
  · rw [← hc]; exact af_grown_congr _ _ (aux4_group4 _)
  · rw [← hc]; exact af_grown_congr _ _ (aux4_group10 _)
  · exact af_grown_refl _

/-- An ingest leaves the AF list as long as it was, or makes it longer within the
count that is announced afterwards. -/
theorem af_grown_ingest (s : rds_private_state) (b : v4l2_rds_data) :
    af_grown s.handle.rds_af (v4l2_rds_add s b).2.handle.rds_af := by
  by_cases hc : s.decode_state = RDS_C_RECEIVED ∧ has_id b 3
  · rw [add_d s b hc.1 hc.2, decode_complete_state]
    have h := af_grown_decode_group (decode_abcd { s with
      decode_state := RDS_EMPTY,
      rds_data_raw := arr_set s.rds_data_raw 3 b,
      handle := { s.handle with rds_statistics :=
        { count_block s.handle.rds_statistics b with
          group_cnt := inc32 (count_block s.handle.rds_statistics b).group_cnt } } })
    rw [(aux4_fields _ _ (aux4_abcd _)).2.2.2] at h
    exact h
  · exact af_grown_congr _ _ (aux4_add_incomplete s b hc)

/-! ## Properties of the AF list (claims C18 to C20) -/

/-- Claim C18, as the code behaves: for every code `k` of a byte, the frequency that
`rds_add_af_to_list` stores (when the list has room and the value is new) is
87,500,000 + k * 100,000 Hz for a VHF code and 152,000 + k * 9,000 Hz for an LF/MF
code, whatever `k` is: the test `freq <= 15` is made on the local that is still 0, so
the formula 531,000 + k * 9,000 Hz of the codes above 15 is never used. -/
theorem af_frequency_stored (a : v4l2_rds_af_set) (k : Nat) (is_vhf : Bool) (hk : k < 256)
    (h : (rds_add_af_to_list a k is_vhf).1 = true) :
    (rds_add_af_to_list a k is_vhf).2.af a.size =
      (if is_vhf then 87500000 + k * 100000 else 152000 + k * 9000) ∧
    (rds_add_af_to_list a k is_vhf).2.size = a.size + 1 := by
  rcases add_af_to_list_cases a k is_vhf with ⟨h1, -⟩ | ⟨-, -, -, -, -, e⟩
  · rw [h1] at h
    exact absurd h (by decide)
  · rw [e]
    refine ⟨?_, rfl⟩
    show arr_set a.af a.size _ a.size = _
    unfold arr_set
    rw [if_pos rfl]
    split_ifs
    · exact Nat.mod_eq_of_lt (by omega)
    · exact Nat.mod_eq_of_lt (by omega)

/-- Witness of claim C18: after the announcement of two frequencies on a fresh decoder
the LF/MF code 16 is stored as 296,000 Hz (152,000 + 16 * 9,000), not as 675,000 Hz;
this is also what the ingest of the group 0A with the bytes 250, 16 leaves in the list. -/
theorem af_frequency_stored_witness :
    ((16 : Nat) < 256 ∧
      (rds_add_af_to_list (run_calls false (group_calls [af_group 226 205])).handle.rds_af
        16 false).1 = true) ∧
    ((rds_add_af_to_list (run_calls false (group_calls [af_group 226 205])).handle.rds_af
        16 false).2.af
        (run_calls false (group_calls [af_group 226 205])).handle.rds_af.size =
      (if false = true then 87500000 + 16 * 100000 else 152000 + 16 * 9000)) ∧
    (add_group (run_calls false (group_calls [af_group 226 205]))
      (af_group 250 16)).2.handle.rds_af.af 0 = 296000 ∧
    ¬ ((add_group (run_calls false (group_calls [af_group 226 205]))
      (af_group 250 16)).2.handle.rds_af.af 0 = 531000 + 16 * 9000) :=
  ⟨⟨by decide, by decide⟩,
    (af_frequency_stored (run_calls false (group_calls [af_group 226 205])).handle.rds_af
      16 false (by decide) (by decide)).1, by decide, by decide⟩

/-- Claim C19, amended: in every reachable state the AF list holds at most
`MAX_AF_CNT` entries and the announced count is at most 25; an ingest that makes the
list longer leaves it within the count announced then,
`size <= min(MAX_AF_CNT, announced_af)`.  A smaller count announced later does not
shorten the list, so `size <= announced_af` does not hold in every state. -/
theorem af_list_bounds (r : Bool) (cs : List rds_call) :
    (run_calls r cs).handle.rds_af.size ≤ MAX_AF_CNT ∧
    (run_calls r cs).handle.rds_af.announced_af ≤ 25 ∧
    ∀ b : v4l2_rds_data,
      (v4l2_rds_add (run_calls r cs) b).2.handle.rds_af.size =
        (run_calls r cs).handle.rds_af.size ∨
      ((run_calls r cs).handle.rds_af.size <
          (v4l2_rds_add (run_calls r cs) b).2.handle.rds_af.size ∧
        (v4l2_rds_add (run_calls r cs) b).2.handle.rds_af.size ≤
          min MAX_AF_CNT (v4l2_rds_add (run_calls r cs) b).2.handle.rds_af.announced_af) := by
  obtain ⟨h1, h2, -⟩ := (reach_inv_run r cs).2.2.2
  refine ⟨h1, h2, ?_⟩
  intro b
  have hb := (reach_inv_add _ b (reach_inv_run r cs)).2.2.2.1
  rcases af_grown_ingest (run_calls r cs) b with h | ⟨h3, h4⟩
  · left; exact h
  · right
    exact ⟨h3, Nat.le_min.mpr ⟨hb, h4⟩⟩

/-- Witness of claim C19: two frequencies are announced and the first is stored; the
block D that completes the next group 0A makes the list longer, within the count. -/
theorem af_list_bounds_witness :
    (run_calls false (group_calls [af_group 226 1] ++
      [rds_call.add (af_group 2 205).a, rds_call.add (af_group 2 205).b,
        rds_call.add (af_group 2 205).c])).handle.rds_af.size <
      (v4l2_rds_add (run_calls false (group_calls [af_group 226 1] ++
        [rds_call.add (af_group 2 205).a, rds_call.add (af_group 2 205).b,
          rds_call.add (af_group 2 205).c])) (af_group 2 205).d).2.handle.rds_af.size ∧
    (v4l2_rds_add (run_calls false (group_calls [af_group 226 1] ++
        [rds_call.add (af_group 2 205).a, rds_call.add (af_group 2 205).b,
          rds_call.add (af_group 2 205).c])) (af_group 2 205).d).2.handle.rds_af.size ≤
      min MAX_AF_CNT
        (v4l2_rds_add (run_calls false (group_calls [af_group 226 1] ++
          [rds_call.add (af_group 2 205).a, rds_call.add (af_group 2 205).b,
            rds_call.add (af_group 2 205).c])) (af_group 2 205).d).2.handle.rds_af.announced_af :=
  ((af_list_bounds false (group_calls [af_group 226 1] ++
    [rds_call.add (af_group 2 205).a, rds_call.add (af_group 2 205).b,
      rds_call.add (af_group 2 205).c])).2.2 (af_group 2 205).d).resolve_left (by decide)

/-- Counterexample to claim C19: on a fresh decoder two frequencies are announced and
stored, then a group 0A announces one frequency; afterwards `announced_af` is 1 and
the list still holds 2 entries. -/
theorem af_list_bounds_counterexample :
    0 < (run_calls false (group_calls
      [af_group 226 1, af_group 2 205, af_group 225 205])).handle.rds_af.announced_af ∧
    ¬ ((run_calls false (group_calls
      [af_group 226 1, af_group 2 205, af_group 225 205])).handle.rds_af.size ≤
      min MAX_AF_CNT (run_calls false (group_calls
        [af_group 226 1, af_group 2 205, af_group 225 205])).handle.rds_af.announced_af) := by
  decide

/-- Claim C20: in every state reachable from create by ingests (and resets) the first
`rds_af.size` entries of the AF list are pairwise distinct. -/
theorem af_entries_distinct (r : Bool) (cs : List rds_call) (i j : Nat)
    (hi : i < (run_calls r cs).handle.rds_af.size)
    (hj : j < (run_calls r cs).handle.rds_af.size) (hij : i ≠ j) :
    (run_calls r cs).handle.rds_af.af i ≠ (run_calls r cs).handle.rds_af.af j :=
  (reach_inv_run r cs).2.2.2.2.2 i j hi hj hij

/-- Witness of claim C20: four frequencies are announced; the code 5 is sent twice in
two groups and the code 12 twice in one group; the list holds the three frequencies
once each. -/
theorem af_entries_distinct_witness :
    (run_calls false (group_calls
      [af_group 228 5, af_group 5 9, af_group 12 12])).handle.rds_af.size = 3 ∧
    (run_calls false (group_calls
      [af_group 228 5, af_group 5 9, af_group 12 12])).handle.rds_af.af 0 ≠
      (run_calls false (group_calls
        [af_group 228 5, af_group 5 9, af_group 12 12])).handle.rds_af.af 2 :=
  ⟨by decide,
    af_entries_distinct false (group_calls [af_group 228 5, af_group 5 9, af_group 12 12])
      0 2 (by decide) (by decide) (by decide)⟩

/-! ## The counters -/

theorem stats_ta_ms (s : rds_private_state) :
    (rds_decode_ta_ms s).2.handle.rds_statistics = s.handle.rds_statistics := by
  unfold rds_decode_ta_ms
  simp only []
  split_ifs <;> rfl

theorem stats_add_ps (s : rds_private_state) (p c : Nat) :
    (rds_add_ps s p c).2.handle.rds_statistics = s.handle.rds_statistics := by
  unfold rds_add_ps
  simp only []
  split_ifs <;> rfl

theorem stats_ps (acc : Nat × rds_private_state) :
    (rds_decode_ps acc).2.handle.rds_statistics = acc.2.handle.rds_statistics := by
  have h := (stats_add_ps (rds_add_ps acc.2 ((acc.2.rds_group.data_b_lsb &&& 3) * 2)
    acc.2.rds_group.data_d_msb).2 ((acc.2.rds_group.data_b_lsb &&& 3) * 2 + 1)
    acc.2.rds_group.data_d_lsb).trans (stats_add_ps acc.2 _ _)
  unfold rds_decode_ps
  simp only []
  split_ifs <;> exact h

theorem stats_di (acc : Nat × rds_private_state) :
    (rds_decode_di acc).2.handle.rds_statistics = acc.2.handle.rds_statistics := by
  unfold rds_decode_di
  simp only []
  split_ifs <;> rfl

theorem stats_add_af (s : rds_private_state) :
    (rds_add_af s).2.handle.rds_statistics = s.handle.rds_statistics := by
  unfold rds_add_af
  simp only []
  split_ifs <;> rfl

theorem stats_af (acc : Nat × rds_private_state) :
    (rds_decode_af acc).2.handle.rds_statistics = acc.2.handle.rds_statistics := by
  unfold rds_decode_af
  simp only []
  split_ifs <;> first | exact stats_add_af acc.2 | rfl

theorem stats_group0 (s : rds_private_state) :
    (rds_decode_group0 s).2.handle.rds_statistics = s.handle.rds_statistics := by
  unfold rds_decode_group0
  rw [stats_af, stats_di, stats_ps, stats_ta_ms]

theorem stats_group1 (s : rds_private_state) :
    (rds_decode_group1 s).2.handle.rds_statistics = s.handle.rds_statistics := by
  unfold rds_decode_group1
  simp only []
  split_ifs <;> rfl

theorem stats_rt_flag (s : rds_private_state) :
    (rds_decode_rt_flag s).2.handle.rds_statistics = s.handle.rds_statistics := by
  unfold rds_decode_rt_flag
  simp only []
  split_ifs <;> rfl

theorem stats_rt_segment (acc : Nat × rds_private_state) :
    (rds_decode_rt_segment acc).2.handle.rds_statistics = acc.2.handle.rds_statistics := by
  unfold rds_decode_rt_segment
  simp only []
  split_ifs <;> rfl

theorem stats_cr_step (acc : Nat × rds_private_state) (i : Nat) :
    (rds_rt_cr_step acc i).2.handle.rds_statistics = acc.2.handle.rds_statistics := by
  unfold rds_rt_cr_step
  simp only []
  split_ifs <;> rfl

theorem stats_cr_loop (l : List Nat) (acc : Nat × rds_private_state) :
    (l.foldl rds_rt_cr_step acc).2.handle.rds_statistics = acc.2.handle.rds_statistics := by
  induction l generalizing acc with
  | nil => rfl
  | cons i l ih => rw [List.foldl_cons, ih, stats_cr_step]

theorem stats_group2 (s : rds_private_state) :
    (rds_decode_group2 s).2.handle.rds_statistics = s.handle.rds_statistics := by
  unfold rds_decode_group2
  rw [stats_cr_loop, stats_rt_segment, stats_rt_flag]

theorem stats_group3 (s : rds_private_state) :
    (rds_decode_group3 s).2.handle.rds_statistics = s.handle.rds_statistics := by
  unfold rds_decode_group3 rds_add_oda
  simp only []
  split_ifs <;> rfl

theorem stats_group4 (s : rds_private_state) :
    (rds_decode_group4 s).2.handle.rds_statistics = s.handle.rds_statistics := by
  unfold rds_decode_group4
  simp only []
  split_ifs <;> rfl

theorem stats_ptyn_flag (s : rds_private_state) :
    (rds_decode_ptyn_flag s).2.handle.rds_statistics = s.handle.rds_statistics := by
  unfold rds_decode_ptyn_flag
  simp only []
  split_ifs <;> rfl

theorem stats_ptyn_half (acc : Nat × rds_private_state) :
    (rds_decode_ptyn_half acc).2.handle.rds_statistics = acc.2.handle.rds_statistics := by
  unfold rds_decode_ptyn_half
  simp only []
  split_ifs <;> rfl

theorem stats_ptyn_accept (acc : Nat × rds_private_state) :
    (rds_decode_ptyn_accept acc).2.handle.rds_statistics = acc.2.handle.rds_statistics := by
  unfold rds_decode_ptyn_accept
  simp only []
  split_ifs <;> rfl

theorem stats_group10 (s : rds_private_state) :
    (rds_decode_group10 s).2.handle.rds_statistics = s.handle.rds_statistics := by
  unfold rds_decode_group10
  split_ifs
  · rfl
  · rw [stats_ptyn_accept, stats_ptyn_half, stats_ptyn_flag]

/-- The group decoding counts the group type and changes no other counter. -/
theorem stats_decode_group (X : rds_private_state) :
    (rds_decode_group X).2.handle.rds_statistics = (count_type X).handle.rds_statistics := by
  rw [decode_group_eq]
  split_ifs
  · exact stats_group0 _
  · exact stats_group1 _
  · exact stats_group2 _
  · exact stats_group3 _
  · exact stats_group4 _
  · exact stats_group10 _
  · rfl

/-- The counters after the decoding of a complete group: the group type of block B is
counted. -/
theorem stats_complete (t : rds_private_state) :
    (decode_complete t).2.handle.rds_statistics =
      { t.handle.rds_statistics with
        group_type_cnt :=
          arr_set t.handle.rds_statistics.group_type_cnt (group_id_of (t.rds_data_raw 1))
            (inc32 (t.handle.rds_statistics.group_type_cnt
              (group_id_of (t.rds_data_raw 1)))) } := by
  rw [decode_complete_state, stats_decode_group]
  have hg : (decode_abcd t).rds_group.group_id = group_id_of (t.rds_data_raw 1) := by
    rw [abcd_group]
  have hs := (abcd_frame t).2.2.1
  unfold count_type
  simp only []
  rw [hg, hs]

theorem count_block_fields (st : v4l2_rds_statistics) (b : v4l2_rds_data) :
    (count_block st b).block_cnt = inc32 st.block_cnt ∧
    (count_block st b).block_error_cnt =
      (if b.block &&& V4L2_RDS_BLOCK_ERROR ≠ 0 then inc32 st.block_error_cnt
        else st.block_error_cnt) ∧
    (count_block st b).block_corrected_cnt =
      (if b.block &&& V4L2_RDS_BLOCK_ERROR = 0 ∧ b.block &&& V4L2_RDS_BLOCK_CORRECTED ≠ 0
        then inc32 st.block_corrected_cnt else st.block_corrected_cnt) := by
  unfold count_block
  simp only []
  by_cases he : b.block &&& V4L2_RDS_BLOCK_ERROR ≠ 0
  · rw [if_pos he, if_pos he, if_neg (fun h => he h.1)]
    exact ⟨rfl, rfl, rfl⟩
  · rw [if_neg he, if_neg he]
    by_cases hc : b.block &&& V4L2_RDS_BLOCK_CORRECTED ≠ 0
    · rw [if_pos hc, if_pos ⟨not_not.mp he, hc⟩]
      exact ⟨rfl, rfl, rfl⟩
    · rw [if_neg hc, if_neg (fun h => hc h.2)]
      exact ⟨rfl, rfl, rfl⟩

/-- The counters after an ingest: those of `count_block`, with the group error, the
group and the group type counted as the state machine decides. -/
theorem add_block_counters (s : rds_private_state) (b : v4l2_rds_data) :
    (v4l2_rds_add s b).2.handle.rds_statistics.block_cnt =
      (count_block s.handle.rds_statistics b).block_cnt ∧
    (v4l2_rds_add s b).2.handle.rds_statistics.block_error_cnt =
      (count_block s.handle.rds_statistics b).block_error_cnt ∧
    (v4l2_rds_add s b).2.handle.rds_statistics.block_corrected_cnt =
      (count_block s.handle.rds_statistics b).block_corrected_cnt := by
  by_cases hc : s.decode_state = RDS_C_RECEIVED ∧ has_id b 3
  · rw [add_d s b hc.1 hc.2, stats_complete]
    exact ⟨rfl, rfl, rfl⟩
  · unfold v4l2_rds_add
    simp only []
    split_ifs with h0 h1 h2 h3 h4 h5 h6 h7
    all_goals first
      | exact ⟨rfl, rfl, rfl⟩
      | exact absurd ⟨h6, has_id_of_block_id b 3 h7⟩ hc

/-! ## Properties of the block counters and of reset (claims C26 and C29) -/

/-- Claim C26: `v4l2_rds_reset` with `reset_statistics` gives the state of
`v4l2_rds_create` with the `is_rbds` of the decoder, so every block sequence ingested
afterwards gives the same `updated_fields` and the same states as after create;
without `reset_statistics` it gives that state with the counters of the decoder. -/
theorem reset_law (d : rds_private_state) :
    v4l2_rds_reset d true = v4l2_rds_create d.handle.is_rbds ∧
    (∀ blocks : List v4l2_rds_data,
      add_trace ([], v4l2_rds_reset d true) blocks =
        add_trace ([], v4l2_rds_create d.handle.is_rbds) blocks) ∧
    v4l2_rds_reset d false =
      { v4l2_rds_create d.handle.is_rbds with
        handle := { (v4l2_rds_create d.handle.is_rbds).handle with
          rds_statistics := d.handle.rds_statistics } } := by
  have h : v4l2_rds_reset d true = v4l2_rds_create d.handle.is_rbds := rfl
  refine ⟨h, ?_, rfl⟩
  intro blocks
  rw [h]

/-- Claim C29, amended: an ingest increases `block_cnt` by one; it increases
`block_error_cnt` by one exactly when the uncorrectable-error flag of the block is set;
it increases `block_corrected_cnt` by one exactly when the corrected flag is set and
the uncorrectable-error flag is clear (an uncorrectable block is not counted as
corrected); the counters are taken modulo 2^32. -/
theorem block_counters (s : rds_private_state) (b : v4l2_rds_data) :
    (v4l2_rds_add s b).2.handle.rds_statistics.block_cnt =
      (s.handle.rds_statistics.block_cnt + 1) % 2 ^ 32 ∧
    (v4l2_rds_add s b).2.handle.rds_statistics.block_error_cnt =
      (if b.block &&& V4L2_RDS_BLOCK_ERROR ≠ 0
        then (s.handle.rds_statistics.block_error_cnt + 1) % 2 ^ 32
        else s.handle.rds_statistics.block_error_cnt) ∧
    (v4l2_rds_add s b).2.handle.rds_statistics.block_corrected_cnt =
      (if b.block &&& V4L2_RDS_BLOCK_ERROR = 0 ∧ b.block &&& V4L2_RDS_BLOCK_CORRECTED ≠ 0
        then (s.handle.rds_statistics.block_corrected_cnt + 1) % 2 ^ 32
        else s.handle.rds_statistics.block_corrected_cnt) := by
  obtain ⟨a1, a2, a3⟩ := add_block_counters s b
  obtain ⟨c1, c2, c3⟩ := count_block_fields s.handle.rds_statistics b
  rw [a1, a2, a3, c1, c2, c3]
  exact ⟨rfl, rfl, rfl⟩

/-- Witness of claim C29: a block with the corrected flag only, on a fresh decoder, is
counted as a block and as a corrected block. -/
theorem block_counters_witness :
    (v4l2_rds_add (v4l2_rds_create false) ⟨0, 0, 0x40⟩).2.handle.rds_statistics.block_cnt
      = 1 ∧
    (v4l2_rds_add (v4l2_rds_create false)
      ⟨0, 0, 0x40⟩).2.handle.rds_statistics.block_corrected_cnt = 1 :=
  ⟨(block_counters (v4l2_rds_create false) ⟨0, 0, 0x40⟩).1,
    (block_counters (v4l2_rds_create false) ⟨0, 0, 0x40⟩).2.2⟩

/-- Counterexample to claim C29: a block with both the uncorrectable-error flag and the
corrected flag set, on a fresh decoder, leaves `block_corrected_cnt` at 0. -/
theorem block_counters_counterexample :
    both_flags_block.block &&& V4L2_RDS_BLOCK_CORRECTED ≠ 0 ∧
    ¬ ((v4l2_rds_add (v4l2_rds_create false)
      both_flags_block).2.handle.rds_statistics.block_corrected_cnt =
      ((v4l2_rds_create false).handle.rds_statistics.block_corrected_cnt + 1) % 2 ^ 32) := by
  decide


/-! ## The clock time -/

theorem clock_part_fields (s s' : rds_private_state) (h : clock_part s' = clock_part s) :
    s'.new_mjd = s.new_mjd ∧ s'.utc_hour = s.utc_hour ∧ s'.utc_minute = s.utc_minute ∧
    s'.utc_offset = s.utc_offset ∧ s'.handle.time = s.handle.time := by
  simpa only [clock_part, Prod.mk.injEq] using h

theorem clock_abcd (t : rds_private_state) : clock_part (decode_abcd t) = clock_part t := by
  unfold decode_abcd rds_decode_d rds_decode_c rds_decode_b rds_decode_a
  simp only []
  split_ifs <;> rfl

theorem clock_group_input (s : rds_private_state) (g : raw_group) :
    clock_part (group_input s g) = clock_part s := by
  have h : clock_part (group_input s g) = clock_part (decode_abcd (group_ready s g)) := rfl
  rw [h, clock_abcd]
  rfl

/-- The two outcomes of `rds_decode_group4` on a group 4A: another MJD than the pending
one is stored; the pending MJD is accepted with the time of the group. -/
theorem group4_fields (X : rds_private_state) (hv : X.rds_group.group_version = CHAR_A) :
    (X.new_mjd ≠ (((X.rds_group.data_b_lsb &&& 0x03) <<< 15) |||
        (X.rds_group.data_c_msb <<< 7) ||| (X.rds_group.data_c_lsb >>> 1)) % 2 ^ 32 →
      rds_decode_group4 X = (0, { X with new_mjd :=
        (((X.rds_group.data_b_lsb &&& 0x03) <<< 15) |||
          (X.rds_group.data_c_msb <<< 7) ||| (X.rds_group.data_c_lsb >>> 1)) % 2 ^ 32 })) ∧
    (X.new_mjd = (((X.rds_group.data_b_lsb &&& 0x03) <<< 15) |||
        (X.rds_group.data_c_msb <<< 7) ||| (X.rds_group.data_c_lsb >>> 1)) % 2 ^ 32 →
      (rds_decode_group4 X).1 = 0 ||| V4L2_RDS_TIME ∧
      (rds_decode_group4 X).2.new_mjd = X.new_mjd ∧
      (rds_decode_group4 X).2.utc_hour =
        (((X.rds_group.data_c_lsb &&& 0x01) <<< 4) ||| (X.rds_group.data_d_msb >>> 4)) % 256 ∧
      (rds_decode_group4 X).2.utc_minute =
        (((X.rds_group.data_d_msb &&& 0x0f) <<< 2) ||| (X.rds_group.data_d_lsb >>> 6)) % 256 ∧
      (rds_decode_group4 X).2.utc_offset = X.rds_group.data_d_lsb &&& 0x3f ∧
      (rds_decode_group4 X).2.handle.valid_fields = X.handle.valid_fields ||| V4L2_RDS_TIME ∧
      (rds_decode_group4 X).2.handle.time = rds_decode_mjd (rds_decode_group4 X).2) := by
  unfold rds_decode_group4
  simp only []
  rw [if_neg (not_not.mpr hv)]
  refine ⟨?_, ?_⟩
  · intro h
    rw [if_pos h]
  · intro h
    rw [if_neg (not_not.mpr h)]
    exact ⟨rfl, rfl, rfl, rfl, rfl, rfl, rfl⟩

theorem add_group4 (s : rds_private_state) (g : raw_group)
    (h0 : s.decode_state = RDS_EMPTY) (hg : is_group g) (hid : group_id_of g.b = 4) :
    (add_group s g).2 = (rds_decode_group4 (group_input s g)).2 ∧
    (add_group s g).2.decode_state = RDS_EMPTY ∧
    ∀ m, V4L2_RDS_PI &&& m = 0 → V4L2_RDS_TP &&& m = 0 → V4L2_RDS_PTY &&& m = 0 →
      (add_group s g).1 &&& m = (rds_decode_group4 (group_input s g)).1 &&& m := by
  obtain ⟨e1, e2, e3⟩ := add_group_decode s g h0 hg
  have hd : rds_decode_group (decode_abcd (group_ready s g)) =
      rds_decode_group4 (group_input s g) := by
    rw [decode_group_input, hid]; rfl
  rw [hd] at e1
  rw [hd] at e3
  exact ⟨e1, e2, e3⟩

/-- The bytes of the group on which the group decoder runs. -/
theorem group_input_bytes (s : rds_private_state) (g : raw_group) :
    (group_input s g).rds_group.data_b_lsb = g.b.lsb &&& 0x1f ∧
    ((group_input s g).rds_group.group_version = CHAR_A ↔ is_version_a g.b) ∧
    (group_input s g).rds_group.data_c_msb = g.c.msb ∧
    (group_input s g).rds_group.data_c_lsb = g.c.lsb ∧
    (group_input s g).rds_group.data_d_msb = g.d.msb ∧
    (group_input s g).rds_group.data_d_lsb = g.d.lsb := by
  obtain ⟨-, -, i3, i4, i5, i6, i7, -, -⟩ := group2_input s g
  refine ⟨?_, i3, i4, i5, i6, i7⟩
  rw [group_input_group]

/-- A group 4A ingested from an empty assembler. -/
theorem clock_group_fields (s : rds_private_state) (g : raw_group)
    (h0 : s.decode_state = RDS_EMPTY) (hg : is_group g) (hid : group_id_of g.b = 4)
    (hva : is_version_a g.b) :
    (mjd_of g ≠ s.new_mjd →
      (add_group s g).2.new_mjd = mjd_of g ∧
      (add_group s g).1 &&& V4L2_RDS_TIME = 0 ∧
      (add_group s g).2.handle.time = s.handle.time ∧
      (add_group s g).2.utc_hour = s.utc_hour ∧
      (add_group s g).2.utc_minute = s.utc_minute ∧
      (add_group s g).2.utc_offset = s.utc_offset ∧
      (add_group s g).2.handle.valid_fields &&& V4L2_RDS_TIME =
        s.handle.valid_fields &&& V4L2_RDS_TIME) ∧
    (mjd_of g = s.new_mjd →
      (add_group s g).2.new_mjd = mjd_of g ∧
      bit_set (add_group s g).1 V4L2_RDS_TIME ∧
      bit_set (add_group s g).2.handle.valid_fields V4L2_RDS_TIME ∧
      (add_group s g).2.utc_hour =
        (((g.c.lsb &&& 0x01) <<< 4) ||| (g.d.msb >>> 4)) % 256 ∧
      (add_group s g).2.utc_minute =
        (((g.d.msb &&& 0x0f) <<< 2) ||| (g.d.lsb >>> 6)) % 256 ∧
      (add_group s g).2.utc_offset = g.d.lsb &&& 0x3f ∧
      (add_group s g).2.handle.time = rds_decode_mjd (add_group s g).2) := by
  obtain ⟨e1, -, e3⟩ := add_group4 s g h0 hg hid
  have e4 := e3 V4L2_RDS_TIME (by decide) (by decide) (by decide)
  obtain ⟨ib, i3, i4, i5, i6, i7⟩ := group_input_bytes s g
  obtain ⟨c1, c2, c3, c4, c5⟩ := clock_part_fields _ _ (clock_group_input s g)
  have hval := group_input_valid s g V4L2_RDS_TIME (by decide) (by decide) (by decide)
  obtain ⟨f1, f2⟩ := group4_fields (group_input s g) (i3.mpr hva)
  have hm : ((((g.b.lsb &&& 0x1f) &&& 0x03) <<< 15) ||| (g.c.msb <<< 7) |||
      (g.c.lsb >>> 1)) % 2 ^ 32 = mjd_of g := rfl
  rw [ib, i4, i5, c1, hm] at f1
  rw [ib, i4, i5, i6, i7, c1, hm] at f2
  unfold bit_set
  rw [e1, e4]
  refine ⟨?_, ?_⟩
  · intro h
    rw [f1 (fun e => h e.symm)]
    exact ⟨rfl, Nat.zero_and _, c5, c2, c3, c4, hval⟩
  · intro h
    obtain ⟨a1, a2, a3, a4, a5, a6, a7⟩ := f2 h.symm
    refine ⟨by rw [a2]; exact h.symm, by rw [a1]; decide, ?_, a3, a4, a5, a7⟩
    rw [a6, and_or_r]
    intro hc
    exact absurd ((or_eq_zero _ _).mp hc).2 (by decide)


theorem shl_or (a b i : Nat) (h : b < 2 ^ i) : a <<< i ||| b = a * 2 ^ i + b := by
  rw [Nat.shiftLeft_eq, Nat.mul_comm, Nat.mul_add_lt_is_or h]

theorem and_mask (x n : Nat) : x &&& (2 ^ n - 1) = x % 2 ^ n :=
  Nat.and_pow_two_sub_one_eq_mod x n

/-- The MJD of a packed group 4A is reassembled from its three parts. -/
theorem mjd_round_trip (mjd hour x : Nat) (hm : mjd < 2 ^ 17) (hh : hour < 32)
    (hx : x &&& 0x03 = mjd >>> 15) :
    ((((x &&& 0x1f) &&& 0x03) <<< 15) ||| ((((mjd >>> 7) &&& 0xFF)) <<< 7) |||
      ((((mjd &&& 0x7F) <<< 1) ||| (hour >>> 4)) >>> 1)) % 2 ^ 32 = mjd := by
  have h1 : (x &&& 0x1f) &&& 0x03 = mjd >>> 15 := by
    rw [Nat.and_assoc]
    exact hx
  have e1 : mjd >>> 15 = mjd / 32768 := Nat.shiftRight_eq_div_pow mjd 15
  have e2 : (mjd >>> 7) &&& 0xFF = mjd / 128 % 256 := by
    have e : mjd >>> 7 = mjd / 128 := Nat.shiftRight_eq_div_pow mjd 7
    rw [e]
    exact and_mask (mjd / 128) 8
  have e3 : mjd &&& 0x7F = mjd % 128 := and_mask mjd 7
  have e4 : hour >>> 4 = hour / 16 := Nat.shiftRight_eq_div_pow hour 4
  have e5 : ((mjd % 128) <<< 1) ||| (hour / 16) = mjd % 128 * 2 + hour / 16 :=
    shl_or _ _ 1 (by omega)
  have e6a : (mjd / 128 % 256) <<< 7 = mjd / 128 % 256 * 128 := Nat.shiftLeft_eq _ 7
  have e6 : (mjd / 32768) <<< 15 ||| (mjd / 128 % 256 * 128) =
      mjd / 32768 * 32768 + mjd / 128 % 256 * 128 :=
    shl_or _ _ 15 (by omega)
  have e7 : (mjd / 32768 * 32768 + mjd / 128 % 256 * 128) ||| (mjd % 128) =
      mjd / 32768 * 32768 + mjd / 128 % 256 * 128 + mjd % 128 := by
    have e : mjd / 32768 * 32768 + mjd / 128 % 256 * 128 =
        2 ^ 7 * (mjd / 32768 * 256 + mjd / 128 % 256) := by omega
    rw [e, ← Nat.mul_add_lt_is_or (by omega)]
  have e8 : (mjd % 128 * 2 + hour / 16) >>> 1 = mjd % 128 := by
    have e : (mjd % 128 * 2 + hour / 16) >>> 1 = (mjd % 128 * 2 + hour / 16) / 2 :=
      Nat.shiftRight_eq_div_pow _ 1
    rw [e]
    omega
  rw [h1, e1, e2, e3, e4, e5, e6a, e6, e8, e7]
  omega

/-- The time of a packed group 4A is reassembled from its parts. -/
theorem time_round_trip (mjd hour minute offset : Nat) (hh : hour < 32) (hmin : minute < 64)
    (ho : offset < 64) :
    ((((((mjd &&& 0x7F) <<< 1) ||| (hour >>> 4)) &&& 0x01) <<< 4) |||
      ((((hour &&& 0x0F) <<< 4) ||| (minute >>> 2)) >>> 4)) % 256 = hour ∧
    ((((((hour &&& 0x0F) <<< 4) ||| (minute >>> 2)) &&& 0x0f) <<< 2) |||
      ((((minute &&& 0x03) <<< 6) ||| offset) >>> 6)) % 256 = minute ∧
    (((minute &&& 0x03) <<< 6) ||| offset) &&& 0x3f = offset := by
  have e3 : mjd &&& 0x7F = mjd % 128 := and_mask mjd 7
  have e4 : hour >>> 4 = hour / 16 := Nat.shiftRight_eq_div_pow hour 4
  have e5 : ((mjd % 128) <<< 1) ||| (hour / 16) = mjd % 128 * 2 + hour / 16 :=
    shl_or _ _ 1 (by omega)
  have h1 : hour &&& 0x0F = hour % 16 := and_mask hour 4
  have h2 : minute >>> 2 = minute / 4 := Nat.shiftRight_eq_div_pow minute 2
  have h3 : ((hour % 16) <<< 4) ||| (minute / 4) = hour % 16 * 16 + minute / 4 :=
    shl_or _ _ 4 (by omega)
  have m1 : minute &&& 0x03 = minute % 4 := and_mask minute 2
  have m2 : ((minute % 4) <<< 6) ||| offset = minute % 4 * 64 + offset :=
    shl_or _ _ 6 (by omega)
  rw [e3, e4, e5, h1, h2, h3, m1, m2]
  have a1 : (mjd % 128 * 2 + hour / 16) &&& 0x01 = hour / 16 := by
    have e : (mjd % 128 * 2 + hour / 16) &&& 0x01 = (mjd % 128 * 2 + hour / 16) % 2 :=
      and_mask _ 1
    rw [e]; omega
  have a2 : (hour % 16 * 16 + minute / 4) >>> 4 = hour % 16 := by
    have e : (hour % 16 * 16 + minute / 4) >>> 4 = (hour % 16 * 16 + minute / 4) / 16 :=
      Nat.shiftRight_eq_div_pow _ 4
    rw [e]; omega
  have a3 : (hour % 16 * 16 + minute / 4) &&& 0x0f = minute / 4 := by
    have e : (hour % 16 * 16 + minute / 4) &&& 0x0f = (hour % 16 * 16 + minute / 4) % 16 :=
      and_mask _ 4
    rw [e]; omega
  have a4 : (minute % 4 * 64 + offset) >>> 6 = minute % 4 := by
    have e : (minute % 4 * 64 + offset) >>> 6 = (minute % 4 * 64 + offset) / 64 :=
      Nat.shiftRight_eq_div_pow _ 6
    rw [e]; omega
  have a5 : (minute % 4 * 64 + offset) &&& 0x3f = offset := by
    have e : (minute % 4 * 64 + offset) &&& 0x3f = (minute % 4 * 64 + offset) % 64 :=
      and_mask _ 6
    rw [e]; omega
  have b1 : ((hour / 16) <<< 4) ||| (hour % 16) = hour / 16 * 16 + hour % 16 :=
    shl_or _ _ 4 (by omega)
  have b2 : ((minute / 4) <<< 2) ||| (minute % 4) = minute / 4 * 4 + minute % 4 :=
    shl_or _ _ 2 (by omega)
  rw [a1, a2, a3, a4, a5, b1, b2]
  refine ⟨?_, ?_, rfl⟩
  · omega
  · omega

/-! ## Properties of the clock time (claims C21 to C23) -/

/-- Claim C21, amended: from every state with an empty assembler, a group 4A whose MJD
differs from the pending `new_mjd` only stores the MJD: TIME is not in
`updated_fields`, `time` and the TIME bit of `valid_fields` are unchanged; a group 4A
whose MJD equals the pending one puts TIME in `updated_fields` and sets the TIME bit.
On a freshly created decoder the pending MJD is 0, so the first group 4A is accepted
exactly when its MJD is 0. -/
theorem clock_accepted_on_pending_mjd (s : rds_private_state) (r : Bool) (g : raw_group)
    (h0 : s.decode_state = RDS_EMPTY) (hg : is_group g) (hid : group_id_of g.b = 4)
    (hva : is_version_a g.b) :
    (mjd_of g ≠ s.new_mjd →
      (add_group s g).2.new_mjd = mjd_of g ∧
      ¬ bit_set (add_group s g).1 V4L2_RDS_TIME ∧
      (add_group s g).2.handle.time = s.handle.time ∧
      (bit_set (add_group s g).2.handle.valid_fields V4L2_RDS_TIME ↔
        bit_set s.handle.valid_fields V4L2_RDS_TIME)) ∧
    (mjd_of g = s.new_mjd →
      bit_set (add_group s g).1 V4L2_RDS_TIME ∧
      bit_set (add_group s g).2.handle.valid_fields V4L2_RDS_TIME) ∧
    (bit_set (add_group (v4l2_rds_create r) g).2.handle.valid_fields V4L2_RDS_TIME ↔
      mjd_of g = 0) := by
  obtain ⟨f1, f2⟩ := clock_group_fields s g h0 hg hid hva
  obtain ⟨k1, k2⟩ := clock_group_fields (v4l2_rds_create r) g rfl hg hid hva
  refine ⟨?_, ?_, ?_⟩
  · intro h
    obtain ⟨a1, a2, a3, -, -, -, a7⟩ := f1 h
    refine ⟨a1, ?_, a3, ?_⟩
    · unfold bit_set; rw [a2]; exact fun h => h rfl
    · unfold bit_set; rw [a7]
  · intro h
    obtain ⟨-, a2, a3, -⟩ := f2 h
    exact ⟨a2, a3⟩
  · constructor
    · intro hb
      by_contra hne
      obtain ⟨-, -, -, -, -, -, a7⟩ := k1 hne
      unfold bit_set at hb
      rw [a7] at hb
      exact hb (Nat.zero_and _)
    · intro h
      exact (k2 h).2.2.1

/-- Witness of claim C21: the group 4A of the specification's scenario (MJD 58849) is
pending after its first reception on a fresh decoder and accepted at its second. -/
theorem clock_accepted_on_pending_mjd_witness :
    ((v4l2_rds_create false).decode_state = RDS_EMPTY ∧ is_group clock_group ∧
      group_id_of clock_group.b = 4 ∧ is_version_a clock_group.b ∧
      mjd_of clock_group ≠ (v4l2_rds_create false).new_mjd ∧
      (add_group (v4l2_rds_create false) clock_group).2.decode_state = RDS_EMPTY ∧
      mjd_of clock_group = (add_group (v4l2_rds_create false) clock_group).2.new_mjd) ∧
    ¬ bit_set (add_group (v4l2_rds_create false) clock_group).1 V4L2_RDS_TIME ∧
    bit_set (add_group (add_group (v4l2_rds_create false) clock_group).2
      clock_group).2.handle.valid_fields V4L2_RDS_TIME :=
  ⟨⟨rfl, by decide, by decide, by decide, by decide, by decide, by decide⟩,
    ((clock_accepted_on_pending_mjd (v4l2_rds_create false) false clock_group rfl
      (by decide) (by decide) (by decide)).1 (by decide)).2.1,
    ((clock_accepted_on_pending_mjd (add_group (v4l2_rds_create false) clock_group).2 false
      clock_group (by decide) (by decide) (by decide) (by decide)).2.1 (by decide)).2⟩

/-- Counterexample to claim C21: on a freshly created decoder the first group 4A is
accepted when it carries the MJD 0: TIME is in `updated_fields` and valid. -/
theorem clock_accepted_on_pending_mjd_counterexample :
    is_group zero_clock_group ∧ group_id_of zero_clock_group.b = 4 ∧
    is_version_a zero_clock_group.b ∧
    bit_set (add_group (v4l2_rds_create false) zero_clock_group).1 V4L2_RDS_TIME ∧
    bit_set (add_group (v4l2_rds_create false) zero_clock_group).2.handle.valid_fields
      V4L2_RDS_TIME := by
  decide

/-- Claim C22: for every mjd < 2^17, hour < 32, minute < 64 and offset < 64, a group 4A
packed by the bit map of the clock time gives back exactly the MJD, which is the
pending MJD after the ingest, and on the accepting reception `utc_hour`, `utc_minute`
and `utc_offset` are the hour, the minute and the offset packed. -/
theorem clock_bit_map_round_trip (s : rds_private_state) (g : raw_group)
    (mjd hour minute offset : Nat)
    (h0 : s.decode_state = RDS_EMPTY) (hg : is_group g) (hid : group_id_of g.b = 4)
    (hva : is_version_a g.b)
    (hm : mjd < 2 ^ 17) (hh : hour < 32) (hmin : minute < 64) (ho : offset < 64)
    (pb : g.b.lsb &&& 0x03 = mjd >>> 15)
    (pc1 : g.c.msb = (mjd >>> 7) &&& 0xFF)
    (pc2 : g.c.lsb = ((mjd &&& 0x7F) <<< 1) ||| (hour >>> 4))
    (pd1 : g.d.msb = ((hour &&& 0x0F) <<< 4) ||| (minute >>> 2))
    (pd2 : g.d.lsb = ((minute &&& 0x03) <<< 6) ||| offset) :
    mjd_of g = mjd ∧
    (add_group s g).2.new_mjd = mjd ∧
    (s.new_mjd = mjd →
      (add_group s g).2.utc_hour = hour ∧
      (add_group s g).2.utc_minute = minute ∧
      (add_group s g).2.utc_offset = offset) := by
  have e : mjd_of g = mjd := by
    unfold mjd_of
    rw [pc1, pc2]
    exact mjd_round_trip mjd hour g.b.lsb hm hh pb
  obtain ⟨t1, t2, t3⟩ := time_round_trip mjd hour minute offset hh hmin ho
  obtain ⟨f1, f2⟩ := clock_group_fields s g h0 hg hid hva
  refine ⟨e, ?_, ?_⟩
  · by_cases h : mjd_of g = s.new_mjd
    · rw [(f2 h).1, e]
    · rw [(f1 h).1, e]
  · intro h
    obtain ⟨-, -, -, a4, a5, a6, -⟩ := f2 (e.trans h.symm)
    rw [a4, a5, a6, pc2, pd1, pd2]
    exact ⟨t1, t2, t3⟩

/-- Witness of claim C22: MJD 58849, 12:30, offset 2, packed in the group of the
specification's scenario and received twice by a fresh decoder. -/
theorem clock_bit_map_round_trip_witness :
    ((add_group (v4l2_rds_create false) clock_group).2.decode_state = RDS_EMPTY ∧
      is_group clock_group ∧ group_id_of clock_group.b = 4 ∧ is_version_a clock_group.b ∧
      (add_group (v4l2_rds_create false) clock_group).2.new_mjd = 58849) ∧
    mjd_of clock_group = 58849 ∧
    (add_group (add_group (v4l2_rds_create false) clock_group).2 clock_group).2.utc_hour
      = 12 ∧
    (add_group (add_group (v4l2_rds_create false) clock_group).2 clock_group).2.utc_minute
      = 30 ∧
    (add_group (add_group (v4l2_rds_create false) clock_group).2 clock_group).2.utc_offset
      = 2 :=
  ⟨⟨by decide, by decide, by decide, by decide, by decide⟩,
    (clock_bit_map_round_trip (add_group (v4l2_rds_create false) clock_group).2 clock_group
      58849 12 30 2 (by decide) (by decide) (by decide) (by decide) (by decide) (by decide)
      (by decide) (by decide) (by decide) (by decide) (by decide) (by decide)
      (by decide)).1,
    (clock_bit_map_round_trip (add_group (v4l2_rds_create false) clock_group).2 clock_group
      58849 12 30 2 (by decide) (by decide) (by decide) (by decide) (by decide) (by decide)
      (by decide) (by decide) (by decide) (by decide) (by decide) (by decide)
      (by decide)).2.2 (by decide)⟩

/-- Claim C23, as the code behaves: for the MJD 58849, 12:30 UTC and the offset 0x02
(one hour), received twice by a fresh decoder, `rds_decode_mjd` hands to `mktime` the
year 120 and the day 1, but the month 1 (February in `tm_mon`, which counts from 0,
where Annex G counts from 1) and the hour 16 (the offset in half hours is doubled, not
halved), with the minute 30 and the second 0. -/
theorem clock_decode_sample :
    (add_group (add_group (v4l2_rds_create false) clock_group).2
      clock_group).2.handle.time =
      time_t.mktime
        { tm_sec := 0,
          tm_min := 30,
          tm_hour := 16,
          tm_mday := 1,
          tm_mon := 1,
          tm_year := 120,
          tm_gmtoff := 14400 } ∧
    (add_group (add_group (v4l2_rds_create false) clock_group).2
      clock_group).2.handle.time ≠
      time_t.mktime
        { tm_sec := 0,
          tm_min := 30,
          tm_hour := 13,
          tm_mday := 1,
          tm_mon := 0,
          tm_year := 120,
          tm_gmtoff := 3600 } := by
  decide

/-! ## The slow labelling codes -/

theorem label_part_fields (s s' : rds_private_state) (h : label_part s' = label_part s) :
    s'.new_ecc = s.new_ecc ∧ s'.new_lc = s.new_lc ∧ s'.handle.ecc = s.handle.ecc ∧
    s'.handle.lc = s.handle.lc := by
  simpa only [label_part, Prod.mk.injEq] using h

theorem label_abcd (t : rds_private_state) : label_part (decode_abcd t) = label_part t := by
  unfold decode_abcd rds_decode_d rds_decode_c rds_decode_b rds_decode_a
  simp only []
  split_ifs <;> rfl

theorem label_group_input (s : rds_private_state) (g : raw_group) :
    label_part (group_input s g) = label_part s := by
  have h : label_part (group_input s g) = label_part (decode_abcd (group_ready s g)) := rfl
  rw [h, label_abcd]
  rfl

/-- The outcomes of `rds_decode_group1`: in a group 1A the variant 0 carries the ECC
and the variant 3 the language code; a value equal to the pending one is accepted, any
other value becomes the pending one. -/
theorem group1_fields (X : rds_private_state) :
    (X.rds_group.group_version = CHAR_A → (X.rds_group.data_c_msb >>> 4) &&& 0x07 = 0 →
      (X.rds_group.data_c_lsb = X.new_ecc →
        (rds_decode_group1 X).2.handle.ecc = X.rds_group.data_c_lsb ∧
        (rds_decode_group1 X).2.handle.valid_fields = X.handle.valid_fields ||| V4L2_RDS_ECC ∧
        (rds_decode_group1 X).1 =
          (if X.handle.ecc ≠ X.rds_group.data_c_lsb then 0 ||| V4L2_RDS_ECC else 0) ∧
        (rds_decode_group1 X).2.new_ecc = X.new_ecc ∧
        (rds_decode_group1 X).2.new_lc = X.new_lc ∧
        (rds_decode_group1 X).2.handle.lc = X.handle.lc) ∧
      (X.rds_group.data_c_lsb ≠ X.new_ecc →
        rds_decode_group1 X = (0, { X with new_ecc := X.rds_group.data_c_lsb }))) ∧
    (X.rds_group.group_version = CHAR_A → (X.rds_group.data_c_msb >>> 4) &&& 0x07 = 3 →
      (X.rds_group.data_c_lsb = X.new_lc →
        (rds_decode_group1 X).2.handle.lc = X.rds_group.data_c_lsb ∧
        (rds_decode_group1 X).2.handle.valid_fields = X.handle.valid_fields ||| V4L2_RDS_LC ∧
        (rds_decode_group1 X).1 = 0 ||| V4L2_RDS_LC ∧
        (rds_decode_group1 X).2.new_lc = X.new_lc ∧
        (rds_decode_group1 X).2.new_ecc = X.new_ecc ∧
        (rds_decode_group1 X).2.handle.ecc = X.handle.ecc) ∧
      (X.rds_group.data_c_lsb ≠ X.new_lc →
        rds_decode_group1 X = (0, { X with new_lc := X.rds_group.data_c_lsb }))) ∧
    ((X.rds_group.group_version ≠ CHAR_A ∨
        ((X.rds_group.data_c_msb >>> 4) &&& 0x07 ≠ 0 ∧
          (X.rds_group.data_c_msb >>> 4) &&& 0x07 ≠ 3)) →
      rds_decode_group1 X = (0, X)) := by
  unfold rds_decode_group1
  simp only []
  refine ⟨?_, ?_, ?_⟩
  · intro hv h0
    rw [if_neg (not_not.mpr hv), if_pos h0]
    refine ⟨?_, ?_⟩
    · intro h
      rw [if_pos h]
      exact ⟨rfl, rfl, rfl, rfl, rfl, rfl⟩
    · intro h
      rw [if_neg h]
  · intro hv h3
    rw [if_neg (not_not.mpr hv), if_neg (by rw [h3]; decide), if_pos h3]
    refine ⟨?_, ?_⟩
    · intro h
      rw [if_pos h]
      exact ⟨rfl, rfl, rfl, rfl, rfl, rfl⟩
    · intro h
      rw [if_neg h]
  · intro h
    rcases h with h | ⟨h1, h2⟩
    · rw [if_pos h]
    · rw [if_neg h1, if_neg h2]
      split_ifs <;> rfl

theorem add_group1 (s : rds_private_state) (g : raw_group)
    (h0 : s.decode_state = RDS_EMPTY) (hg : is_group g) (hid : group_id_of g.b = 1) :
    (add_group s g).2 = (rds_decode_group1 (group_input s g)).2 ∧
    (add_group s g).2.decode_state = RDS_EMPTY ∧
    ∀ m, V4L2_RDS_PI &&& m = 0 → V4L2_RDS_TP &&& m = 0 → V4L2_RDS_PTY &&& m = 0 →
      (add_group s g).1 &&& m = (rds_decode_group1 (group_input s g)).1 &&& m := by
  obtain ⟨e1, e2, e3⟩ := add_group_decode s g h0 hg
  have hd : rds_decode_group (decode_abcd (group_ready s g)) =
      rds_decode_group1 (group_input s g) := by
    rw [decode_group_input, hid]; rfl
  rw [hd] at e1
  rw [hd] at e3
  exact ⟨e1, e2, e3⟩

/-- A group 1 ingested from an empty assembler. -/
theorem label_group_fields (s : rds_private_state) (g : raw_group)
    (h0 : s.decode_state = RDS_EMPTY) (hg : is_group g) (hid : group_id_of g.b = 1) :
    (add_group s g).2.decode_state = RDS_EMPTY ∧
    (is_version_a g.b → variant_of g.c = 0 →
      (g.c.lsb = s.new_ecc →
        (add_group s g).2.handle.ecc = g.c.lsb ∧
        bit_set (add_group s g).2.handle.valid_fields V4L2_RDS_ECC ∧
        (bit_set (add_group s g).1 V4L2_RDS_ECC ↔ s.handle.ecc ≠ g.c.lsb) ∧
        (add_group s g).2.new_ecc = s.new_ecc) ∧
      (g.c.lsb ≠ s.new_ecc →
        (add_group s g).2.new_ecc = g.c.lsb ∧
        (add_group s g).2.handle.ecc = s.handle.ecc ∧
        (add_group s g).2.handle.valid_fields &&& V4L2_RDS_ECC =
          s.handle.valid_fields &&& V4L2_RDS_ECC ∧
        (add_group s g).1 &&& V4L2_RDS_ECC = 0)) ∧
    (is_version_a g.b → variant_of g.c = 3 →
      (g.c.lsb = s.new_lc →
        (add_group s g).2.handle.lc = g.c.lsb ∧
        bit_set (add_group s g).2.handle.valid_fields V4L2_RDS_LC ∧
        bit_set (add_group s g).1 V4L2_RDS_LC ∧
        (add_group s g).2.new_lc = s.new_lc) ∧
      (g.c.lsb ≠ s.new_lc →
        (add_group s g).2.new_lc = g.c.lsb ∧
        (add_group s g).2.handle.lc = s.handle.lc ∧
        (add_group s g).2.handle.valid_fields &&& V4L2_RDS_LC =
          s.handle.valid_fields &&& V4L2_RDS_LC ∧
        (add_group s g).1 &&& V4L2_RDS_LC = 0)) ∧
    ((¬ is_version_a g.b ∨ (variant_of g.c ≠ 0 ∧ variant_of g.c ≠ 3)) →
      label_part (add_group s g).2 = label_part s ∧
      (add_group s g).2.handle.valid_fields &&& V4L2_RDS_ECC =
        s.handle.valid_fields &&& V4L2_RDS_ECC ∧
      (add_group s g).2.handle.valid_fields &&& V4L2_RDS_LC =
        s.handle.valid_fields &&& V4L2_RDS_LC ∧
      (add_group s g).1 &&& V4L2_RDS_ECC = 0 ∧ (add_group s g).1 &&& V4L2_RDS_LC = 0) := by
  obtain ⟨e1, e2, e3⟩ := add_group1 s g h0 hg hid
  have ue := e3 V4L2_RDS_ECC (by decide) (by decide) (by decide)
  have ul := e3 V4L2_RDS_LC (by decide) (by decide) (by decide)
  obtain ⟨-, i3, i4, i5, -, -⟩ := group_input_bytes s g
  have hl := label_group_input s g
  obtain ⟨l1, l2, l3, l4⟩ := label_part_fields _ _ hl
  have ve := group_input_valid s g V4L2_RDS_ECC (by decide) (by decide) (by decide)
  have vl := group_input_valid s g V4L2_RDS_LC (by decide) (by decide) (by decide)
  obtain ⟨f1, f2, f3⟩ := group1_fields (group_input s g)
  rw [i4, i5, l1, l3] at f1
  rw [i4, i5, l2] at f2
  rw [i4] at f3
  unfold bit_set
  rw [e1, ue, ul]
  refine ⟨by rw [← e1]; exact e2, ?_, ?_, ?_⟩
  · intro hva hvar
    obtain ⟨p1, p2⟩ := f1 (i3.mpr hva) hvar
    refine ⟨?_, ?_⟩
    · intro h
      obtain ⟨a1, a2, a3, a4, -, -⟩ := p1 h
      refine ⟨a1, ?_, ?_, a4⟩
      · rw [a2]; exact bit_set_or_self _ _ (by decide)
      · rw [a3]
        split_ifs with hd
        · exact ⟨fun _ => hd, fun _ => by decide⟩
        · exact ⟨fun hc => absurd rfl hc, fun hc => absurd hc hd⟩
    · intro h
      rw [p2 h]
      exact ⟨rfl, l3, ve, Nat.zero_and _⟩
  · intro hva hvar
    obtain ⟨p1, p2⟩ := f2 (i3.mpr hva) hvar
    refine ⟨?_, ?_⟩
    · intro h
      obtain ⟨a1, a2, a3, a4, -, -⟩ := p1 h
      refine ⟨a1, ?_, ?_, a4⟩
      · rw [a2]; exact bit_set_or_self _ _ (by decide)
      · rw [a3]; decide
    · intro h
      rw [p2 h]
      exact ⟨rfl, l4, vl, Nat.zero_and _⟩
  · intro h
    have hX : rds_decode_group1 (group_input s g) = (0, group_input s g) := by
      apply f3
      rcases h with h | h
      · left; exact fun hc => h (i3.mp hc)
      · right; exact h
    rw [hX]
    exact ⟨hl, ve, vl, Nat.zero_and _, Nat.zero_and _⟩


/-! ## Properties of the slow labelling codes (claim C25) -/

theorem fresh_fields (d : rds_private_state) (r f : Bool) (s0 : rds_private_state)
    (hs : s0 = v4l2_rds_create r ∨ s0 = v4l2_rds_reset d f) :
    s0.decode_state = RDS_EMPTY ∧ s0.new_ecc = 0 ∧ s0.new_lc = 0 ∧ s0.handle.ecc = 0 ∧
    s0.handle.lc = 0 ∧ s0.handle.valid_fields = 0 := by
  rcases hs with h | h
  · rw [h]
    exact ⟨rfl, rfl, rfl, rfl, rfl, rfl⟩
  · rw [h]
    unfold v4l2_rds_reset
    simp only []
    split_ifs <;> exact ⟨rfl, rfl, rfl, rfl, rfl, rfl⟩

/-- Claim C25, amended: on a freshly created or reset decoder a single group 1A with
the variant 0 (variant 3) that carries a byte v other than 0 is only held as pending:
the ECC (LC) bit of `valid_fields` stays clear, `ecc` (`lc`) stays 0 and no ECC (LC)
bit is in `updated_fields`; a second consecutive group 1A of the same variant with the
same v sets `ecc` (`lc`) to v and the valid bit.  The byte 0 equals the pending value of
a fresh decoder and is accepted by the first group.  Groups 1B and the other variants
change neither field, in any state. -/
theorem ecc_lc_duplicate_acceptance (d : rds_private_state) (r f : Bool)
    (s0 : rds_private_state) (g1 g2 : raw_group)
    (hs : s0 = v4l2_rds_create r ∨ s0 = v4l2_rds_reset d f)
    (hg1 : is_group g1 ∧ group_id_of g1.b = 1 ∧ is_version_a g1.b)
    (hg2 : is_group g2 ∧ group_id_of g2.b = 1 ∧ is_version_a g2.b)
    (hsame : variant_of g2.c = variant_of g1.c ∧ g2.c.lsb = g1.c.lsb) :
    (variant_of g1.c = 0 →
      (g1.c.lsb ≠ 0 →
        (add_group s0 g1).2.handle.ecc = 0 ∧
        ¬ bit_set (add_group s0 g1).2.handle.valid_fields V4L2_RDS_ECC ∧
        ¬ bit_set (add_group s0 g1).1 V4L2_RDS_ECC ∧
        (add_group (add_group s0 g1).2 g2).2.handle.ecc = g1.c.lsb ∧
        bit_set (add_group (add_group s0 g1).2 g2).2.handle.valid_fields V4L2_RDS_ECC) ∧
      (g1.c.lsb = 0 →
        bit_set (add_group s0 g1).2.handle.valid_fields V4L2_RDS_ECC)) ∧
    (variant_of g1.c = 3 →
      (g1.c.lsb ≠ 0 →
        (add_group s0 g1).2.handle.lc = 0 ∧
        ¬ bit_set (add_group s0 g1).2.handle.valid_fields V4L2_RDS_LC ∧
        ¬ bit_set (add_group s0 g1).1 V4L2_RDS_LC ∧
        (add_group (add_group s0 g1).2 g2).2.handle.lc = g1.c.lsb ∧
        bit_set (add_group (add_group s0 g1).2 g2).2.handle.valid_fields V4L2_RDS_LC) ∧
      (g1.c.lsb = 0 →
        bit_set (add_group s0 g1).2.handle.valid_fields V4L2_RDS_LC ∧
        bit_set (add_group s0 g1).1 V4L2_RDS_LC)) ∧
    (∀ (t : rds_private_state) (h : raw_group), t.decode_state = RDS_EMPTY → is_group h →
      group_id_of h.b = 1 →
      (¬ is_version_a h.b ∨ (variant_of h.c ≠ 0 ∧ variant_of h.c ≠ 3)) →
      (add_group t h).2.handle.ecc = t.handle.ecc ∧
      (add_group t h).2.handle.lc = t.handle.lc ∧
      (bit_set (add_group t h).2.handle.valid_fields V4L2_RDS_ECC ↔
        bit_set t.handle.valid_fields V4L2_RDS_ECC) ∧
      (bit_set (add_group t h).2.handle.valid_fields V4L2_RDS_LC ↔
        bit_set t.handle.valid_fields V4L2_RDS_LC)) := by
  obtain ⟨z0, z1, z2, z3, z4, z5⟩ := fresh_fields d r f s0 hs
  obtain ⟨a0, a1, a2, -⟩ := label_group_fields s0 g1 z0 hg1.1 hg1.2.1
  obtain ⟨-, b1, b2, -⟩ := label_group_fields (add_group s0 g1).2 g2 a0 hg2.1 hg2.2.1
  refine ⟨?_, ?_, ?_⟩
  · intro hv
    obtain ⟨-, p2⟩ := a1 hg1.2.2 hv
    obtain ⟨q1, -⟩ := b1 hg2.2.2 (hsame.1.trans hv)
    obtain ⟨p1, -⟩ := a1 hg1.2.2 hv
    refine ⟨?_, ?_⟩
    · intro hne
      obtain ⟨c1, c2, c3, c4⟩ := p2 (by rw [z1]; exact hne)
      obtain ⟨e1, e2, -, -⟩ := q1 (by rw [c1]; exact hsame.2)
      refine ⟨by rw [c2, z3], ?_, ?_, by rw [e1, hsame.2], e2⟩
      · unfold bit_set
        rw [c3, z5]
        exact fun h => h (Nat.zero_and _)
      · unfold bit_set
        rw [c4]
        exact fun h => h rfl
    · intro he
      exact (p1 (by rw [z1]; exact he)).2.1
  · intro hv
    obtain ⟨p1, p2⟩ := a2 hg1.2.2 hv
    obtain ⟨q1, -⟩ := b2 hg2.2.2 (hsame.1.trans hv)
    refine ⟨?_, ?_⟩
    · intro hne
      obtain ⟨c1, c2, c3, c4⟩ := p2 (by rw [z2]; exact hne)
      obtain ⟨e1, e2, -, -⟩ := q1 (by rw [c1]; exact hsame.2)
      refine ⟨by rw [c2, z4], ?_, ?_, by rw [e1, hsame.2], e2⟩
      · unfold bit_set
        rw [c3, z5]
        exact fun h => h (Nat.zero_and _)
      · unfold bit_set
        rw [c4]
        exact fun h => h rfl
    · intro he
      obtain ⟨-, e2, e3, -⟩ := p1 (by rw [z2]; exact he)
      exact ⟨e2, e3⟩
  · intro t h ht hg hid hother
    obtain ⟨-, -, -, o⟩ := label_group_fields t h ht hg hid
    obtain ⟨o1, o2, o3, -, -⟩ := o hother
    obtain ⟨-, -, l3, l4⟩ := label_part_fields _ _ o1
    refine ⟨l3, l4, ?_, ?_⟩
    · unfold bit_set; rw [o2]
    · unfold bit_set; rw [o3]

/-- Witness of claim C25: the extended country code 0xE0 sent twice to a fresh decoder. -/
theorem ecc_lc_duplicate_acceptance_witness :
    ((v4l2_rds_create false = v4l2_rds_create false ∨
        v4l2_rds_create false = v4l2_rds_reset (v4l2_rds_create false) true) ∧
      (is_group (ecc_group 0xE0) ∧ group_id_of (ecc_group 0xE0).b = 1 ∧
        is_version_a (ecc_group 0xE0).b) ∧
      variant_of (ecc_group 0xE0).c = 0 ∧ (ecc_group 0xE0).c.lsb ≠ 0) ∧
    (add_group (v4l2_rds_create false) (ecc_group 0xE0)).2.handle.ecc = 0 ∧
    ¬ bit_set (add_group (v4l2_rds_create false) (ecc_group 0xE0)).2.handle.valid_fields
      V4L2_RDS_ECC ∧
    ¬ bit_set (add_group (v4l2_rds_create false) (ecc_group 0xE0)).1 V4L2_RDS_ECC ∧
    (add_group (add_group (v4l2_rds_create false) (ecc_group 0xE0)).2
      (ecc_group 0xE0)).2.handle.ecc = (ecc_group 0xE0).c.lsb ∧
    bit_set (add_group (add_group (v4l2_rds_create false) (ecc_group 0xE0)).2
      (ecc_group 0xE0)).2.handle.valid_fields V4L2_RDS_ECC :=
  ⟨⟨Or.inl rfl, by decide, by decide, by decide⟩,
    ((ecc_lc_duplicate_acceptance (v4l2_rds_create false) false true (v4l2_rds_create false)
      (ecc_group 0xE0) (ecc_group 0xE0) (Or.inl rfl) (by decide) (by decide)
      ⟨rfl, rfl⟩).1 (by decide)).1 (by decide)⟩

/-- Counterexample to claim C25: on a fresh decoder a single group 1A with the variant 0
and the byte 0 sets the ECC bit of `valid_fields`, and a single group 1A with the
variant 3 and the byte 0 sets the LC bit and reports LC. -/
theorem ecc_lc_duplicate_acceptance_counterexample :
    is_group (ecc_group 0) ∧ group_id_of (ecc_group 0).b = 1 ∧ is_version_a (ecc_group 0).b ∧
    variant_of (ecc_group 0).c = 0 ∧
    bit_set (add_group (v4l2_rds_create false) (ecc_group 0)).2.handle.valid_fields
      V4L2_RDS_ECC ∧
    is_group (lc_group 0) ∧ group_id_of (lc_group 0).b = 1 ∧ is_version_a (lc_group 0).b ∧
    variant_of (lc_group 0).c = 3 ∧
    bit_set (add_group (v4l2_rds_create false) (lc_group 0)).2.handle.valid_fields
      V4L2_RDS_LC ∧
    bit_set (add_group (v4l2_rds_create false) (lc_group 0)).1 V4L2_RDS_LC := by
  decide

/-! ## The program type name -/

theorem ptyn_part_fields (s s' : rds_private_state) (h : ptyn_part s' = ptyn_part s) :
    s'.new_ptyn = s.new_ptyn ∧ s'.new_ptyn_valid = s.new_ptyn_valid ∧
    s'.handle.ptyn = s.handle.ptyn ∧ s'.handle.ptyn_ab_flag = s.handle.ptyn_ab_flag := by
  simpa only [ptyn_part, Prod.mk.injEq] using h

theorem ptyn_abcd (t : rds_private_state) : ptyn_part (decode_abcd t) = ptyn_part t := by
  unfold decode_abcd rds_decode_d rds_decode_c rds_decode_b rds_decode_a
  simp only []
  split_ifs <;> rfl

theorem ptyn_group_input (s : rds_private_state) (g : raw_group) :
    ptyn_part (group_input s g) = ptyn_part s := by
  have h : ptyn_part (group_input s g) = ptyn_part (decode_abcd (group_ready s g)) := rfl
  rw [h, ptyn_abcd]
  rfl

theorem ptyn_same_iff (a b : Nat → Nat) : ptyn_same a b = true ↔ ∀ i, i < 4 → a i = b i := by
  unfold ptyn_same arr_differ
  simp [List.any_eq_true]

/-- The first part of `rds_decode_group10`. -/
theorem ptyn_flag_fields (X : rds_private_state) :
    (rds_decode_ptyn_flag X).2.rds_group = X.rds_group ∧
    (rds_decode_ptyn_flag X).2.handle.ptyn_ab_flag =
      to_bool (X.rds_group.data_b_lsb &&& 0x10) ∧
    (to_bool (X.rds_group.data_b_lsb &&& 0x10) = X.handle.ptyn_ab_flag →
      rds_decode_ptyn_flag X = (0, X)) ∧
    (to_bool (X.rds_group.data_b_lsb &&& 0x10) ≠ X.handle.ptyn_ab_flag →
      (∀ h i, h * 4 + i < 8 → (rds_decode_ptyn_flag X).2.new_ptyn h i = 0) ∧
      (∀ h, h < 2 → (rds_decode_ptyn_flag X).2.new_ptyn_valid h = false)) := by
  unfold rds_decode_ptyn_flag
  simp only []
  refine ⟨?_, ?_, ?_, ?_⟩
  · split_ifs <;> rfl
  · split_ifs with h
    · rfl
    · exact (not_not.mp h).symm
  · intro h
    rw [if_neg (not_not.mpr h)]
  · intro h
    rw [if_pos h]
    refine ⟨?_, ?_⟩
    · intro hh i hi
      exact if_pos hi
    · intro hh hi
      exact if_pos hi

/-- The second part of `rds_decode_group10`. -/
theorem ptyn_half_fields (acc : Nat × rds_private_state) :
    (rds_decode_ptyn_half acc).1 = acc.1 ∧
    (rds_decode_ptyn_half acc).2.handle = acc.2.handle ∧
    (∀ i, i < 4 →
      (rds_decode_ptyn_half acc).2.new_ptyn (acc.2.rds_group.data_b_lsb &&& 0x01) i =
        ptyn_tmp_of acc.2.rds_group i) ∧
    ((rds_decode_ptyn_half acc).2.new_ptyn_valid (acc.2.rds_group.data_b_lsb &&& 0x01) =
      ptyn_same (ptyn_tmp_of acc.2.rds_group)
        (acc.2.new_ptyn (acc.2.rds_group.data_b_lsb &&& 0x01))) ∧
    (∀ h, h ≠ acc.2.rds_group.data_b_lsb &&& 0x01 →
      (rds_decode_ptyn_half acc).2.new_ptyn h = acc.2.new_ptyn h ∧
      (rds_decode_ptyn_half acc).2.new_ptyn_valid h = acc.2.new_ptyn_valid h) := by
  have hd : rds_decode_ptyn_half acc =
      if ptyn_same (ptyn_tmp_of acc.2.rds_group)
          (acc.2.new_ptyn (acc.2.rds_group.data_b_lsb &&& 0x01)) then
        (acc.1,
          { acc.2 with
            new_ptyn_valid :=
              arr_set acc.2.new_ptyn_valid (acc.2.rds_group.data_b_lsb &&& 0x01) true })
      else
        (acc.1,
          { acc.2 with
            new_ptyn := arr_set acc.2.new_ptyn (acc.2.rds_group.data_b_lsb &&& 0x01)
              (arr_copy (acc.2.new_ptyn (acc.2.rds_group.data_b_lsb &&& 0x01))
                (ptyn_tmp_of acc.2.rds_group) 4),
            new_ptyn_valid :=
              arr_set acc.2.new_ptyn_valid (acc.2.rds_group.data_b_lsb &&& 0x01) false }) := rfl
  rw [hd]
  by_cases hs : ptyn_same (ptyn_tmp_of acc.2.rds_group)
      (acc.2.new_ptyn (acc.2.rds_group.data_b_lsb &&& 0x01)) = true
  · rw [if_pos hs]
    refine ⟨rfl, rfl, ?_, ?_, ?_⟩
    · intro i hi
      exact ((ptyn_same_iff _ _).mp hs i hi).symm
    · rw [hs]
      exact if_pos rfl
    · intro h hh
      exact ⟨rfl, if_neg hh⟩
  · rw [if_neg hs]
    refine ⟨rfl, rfl, ?_, ?_, ?_⟩
    · intro i hi
      have e : ∀ v : Nat → Nat,
          arr_set acc.2.new_ptyn (acc.2.rds_group.data_b_lsb &&& 0x01) v
            (acc.2.rds_group.data_b_lsb &&& 0x01) = v := fun v => if_pos rfl
      show arr_set acc.2.new_ptyn (acc.2.rds_group.data_b_lsb &&& 0x01) _
        (acc.2.rds_group.data_b_lsb &&& 0x01) i = _
      rw [e]
      exact if_pos hi
    · rw [Bool.not_eq_true] at hs
      rw [hs]
      exact if_pos rfl
    · intro h hh
      exact ⟨if_neg hh, if_neg hh⟩

/-- The last part of `rds_decode_group10`. -/
theorem ptyn_accept_fields (acc : Nat × rds_private_state) :
    (rds_decode_ptyn_accept acc).2.new_ptyn = acc.2.new_ptyn ∧
    (rds_decode_ptyn_accept acc).2.new_ptyn_valid = acc.2.new_ptyn_valid ∧
    (rds_decode_ptyn_accept acc).2.handle.ptyn_ab_flag = acc.2.handle.ptyn_ab_flag ∧
    (acc.2.new_ptyn_valid 0 = true → acc.2.new_ptyn_valid 1 = true →
      (∀ j, j < 4 → (rds_decode_ptyn_accept acc).2.handle.ptyn j = acc.2.new_ptyn 0 j ∧
        (rds_decode_ptyn_accept acc).2.handle.ptyn (4 + j) = acc.2.new_ptyn 1 j) ∧
      (rds_decode_ptyn_accept acc).2.handle.valid_fields =
        acc.2.handle.valid_fields ||| V4L2_RDS_PTYN ∧
      (rds_decode_ptyn_accept acc).1 = acc.1 ||| V4L2_RDS_PTYN) ∧
    (¬ (acc.2.new_ptyn_valid 0 = true ∧ acc.2.new_ptyn_valid 1 = true) →
      rds_decode_ptyn_accept acc = acc) := by
  unfold rds_decode_ptyn_accept
  simp only []
  refine ⟨?_, ?_, ?_, ?_, ?_⟩
  · split_ifs <;> rfl
  · split_ifs <;> rfl
  · split_ifs <;> rfl
  · intro h0 h1
    rw [if_pos ⟨h0, h1⟩]
    refine ⟨?_, rfl, rfl⟩
    intro j hj
    refine ⟨?_, ?_⟩
    · exact if_pos hj
    · show (if 4 + j < 4 then _ else if 4 + j < 8 then acc.2.new_ptyn 1 (4 + j - 4) else _) = _
      rw [if_neg (by omega), if_pos (by omega), Nat.add_sub_cancel_left]
  · intro h
    rw [if_neg h]

theorem add_group10 (s : rds_private_state) (g : raw_group)
    (h0 : s.decode_state = RDS_EMPTY) (hg : is_group g) (hid : group_id_of g.b = 10) :
    (add_group s g).2 = (rds_decode_group10 (group_input s g)).2 ∧
    (add_group s g).2.decode_state = RDS_EMPTY ∧
    ∀ m, V4L2_RDS_PI &&& m = 0 → V4L2_RDS_TP &&& m = 0 → V4L2_RDS_PTY &&& m = 0 →
      (add_group s g).1 &&& m = (rds_decode_group10 (group_input s g)).1 &&& m := by
  obtain ⟨e1, e2, e3⟩ := add_group_decode s g h0 hg
  have hd : rds_decode_group (decode_abcd (group_ready s g)) =
      rds_decode_group10 (group_input s g) := by
    rw [decode_group_input, hid]; rfl
  rw [hd] at e1
  rw [hd] at e3
  exact ⟨e1, e2, e3⟩

theorem ptyn_tmp_input (s : rds_private_state) (g : raw_group) (i : Nat) :
    ptyn_tmp_of (group_input s g).rds_group i = rt_bytes g i := by
  obtain ⟨-, -, i4, i5, i6, i7⟩ := group_input_bytes s g
  unfold ptyn_tmp_of rt_bytes
  rw [i4, i5, i6, i7]

/-- A group 10A ingested from an empty assembler. -/
theorem ptyn_group_fields (s : rds_private_state) (g : raw_group)
    (h0 : s.decode_state = RDS_EMPTY) (hg : is_group g) (hid : group_id_of g.b = 10)
    (hva : is_version_a g.b) :
    (add_group s g).2.decode_state = RDS_EMPTY ∧
    (add_group s g).2.handle.ptyn_ab_flag = rt_flag_of g.b ∧
    (∀ i, i < 4 → (add_group s g).2.new_ptyn (ptyn_half_of g.b) i = rt_bytes g i) ∧
    (rt_flag_of g.b = s.handle.ptyn_ab_flag →
      (∀ h, h ≠ ptyn_half_of g.b →
        (add_group s g).2.new_ptyn h = s.new_ptyn h ∧
        (add_group s g).2.new_ptyn_valid h = s.new_ptyn_valid h) ∧
      ((add_group s g).2.new_ptyn_valid (ptyn_half_of g.b) = true ↔
        ∀ i, i < 4 → rt_bytes g i = s.new_ptyn (ptyn_half_of g.b) i)) ∧
    (rt_flag_of g.b ≠ s.handle.ptyn_ab_flag →
      (∀ h, h ≠ ptyn_half_of g.b → h < 2 → (add_group s g).2.new_ptyn_valid h = false) ∧
      ((add_group s g).2.new_ptyn_valid (ptyn_half_of g.b) = true ↔
        ∀ i, i < 4 → rt_bytes g i = 0)) ∧
    ((add_group s g).2.new_ptyn_valid 0 = true → (add_group s g).2.new_ptyn_valid 1 = true →
      (∀ j, j < 4 → (add_group s g).2.handle.ptyn j = (add_group s g).2.new_ptyn 0 j ∧
        (add_group s g).2.handle.ptyn (4 + j) = (add_group s g).2.new_ptyn 1 j) ∧
      bit_set (add_group s g).2.handle.valid_fields V4L2_RDS_PTYN ∧
      bit_set (add_group s g).1 V4L2_RDS_PTYN) := by
  obtain ⟨e1, e2, e3⟩ := add_group10 s g h0 hg hid
  have up := e3 V4L2_RDS_PTYN (by decide) (by decide) (by decide)
  obtain ⟨ib, i3, -, -, -, -⟩ := group_input_bytes s g
  obtain ⟨l1, l2, l3, l4⟩ := ptyn_part_fields _ _ (ptyn_group_input s g)
  have hX : rds_decode_group10 (group_input s g) =
      rds_decode_ptyn_accept (rds_decode_ptyn_half (rds_decode_ptyn_flag (group_input s g))) := by
    unfold rds_decode_group10
    rw [if_neg (not_not.mpr (i3.mpr hva))]
  rw [hX] at e1
  rw [hX] at up
  obtain ⟨f1, f2, f3, f4⟩ := ptyn_flag_fields (group_input s g)
  obtain ⟨g1, g2, g3, g4, g5⟩ := ptyn_half_fields (rds_decode_ptyn_flag (group_input s g))
  obtain ⟨a1, a2, a3, a4, -⟩ :=
    ptyn_accept_fields (rds_decode_ptyn_half (rds_decode_ptyn_flag (group_input s g)))
  have hfl : to_bool ((group_input s g).rds_group.data_b_lsb &&& 0x10) = rt_flag_of g.b := by
    rw [ib]; rfl
  have hseg : (rds_decode_ptyn_flag (group_input s g)).2.rds_group.data_b_lsb &&& 0x01 =
      ptyn_half_of g.b := by
    rw [f1, ib]; rfl
  have htmp : ∀ i, ptyn_tmp_of (rds_decode_ptyn_flag (group_input s g)).2.rds_group i =
      rt_bytes g i := by
    intro i
    rw [f1]
    exact ptyn_tmp_input s g i
  have hlt : ptyn_half_of g.b < 2 := by
    have := @Nat.and_le_right (g.b.lsb &&& 0x1f) 0x01
    unfold ptyn_half_of
    omega
  rw [hseg] at g3 g4 g5
  rw [hfl] at f2 f3 f4
  rw [l4] at f3 f4
  unfold bit_set
  rw [e1, up, a1, a2, a3, g2, f2]
  refine ⟨by rw [← e1]; exact e2, rfl, ?_, ?_, ?_, ?_⟩
  · intro i hi
    rw [g3 i hi, htmp]
  · intro hf
    have hF := f3 hf
    refine ⟨?_, ?_⟩
    · intro h hh
      obtain ⟨p1, p2⟩ := g5 h hh
      rw [p1, p2, hF]
      show (group_input s g).new_ptyn h = _ ∧ (group_input s g).new_ptyn_valid h = _
      rw [l1, l2]
      exact ⟨rfl, rfl⟩
    · rw [g4, ptyn_same_iff, hF]
      show (∀ i, i < 4 → ptyn_tmp_of (group_input s g).rds_group i =
        (group_input s g).new_ptyn (ptyn_half_of g.b) i) ↔ _
      rw [l1]
      constructor
      · intro h i hi
        rw [← ptyn_tmp_input s g i]
        exact h i hi
      · intro h i hi
        rw [ptyn_tmp_input s g i]
        exact h i hi
  · intro hf
    obtain ⟨q1, q2⟩ := f4 hf
    refine ⟨?_, ?_⟩
    · intro h hh h2
      rw [(g5 h hh).2]
      exact q2 h h2
    · rw [g4, ptyn_same_iff]
      constructor
      · intro h i hi
        rw [← htmp i, h i hi]
        exact q1 _ _ (by omega)
      · intro h i hi
        rw [htmp i, h i hi]
        exact (q1 _ _ (by omega)).symm
  · intro v0 v1
    obtain ⟨b1, b2, b3⟩ := a4 v0 v1
    refine ⟨b1, ?_, ?_⟩
    · rw [b2]; exact bit_set_or_self _ _ (by decide)
    · rw [b3]; exact bit_set_or_self _ _ (by decide)


/-! ## Properties of the program type name (claim C24) -/

/-- Claim C24, amended: from a state with an empty assembler, four consecutive groups
10A with the same A/B flag that carry the half 0 (n 0 to n 3), the half 1 (n 4 to n 7),
the half 0 and the half 1 again leave `ptyn` equal to n 0 to n 7, with the PTYN bit of
`valid_fields` set and PTYN in the `updated_fields` of the fourth group.  A group 10A
marks the half it addresses valid exactly when its four characters equal the pending
characters of that half: the ones stored for it when the A/B flag is the current one,
and zero after the clearing that a change of the flag does first.  On a freshly
created decoder the pending characters are zero, so a half is marked valid by its
first reception exactly when its four characters are zero. -/
theorem ptyn_four_groups (s : rds_private_state) (g1 g2 g3 g4 : raw_group) (n : Nat → Nat)
    (h0 : s.decode_state = RDS_EMPTY)
    (hg1 : is_group g1 ∧ group_id_of g1.b = 10 ∧ is_version_a g1.b)
    (hg2 : is_group g2 ∧ group_id_of g2.b = 10 ∧ is_version_a g2.b)
    (hg3 : is_group g3 ∧ group_id_of g3.b = 10 ∧ is_version_a g3.b)
    (hg4 : is_group g4 ∧ group_id_of g4.b = 10 ∧ is_version_a g4.b)
    (hf : rt_flag_of g2.b = rt_flag_of g1.b ∧ rt_flag_of g3.b = rt_flag_of g1.b ∧
      rt_flag_of g4.b = rt_flag_of g1.b)
    (hh : ptyn_half_of g1.b = 0 ∧ ptyn_half_of g2.b = 1 ∧ ptyn_half_of g3.b = 0 ∧
      ptyn_half_of g4.b = 1)
    (hn : ∀ i, i < 4 → rt_bytes g1 i = n i ∧ rt_bytes g2 i = n (4 + i) ∧
      rt_bytes g3 i = n i ∧ rt_bytes g4 i = n (4 + i)) :
    ((∀ j, j < 8 → (add_group (add_groups s [g1, g2, g3]) g4).2.handle.ptyn j = n j) ∧
      bit_set (add_group (add_groups s [g1, g2, g3]) g4).2.handle.valid_fields V4L2_RDS_PTYN ∧
      bit_set (add_group (add_groups s [g1, g2, g3]) g4).1 V4L2_RDS_PTYN) ∧
    (∀ (t : rds_private_state) (g : raw_group), t.decode_state = RDS_EMPTY → is_group g →
      group_id_of g.b = 10 → is_version_a g.b →
      ((add_group t g).2.new_ptyn_valid (ptyn_half_of g.b) = true ↔
        ∀ i, i < 4 → rt_bytes g i =
          if rt_flag_of g.b = t.handle.ptyn_ab_flag then t.new_ptyn (ptyn_half_of g.b) i
          else 0)) ∧
    (∀ (r : Bool) (g : raw_group), is_group g → group_id_of g.b = 10 → is_version_a g.b →
      ((add_group (v4l2_rds_create r) g).2.new_ptyn_valid (ptyn_half_of g.b) = true ↔
        ∀ i, i < 4 → rt_bytes g i = 0)) := by
  have hval : ∀ (t : rds_private_state) (g : raw_group), t.decode_state = RDS_EMPTY →
      is_group g → group_id_of g.b = 10 → is_version_a g.b →
      ((add_group t g).2.new_ptyn_valid (ptyn_half_of g.b) = true ↔
        ∀ i, i < 4 → rt_bytes g i =
          if rt_flag_of g.b = t.handle.ptyn_ab_flag then t.new_ptyn (ptyn_half_of g.b) i
          else 0) := by
    intro t g ht hg hid hva
    obtain ⟨-, -, -, q4, q5, -⟩ := ptyn_group_fields t g ht hg hid hva
    by_cases hfl : rt_flag_of g.b = t.handle.ptyn_ab_flag
    · rw [(q4 hfl).2]
      constructor
      · intro h i hi
        rw [if_pos hfl]
        exact h i hi
      · intro h i hi
        have := h i hi
        rwa [if_pos hfl] at this
    · rw [(q5 hfl).2]
      constructor
      · intro h i hi
        rw [if_neg hfl]
        exact h i hi
      · intro h i hi
        have := h i hi
        rwa [if_neg hfl] at this
  refine ⟨?_, hval, ?_⟩
  · have e : add_groups s [g1, g2, g3] =
        (add_group (add_group (add_group s g1).2 g2).2 g3).2 := rfl
    rw [e]
    obtain ⟨a1, a2, a3, -, -, -⟩ := ptyn_group_fields s g1 h0 hg1.1 hg1.2.1 hg1.2.2
    obtain ⟨b1, b2, b3, b4, -, -⟩ :=
      ptyn_group_fields (add_group s g1).2 g2 a1 hg2.1 hg2.2.1 hg2.2.2
    obtain ⟨c1, c2, c3, c4, -, -⟩ :=
      ptyn_group_fields (add_group (add_group s g1).2 g2).2 g3 b1 hg3.1 hg3.2.1 hg3.2.2
    obtain ⟨-, -, d3, d4, -, d6⟩ :=
      ptyn_group_fields (add_group (add_group (add_group s g1).2 g2).2 g3).2 g4 c1
        hg4.1 hg4.2.1 hg4.2.2
    rw [hh.1] at a3
    rw [hh.2.1] at b3 b4
    rw [hh.2.2.1] at c3 c4
    rw [hh.2.2.2] at d3 d4
    obtain ⟨b5, -⟩ := b4 (by rw [a2]; exact hf.1)
    obtain ⟨c5, c6⟩ := c4 (by rw [b2, hf.1]; exact hf.2.1)
    obtain ⟨d5, d7⟩ := d4 (by rw [c2, hf.2.1]; exact hf.2.2)
    have n0 : ∀ i, i < 4 → (add_group (add_group s g1).2 g2).2.new_ptyn 0 i = n i := by
      intro i hi
      rw [(b5 0 (by decide)).1, a3 i hi]
      exact (hn i hi).1
    have n1 : ∀ i, i < 4 →
        (add_group (add_group (add_group s g1).2 g2).2 g3).2.new_ptyn 1 i = n (4 + i) := by
      intro i hi
      rw [(c5 1 (by decide)).1, b3 i hi]
      exact (hn i hi).2.1
    have v0 : (add_group (add_group (add_group s g1).2 g2).2 g3).2.new_ptyn_valid 0 = true := by
      rw [c6]
      intro i hi
      rw [n0 i hi]
      exact (hn i hi).2.2.1
    have v1 : (add_group (add_group (add_group (add_group s g1).2 g2).2 g3).2 g4).2.new_ptyn_valid
        1 = true := by
      rw [d7]
      intro i hi
      rw [n1 i hi]
      exact (hn i hi).2.2.2
    have v0' : (add_group (add_group (add_group (add_group s g1).2 g2).2 g3).2 g4).2.new_ptyn_valid
        0 = true := by
      rw [(d5 0 (by decide)).2]
      exact v0
    obtain ⟨p1, p2, p3⟩ := d6 v0' v1
    refine ⟨?_, p2, p3⟩
    intro j hj
    by_cases h4 : j < 4
    · rw [(p1 j h4).1, (d5 0 (by decide)).1, c3 j h4]
      exact (hn j h4).2.2.1
    · have ej : j = 4 + (j - 4) := by omega
      rw [ej, (p1 (j - 4) (by omega)).2, d3 (j - 4) (by omega)]
      exact (hn (j - 4) (by omega)).2.2.2
  · intro r g hg hid hva
    rw [hval (v4l2_rds_create r) g rfl hg hid hva]
    constructor
    · intro h i hi
      have hi' := h i hi
      split_ifs at hi' with hfl
      · exact hi'
      · exact hi'
    · intro h i hi
      rw [h i hi]
      split_ifs with hfl
      · rfl
      · rfl

/-- Witness of claim C24: the name "Football" sent twice, half by half, to a fresh
decoder. -/
theorem ptyn_four_groups_witness :
    ((v4l2_rds_create false).decode_state = RDS_EMPTY ∧
      (is_group (ptyn_group 0) ∧ group_id_of (ptyn_group 0).b = 10 ∧
        is_version_a (ptyn_group 0).b) ∧
      (is_group (ptyn_group 1) ∧ group_id_of (ptyn_group 1).b = 10 ∧
        is_version_a (ptyn_group 1).b) ∧
      ptyn_half_of (ptyn_group 0).b = 0 ∧ ptyn_half_of (ptyn_group 1).b = 1) ∧
    (∀ j, j < 8 →
      (add_group (add_groups (v4l2_rds_create false)
        [ptyn_group 0, ptyn_group 1, ptyn_group 0]) (ptyn_group 1)).2.handle.ptyn j =
        sample_ptyn j) ∧
    bit_set (add_group (add_groups (v4l2_rds_create false)
      [ptyn_group 0, ptyn_group 1, ptyn_group 0]) (ptyn_group 1)).2.handle.valid_fields
      V4L2_RDS_PTYN ∧
    bit_set (add_group (add_groups (v4l2_rds_create false)
      [ptyn_group 0, ptyn_group 1, ptyn_group 0]) (ptyn_group 1)).1 V4L2_RDS_PTYN :=
  ⟨⟨rfl, by decide, by decide, by decide, by decide⟩,
    (ptyn_four_groups (v4l2_rds_create false) (ptyn_group 0) (ptyn_group 1) (ptyn_group 0)
      (ptyn_group 1) sample_ptyn rfl (by decide) (by decide) (by decide) (by decide)
      (by decide) (by decide) (by decide)).1⟩

/-- Counterexample to claim C24: on a freshly created decoder, where nothing was
received before, a single group 10A with four characters 0x00 marks its half valid,
and one such group for each half makes the name valid and reports PTYN. -/
theorem ptyn_four_groups_counterexample :
    (is_group (zero_ptyn_group 0) ∧ group_id_of (zero_ptyn_group 0).b = 10 ∧
      is_version_a (zero_ptyn_group 0).b ∧ ptyn_half_of (zero_ptyn_group 0).b = 0) ∧
    (is_group (zero_ptyn_group 1) ∧ group_id_of (zero_ptyn_group 1).b = 10 ∧
      is_version_a (zero_ptyn_group 1).b ∧ ptyn_half_of (zero_ptyn_group 1).b = 1) ∧
    (add_group (v4l2_rds_create false) (zero_ptyn_group 0)).2.new_ptyn_valid 0 = true ∧
    bit_set (add_group (add_group (v4l2_rds_create false) (zero_ptyn_group 0)).2
      (zero_ptyn_group 1)).2.handle.valid_fields V4L2_RDS_PTYN ∧
    bit_set (add_group (add_group (v4l2_rds_create false) (zero_ptyn_group 0)).2
      (zero_ptyn_group 1)).1 V4L2_RDS_PTYN := by
  decide

/-! ## The group counters -/

theorem type_cnt_sum_set (st : v4l2_rds_statistics) (g v : Nat) (hg : g < 16) :
    type_cnt_sum { st with group_type_cnt := arr_set st.group_type_cnt g v } +
      st.group_type_cnt g = type_cnt_sum st + v := by
  unfold type_cnt_sum
  simp only [List.range_succ, List.range_zero, List.nil_append, List.cons_append,
    List.map_cons, List.map_nil, List.sum_cons, List.sum_nil, arr_set]
  interval_cases g <;> simp <;> omega

theorem type_cnt_le_sum (st : v4l2_rds_statistics) (g : Nat) (hg : g < 16) :
    st.group_type_cnt g ≤ type_cnt_sum st := by
  unfold type_cnt_sum
  simp only [List.range_succ, List.range_zero, List.nil_append, List.cons_append,
    List.map_cons, List.map_nil, List.sum_cons, List.sum_nil]
  interval_cases g <;> omega

theorem group_id_lt (b : v4l2_rds_data) (h : is_bytes b) :
    group_id_of b = b.msb >>> 4 ∧ group_id_of b < 16 := by
  unfold group_id_of
  have h1 := h.2.1
  have e : b.msb >>> 4 = b.msb / 16 := Nat.shiftRight_eq_div_pow b.msb 4
  rw [e]
  have h2 : b.msb / 16 < 16 := by omega
  rw [Nat.mod_eq_of_lt (by omega)]
  exact ⟨rfl, h2⟩

theorem raw_bytes_set (raw : Nat → v4l2_rds_data) (k : Nat) (b : v4l2_rds_data)
    (hr : ∀ j, is_bytes (raw j)) (hb : is_bytes b) : ∀ j, is_bytes (arr_set raw k b j) := by
  intro j
  unfold arr_set
  split_ifs
  · exact hb
  · exact hr j

theorem raw_bytes_clear (raw : Nat → v4l2_rds_data) (hr : ∀ j, is_bytes (raw j)) :
    ∀ j, is_bytes (raw_clear raw j) := by
  intro j
  unfold raw_clear
  split_ifs
  · decide
  · exact ⟨(by decide : (0 : Nat) < 256), (by decide : (0 : Nat) < 256), (hr 2).2.2⟩
  · exact hr j

/-- An ingest that completes a group counts the group and the group type of the
block B in the raw buffer. -/
theorem add_complete_counts (s : rds_private_state) (b : v4l2_rds_data)
    (hc : s.decode_state = RDS_C_RECEIVED ∧ has_id b 3) :
    (v4l2_rds_add s b).2.handle.rds_statistics.group_cnt =
      inc32 s.handle.rds_statistics.group_cnt ∧
    (v4l2_rds_add s b).2.handle.rds_statistics.group_type_cnt =
      arr_set s.handle.rds_statistics.group_type_cnt (group_id_of (s.rds_data_raw 1))
        (inc32 (s.handle.rds_statistics.group_type_cnt (group_id_of (s.rds_data_raw 1)))) ∧
    (v4l2_rds_add s b).2.rds_data_raw = arr_set s.rds_data_raw 3 b := by
  obtain ⟨c1, -, c3⟩ := count_block_frame s.handle.rds_statistics b
  rw [add_d s b hc.1 hc.2]
  refine ⟨?_, ?_, ?_⟩
  · rw [stats_complete]
    show inc32 (count_block s.handle.rds_statistics b).group_cnt = _
    rw [c1]
  · rw [stats_complete]
    show arr_set (count_block s.handle.rds_statistics b).group_type_cnt
      (group_id_of (s.rds_data_raw 1))
      (inc32 ((count_block s.handle.rds_statistics b).group_type_cnt
        (group_id_of (s.rds_data_raw 1)))) = _
    rw [c3]
  · rw [(core_fields _ _ (decode_complete_core _)).2.2.1, (abcd_frame _).2.1]

/-- An ingest that completes no group leaves the group counter and the type counters
as they are. -/
theorem add_incomplete_counts (s : rds_private_state) (b : v4l2_rds_data)
    (h : ¬ (s.decode_state = RDS_C_RECEIVED ∧ has_id b 3)) :
    (v4l2_rds_add s b).2.handle.rds_statistics.group_cnt = s.handle.rds_statistics.group_cnt ∧
    (v4l2_rds_add s b).2.handle.rds_statistics.group_type_cnt =
      s.handle.rds_statistics.group_type_cnt := by
  obtain ⟨c1, -, c3⟩ := count_block_frame s.handle.rds_statistics b
  unfold v4l2_rds_add
  simp only []
  split_ifs with h0 h1 h2 h3 h4 h5 h6 h7
  all_goals first
    | exact ⟨c1, c3⟩
    | exact absurd ⟨h6, has_id_of_block_id b 3 h7⟩ h

theorem add_raw_bytes (s : rds_private_state) (b : v4l2_rds_data) (hs : raw_bytes s)
    (hb : is_bytes b) : raw_bytes (v4l2_rds_add s b).2 := by
  by_cases hc : s.decode_state = RDS_C_RECEIVED ∧ has_id b 3
  · unfold raw_bytes
    rw [(add_complete_counts s b hc).2.2]
    exact raw_bytes_set _ _ _ hs hb
  · unfold v4l2_rds_add
    simp only []
    split_ifs with h0 h1 h2 h3 h4 h5 h6 h7
    all_goals first
      | exact raw_bytes_set _ _ _ (raw_bytes_clear _ hs) hb
      | exact raw_bytes_set _ _ _ hs hb
      | exact hs
      | exact absurd ⟨h6, has_id_of_block_id b 3 h7⟩ hc

theorem cnt_arith (S S' c G n : Nat) (hsum : S' + c = S + (c + 1) % 2 ^ 32)
    (j2 : S % 2 ^ 32 = G) (j3 : n < 2 ^ 32 → S = G ∧ G ≤ n) :
    S' % 2 ^ 32 = (G + 1) % 2 ^ 32 ∧
    (n + 1 < 2 ^ 32 → S' = (G + 1) % 2 ^ 32 ∧ (G + 1) % 2 ^ 32 ≤ n + 1) := by
  refine ⟨by omega, ?_⟩
  intro hn
  obtain ⟨k1, k2⟩ := j3 (by omega)
  constructor <;> omega

theorem cnt_inv_add (s : rds_private_state) (b : v4l2_rds_data) (n : Nat)
    (hs : cnt_inv s n) (hb : is_bytes b) : cnt_inv (v4l2_rds_add s b).2 (n + 1) := by
  obtain ⟨j1, j2, j3⟩ := hs
  refine ⟨add_raw_bytes s b j1 hb, ?_⟩
  by_cases hc : s.decode_state = RDS_C_RECEIVED ∧ has_id b 3
  · obtain ⟨a1, a2, -⟩ := add_complete_counts s b hc
    have hlt := (group_id_lt _ (j1 1)).2
    have hsum := type_cnt_sum_set s.handle.rds_statistics (group_id_of (s.rds_data_raw 1))
      (inc32 (s.handle.rds_statistics.group_type_cnt (group_id_of (s.rds_data_raw 1)))) hlt
    have e : type_cnt_sum (v4l2_rds_add s b).2.handle.rds_statistics =
        type_cnt_sum { s.handle.rds_statistics with
          group_type_cnt := arr_set s.handle.rds_statistics.group_type_cnt
            (group_id_of (s.rds_data_raw 1))
            (inc32 (s.handle.rds_statistics.group_type_cnt
              (group_id_of (s.rds_data_raw 1)))) } := by
      unfold type_cnt_sum
      rw [a2]
    rw [e, a1]
    exact cnt_arith _ _ _ _ _ hsum j2 j3
  · obtain ⟨a1, a2⟩ := add_incomplete_counts s b hc
    have e : type_cnt_sum (v4l2_rds_add s b).2.handle.rds_statistics =
        type_cnt_sum s.handle.rds_statistics := by
      unfold type_cnt_sum
      rw [a2]
    rw [e, a1]
    refine ⟨j2, ?_⟩
    intro hn
    obtain ⟨k1, k2⟩ := j3 (by omega)
    exact ⟨k1, by omega⟩

theorem type_cnt_sum_zero : type_cnt_sum zero_statistics = 0 := by decide

theorem cnt_inv_reset (s : rds_private_state) (f : Bool) (n : Nat) (hs : cnt_inv s n) :
    cnt_inv (v4l2_rds_reset s f) (n + 1) := by
  obtain ⟨-, j2, j3⟩ := hs
  have hr : raw_bytes (v4l2_rds_reset s f) := by
    intro j
    have e : (v4l2_rds_reset s f).rds_data_raw j = zero_data := by
      cases f <;> rfl
    rw [e]
    decide
  refine ⟨hr, ?_⟩
  cases f with
  | true =>
    have e : (v4l2_rds_reset s true).handle.rds_statistics = zero_statistics := rfl
    rw [e, type_cnt_sum_zero]
    exact ⟨rfl, fun _ => ⟨rfl, Nat.zero_le _⟩⟩
  | false =>
    have e : (v4l2_rds_reset s false).handle.rds_statistics = s.handle.rds_statistics := rfl
    rw [e]
    refine ⟨j2, ?_⟩
    intro hn
    obtain ⟨k1, k2⟩ := j3 (by omega)
    exact ⟨k1, Nat.le_succ_of_le k2⟩

theorem cnt_inv_calls (cs : List rds_call) (s : rds_private_state) (n : Nat)
    (hs : cnt_inv s n) (hb : ∀ c ∈ cs, call_bytes c) :
    cnt_inv (cs.foldl run_call s) (n + cs.length) := by
  induction cs generalizing s n with
  | nil => exact hs
  | cons c cs ih =>
    rw [List.foldl_cons, List.length_cons]
    have e : n + (cs.length + 1) = (n + 1) + cs.length := by omega
    rw [e]
    apply ih
    · cases c with
      | add b => exact cnt_inv_add s b n hs (hb _ (List.mem_cons_self _ _))
      | reset f => exact cnt_inv_reset s f n hs
    · intro c' hc'
      exact hb c' (List.mem_cons_of_mem _ hc')

theorem cnt_inv_create (r : Bool) : cnt_inv (v4l2_rds_create r) 0 := by
  have e : (v4l2_rds_create r).handle.rds_statistics = zero_statistics := rfl
  refine ⟨fun j => (by decide : is_bytes zero_data), ?_⟩
  rw [e, type_cnt_sum_zero]
  exact ⟨rfl, fun _ => ⟨rfl, Nat.le_refl _⟩⟩

/-- The counters after a group ingested from an empty assembler. -/
theorem group_counts (t : rds_private_state) (g : raw_group)
    (h0 : t.decode_state = RDS_EMPTY) (hg : is_group g) :
    (add_group t g).2.handle.rds_statistics.group_cnt =
      inc32 t.handle.rds_statistics.group_cnt ∧
    (add_group t g).2.handle.rds_statistics.group_type_cnt =
      arr_set t.handle.rds_statistics.group_type_cnt (group_id_of g.b)
        (inc32 (t.handle.rds_statistics.group_type_cnt (group_id_of g.b))) := by
  rw [add_group_eq t g h0 hg, stats_complete]
  have e1 : (group_ready t g).rds_data_raw 1 = g.b := rfl
  rw [e1]
  have c : ∀ (st : v4l2_rds_statistics) (a b c d : v4l2_rds_data),
      (count_block (count_block (count_block (count_block st a) b) c) d).group_cnt =
        st.group_cnt ∧
      (count_block (count_block (count_block (count_block st a) b) c) d).group_type_cnt =
        st.group_type_cnt := by
    intro st a b c d
    rw [(count_block_frame _ d).1, (count_block_frame _ c).1, (count_block_frame _ b).1,
      (count_block_frame _ a).1, (count_block_frame _ d).2.2, (count_block_frame _ c).2.2,
      (count_block_frame _ b).2.2, (count_block_frame _ a).2.2]
    exact ⟨rfl, rfl⟩
  obtain ⟨c1, c2⟩ := c t.handle.rds_statistics g.a g.b g.c g.d
  refine ⟨?_, ?_⟩
  · show inc32 (count_block (count_block (count_block (count_block
      t.handle.rds_statistics g.a) g.b) g.c) g.d).group_cnt = _
    rw [c1]
  · show arr_set (count_block (count_block (count_block (count_block
      t.handle.rds_statistics g.a) g.b) g.c) g.d).group_type_cnt (group_id_of g.b)
      (inc32 ((count_block (count_block (count_block (count_block
        t.handle.rds_statistics g.a) g.b) g.c) g.d).group_type_cnt (group_id_of g.b))) = _
    rw [c2]

/-! ## Properties of the group counters (claim C30) -/

/-- Claim C30: in every state reached from create by ingests of byte blocks and by
resets (with either flag), the sum of the sixteen counters `group_type_cnt` equals
`group_cnt` modulo 2^32; after fewer than 2^32 calls, so short of any wraparound, the
sum equals `group_cnt` and every `group_type_cnt g` is at most `group_cnt`.  A group
ingested from an empty assembler increments `group_cnt` and exactly the counter of its
group type, the high four bits of the `msb` of block B, whatever the group type. -/
theorem group_type_counters (r : Bool) (cs : List rds_call) (hb : ∀ c ∈ cs, call_bytes c) :
    type_cnt_sum (run_calls r cs).handle.rds_statistics % 2 ^ 32 =
      (run_calls r cs).handle.rds_statistics.group_cnt ∧
    (cs.length < 2 ^ 32 →
      type_cnt_sum (run_calls r cs).handle.rds_statistics =
        (run_calls r cs).handle.rds_statistics.group_cnt ∧
      ∀ g, g < 16 → (run_calls r cs).handle.rds_statistics.group_type_cnt g ≤
        (run_calls r cs).handle.rds_statistics.group_cnt) ∧
    (∀ (t : rds_private_state) (g : raw_group), t.decode_state = RDS_EMPTY → is_group g →
      is_bytes g.b →
      group_id_of g.b = g.b.msb >>> 4 ∧ group_id_of g.b < 16 ∧
      (add_group t g).2.handle.rds_statistics.group_cnt =
        (t.handle.rds_statistics.group_cnt + 1) % 2 ^ 32 ∧
      (add_group t g).2.handle.rds_statistics.group_type_cnt (group_id_of g.b) =
        (t.handle.rds_statistics.group_type_cnt (group_id_of g.b) + 1) % 2 ^ 32 ∧
      ∀ k, k ≠ group_id_of g.b →
        (add_group t g).2.handle.rds_statistics.group_type_cnt k =
          t.handle.rds_statistics.group_type_cnt k) := by
  have hi := cnt_inv_calls cs (v4l2_rds_create r) 0 (cnt_inv_create r) hb
  rw [Nat.zero_add] at hi
  obtain ⟨-, j2, j3⟩ := hi
  refine ⟨j2, ?_, ?_⟩
  · intro hn
    obtain ⟨k1, -⟩ := j3 hn
    refine ⟨k1, ?_⟩
    intro g hg
    have := type_cnt_le_sum (run_calls r cs).handle.rds_statistics g hg
    have k1' := k1
    unfold run_calls at this k1' ⊢
    omega
  · intro t g h0 hg hbb
    obtain ⟨e1, e2⟩ := group_counts t g h0 hg
    obtain ⟨i1, i2⟩ := group_id_lt g.b hbb
    refine ⟨i1, i2, by rw [e1]; rfl, ?_, ?_⟩
    · rw [e2]
      exact if_pos rfl
    · intro k hk
      rw [e2]
      exact if_neg hk

/-- Witness of claim C30: after a group 2A, a group 5A, a reset that keeps the counters
and another group 2A, three groups are counted: two of the type 2 and one of the
type 5. -/
theorem group_type_counters_witness :
    (∀ c ∈ sample_calls, call_bytes c) ∧
    type_cnt_sum (run_calls false sample_calls).handle.rds_statistics = 3 ∧
    (run_calls false sample_calls).handle.rds_statistics.group_cnt = 3 ∧
    (run_calls false sample_calls).handle.rds_statistics.group_type_cnt 2 = 2 ∧
    (run_calls false sample_calls).handle.rds_statistics.group_type_cnt 5 = 1 ∧
    (type_cnt_sum (run_calls false sample_calls).handle.rds_statistics =
        (run_calls false sample_calls).handle.rds_statistics.group_cnt ∧
      ∀ g, g < 16 → (run_calls false sample_calls).handle.rds_statistics.group_type_cnt g ≤
        (run_calls false sample_calls).handle.rds_statistics.group_cnt) :=
  ⟨by decide, by decide, by decide, by decide, by decide,
    (group_type_counters false sample_calls (by decide)).2.1 (by decide)⟩

/-! ## What `updated_fields` reports -/

theorem field_same_refl (f : pub_field) (a : v4l2_rds) : field_same f a a := by
  cases f <;> first | rfl | exact ⟨rfl, rfl⟩

theorem field_same_trans (f : pub_field) (a b c : v4l2_rds) (h1 : field_same f a b)
    (h2 : field_same f b c) : field_same f a c := by
  cases f <;> first | exact Eq.trans h2 h1 | exact ⟨h2.1.trans h1.1, h2.2.trans h1.2⟩

theorem field_same_symm (f : pub_field) (a b : v4l2_rds) (h : field_same f a b) :
    field_same f b a := by
  cases f <;> first | exact Eq.symm h | exact ⟨h.1.symm, h.2.symm⟩

theorem field_same_part (a b : v4l2_rds) (h : pub_part b = pub_part a) (f : pub_field) :
    field_same f a b := by
  simp only [pub_part, Prod.mk.injEq] at h
  obtain ⟨h1, h2, h3, h4, h5, h6, h7, h8, h9, h10, h11, h12, h13, h14⟩ := h
  cases f
  · exact h1
  · exact h2
  · exact h3
  · exact h4
  · exact h5
  · exact h6
  · exact h7
  · exact h8
  · exact h9
  · exact h10
  · exact h11
  · exact h12
  · exact ⟨h13, h14⟩

theorem reports_same (u : Nat) (s s' : rds_private_state)
    (h : pub_part s'.handle = pub_part s.handle) : reports u s s' :=
  fun f hne => absurd (field_same_part _ _ h f) hne

theorem reports_chain (u1 u2 : Nat) (s s1 s2 : rds_private_state) (h1 : reports u1 s s1)
    (hm : ∀ m, bit_set u1 m → bit_set u2 m) (h2 : reports u2 s1 s2) : reports u2 s s2 := by
  intro f hne
  by_cases h : field_same f s.handle s1.handle
  · exact h2 f (fun h' => hne (field_same_trans f _ _ _ h h'))
  · exact hm _ (h1 f h)

theorem reports_step (u1 u2 : Nat) (s s1 s2 : rds_private_state) (h1 : reports u1 s s1)
    (h2 : reports u2 s1 s2) : reports (u1 ||| u2) s s2 := by
  intro f hne
  rw [bit_set_or]
  by_cases h : field_same f s.handle s1.handle
  · right
    exact h2 f (fun h' => hne (field_same_trans f _ _ _ h h'))
  · left
    exact h1 f h

theorem reports_left (u : Nat) (s t s' : rds_private_state) (hr : reports u t s')
    (h : pub_part t.handle = pub_part s.handle) : reports u s s' := by
  intro f hne
  exact hr f (fun h' => hne (field_same_trans f _ _ _ (field_same_part _ _ h f) h'))

theorem reports_decode_a (t : rds_private_state) (a : v4l2_rds_data) :
    reports (rds_decode_a t a).1 t (rds_decode_a t a).2 := by
  unfold rds_decode_a
  simp only []
  split_ifs <;> intro f hne <;> cases f <;>
    first
    | exact absurd rfl hne
    | exact absurd (And.intro rfl rfl) hne
    | exact bit_set_or_self _ _ (by decide)


theorem add_af_to_list_false (a : v4l2_rds_af_set) (af : Nat) (vhf : Bool)
    (h : (rds_add_af_to_list a af vhf).1 = false) : (rds_add_af_to_list a af vhf).2 = a := by
  rcases add_af_to_list_cases a af vhf with ⟨-, h2⟩ | ⟨h1, -⟩
  · exact h2
  · rw [h1] at h
    exact absurd h (by decide)

theorem add_af_set_lf_pair (a : v4l2_rds_af_set) (c_msb c_lsb : Nat) (h1 : c_msb = 250) :
    rds_add_af_set a c_msb c_lsb =
      ((rds_add_af_to_list a c_lsb false).1, (rds_add_af_to_list a c_lsb false).2) := by
  have h2 : ¬ c_msb < 205 := by omega
  have h3 : ¬ (c_msb ≥ 224 ∧ c_msb ≤ 249) := by omega
  have h0 : ∀ x : v4l2_rds_af_set, rds_add_af_to_list x 0 true = (false, x) := by
    intro x; rfl
  unfold rds_add_af_set
  simp only []
  rw [if_pos h1]
  simp only [if_neg h2, if_neg h3, h0]
  split_ifs with h4 h5 <;> simp_all

theorem add_af_set_count_pair (a : v4l2_rds_af_set) (c_msb c_lsb : Nat)
    (h : c_msb ≥ 224 ∧ c_msb ≤ 249) :
    rds_add_af_set a c_msb c_lsb =
      if c_lsb < 205 then
        ((rds_add_af_to_list { a with announced_af := (c_msb - 224) % 256 } c_lsb true).1,
          (rds_add_af_to_list { a with announced_af := (c_msb - 224) % 256 } c_lsb true).2)
      else (false, { a with announced_af := (c_msb - 224) % 256 }) := by
  have h1 : ¬ c_msb = 250 := by omega
  have h2 : ¬ c_msb < 205 := by omega
  unfold rds_add_af_set
  simp only []
  rw [if_neg h1]
  simp only [if_pos h, if_neg h2]
  split_ifs <;> simp_all

theorem add_af_set_plain_pair (a : v4l2_rds_af_set) (c_msb c_lsb : Nat)
    (h1 : c_msb ≠ 250) (h : ¬ (c_msb ≥ 224 ∧ c_msb ≤ 249)) :
    (rds_add_af_set a c_msb c_lsb).1 =
      ((if c_lsb < 205 then
        (rds_add_af_to_list (if c_msb < 205 then (rds_add_af_to_list a c_msb true).2 else a)
          c_lsb true).1 else false) ||
      (if c_msb < 205 then (rds_add_af_to_list a c_msb true).1 else false)) := by
  unfold rds_add_af_set
  simp only []
  rw [if_neg h1]
  simp only [if_neg h]
  split_ifs <;> simp_all


theorem add_af_set_false (a : v4l2_rds_af_set) (c_msb c_lsb : Nat)
    (h : (rds_add_af_set a c_msb c_lsb).1 = false) :
    (rds_add_af_set a c_msb c_lsb).2.size = a.size ∧
    (rds_add_af_set a c_msb c_lsb).2.af = a.af := by
  by_cases h1 : c_msb = 250
  · rw [add_af_set_lf_pair a c_msb c_lsb h1] at h ⊢
    rw [add_af_to_list_false a c_lsb false h]
    exact ⟨rfl, rfl⟩
  · by_cases h2 : c_msb ≥ 224 ∧ c_msb ≤ 249
    · rw [add_af_set_count_pair a c_msb c_lsb h2] at h ⊢
      by_cases h3 : c_lsb < 205
      · rw [if_pos h3] at h ⊢
        rw [add_af_to_list_false _ c_lsb true h]
        exact ⟨rfl, rfl⟩
      · rw [if_neg h3]
        exact ⟨rfl, rfl⟩
    · rw [add_af_set_plain_pair a c_msb c_lsb h1 h2, Bool.or_eq_false_iff] at h
      rw [add_af_set_plain a c_msb c_lsb h1 h2]
      obtain ⟨hx, hy⟩ := h
      have eX : (if c_msb < 205 then (rds_add_af_to_list a c_msb true).2 else a) = a := by
        by_cases h4 : c_msb < 205
        · rw [if_pos h4] at hy ⊢
          exact add_af_to_list_false a c_msb true hy
        · rw [if_neg h4]
      rw [eX] at hx ⊢
      by_cases h3 : c_lsb < 205
      · rw [if_pos h3] at hx ⊢
        rw [add_af_to_list_false a c_lsb true hx]
        exact ⟨rfl, rfl⟩
      · rw [if_neg h3]
        exact ⟨rfl, rfl⟩

theorem reports_decode_b (t : rds_private_state) (b : v4l2_rds_data) :
    reports (rds_decode_b t b).1 t (rds_decode_b t b).2 := by
  unfold rds_decode_b
  simp only []
  split_ifs <;> intro f hne <;> cases f <;>
    first
    | exact absurd rfl hne
    | exact absurd (And.intro rfl rfl) hne
    | exact bit_set_or_self _ _ (by decide)
    | exact (bit_set_or _ _ _).mpr (Or.inl (bit_set_or_self _ _ (by decide)))

theorem reports_ta_ms (s : rds_private_state) :
    reports (rds_decode_ta_ms s).1 s (rds_decode_ta_ms s).2 := by
  unfold rds_decode_ta_ms
  simp only []
  split_ifs <;> intro f hne <;> cases f <;>
    first
    | exact absurd rfl hne
    | exact absurd (And.intro rfl rfl) hne
    | exact bit_set_or_self _ _ (by decide)
    | exact (bit_set_or _ _ _).mpr (Or.inl (bit_set_or_self _ _ (by decide)))

theorem mono_ps (acc : Nat × rds_private_state) (m : Nat) (h : bit_set acc.1 m) :
    bit_set (rds_decode_ps acc).1 m := by
  unfold rds_decode_ps
  simp only []
  split_ifs <;> first | exact h | exact (bit_set_or _ _ _).mpr (Or.inl h)

theorem reports_ps (acc : Nat × rds_private_state) :
    reports (rds_decode_ps acc).1 acc.2 (rds_decode_ps acc).2 := by
  unfold rds_decode_ps rds_add_ps
  simp only []
  split_ifs <;> intro f hne <;> cases f <;>
    first
    | exact absurd rfl hne
    | exact absurd (And.intro rfl rfl) hne
    | exact bit_set_or_self _ _ (by decide)

theorem mono_di (acc : Nat × rds_private_state) (m : Nat) (h : bit_set acc.1 m) :
    bit_set (rds_decode_di acc).1 m := by
  unfold rds_decode_di
  simp only []
  split_ifs <;> first | exact h | exact (bit_set_or _ _ _).mpr (Or.inl h)

theorem reports_di (acc : Nat × rds_private_state) :
    reports (rds_decode_di acc).1 acc.2 (rds_decode_di acc).2 := by
  unfold rds_decode_di
  simp only []
  split_ifs <;> intro f hne <;> cases f <;>
    first
    | exact absurd rfl hne
    | exact absurd (And.intro rfl rfl) hne
    | exact bit_set_or_self _ _ (by decide)

theorem mono_af (acc : Nat × rds_private_state) (m : Nat) (h : bit_set acc.1 m) :
    bit_set (rds_decode_af acc).1 m := by
  unfold rds_decode_af
  simp only []
  split_ifs <;> first | exact h | exact (bit_set_or _ _ _).mpr (Or.inl h)

theorem reports_af (acc : Nat × rds_private_state) :
    reports (rds_decode_af acc).1 acc.2 (rds_decode_af acc).2 := by
  unfold rds_decode_af rds_add_af
  simp only []
  split_ifs with h1 h2 h3 <;> intro f hne <;> cases f <;>
    first
    | exact absurd rfl hne
    | exact bit_set_or_self _ _ (by decide)
    | exact absurd (add_af_set_false _ _ _ (Bool.eq_false_iff.mpr h2)) hne
    | exact absurd (And.intro rfl rfl) hne

theorem reports_group0 (s : rds_private_state) :
    reports (rds_decode_group0 s).1 s (rds_decode_group0 s).2 := by
  unfold rds_decode_group0
  have h1 := reports_ta_ms s
  have h2 := reports_chain _ _ _ _ _ h1 (mono_ps _) (reports_ps (rds_decode_ta_ms s))
  have h3 := reports_chain _ _ _ _ _ h2 (mono_di _) (reports_di _)
  exact reports_chain _ _ _ _ _ h3 (mono_af _) (reports_af _)

theorem reports_group1 (s : rds_private_state) :
    reports (rds_decode_group1 s).1 s (rds_decode_group1 s).2 := by
  unfold rds_decode_group1
  simp only []
  split_ifs with h1 h2 h3 h4 h5 h6 <;> intro f hne <;> cases f <;>
    first
    | exact absurd rfl hne
    | exact absurd (And.intro rfl rfl) hne
    | exact bit_set_or_self _ _ (by decide)
    | exact absurd (not_not.mp h4).symm hne

theorem reports_rt_flag (s : rds_private_state) :
    reports (rds_decode_rt_flag s).1 s (rds_decode_rt_flag s).2 := by
  unfold rds_decode_rt_flag
  simp only []
  split_ifs <;> intro f hne <;> cases f <;>
    first
    | exact absurd rfl hne
    | exact absurd (And.intro rfl rfl) hne
    | exact bit_set_or_self _ _ (by decide)

theorem mono_rt_segment (acc : Nat × rds_private_state) (m : Nat) (h : bit_set acc.1 m) :
    bit_set (rds_decode_rt_segment acc).1 m := by
  unfold rds_decode_rt_segment
  simp only []
  split_ifs <;>
    first
    | exact h
    | exact (bit_set_or _ _ _).mpr (Or.inl h)
    | exact (bit_set_or _ _ _).mpr (Or.inl ((bit_set_or _ _ _).mpr (Or.inl h)))

theorem reports_rt_segment (acc : Nat × rds_private_state) :
    reports (rds_decode_rt_segment acc).1 acc.2 (rds_decode_rt_segment acc).2 := by
  unfold rds_decode_rt_segment
  simp only []
  split_ifs <;> intro f hne <;> cases f <;>
    first
    | exact absurd rfl hne
    | exact absurd (And.intro rfl rfl) hne
    | exact bit_set_or_self _ _ (by decide)

theorem mono_cr_step (acc : Nat × rds_private_state) (i m : Nat) (h : bit_set acc.1 m) :
    bit_set (rds_rt_cr_step acc i).1 m := by
  unfold rds_rt_cr_step
  simp only []
  split_ifs <;> first | exact h | exact (bit_set_or _ _ _).mpr (Or.inl h)

theorem reports_cr_step (acc : Nat × rds_private_state) (i : Nat) :
    reports (rds_rt_cr_step acc i).1 acc.2 (rds_rt_cr_step acc i).2 := by
  unfold rds_rt_cr_step
  simp only []
  split_ifs <;> intro f hne <;> cases f <;>
    first
    | exact absurd rfl hne
    | exact absurd (And.intro rfl rfl) hne
    | exact bit_set_or_self _ _ (by decide)

theorem reports_cr_loop (l : List Nat) (acc : Nat × rds_private_state) :
    (∀ m, bit_set acc.1 m → bit_set (l.foldl rds_rt_cr_step acc).1 m) ∧
    reports (l.foldl rds_rt_cr_step acc).1 acc.2 (l.foldl rds_rt_cr_step acc).2 := by
  induction l generalizing acc with
  | nil => exact ⟨fun _ h => h, reports_same _ _ _ rfl⟩
  | cons i l ih =>
    rw [List.foldl_cons]
    obtain ⟨m1, r1⟩ := ih (rds_rt_cr_step acc i)
    refine ⟨fun m h => m1 m (mono_cr_step acc i m h), ?_⟩
    exact reports_chain _ _ _ _ _ (reports_cr_step acc i) m1 r1

theorem reports_group2 (s : rds_private_state) :
    reports (rds_decode_group2 s).1 s (rds_decode_group2 s).2 := by
  unfold rds_decode_group2
  have h1 := reports_rt_flag s
  have h2 := reports_chain _ _ _ _ _ h1 (mono_rt_segment _) (reports_rt_segment _)
  obtain ⟨m3, r3⟩ := reports_cr_loop (List.range 64)
    (rds_decode_rt_segment (rds_decode_rt_flag s))
  exact reports_chain _ _ _ _ _ h2 m3 r3

theorem reports_group3 (s : rds_private_state) :
    reports (rds_decode_group3 s).1 s (rds_decode_group3 s).2 := by
  apply reports_same
  unfold rds_decode_group3 rds_add_oda
  simp only []
  split_ifs <;> rfl

theorem reports_group4 (s : rds_private_state) :
    reports (rds_decode_group4 s).1 s (rds_decode_group4 s).2 := by
  unfold rds_decode_group4
  simp only []
  split_ifs <;> intro f hne <;> cases f <;>
    first
    | exact absurd rfl hne
    | exact absurd (And.intro rfl rfl) hne
    | exact bit_set_or_self _ _ (by decide)

theorem reports_ptyn_flag (s : rds_private_state) :
    reports (rds_decode_ptyn_flag s).1 s (rds_decode_ptyn_flag s).2 := by
  unfold rds_decode_ptyn_flag
  simp only []
  split_ifs <;> intro f hne <;> cases f <;>
    first
    | exact absurd rfl hne
    | exact absurd (And.intro rfl rfl) hne
    | exact bit_set_or_self _ _ (by decide)

theorem reports_ptyn_half (acc : Nat × rds_private_state) :
    reports (rds_decode_ptyn_half acc).1 acc.2 (rds_decode_ptyn_half acc).2 := by
  apply reports_same
  rw [(ptyn_half_fields acc).2.1]

theorem mono_ptyn_accept (acc : Nat × rds_private_state) (m : Nat) (h : bit_set acc.1 m) :
    bit_set (rds_decode_ptyn_accept acc).1 m := by
  unfold rds_decode_ptyn_accept
  simp only []
  split_ifs <;> first | exact h | exact (bit_set_or _ _ _).mpr (Or.inl h)

theorem reports_ptyn_accept (acc : Nat × rds_private_state) :
    reports (rds_decode_ptyn_accept acc).1 acc.2 (rds_decode_ptyn_accept acc).2 := by
  unfold rds_decode_ptyn_accept
  simp only []
  split_ifs <;> intro f hne <;> cases f <;>
    first
    | exact absurd rfl hne
    | exact absurd (And.intro rfl rfl) hne
    | exact bit_set_or_self _ _ (by decide)

theorem reports_group10 (s : rds_private_state) :
    reports (rds_decode_group10 s).1 s (rds_decode_group10 s).2 := by
  unfold rds_decode_group10
  split_ifs
  · exact reports_same _ _ _ rfl
  · have h1 := reports_ptyn_flag s
    have hm : ∀ m, bit_set (rds_decode_ptyn_flag s).1 m →
        bit_set (rds_decode_ptyn_half (rds_decode_ptyn_flag s)).1 m := by
      intro m h
      rw [(ptyn_half_fields _).1]
      exact h
    have h2 := reports_chain _ _ _ _ _ h1 hm (reports_ptyn_half _)
    exact reports_chain _ _ _ _ _ h2 (mono_ptyn_accept _) (reports_ptyn_accept _)

theorem reports_decode_group (X : rds_private_state) :
    reports (rds_decode_group X).1 X (rds_decode_group X).2 := by
  rw [decode_group_eq]
  have hc : pub_part (count_type X).handle = pub_part X.handle := rfl
  split_ifs
  · exact reports_left _ _ _ _ (reports_group0 _) hc
  · exact reports_left _ _ _ _ (reports_group1 _) hc
  · exact reports_left _ _ _ _ (reports_group2 _) hc
  · exact reports_left _ _ _ _ (reports_group3 _) hc
  · exact reports_left _ _ _ _ (reports_group4 _) hc
  · exact reports_left _ _ _ _ (reports_group10 _) hc
  · exact reports_same _ _ _ hc

theorem reports_complete (t : rds_private_state) :
    reports (decode_complete t).1 t (decode_complete t).2 := by
  have h1 : reports (rds_decode_a { t with rds_group := zero_group } (t.rds_data_raw 0)).1 t
      (rds_decode_a { t with rds_group := zero_group } (t.rds_data_raw 0)).2 :=
    reports_left _ _ _ _ (reports_decode_a _ _) rfl
  have h2 := reports_decode_b
    (rds_decode_a { t with rds_group := zero_group } (t.rds_data_raw 0)).2 (t.rds_data_raw 1)
  have h3 : reports (rds_decode_group (decode_abcd t)).1
      (rds_decode_b (rds_decode_a { t with rds_group := zero_group } (t.rds_data_raw 0)).2
        (t.rds_data_raw 1)).2 (rds_decode_group (decode_abcd t)).2 :=
    reports_left _ _ _ _ (reports_decode_group _) rfl
  have h := reports_step _ _ _ _ _ (reports_step _ _ _ _ _ h1 h2) h3
  have e : (decode_complete t).1 =
      0 ||| (rds_decode_a { t with rds_group := zero_group } (t.rds_data_raw 0)).1 |||
        (rds_decode_b (rds_decode_a { t with rds_group := zero_group } (t.rds_data_raw 0)).2
          (t.rds_data_raw 1)).1 ||| (rds_decode_group (decode_abcd t)).1 := rfl
  rw [e, Nat.zero_or, decode_complete_state]
  exact h

theorem reports_add (s : rds_private_state) (b : v4l2_rds_data) :
    reports (v4l2_rds_add s b).1 s (v4l2_rds_add s b).2 := by
  by_cases hc : s.decode_state = RDS_C_RECEIVED ∧ has_id b 3
  · rw [add_d s b hc.1 hc.2]
    exact reports_left _ _ _ _ (reports_complete _) rfl
  · apply reports_same
    have e := congrArg (fun x : rds_private_state => pub_part x.handle) (add_incomplete s b hc).2
    exact e

/-! ## Properties of the updated fields (claim C27) -/

/-- Claim C27: for every decoder state and every ingested block, each of the fields
`pi`, `pty`, `ps`, `ptyn`, `rt`, `tp`, `ta`, `ms`, `di`, `ecc`, `lc`, `time` and the
stored AF list (its size and its frequencies) whose value differs before and after the
ingest has its bit set in the returned `updated_fields`. -/
theorem updated_fields_name_changes (s : rds_private_state) (b : v4l2_rds_data) :
    ((v4l2_rds_add s b).2.handle.pi ≠ s.handle.pi → bit_set (v4l2_rds_add s b).1 V4L2_RDS_PI) ∧
    ((v4l2_rds_add s b).2.handle.pty ≠ s.handle.pty →
      bit_set (v4l2_rds_add s b).1 V4L2_RDS_PTY) ∧
    ((v4l2_rds_add s b).2.handle.ps ≠ s.handle.ps → bit_set (v4l2_rds_add s b).1 V4L2_RDS_PS) ∧
    ((v4l2_rds_add s b).2.handle.ptyn ≠ s.handle.ptyn →
      bit_set (v4l2_rds_add s b).1 V4L2_RDS_PTYN) ∧
    ((v4l2_rds_add s b).2.handle.rt ≠ s.handle.rt → bit_set (v4l2_rds_add s b).1 V4L2_RDS_RT) ∧
    ((v4l2_rds_add s b).2.handle.tp ≠ s.handle.tp → bit_set (v4l2_rds_add s b).1 V4L2_RDS_TP) ∧
    ((v4l2_rds_add s b).2.handle.ta ≠ s.handle.ta → bit_set (v4l2_rds_add s b).1 V4L2_RDS_TA) ∧
    ((v4l2_rds_add s b).2.handle.ms ≠ s.handle.ms → bit_set (v4l2_rds_add s b).1 V4L2_RDS_MS) ∧
    ((v4l2_rds_add s b).2.handle.di ≠ s.handle.di → bit_set (v4l2_rds_add s b).1 V4L2_RDS_DI) ∧
    ((v4l2_rds_add s b).2.handle.ecc ≠ s.handle.ecc →
      bit_set (v4l2_rds_add s b).1 V4L2_RDS_ECC) ∧
    ((v4l2_rds_add s b).2.handle.lc ≠ s.handle.lc → bit_set (v4l2_rds_add s b).1 V4L2_RDS_LC) ∧
    ((v4l2_rds_add s b).2.handle.time ≠ s.handle.time →
      bit_set (v4l2_rds_add s b).1 V4L2_RDS_TIME) ∧
    (((v4l2_rds_add s b).2.handle.rds_af.size ≠ s.handle.rds_af.size ∨
        (v4l2_rds_add s b).2.handle.rds_af.af ≠ s.handle.rds_af.af) →
      bit_set (v4l2_rds_add s b).1 V4L2_RDS_AF) := by
  have h := reports_add s b
  exact ⟨h pub_field.pi, h pub_field.pty, h pub_field.ps, h pub_field.ptyn, h pub_field.rt,
    h pub_field.tp, h pub_field.ta, h pub_field.ms, h pub_field.di, h pub_field.ecc,
    h pub_field.lc, h pub_field.time,
    fun hne => h pub_field.af (fun hs => hne.elim (fun a => a hs.1) (fun a => a hs.2))⟩

/-! ## The bits of `updated_fields` -/

theorem bits_or (a b : Nat) (ha : a ||| field_bits = field_bits)
    (hb : b ||| field_bits = field_bits) : (a ||| b) ||| field_bits = field_bits := by
  rw [Nat.or_assoc, hb, ha]

theorem bits_zero : 0 ||| field_bits = field_bits := by decide

theorem bits_decode_a (t : rds_private_state) (a : v4l2_rds_data) :
    (rds_decode_a t a).1 ||| field_bits = field_bits := by
  unfold rds_decode_a
  simp only []
  split_ifs <;> dsimp only <;> decide

theorem bits_decode_b (t : rds_private_state) (b : v4l2_rds_data) :
    (rds_decode_b t b).1 ||| field_bits = field_bits := by
  unfold rds_decode_b
  simp only []
  split_ifs <;> dsimp only <;> decide

theorem bits_ta_ms (s : rds_private_state) :
    (rds_decode_ta_ms s).1 ||| field_bits = field_bits := by
  unfold rds_decode_ta_ms
  simp only []
  split_ifs <;> dsimp only <;> decide

theorem bits_ps (acc : Nat × rds_private_state) (h : acc.1 ||| field_bits = field_bits) :
    (rds_decode_ps acc).1 ||| field_bits = field_bits := by
  unfold rds_decode_ps
  simp only []
  split_ifs <;> first | exact h | exact bits_or _ _ h (by decide)

theorem bits_di (acc : Nat × rds_private_state) (h : acc.1 ||| field_bits = field_bits) :
    (rds_decode_di acc).1 ||| field_bits = field_bits := by
  unfold rds_decode_di
  simp only []
  split_ifs <;> first | exact h | exact bits_or _ _ h (by decide)

theorem bits_af (acc : Nat × rds_private_state) (h : acc.1 ||| field_bits = field_bits) :
    (rds_decode_af acc).1 ||| field_bits = field_bits := by
  unfold rds_decode_af
  simp only []
  split_ifs <;> first | exact h | exact bits_or _ _ h (by decide)

theorem bits_group1 (s : rds_private_state) :
    (rds_decode_group1 s).1 ||| field_bits = field_bits := by
  unfold rds_decode_group1
  simp only []
  split_ifs <;> dsimp only <;> decide

theorem bits_rt_flag (s : rds_private_state) :
    (rds_decode_rt_flag s).1 ||| field_bits = field_bits := by
  unfold rds_decode_rt_flag
  simp only []
  split_ifs <;> dsimp only <;> decide

theorem bits_rt_segment (acc : Nat × rds_private_state)
    (h : acc.1 ||| field_bits = field_bits) :
    (rds_decode_rt_segment acc).1 ||| field_bits = field_bits := by
  unfold rds_decode_rt_segment
  simp only []
  split_ifs <;>
    first
    | exact h
    | exact bits_or _ _ h (by decide)
    | exact bits_or _ _ (bits_or _ _ h (by decide)) (by decide)

theorem bits_cr_step (acc : Nat × rds_private_state) (i : Nat)
    (h : acc.1 ||| field_bits = field_bits) :
    (rds_rt_cr_step acc i).1 ||| field_bits = field_bits := by
  unfold rds_rt_cr_step
  simp only []
  split_ifs <;> first | exact h | exact bits_or _ _ h (by decide)

theorem bits_cr_loop (l : List Nat) (acc : Nat × rds_private_state)
    (h : acc.1 ||| field_bits = field_bits) :
    (l.foldl rds_rt_cr_step acc).1 ||| field_bits = field_bits := by
  induction l generalizing acc with
  | nil => exact h
  | cons i l ih =>
    rw [List.foldl_cons]
    exact ih _ (bits_cr_step acc i h)

theorem bits_group3 (s : rds_private_state) :
    (rds_decode_group3 s).1 ||| field_bits = field_bits := by
  unfold rds_decode_group3
  simp only []
  split_ifs <;> dsimp only <;> decide

theorem bits_group4 (s : rds_private_state) :
    (rds_decode_group4 s).1 ||| field_bits = field_bits := by
  unfold rds_decode_group4
  simp only []
  split_ifs <;> dsimp only <;> decide

theorem bits_ptyn_flag (s : rds_private_state) :
    (rds_decode_ptyn_flag s).1 ||| field_bits = field_bits := by
  unfold rds_decode_ptyn_flag
  simp only []
  split_ifs <;> dsimp only <;> decide

theorem bits_ptyn_accept (acc : Nat × rds_private_state)
    (h : acc.1 ||| field_bits = field_bits) :
    (rds_decode_ptyn_accept acc).1 ||| field_bits = field_bits := by
  unfold rds_decode_ptyn_accept
  simp only []
  split_ifs <;> first | exact h | exact bits_or _ _ h (by decide)

theorem bits_decode_group (X : rds_private_state) :
    (rds_decode_group X).1 ||| field_bits = field_bits := by
  rw [decode_group_eq]
  split_ifs
  · exact bits_af _ (bits_di _ (bits_ps _ (bits_ta_ms _)))
  · exact bits_group1 _
  · exact bits_cr_loop _ _ (bits_rt_segment _ (bits_rt_flag _))
  · exact bits_group3 _
  · exact bits_group4 _
  · unfold rds_decode_group10
    split_ifs
    · exact bits_zero
    · apply bits_ptyn_accept
      rw [(ptyn_half_fields _).1]
      exact bits_ptyn_flag _
  · exact bits_zero

theorem bits_add (s : rds_private_state) (b : v4l2_rds_data) :
    (v4l2_rds_add s b).1 ||| field_bits = field_bits := by
  by_cases hc : s.decode_state = RDS_C_RECEIVED ∧ has_id b 3
  · rw [add_d s b hc.1 hc.2]
    exact bits_or _ _ (bits_or _ _ (bits_or _ _ bits_zero (bits_decode_a _ _))
      (bits_decode_b _ _)) (bits_decode_group _)
  · rw [(add_incomplete s b hc).1]
    exact bits_zero

/-! ## The cells beyond the bounds of the arrays -/

theorem outside_set {α : Type} (n : Nat) (a : Nat → α) (i : Nat) (v : α) (h : i < n) :
    outside n (arr_set a i v) = outside n a := by
  funext j
  unfold outside arr_set
  rw [if_neg (by omega)]

theorem outside_fill {α : Type} (n : Nat) (a : Nat → α) (m : Nat) (v : α) (h : m ≤ n) :
    outside n (arr_fill a m v) = outside n a := by
  funext j
  unfold outside arr_fill
  rw [if_neg (by omega)]

theorem outside_copy {α : Type} (n : Nat) (d s : Nat → α) (m : Nat) (h : m ≤ n) :
    outside n (arr_copy d s m) = outside n d := by
  funext j
  unfold outside arr_copy
  rw [if_neg (by omega)]

theorem outside_ptyn (p a b : Nat → Nat) :
    outside 8 (fun j => if j < 4 then a j else if j < 8 then b (j - 4) else p j) =
      outside 8 p := by
  funext j
  unfold outside
  simp only []
  rw [if_neg (by omega), if_neg (by omega)]

theorem outside_ptyn_clear (p : Nat → Nat → Nat) :
    outside 2 (fun h i => if h * 4 + i < 8 then 0 else p h i) = outside 2 p := by
  funext h i
  unfold outside
  simp only []
  rw [if_neg (by omega)]

theorem outside_raw_clear (raw : Nat → v4l2_rds_data) :
    outside 4 (raw_clear raw) = outside 4 raw := by
  funext j
  unfold outside raw_clear
  rw [if_neg (by omega), if_neg (by omega)]

theorem and_le_three (x : Nat) : x &&& 0x03 ≤ 3 := Nat.and_le_right

theorem and_le_fifteen (x : Nat) : x &&& 0x0f ≤ 15 := Nat.and_le_right

theorem and_le_one (x : Nat) : x &&& 0x01 ≤ 1 := Nat.and_le_right

theorem out_abcd (t : rds_private_state) : out_part (decode_abcd t) = out_part t := by
  unfold decode_abcd rds_decode_d rds_decode_c rds_decode_b rds_decode_a
  simp only []
  split_ifs <;> rfl

theorem out_ta_ms (s : rds_private_state) : out_part (rds_decode_ta_ms s).2 = out_part s := by
  unfold rds_decode_ta_ms
  simp only []
  split_ifs <;> rfl

theorem out_ps (acc : Nat × rds_private_state) :
    out_part (rds_decode_ps acc).2 = out_part acc.2 := by
  have h := and_le_three acc.2.rds_group.data_b_lsb
  have h0 : (acc.2.rds_group.data_b_lsb &&& 0x03) * 2 < 8 := by omega
  have h1 : (acc.2.rds_group.data_b_lsb &&& 0x03) * 2 + 1 < 8 := by omega
  unfold rds_decode_ps rds_add_ps
  simp only []
  split_ifs <;>
    simp only [out_part, outside_set _ _ _ _ h0, outside_set _ _ _ _ h1,
      outside_fill _ _ _ _ (Nat.le_refl 8), outside_copy _ _ _ _ (Nat.le_refl 8)]

theorem out_di (acc : Nat × rds_private_state) :
    out_part (rds_decode_di acc).2 = out_part acc.2 := by
  unfold rds_decode_di
  simp only []
  split_ifs <;> rfl

theorem out_af_to_list (a : v4l2_rds_af_set) (af : Nat) (vhf : Bool) :
    outside MAX_AF_CNT (rds_add_af_to_list a af vhf).2.af = outside MAX_AF_CNT a.af := by
  rcases add_af_to_list_cases a af vhf with ⟨-, h⟩ | ⟨-, -, h1, -, -, h⟩
  · rw [h]
  · rw [h]
    exact outside_set _ _ _ _ h1

theorem out_af_set (a : v4l2_rds_af_set) (c_msb c_lsb : Nat) :
    outside MAX_AF_CNT (rds_add_af_set a c_msb c_lsb).2.af = outside MAX_AF_CNT a.af := by
  by_cases h1 : c_msb = 250
  · rw [add_af_set_lf a c_msb c_lsb h1, out_af_to_list]
  · by_cases h2 : c_msb ≥ 224 ∧ c_msb ≤ 249
    · rw [add_af_set_count a c_msb c_lsb h2]
      split_ifs
      · rw [out_af_to_list]
      · rfl
    · rw [add_af_set_plain a c_msb c_lsb h1 h2]
      split_ifs
      · rw [out_af_to_list, out_af_to_list]
      · rw [out_af_to_list]
      · rw [out_af_to_list]
      · rfl

theorem out_af (acc : Nat × rds_private_state) :
    out_part (rds_decode_af acc).2 = out_part acc.2 := by
  have h := out_af_set acc.2.handle.rds_af acc.2.rds_group.data_c_msb
    acc.2.rds_group.data_c_lsb
  unfold rds_decode_af rds_add_af
  simp only []
  split_ifs <;> simp only [out_part, h]

theorem out_group0 (s : rds_private_state) : out_part (rds_decode_group0 s).2 = out_part s := by
  unfold rds_decode_group0
  rw [out_af, out_di, out_ps, out_ta_ms]

theorem out_group1 (s : rds_private_state) : out_part (rds_decode_group1 s).2 = out_part s := by
  unfold rds_decode_group1
  simp only []
  split_ifs <;> rfl

theorem out_rt_flag (s : rds_private_state) : out_part (rds_decode_rt_flag s).2 = out_part s := by
  unfold rds_decode_rt_flag
  simp only []
  split_ifs <;> simp only [out_part, outside_fill _ _ _ _ (Nat.le_refl 64)]

theorem out_rt_segment (acc : Nat × rds_private_state) :
    out_part (rds_decode_rt_segment acc).2 = out_part acc.2 := by
  have h := and_le_fifteen acc.2.rds_group.data_b_lsb
  have a0 : (acc.2.rds_group.data_b_lsb &&& 0x0f) * 4 < 64 := by omega
  have a1 : (acc.2.rds_group.data_b_lsb &&& 0x0f) * 4 + 1 < 64 := by omega
  have a2 : (acc.2.rds_group.data_b_lsb &&& 0x0f) * 4 + 2 < 64 := by omega
  have a3 : (acc.2.rds_group.data_b_lsb &&& 0x0f) * 4 + 3 < 64 := by omega
  have b0 : (acc.2.rds_group.data_b_lsb &&& 0x0f) * 2 < 64 := by omega
  have b1 : (acc.2.rds_group.data_b_lsb &&& 0x0f) * 2 + 1 < 64 := by omega
  unfold rds_decode_rt_segment
  simp only []
  split_ifs <;>
    simp only [out_part, outside_set _ _ _ _ a0, outside_set _ _ _ _ a1,
      outside_set _ _ _ _ a2, outside_set _ _ _ _ a3, outside_set _ _ _ _ b0,
      outside_set _ _ _ _ b1, outside_copy _ _ _ _ (Nat.le_refl 64),
      outside_copy _ _ _ _ (by decide : 32 ≤ 64)]

theorem out_cr_step (acc : Nat × rds_private_state) (i : Nat) (hi : i < 64) :
    out_part (rds_rt_cr_step acc i).2 = out_part acc.2 := by
  unfold rds_rt_cr_step
  simp only []
  split_ifs <;>
    simp only [out_part, outside_set _ _ _ _ hi, outside_copy _ _ _ _ (Nat.le_of_lt hi)]

theorem out_cr_loop (l : List Nat) (acc : Nat × rds_private_state) (hl : ∀ i ∈ l, i < 64) :
    out_part (l.foldl rds_rt_cr_step acc).2 = out_part acc.2 := by
  induction l generalizing acc with
  | nil => rfl
  | cons i l ih =>
    rw [List.foldl_cons, ih _ (fun j hj => hl j (List.mem_cons_of_mem _ hj)),
      out_cr_step acc i (hl i (List.mem_cons_self _ _))]

theorem out_group2 (s : rds_private_state) : out_part (rds_decode_group2 s).2 = out_part s := by
  unfold rds_decode_group2
  rw [out_cr_loop _ _ (fun i hi => List.mem_range.mp hi), out_rt_segment, out_rt_flag]

theorem out_add_oda (s : rds_private_state) (oda : v4l2_rds_oda) :
    out_part (rds_add_oda s oda).2 = out_part s := by
  unfold rds_add_oda
  simp only []
  split_ifs with h1 h2 h3
  · simp only [out_part, outside_set _ _ _ _ (by decide : 0 < MAX_ODA_CNT)]
  · rfl
  · rfl
  · simp only [out_part, outside_set _ _ _ _ (Nat.lt_of_not_ge h3)]

theorem out_group3 (s : rds_private_state) : out_part (rds_decode_group3 s).2 = out_part s := by
  have h : ∀ oda, out_part (rds_add_oda s oda).2 = out_part s := out_add_oda s
  unfold rds_decode_group3
  simp only []
  split_ifs <;> first | rfl | exact h _

theorem out_group4 (s : rds_private_state) : out_part (rds_decode_group4 s).2 = out_part s := by
  unfold rds_decode_group4
  simp only []
  split_ifs <;> rfl

theorem out_ptyn_flag (s : rds_private_state) :
    out_part (rds_decode_ptyn_flag s).2 = out_part s := by
  unfold rds_decode_ptyn_flag
  simp only []
  split_ifs <;>
    simp only [out_part, outside_fill _ _ _ _ (Nat.le_refl 8),
      outside_fill _ _ _ _ (Nat.le_refl 2), outside_ptyn_clear]

theorem out_ptyn_half (acc : Nat × rds_private_state) :
    out_part (rds_decode_ptyn_half acc).2 = out_part acc.2 := by
  have h := and_le_one acc.2.rds_group.data_b_lsb
  have h1 : acc.2.rds_group.data_b_lsb &&& 0x01 < 2 := by omega
  unfold rds_decode_ptyn_half
  simp only []
  split_ifs <;> simp only [out_part, outside_set _ _ _ _ h1]

theorem out_ptyn_accept (acc : Nat × rds_private_state) :
    out_part (rds_decode_ptyn_accept acc).2 = out_part acc.2 := by
  unfold rds_decode_ptyn_accept
  simp only []
  split_ifs <;> simp only [out_part, outside_ptyn]

theorem out_group10 (s : rds_private_state) :
    out_part (rds_decode_group10 s).2 = out_part s := by
  unfold rds_decode_group10
  split_ifs
  · rfl
  · rw [out_ptyn_accept, out_ptyn_half, out_ptyn_flag]

theorem out_count_type (X : rds_private_state) (h : X.rds_group.group_id < 16) :
    out_part (count_type X) = out_part X := by
  unfold count_type
  simp only [out_part, outside_set _ _ _ _ h]

theorem out_decode_group (X : rds_private_state) (h : X.rds_group.group_id < 16) :
    out_part (rds_decode_group X).2 = out_part X := by
  rw [decode_group_eq]
  split_ifs
  · rw [out_group0, out_count_type X h]
  · rw [out_group1, out_count_type X h]
  · rw [out_group2, out_count_type X h]
  · rw [out_group3, out_count_type X h]
  · rw [out_group4, out_count_type X h]
  · rw [out_group10, out_count_type X h]
  · exact out_count_type X h

theorem out_complete (t : rds_private_state) (h : group_id_of (t.rds_data_raw 1) < 16) :
    out_part (decode_complete t).2 = out_part t := by
  have hg : (decode_abcd t).rds_group.group_id = group_id_of (t.rds_data_raw 1) := by
    rw [abcd_group]
  rw [decode_complete_state, out_decode_group _ (by rw [hg]; exact h), out_abcd]

/-- An ingest writes no cell beyond the bounds of the arrays, when the block B in the
raw buffer holds bytes. -/
theorem out_add (s : rds_private_state) (b : v4l2_rds_data)
    (h : group_id_of (s.rds_data_raw 1) < 16) :
    out_part (v4l2_rds_add s b).2 = out_part s := by
  have c3 := (count_block_frame s.handle.rds_statistics b).2.2
  by_cases hc : s.decode_state = RDS_C_RECEIVED ∧ has_id b 3
  · rw [add_d s b hc.1 hc.2]
    refine Eq.trans (out_complete _ ?_) ?_
    · exact h
    · simp only [out_part, outside_set _ _ _ _ (by decide : 3 < 4), c3]
  · unfold v4l2_rds_add
    simp only []
    split_ifs with h0 h1 h2 h3 h4 h5 h6 h7
    all_goals first
      | (simp only [out_part, group_error, outside_set _ _ _ _ (by decide : 0 < 4),
          outside_set _ _ _ _ (by decide : 1 < 4), outside_set _ _ _ _ (by decide : 2 < 4),
          outside_raw_clear, c3]; done)
      | exact absurd (And.intro h6 (has_id_of_block_id b 3 h7)) hc

/-! ## The group type in every reachable state -/

theorem bounds_inv_add (s : rds_private_state) (b : v4l2_rds_data) (hs : bounds_inv s)
    (hb : is_bytes b) : bounds_inv (v4l2_rds_add s b).2 := by
  refine ⟨add_raw_bytes s b hs.1 hb, ?_⟩
  by_cases hc : s.decode_state = RDS_C_RECEIVED ∧ has_id b 3
  · rw [add_d s b hc.1 hc.2, (core_fields _ _ (decode_complete_core _)).1, abcd_group]
    exact (group_id_lt _ (hs.1 1)).2
  · have e := congrArg (fun x : rds_private_state => x.rds_group.group_id)
      (add_incomplete s b hc).2
    have e' : (v4l2_rds_add s b).2.rds_group.group_id = s.rds_group.group_id := e
    rw [e']
    exact hs.2

theorem bounds_inv_reset (s : rds_private_state) (f : Bool) :
    bounds_inv (v4l2_rds_reset s f) := by
  cases f <;> exact ⟨fun j => (by decide : is_bytes zero_data), (by decide : 0 < 16)⟩

theorem bounds_inv_calls (cs : List rds_call) (s : rds_private_state) (hs : bounds_inv s)
    (hb : ∀ c ∈ cs, call_bytes c) : bounds_inv (cs.foldl run_call s) := by
  induction cs generalizing s with
  | nil => exact hs
  | cons c cs ih =>
    rw [List.foldl_cons]
    apply ih
    · cases c with
      | add b => exact bounds_inv_add s b hs (hb _ (List.mem_cons_self _ _))
      | reset f => exact bounds_inv_reset s f
    · intro c' hc'
      exact hb c' (List.mem_cons_of_mem _ hc')

theorem bounds_inv_create (r : Bool) : bounds_inv (v4l2_rds_create r) :=
  ⟨fun j => (by decide : is_bytes zero_data), (by decide : 0 < 16)⟩

/-! ## Properties of the bounds (claim C28) -/

/-- Claim C28: in every state reached from create by ingests of byte blocks and by
resets, an ingest of any byte block (any block id, any flag bits) returns a bitset made
of the bits of `updated_fields` and uses its arrays within their bounds: the group type
that indexes `decode_group` and `group_type_cnt` is at most 15, the positions of
`new_ps` are at most 7, the indices of `new_rt` at most 63, the half of `new_ptyn` at
most 1, the AF list and the ODA list stay within MAX_AF_CNT and MAX_ODA_CNT, and no
cell beyond the bounds of any array is written. -/
theorem ingest_in_bounds (r : Bool) (cs : List rds_call) (b : v4l2_rds_data)
    (hcs : ∀ c ∈ cs, call_bytes c) (hb : is_bytes b) :
    (v4l2_rds_add (run_calls r cs) b).1 ||| field_bits = field_bits ∧
    group_id_of ((run_calls r cs).rds_data_raw 1) ≤ 15 ∧
    (v4l2_rds_add (run_calls r cs) b).2.rds_group.group_id ≤ 15 ∧
    segment_of b * 2 + 1 ≤ 7 ∧ rt_segment_of b * 4 + 3 ≤ 63 ∧ ptyn_half_of b ≤ 1 ∧
    (run_calls r cs).handle.rds_af.size ≤ MAX_AF_CNT ∧
    (v4l2_rds_add (run_calls r cs) b).2.handle.rds_af.size ≤ MAX_AF_CNT ∧
    (run_calls r cs).handle.rds_oda.size ≤ MAX_ODA_CNT ∧
    (v4l2_rds_add (run_calls r cs) b).2.handle.rds_oda.size ≤ MAX_ODA_CNT ∧
    out_part (v4l2_rds_add (run_calls r cs) b).2 = out_part (run_calls r cs) := by
  have hi : bounds_inv (run_calls r cs) := bounds_inv_calls cs _ (bounds_inv_create r) hcs
  have hi' := bounds_inv_add _ b hi hb
  have hg := (group_id_lt _ (hi.1 1)).2
  obtain ⟨-, -, o1, a1, -, -⟩ := reach_inv_run r cs
  obtain ⟨-, -, o2, a2, -, -⟩ := reach_inv_add _ b (reach_inv_run r cs)
  have s1 := and_le_three (b.lsb &&& 0x1f)
  have s2 := and_le_fifteen (b.lsb &&& 0x1f)
  have s3 := and_le_one (b.lsb &&& 0x1f)
  have m18 : (1 : Nat) ≤ MAX_ODA_CNT := by decide
  refine ⟨bits_add _ b, Nat.le_of_lt_succ hg, Nat.le_of_lt_succ hi'.2, ?_, ?_, ?_, a1, a2,
    Nat.le_trans o1 m18, Nat.le_trans o2 m18, out_add _ b hg⟩
  · unfold segment_of
    omega
  · unfold rt_segment_of
    omega
  · unfold ptyn_half_of
    omega

/-- Witness of claim C28: a block with the reserved id 7, both flag bits and the bytes
0xFF, ingested after the sample calls. -/
theorem ingest_in_bounds_witness :
    ((∀ c ∈ sample_calls, call_bytes c) ∧ is_bytes reserved_block) ∧
    (v4l2_rds_add (run_calls false sample_calls) reserved_block).1 ||| field_bits =
      field_bits ∧
    (v4l2_rds_add (run_calls false sample_calls) reserved_block).2.rds_group.group_id ≤ 15 ∧
    out_part (v4l2_rds_add (run_calls false sample_calls) reserved_block).2 =
      out_part (run_calls false sample_calls) :=
  ⟨⟨by decide, by decide⟩,
    (ingest_in_bounds false sample_calls reserved_block (by decide) (by decide)).1,
    (ingest_in_bounds false sample_calls reserved_block (by decide) (by decide)).2.2.1,
    (ingest_in_bounds false sample_calls reserved_block (by decide)
      (by decide)).2.2.2.2.2.2.2.2.2.2⟩

/-! ## The country and the language of a snapshot -/

theorem country_code_lt (pi : Nat) (h : pi < 2 ^ 16) : pi >>> 12 < 16 := by
  rw [Nat.shiftRight_eq_div_pow]
  omega

theorem ecc_nibbles (ecc : Nat) :
    ecc >>> 4 = ecc / 16 ∧ ecc &&& 0x0f = ecc % 16 :=
  ⟨Nat.shiftRight_eq_div_pow ecc 4, Nat.and_pow_two_sub_one_eq_mod ecc 4⟩

/-- The branches of `v4l2_rds_get_country_str` for an `uint8_t` ECC and an `uint16_t`
PI code. -/
theorem country_str_eq (h : v4l2_rds) (he : h.ecc < 256) (hp : h.pi < 2 ^ 16) :
    v4l2_rds_get_country_str h =
      if h.ecc >>> 4 = 0x0e ∧ h.ecc &&& 0x0f ≤ 4 then
        lut_cell e_lut (h.ecc &&& 0x0f) (h.pi >>> 12)
      else some "Unknown" := by
  obtain ⟨e1, e2⟩ := ecc_nibbles h.ecc
  have hc := country_code_lt h.pi hp
  unfold v4l2_rds_get_country_str
  simp only []
  rw [Nat.mod_eq_of_lt (by rw [e1]; omega : h.ecc >>> 4 < 256),
    Nat.mod_eq_of_lt (by rw [e2]; omega : h.ecc &&& 0x0f < 256),
    Nat.mod_eq_of_lt (by omega : h.pi >>> 12 < 256)]

theorem e_lut_dash : ∀ e, e < 5 → ∀ c, c < 16 →
    (lut_cell e_lut e c = some "-" ↔ e = 4 ∧ c = 7) := by
  decide

theorem e_lut_none (e c : Nat) (he : e < 5) (hc : c < 16) :
    lut_cell e_lut e c = none ↔
      c = 0 ∨ (e = 0 ∧ c = 14) ∨ (e = 2 ∧ c = 8) ∨ (e = 3 ∧ (c = 5 ∨ c = 6 ∨ c = 7)) ∨
      (e = 4 ∧ (c = 4 ∨ c = 5 ∨ c = 11 ∨ c = 13 ∨ c = 14)) := by
  interval_cases e <;> interval_cases c <;> decide


theorem language_gaps (lc : Nat) (h1 : 44 ≤ lc) (h2 : lc ≤ 68) :
    rds_language_lut lc = some "Unknown" := by
  interval_cases lc <;> rfl

theorem language_above (lc : Nat) (h : lc > 127) : rds_language_lut lc = some "Unknown" := by
  unfold rds_language_lut
  simp only []
  rw [if_pos h]
  rfl

theorem language_present (lc : Nat) : ∃ s, rds_language_lut lc = some s := by
  by_cases h1 : lc > 127
  · exact ⟨_, language_above lc h1⟩
  · unfold rds_language_lut
    simp only []
    rw [if_neg h1]
    cases language_lut.getD lc none with
    | none => exact ⟨_, rfl⟩
    | some s => exact ⟨s, rfl⟩

/-! ## Properties of the country and language lookup (claims C31 and C33) -/

/-- Claim C31, amended: for an `uint8_t` ECC and an `uint16_t` PI code,
`v4l2_rds_get_country_str` returns "Unknown" when the high nibble of the ECC is not
0x0E or its low nibble is greater than 4, and otherwise the cell of the European table
selected by the low nibble of the ECC and by code = pi >> 12.  The dash "-" is the
cell (ecc_l = 4, code = 7) and no other cell; the cell (ecc_l = 1, code = 7) is "LU". -/
theorem country_lookup (h : v4l2_rds) (he : h.ecc < 256) (hp : h.pi < 2 ^ 16) :
    ((h.ecc >>> 4 ≠ 0x0E ∨ h.ecc &&& 0x0F > 4) →
      v4l2_rds_get_country_str h = some "Unknown") ∧
    ((h.ecc >>> 4 = 0x0E ∧ h.ecc &&& 0x0F ≤ 4) →
      v4l2_rds_get_country_str h = lut_cell e_lut (h.ecc &&& 0x0F) (h.pi >>> 12)) ∧
    (v4l2_rds_get_country_str h = some "-" ↔ h.ecc &&& 0x0F = 4 ∧ h.ecc >>> 4 = 0x0E ∧
      h.pi >>> 12 = 7) ∧
    ((h.ecc >>> 4 = 0x0E ∧ h.ecc &&& 0x0F = 1 ∧ h.pi >>> 12 = 7) →
      v4l2_rds_get_country_str h = some "LU") := by
  have hc := country_code_lt h.pi hp
  rw [country_str_eq h he hp]
  refine ⟨?_, ?_, ?_, ?_⟩
  · intro hn
    rw [if_neg]
    intro hg
    rcases hn with hn | hn
    · exact hn hg.1
    · exact absurd hg.2 (by omega)
  · intro hg
    rw [if_pos hg]
  · by_cases hg : h.ecc >>> 4 = 0x0e ∧ h.ecc &&& 0x0f ≤ 4
    · rw [if_pos hg, e_lut_dash _ (by omega) _ hc]
      constructor
      · intro hd
        exact ⟨hd.1, hg.1, hd.2⟩
      · intro hd
        exact ⟨hd.1, hd.2.2⟩
    · rw [if_neg hg]
      constructor
      · intro hd
        exact absurd hd (by decide)
      · intro hd
        exact absurd ⟨hd.2.1, by omega⟩ hg
  · intro hd
    rw [if_pos ⟨hd.1, by omega⟩, hd.2.1, hd.2.2]
    rfl

/-- Witness of claim C31: the ECC 0xE4 with the PI code 0x7ABC gives the dash, the ECC
0xA0 gives "Unknown". -/
theorem country_lookup_witness :
    ((sample_handle 0xE4 0x7ABC 0).ecc < 256 ∧ (sample_handle 0xE4 0x7ABC 0).pi < 2 ^ 16 ∧
      (sample_handle 0xA0 0x7ABC 0).ecc >>> 4 ≠ 0x0E) ∧
    v4l2_rds_get_country_str (sample_handle 0xE4 0x7ABC 0) = some "-" ∧
    v4l2_rds_get_country_str (sample_handle 0xA0 0x7ABC 0) = some "Unknown" :=
  ⟨⟨by decide, by decide, by decide⟩,
    (country_lookup (sample_handle 0xE4 0x7ABC 0) (by decide) (by decide)).2.2.1.mpr
      (by decide),
    (country_lookup (sample_handle 0xA0 0x7ABC 0) (by decide) (by decide)).1
      (Or.inl (by decide))⟩

/-- Counterexample to claim C31: for the ECC 0xE1 and the PI code 0x7000, that is the
cell (ecc_l = 1, code = 7), `v4l2_rds_get_country_str` returns "LU", not the dash. -/
theorem country_lookup_counterexample :
    (sample_handle 0xE1 0x7000 0).ecc &&& 0x0F = 1 ∧
    (sample_handle 0xE1 0x7000 0).pi >>> 12 = 7 ∧
    v4l2_rds_get_country_str (sample_handle 0xE1 0x7000 0) = some "LU" ∧
    v4l2_rds_get_country_str (sample_handle 0xE1 0x7000 0) ≠ some "-" := by
  decide

/-- Claim C33: for every ECC in 0xE0..0xE4 and every `uint16_t` PI code,
`v4l2_rds_get_country_str` returns the absent value `NULL`, not "Unknown", when the
high nibble of the PI code is 0, and in all exactly for the undefined cells of the
European table: code 0, ECC 0xE0 with code 14, ECC 0xE2 with code 8, ECC 0xE3 with the
codes 5 to 7 and ECC 0xE4 with the codes 4, 5, 11, 13, 14.  The language lookup
`v4l2_rds_get_language_str` returns a present string for every `lc`: "Unknown" for
`lc` above 127 and for the gaps 44 to 68 of the table. -/
theorem country_lookup_absent (h : v4l2_rds) (he : 0xE0 ≤ h.ecc ∧ h.ecc ≤ 0xE4)
    (hp : h.pi < 2 ^ 16) :
    (h.pi >>> 12 = 0 → v4l2_rds_get_country_str h = none) ∧
    (v4l2_rds_get_country_str h = none ↔
      h.pi >>> 12 = 0 ∨ (h.ecc = 0xE0 ∧ h.pi >>> 12 = 14) ∨ (h.ecc = 0xE2 ∧ h.pi >>> 12 = 8) ∨
      (h.ecc = 0xE3 ∧ (h.pi >>> 12 = 5 ∨ h.pi >>> 12 = 6 ∨ h.pi >>> 12 = 7)) ∨
      (h.ecc = 0xE4 ∧ (h.pi >>> 12 = 4 ∨ h.pi >>> 12 = 5 ∨ h.pi >>> 12 = 11 ∨
        h.pi >>> 12 = 13 ∨ h.pi >>> 12 = 14))) ∧
    (v4l2_rds_get_country_str h = none → v4l2_rds_get_country_str h ≠ some "Unknown") ∧
    (∀ k : v4l2_rds, ∃ s, v4l2_rds_get_language_str k = some s) ∧
    (∀ k : v4l2_rds, k.lc > 127 → v4l2_rds_get_language_str k = some "Unknown") ∧
    (∀ k : v4l2_rds, 44 ≤ k.lc → k.lc ≤ 68 → v4l2_rds_get_language_str k = some "Unknown") := by
  have hc := country_code_lt h.pi hp
  obtain ⟨e1, e2⟩ := ecc_nibbles h.ecc
  have hg : h.ecc >>> 4 = 0x0e ∧ h.ecc &&& 0x0f ≤ 4 := by
    rw [e1, e2]
    omega
  have hl : h.ecc &&& 0x0f = h.ecc - 0xE0 := by
    rw [e2]
    omega
  have hn := e_lut_none (h.ecc - 0xE0) (h.pi >>> 12) (by omega) hc
  have hs : v4l2_rds_get_country_str h = lut_cell e_lut (h.ecc - 0xE0) (h.pi >>> 12) := by
    rw [country_str_eq h (by omega) hp, if_pos hg, hl]
  have hiff : v4l2_rds_get_country_str h = none ↔
      h.pi >>> 12 = 0 ∨ (h.ecc = 0xE0 ∧ h.pi >>> 12 = 14) ∨ (h.ecc = 0xE2 ∧ h.pi >>> 12 = 8) ∨
      (h.ecc = 0xE3 ∧ (h.pi >>> 12 = 5 ∨ h.pi >>> 12 = 6 ∨ h.pi >>> 12 = 7)) ∨
      (h.ecc = 0xE4 ∧ (h.pi >>> 12 = 4 ∨ h.pi >>> 12 = 5 ∨ h.pi >>> 12 = 11 ∨
        h.pi >>> 12 = 13 ∨ h.pi >>> 12 = 14)) := by
    rw [hs, hn]
    constructor
    · intro hd
      omega
    · intro hd
      omega
  refine ⟨fun h0 => hiff.mpr (Or.inl h0), hiff, ?_, ?_, ?_, ?_⟩
  · intro hnone
    rw [hnone]
    exact fun hx => Option.noConfusion hx
  · intro k
    exact language_present k.lc
  · intro k hk
    exact language_above k.lc hk
  · intro k h1 h2
    exact language_gaps k.lc h1 h2

/-- Witness of claim C33: the ECC 0xE2 with the PI code 0x0123, whose high nibble is 0,
has no country string. -/
theorem country_lookup_absent_witness :
    ((0xE0 ≤ (sample_handle 0xE2 0x0123 0).ecc ∧ (sample_handle 0xE2 0x0123 0).ecc ≤ 0xE4) ∧
      (sample_handle 0xE2 0x0123 0).pi < 2 ^ 16 ∧ (sample_handle 0xE2 0x0123 0).pi >>> 12 = 0) ∧
    v4l2_rds_get_country_str (sample_handle 0xE2 0x0123 0) = none :=
  ⟨⟨by decide, by decide, by decide⟩,
    (country_lookup_absent (sample_handle 0xE2 0x0123 0) (by decide) (by decide)).1
      (by decide)⟩

/-! ## The block accounting -/

/-- What an ingest does with its block: it is counted, and either stored for the group
under assembly, or it completes a group, or it is counted as a group error and the
blocks under assembly are dropped. -/
theorem add_accounting (s : rds_private_state) (b : v4l2_rds_data) :
    (v4l2_rds_add s b).2.handle.rds_statistics.block_cnt =
      inc32 s.handle.rds_statistics.block_cnt ∧
    ((s.decode_state < 3 ∧ (v4l2_rds_add s b).2.decode_state = s.decode_state + 1 ∧
        (v4l2_rds_add s b).2.handle.rds_statistics.group_cnt =
          s.handle.rds_statistics.group_cnt ∧
        (v4l2_rds_add s b).2.handle.rds_statistics.group_error_cnt =
          s.handle.rds_statistics.group_error_cnt) ∨
      (s.decode_state = 3 ∧ (v4l2_rds_add s b).2.decode_state = 0 ∧
        (v4l2_rds_add s b).2.handle.rds_statistics.group_cnt =
          inc32 s.handle.rds_statistics.group_cnt ∧
        (v4l2_rds_add s b).2.handle.rds_statistics.group_error_cnt =
          s.handle.rds_statistics.group_error_cnt) ∨
      ((v4l2_rds_add s b).2.decode_state = 0 ∧
        (v4l2_rds_add s b).2.handle.rds_statistics.group_cnt =
          s.handle.rds_statistics.group_cnt ∧
        (v4l2_rds_add s b).2.handle.rds_statistics.group_error_cnt =
          inc32 s.handle.rds_statistics.group_error_cnt)) := by
  obtain ⟨c1, c2, -⟩ := count_block_frame s.handle.rds_statistics b
  refine ⟨by rw [(add_block_counters s b).1, (count_block_fields _ b).1], ?_⟩
  by_cases hc : s.decode_state = RDS_C_RECEIVED ∧ has_id b 3
  · right
    left
    obtain ⟨a1, -, -⟩ := add_complete_counts s b hc
    refine ⟨hc.1, ?_, a1, ?_⟩
    · rw [add_d s b hc.1 hc.2, (core_fields _ _ (decode_complete_core _)).2.1,
        (abcd_frame _).1]
      rfl
    · rw [add_d s b hc.1 hc.2, stats_complete]
      exact c2
  · have e2 : inc32 (count_block s.handle.rds_statistics b).group_error_cnt =
        inc32 s.handle.rds_statistics.group_error_cnt := by rw [c2]
    unfold v4l2_rds_add
    simp only []
    split_ifs with h0 h1 h2 h3 h4 h5 h6 h7
    · exact Or.inl ⟨by rw [h0]; decide, by rw [h0]; rfl, c1, c2⟩
    · exact Or.inr (Or.inr ⟨h0, c1, e2⟩)
    · exact Or.inl ⟨by rw [h2]; decide, by rw [h2]; rfl, c1, c2⟩
    · exact Or.inr (Or.inr ⟨rfl, c1, e2⟩)
    · exact Or.inl ⟨by rw [h4]; decide, by rw [h4]; rfl, c1, c2⟩
    · exact Or.inr (Or.inr ⟨rfl, c1, e2⟩)
    · exact absurd (And.intro h6 (has_id_of_block_id b 3 h7)) hc
    · exact Or.inr (Or.inr ⟨rfl, c1, e2⟩)
    · exact Or.inr (Or.inr ⟨rfl, c1, e2⟩)

theorem acct_inv_add (s : rds_private_state) (b : v4l2_rds_data) (n : Nat)
    (hs : acct_inv s n) : acct_inv (v4l2_rds_add s b).2 (n + 1) := by
  obtain ⟨j1, j2⟩ := hs
  obtain ⟨a1, a2⟩ := add_accounting s b
  unfold inc32 at a1 a2
  rcases a2 with ⟨b1, b2, b3, b4⟩ | ⟨b1, b2, b3, b4⟩ | ⟨b2, b3, b4⟩
  · refine ⟨by omega, ?_⟩
    intro hn
    obtain ⟨k1, k2⟩ := j2 (by omega)
    rw [a1, b2, b3, b4]
    constructor <;> omega
  · refine ⟨by omega, ?_⟩
    intro hn
    obtain ⟨k1, k2⟩ := j2 (by omega)
    rw [a1, b2, b3, b4]
    constructor <;> omega
  · refine ⟨by omega, ?_⟩
    intro hn
    obtain ⟨k1, k2⟩ := j2 (by omega)
    rw [a1, b2, b3, b4]
    constructor <;> omega

theorem acct_inv_reset (s : rds_private_state) (f : Bool) (n : Nat) (hs : acct_inv s n) :
    acct_inv (v4l2_rds_reset s f) (n + 1) := by
  obtain ⟨-, j2⟩ := hs
  have hd : (v4l2_rds_reset s f).decode_state = 0 := by
    cases f <;> rfl
  rw [acct_inv, hd]
  refine ⟨Nat.zero_le _, ?_⟩
  intro hn
  cases f with
  | true =>
    have e : (v4l2_rds_reset s true).handle.rds_statistics = zero_statistics := rfl
    rw [e]
    exact ⟨Nat.le_refl _, Nat.zero_le _⟩
  | false =>
    have e : (v4l2_rds_reset s false).handle.rds_statistics = s.handle.rds_statistics := rfl
    rw [e]
    obtain ⟨k1, k2⟩ := j2 (by omega)
    constructor <;> omega

theorem acct_inv_calls (cs : List rds_call) (s : rds_private_state) (n : Nat)
    (hs : acct_inv s n) : acct_inv (cs.foldl run_call s) (n + cs.length) := by
  induction cs generalizing s n with
  | nil => exact hs
  | cons c cs ih =>
    rw [List.foldl_cons, List.length_cons]
    have e : n + (cs.length + 1) = (n + 1) + cs.length := by omega
    rw [e]
    apply ih
    cases c with
    | add b => exact acct_inv_add s b n hs
    | reset f => exact acct_inv_reset s f n hs

theorem acct_inv_create (r : Bool) : acct_inv (v4l2_rds_create r) 0 :=
  ⟨Nat.zero_le _, fun _ => ⟨Nat.le_refl _, Nat.le_refl _⟩⟩

/-! ## Properties of the block accounting (claim C32) -/

/-- Claim C32: in every state reached from create by ingests and resets (with either
flag), `decode_state` is one of 0, 1, 2, 3, so the default branch of the state switch
is never taken; after fewer than 2^32 calls, so short of any wraparound,
4 * group_cnt + group_error_cnt + decode_state is at most block_cnt.  Every ingest
counts its block and either stores it for the group under assembly (`decode_state`
grows by one), or completes a group with it (`group_cnt` grows by one, from
`decode_state` 3 to 0), or counts a group error and drops the blocks under assembly
(`group_error_cnt` grows by one, `decode_state` becomes 0). -/
theorem block_accounting (r : Bool) (cs : List rds_call) :
    (run_calls r cs).decode_state ≤ 3 ∧
    (cs.length < 2 ^ 32 →
      4 * (run_calls r cs).handle.rds_statistics.group_cnt +
        (run_calls r cs).handle.rds_statistics.group_error_cnt +
        (run_calls r cs).decode_state ≤ (run_calls r cs).handle.rds_statistics.block_cnt) ∧
    (∀ b : v4l2_rds_data,
      (v4l2_rds_add (run_calls r cs) b).2.handle.rds_statistics.block_cnt =
        ((run_calls r cs).handle.rds_statistics.block_cnt + 1) % 2 ^ 32 ∧
      (((run_calls r cs).decode_state < 3 ∧
          (v4l2_rds_add (run_calls r cs) b).2.decode_state =
            (run_calls r cs).decode_state + 1 ∧
          (v4l2_rds_add (run_calls r cs) b).2.handle.rds_statistics.group_cnt =
            (run_calls r cs).handle.rds_statistics.group_cnt ∧
          (v4l2_rds_add (run_calls r cs) b).2.handle.rds_statistics.group_error_cnt =
            (run_calls r cs).handle.rds_statistics.group_error_cnt) ∨
        ((run_calls r cs).decode_state = 3 ∧
          (v4l2_rds_add (run_calls r cs) b).2.decode_state = 0 ∧
          (v4l2_rds_add (run_calls r cs) b).2.handle.rds_statistics.group_cnt =
            ((run_calls r cs).handle.rds_statistics.group_cnt + 1) % 2 ^ 32 ∧
          (v4l2_rds_add (run_calls r cs) b).2.handle.rds_statistics.group_error_cnt =
            (run_calls r cs).handle.rds_statistics.group_error_cnt) ∨
        ((v4l2_rds_add (run_calls r cs) b).2.decode_state = 0 ∧
          (v4l2_rds_add (run_calls r cs) b).2.handle.rds_statistics.group_cnt =
            (run_calls r cs).handle.rds_statistics.group_cnt ∧
          (v4l2_rds_add (run_calls r cs) b).2.handle.rds_statistics.group_error_cnt =
            ((run_calls r cs).handle.rds_statistics.group_error_cnt + 1) % 2 ^ 32))) := by
  have hi := acct_inv_calls cs (v4l2_rds_create r) 0 (acct_inv_create r)
  rw [Nat.zero_add] at hi
  obtain ⟨j1, j2⟩ := hi
  refine ⟨j1, fun hn => (j2 hn).1, ?_⟩
  intro b
  exact add_accounting (run_calls r cs) b

/-- Witness of claim C32: after two complete groups, a reset that keeps the counters,
another complete group, a block B out of turn and a block A, twelve blocks are in
three groups, one is a group error and one is under assembly. -/
theorem block_accounting_witness :
    (sample_calls ++ [rds_call.add ⟨0, 0x20, 1⟩, rds_call.add ⟨0x34, 0x12, 0⟩]).length
      < 2 ^ 32 ∧
    (run_calls false (sample_calls ++
      [rds_call.add ⟨0, 0x20, 1⟩, rds_call.add ⟨0x34, 0x12, 0⟩])).handle.rds_statistics.block_cnt
      = 14 ∧
    4 * (run_calls false (sample_calls ++
        [rds_call.add ⟨0, 0x20, 1⟩,
          rds_call.add ⟨0x34, 0x12, 0⟩])).handle.rds_statistics.group_cnt +
      (run_calls false (sample_calls ++
        [rds_call.add ⟨0, 0x20, 1⟩,
          rds_call.add ⟨0x34, 0x12, 0⟩])).handle.rds_statistics.group_error_cnt +
      (run_calls false (sample_calls ++
        [rds_call.add ⟨0, 0x20, 1⟩, rds_call.add ⟨0x34, 0x12, 0⟩])).decode_state ≤
      (run_calls false (sample_calls ++
        [rds_call.add ⟨0, 0x20, 1⟩,
          rds_call.add ⟨0x34, 0x12, 0⟩])).handle.rds_statistics.block_cnt :=
  ⟨by decide, by decide,
    (block_accounting false (sample_calls ++
      [rds_call.add ⟨0, 0x20, 1⟩, rds_call.add ⟨0x34, 0x12, 0⟩])).2.1 (by decide)⟩

end Rds
